import Mathlib

/-!
# JSON-Cadence decoder (`encoding/json/decode.go`)

A shallow embedding of the JSON-Cadence decoder.

* The input of the decoder is the tree that Go's `encoding/json` produces when it
  unmarshals into `map[string]interface{}`; it is modelled by `JSONValue`.
* Go panics carrying an `error` are modelled by `Except GoError`; `Decoder.Decode`
  recovers them, exactly as the deferred function in the source does.
* The memory gauge is taken to be `nil` (no metering).
* The recursion of `decodeJSON` and `decodeType` is tied with a fuel argument; the
  exported `Decode` supplies fuel larger than the size of its input.
-/

namespace JsonCdc

/-! ## The JSON tree -/

/-- The Go value `interface{}` as produced by `encoding/json`: `nil`, `bool`, `float64`,
`string`, `[]interface{}` and `map[string]interface{}`.  A map is represented by an
association list read with first-match lookup; its length counts distinct keys. -/
inductive JSONValue where
  | null
  | bool (b : Bool)
  | number (f : Rat)
  | string (s : String)
  | array (xs : List JSONValue)
  | object (m : List (String × JSONValue))

/-- The Go type `jsonObject` (`map[string]interface{}`). -/
abbrev jsonObject := List (String × JSONValue)

mutual
/-- Number of nodes of a JSON tree. -/
def JSONValue.size : JSONValue → Nat
  | .null => 1
  | .bool _ => 1
  | .number _ => 1
  | .string _ => 1
  | .array xs => 1 + sizeList xs
  | .object m => 1 + sizeFields m
/-- Number of nodes of a list of JSON trees. -/
def sizeList : List JSONValue → Nat
  | [] => 0
  | x :: xs => x.size + sizeList xs
/-- Number of nodes of the values of a JSON object. -/
def sizeFields : List (String × JSONValue) → Nat
  | [] => 0
  | (_, v) :: rest => v.size + sizeFields rest
end

/-! ## Go errors -/

/-- The Go `error` values that can reach the caller of `Decode`. -/
inductive GoError where
  /-- The sentinel `ErrInvalidJSONCadence`. -/
  | ErrInvalidJSONCadence
  /-- The error built by `fmt.Errorf("%s. invalid type ID: ...", ErrInvalidJSONCadence, typeID)`:
  the sentinel is formatted with `%s`, so the new error does not wrap it. -/
  | invalidTypeID (typeID : String)
  /-- A Go `runtime.Error` (slice bounds or index out of range). -/
  | runtimeError (msg : String)
  /-- An error returned by a constructor of package `cadence` and re-panicked as is. -/
  | constructorError (msg : String)
  /-- An error returned by `encoding/json`. -/
  | jsonError (msg : String)
  /-- The result of `fmt.Errorf(msg + ": %w", inner)`. -/
  | wrap (msg : String) (inner : GoError)
  /-- Marker of the embedding: the fuel of the recursion ran out. -/
  | outOfFuel
  deriving DecidableEq, Repr

/-- Go `errors.Is(err, ErrInvalidJSONCadence)`: follow the `%w` chain. -/
def GoError.isInvalidJSONCadence : GoError → Bool
  | .ErrInvalidJSONCadence => true
  | .wrap _ inner => inner.isInvalidJSONCadence
  | _ => false

/-- Result of a computation that may panic with an error. -/
abbrev Panics := Except GoError

/-- The statement `panic(ErrInvalidJSONCadence)`. -/
def invalid {α : Type} : Panics α := .error .ErrInvalidJSONCadence

/-! ## JSON conversion helpers -/

/-- Go `toBool`. -/
def toBool : JSONValue → Panics Bool
  | .bool b => .ok b
  | _ => invalid

/-- Go `toString`. -/
def toString : JSONValue → Panics String
  | .string s => .ok s
  | _ => invalid

/-- Go `toSlice`. -/
def toSlice : JSONValue → Panics (List JSONValue)
  | .array xs => .ok xs
  | _ => invalid

/-- Go `toObject`. -/
def toObject : JSONValue → Panics jsonObject
  | .object m => .ok m
  | _ => invalid

/-- Go conversion `uint(v)` of a `float64` on a 64-bit platform: the fraction is
discarded; the result for a value that does not fit is implementation-dependent and is
given by `outOfRange`. -/
def floatToUInt (outOfRange : Rat → Nat) (f : Rat) : Nat :=
  if -1 < f ∧ f < 2 ^ 64 then (Int.toNat ⌊f⌋) else outOfRange f

/-- Go `toUInt`. -/
def toUInt (outOfRange : Rat → Nat) : JSONValue → Panics Nat
  | .number f => .ok (floatToUInt outOfRange f)
  | _ => invalid

/-- Go `len(obj)` for a map: the number of distinct keys. -/
def jsonObject.len (obj : jsonObject) : Nat :=
  (obj.map Prod.fst).dedup.length

/-- Go `jsonObject.Get`. -/
def jsonObject.Get (obj : jsonObject) (key : String) : Panics JSONValue :=
  match obj.lookup key with
  | some v => .ok v
  | none => invalid

/-- Go `jsonObject.GetString`. -/
def jsonObject.GetString (obj : jsonObject) (key : String) : Panics String := do
  let v ← obj.Get key
  toString v

/-- Go `jsonObject.GetSlice`. -/
def jsonObject.GetSlice (obj : jsonObject) (key : String) : Panics (List JSONValue) := do
  let v ← obj.Get key
  toSlice v

/-! ## Go standard library: `strconv`, `math/big`, `encoding/hex` -/

/-- Value of a decimal digit character, if it is one. -/
def digitValue (c : Char) : Option Nat :=
  if '0' ≤ c ∧ c ≤ '9' then some (c.toNat - '0'.toNat) else none

/-- Read a run of decimal digits, most significant first, onto the accumulator. -/
def parseDigitsAux : List Char → Nat → Option Nat
  | [], acc => some acc
  | c :: cs, acc =>
    match digitValue c with
    | some d => parseDigitsAux cs (acc * 10 + d)
    | none => none

/-- A non-empty run of decimal digits and nothing else. -/
def parseDigits : List Char → Option Nat
  | [] => none
  | cs => parseDigitsAux cs 0

/-- An optional sign `+` or `-` followed by a non-empty run of decimal digits. -/
def parseSignedDigits : List Char → Option Int
  | '+' :: cs => (parseDigits cs).map Int.ofNat
  | '-' :: cs => (parseDigits cs).map (fun n => - Int.ofNat n)
  | cs => (parseDigits cs).map Int.ofNat

/-- Go `strconv.ParseUint(s, 10, bitSize)`; `none` stands for a non-nil error
(syntax or range). -/
def strconvParseUint (s : String) (bitSize : Nat) : Option Nat :=
  match parseDigits s.toList with
  | some n => if n < 2 ^ bitSize then some n else none
  | none => none

/-- Go `strconv.ParseInt(s, 10, bitSize)`; `none` stands for a non-nil error
(syntax or range). -/
def strconvParseInt (s : String) (bitSize : Nat) : Option Int :=
  match parseSignedDigits s.toList with
  | some i => if - (2 : Int) ^ (bitSize - 1) ≤ i ∧ i < (2 : Int) ^ (bitSize - 1) then some i else none
  | none => none

/-- Go `new(big.Int).SetString(s, 10)`; `none` stands for `ok == false`. -/
def bigIntSetString (s : String) : Option Int :=
  parseSignedDigits s.toList

/-- Go `fromHexChar` of `encoding/hex`. -/
def fromHexChar (c : Char) : Option Nat :=
  if '0' ≤ c ∧ c ≤ '9' then some (c.toNat - '0'.toNat)
  else if 'a' ≤ c ∧ c ≤ 'f' then some (c.toNat - 'a'.toNat + 10)
  else if 'A' ≤ c ∧ c ≤ 'F' then some (c.toNat - 'A'.toNat + 10)
  else none

/-- Go `hex.DecodeString` on the characters of the string; `none` stands for a non-nil
error (an invalid character or an odd length). -/
def hexDecode : List Char → Option (List Nat)
  | [] => some []
  | [_] => none
  | p :: q :: rest =>
    match fromHexChar p, fromHexChar q with
    | some a, some b => (hexDecode rest).map (fun bs => (a * 16 + b) :: bs)
    | _, _ => none

/-- Go conversions `int8(i)`, `int16(i)`, `int32(i)` of an `int64`: keep the low `w` bits,
read as two-s complement. -/
def wrapSigned (w : Nat) (i : Int) : Int :=
  (i + 2 ^ (w - 1)) % 2 ^ w - 2 ^ (w - 1)

/-- Go conversions `uint8(i)`, `uint16(i)`, `uint32(i)` of a `uint64`: keep the low `w` bits. -/
def wrapUnsigned (w : Nat) (n : Nat) : Nat :=
  n % 2 ^ w

/-! ## Cadence types and values (package `cadence`) -/

/-- A Go `[]byte`; every element is below 256. -/
abbrev Bytes := List Nat

/-- Modelled from the spec: `common.Location`, absent from the sources; "where the type
is defined — native or a contract address".  The native (Go `nil`) location is `none`
at the use sites. -/
structure Location where
  address : Bytes
  name : String
  deriving DecidableEq, Repr

/-- The Cadence types without components that `decodeType` builds from a `kind` alone. -/
inductive SimpleType where
  | any | anyStruct | anyResource | meta | void | never | bool | string | character
  | bytes | address | number | signedNumber | integer | signedInteger | fixedPoint
  | signedFixedPoint | int | int8 | int16 | int32 | int64 | int128 | int256
  | uint | uint8 | uint16 | uint32 | uint64 | uint128 | uint256
  | word8 | word16 | word32 | word64 | fix64 | ufix64
  | path | capabilityPath | storagePath | publicPath | privatePath
  | authAccount | publicAccount | authAccountKeys | publicAccountKeys
  | authAccountContracts | publicAccountContracts | deployedContract | accountKey
  deriving DecidableEq, Repr

mutual
/-- The Go interface `cadence.Type`; `nil` is the nil interface value. -/
inductive CadenceType where
  | nil
  | simple (t : SimpleType)
  | optional (type : CadenceType)
  | variableSizedArray (elementType : CadenceType)
  | constantSizedArray (size : Nat) (elementType : CadenceType)
  | dictionary (keyType elementType : CadenceType)
  | capability (borrowType : CadenceType)
  | reference (authorized : Bool) (type : CadenceType)
  | function (typeID : String) (parameters : List Parameter) (returnType : CadenceType)
  | restricted (typeID : String) (type : CadenceType) (restrictions : List CadenceType)
  | struct (location : Option Location) (qualifiedIdentifier : String)
      (fields : List Field) (initializers : List (List Parameter))
  | resource (location : Option Location) (qualifiedIdentifier : String)
      (fields : List Field) (initializers : List (List Parameter))
  | event (location : Option Location) (qualifiedIdentifier : String)
      (fields : List Field) (initializer : List Parameter)
  | contract (location : Option Location) (qualifiedIdentifier : String)
      (fields : List Field) (initializers : List (List Parameter))
  | structInterface (location : Option Location) (qualifiedIdentifier : String)
      (fields : List Field) (initializers : List (List Parameter))
  | resourceInterface (location : Option Location) (qualifiedIdentifier : String)
      (fields : List Field) (initializers : List (List Parameter))
  | contractInterface (location : Option Location) (qualifiedIdentifier : String)
      (fields : List Field) (initializers : List (List Parameter))
  | enum (location : Option Location) (qualifiedIdentifier : String) (rawType : CadenceType)
      (fields : List Field) (initializers : List (List Parameter))
/-- Go `cadence.Field`. -/
inductive Field where
  | mk (identifier : String) (type : CadenceType)
/-- Go `cadence.Parameter`. -/
inductive Parameter where
  | mk (label identifier : String) (type : CadenceType)
end

/-- Go `cadence.Path`. -/
structure Path where
  domain : String
  identifier : String
  deriving DecidableEq, Repr

/-- The Go interface `cadence.Value`, restricted to the values the decoder builds.
Composite values carry the type attached by `WithType` and their field values. -/
inductive Value where
  | void
  | optional (value : Option Value)
  | bool (b : Bool)
  | character (s : String)
  | string (s : String)
  | address (a : Bytes)
  | int (i : Int)
  | int8 (i : Int)
  | int16 (i : Int)
  | int32 (i : Int)
  | int64 (i : Int)
  | int128 (i : Int)
  | int256 (i : Int)
  | uint (i : Int)
  | uint8 (n : Nat)
  | uint16 (n : Nat)
  | uint32 (n : Nat)
  | uint64 (n : Nat)
  | uint128 (i : Int)
  | uint256 (i : Int)
  | word8 (n : Nat)
  | word16 (n : Nat)
  | word32 (n : Nat)
  | word64 (n : Nat)
  | fix64 (raw : Int)
  | ufix64 (raw : Nat)
  | array (values : List Value)
  | dictionary (pairs : List (Value × Value))
  | struct (structType : CadenceType) (fields : List Value)
  | resource (resourceType : CadenceType) (fields : List Value)
  | event (eventType : CadenceType) (fields : List Value)
  | contract (contractType : CadenceType) (fields : List Value)
  | enum (enumType : CadenceType) (fields : List Value)
  | link (targetPath : Path) (borrowType : String)
  | path (p : Path)
  | typeValue (staticType : CadenceType)
  | capability (path : Path) (address : Bytes) (borrowType : CadenceType)

/-- Modelled from the spec: the width of an `Address`, a "fixed-width byte array";
the constant `AddressLength` is absent from the sources. -/
def AddressLength : Nat := 8

/-- Modelled from the spec: `cadence.BytesToUnmeteredAddress`, absent from the sources.
An address is a fixed-width byte array; the given bytes are stored right-aligned and
zero-extended on the left.  More than `AddressLength` bytes do not fit: the slice
expression of the copy is out of range, a Go run-time panic. -/
def BytesToUnmeteredAddress (b : Bytes) : Panics Bytes :=
  if b.length ≤ AddressLength then
    .ok (List.replicate (AddressLength - b.length) 0 ++ b)
  else
    .error (.runtimeError "slice bounds out of range")

/-- Modelled from the spec: the range checks of `cadence.NewInt128FromBig`,
`NewInt256FromBig` (signed integers of the given width), absent from the sources;
`none` stands for a non-nil error. -/
def NewSignedFromBig (bits : Nat) (i : Int) : Option Int :=
  if - (2 : Int) ^ (bits - 1) ≤ i ∧ i < (2 : Int) ^ (bits - 1) then some i else none

/-- Modelled from the spec: the range checks of `cadence.NewUInt128FromBig`,
`NewUInt256FromBig` (unsigned integers of the given width), absent from the sources;
`none` stands for a non-nil error. -/
def NewUnsignedFromBig (bits : Nat) (i : Int) : Option Int :=
  if 0 ≤ i ∧ i < (2 : Int) ^ bits then some i else none

/-- Modelled from the spec: the check of `cadence.NewUIntFromBig` (an unsigned integer of
arbitrary precision), absent from the sources; `none` stands for a non-nil error. -/
def NewUIntFromBig (i : Int) : Option Int :=
  if 0 ≤ i then some i else none

/-- The functions of packages `cadence`, `common` and `sema` that the decoder calls and
whose code is not part of the sources; they are parameters of the embedding. -/
structure Env where
  /-- The method `Value.Type`. -/
  typeOf : Value → CadenceType
  /-- The function `common.DecodeTypeID`: `none` is a non-nil error, otherwise the location
  (`none` for the nil location) and the qualified identifier. -/
  DecodeTypeID : String → Option (Option Location × String)
  /-- Whether `sema.NativeCompositeTypes[typeID]` is non-nil. -/
  NativeCompositeTypes : String → Bool
  /-- The constructor `cadence.NewCharacter`: the character, or the message of its error. -/
  NewCharacter : String → Except String String
  /-- The constructor `cadence.NewString`: the string, or the message of its error. -/
  NewString : String → Except String String
  /-- The function `cadence.ParseFix64`; `none` is a non-nil error. -/
  ParseFix64 : String → Option Int
  /-- The function `cadence.ParseUFix64`; `none` is a non-nil error. -/
  ParseUFix64 : String → Option Nat
  /-- Result of the conversion `uint(v)` for a `float64` that does not fit. -/
  uintOutOfRange : Rat → Nat

/-! ## The decoder -/

/-- Keys of the JSON objects (`const` block of the source). -/
def typeKey : String := "type"
/-- Key `kind`. -/
def kindKey : String := "kind"
/-- Key `value`. -/
def valueKey : String := "value"
/-- Key `key`. -/
def keyKey : String := "key"
/-- Key `name`. -/
def nameKey : String := "name"
/-- Key `fields`. -/
def fieldsKey : String := "fields"
/-- Key `initializers`. -/
def initializersKey : String := "initializers"
/-- Key `id`. -/
def idKey : String := "id"
/-- Key `targetPath`. -/
def targetPathKey : String := "targetPath"
/-- Key `borrowType`. -/
def borrowTypeKey : String := "borrowType"
/-- Key `domain`. -/
def domainKey : String := "domain"
/-- Key `identifier`. -/
def identifierKey : String := "identifier"
/-- Key `staticType`. -/
def staticTypeKey : String := "staticType"
/-- Key `address`. -/
def addressKey : String := "address"
/-- Key `path`. -/
def pathKey : String := "path"
/-- Key `authorized`. -/
def authorizedKey : String := "authorized"
/-- Key `size`. -/
def sizeKey : String := "size"
/-- Key `typeID`. -/
def typeIDKey : String := "typeID"
/-- Key `restrictions`. -/
def restrictionsKey : String := "restrictions"
/-- Key `label`. -/
def labelKey : String := "label"
/-- Key `parameters`. -/
def parametersKey : String := "parameters"
/-- Key `return`. -/
def returnKey : String := "return"

/-- Modelled from the spec: the tag constant `voidTypeStr`, declared with the encoder,
which is absent from the sources; the tags are those of the interchange format. -/
def voidTypeStr : String := "Void"

/-- The receiver of the decoding methods: the absent functions and the two recursive
methods, `decodeJSON` and `decodeType`, as they are available to a method body. -/
structure Decoder where
  env : Env
  decodeJSON : JSONValue → Panics Value
  decodeType : JSONValue → Panics CadenceType

/-- A Go `for ... range` loop that fills a slice with the results of `f`, in order;
the first panic ends it. -/
def forRange {α β : Type} (f : α → Panics β) : List α → Panics (List β)
  | [] => .ok []
  | x :: xs => do
    let y ← f x
    let ys ← forRange f xs
    .ok (y :: ys)

/-- Go `jsonObject.GetValue`. -/
def jsonObject.GetValue (obj : jsonObject) (d : Decoder) (key : String) : Panics Value := do
  let v ← obj.Get key
  d.decodeJSON v

/-- Go `decodeVoid`. -/
def decodeVoid (m : jsonObject) : Panics Value :=
  if m.len ≠ 1 then invalid else .ok .void

/-- Go `decodeOptional`. -/
def decodeOptional (d : Decoder) (valueJSON : JSONValue) : Panics Value :=
  match valueJSON with
  | .null => .ok (.optional none)
  | v => do
    let inner ← d.decodeJSON v
    .ok (.optional (some inner))

/-- Go `decodeBool`. -/
def decodeBool (valueJSON : JSONValue) : Panics Value := do
  let b ← toBool valueJSON
  .ok (.bool b)

/-- Go `decodeCharacter`. -/
def decodeCharacter (d : Decoder) (valueJSON : JSONValue) : Panics Value := do
  let asString ← toString valueJSON
  match d.env.NewCharacter asString with
  | .ok char => .ok (.character char)
  | .error err => .error (.constructorError err)

/-- Go `decodeString`. -/
def decodeString (d : Decoder) (valueJSON : JSONValue) : Panics Value := do
  let asString ← toString valueJSON
  match d.env.NewString asString with
  | .ok str => .ok (.string str)
  | .error err => .error (.constructorError err)

/-- Go `decodeAddress`.  The slice `v[:2]` of a string shorter than two bytes is a
run-time panic. -/
def decodeAddress (valueJSON : JSONValue) : Panics Bytes := do
  let v ← toString valueJSON
  if v.utf8ByteSize < 2 then
    .error (.runtimeError "slice bounds out of range")
  else if v.toList.take 2 ≠ ['0', 'x'] then
    invalid
  else
    match hexDecode (v.toList.drop 2) with
    | none => invalid
    | some b => BytesToUnmeteredAddress b

/-- Go `decodeBigInt`. -/
def decodeBigInt (valueJSON : JSONValue) : Panics Int := do
  let v ← toString valueJSON
  match bigIntSetString v with
  | some i => .ok i
  | none => invalid

/-- Go `decodeInt`. -/
def decodeInt (valueJSON : JSONValue) : Panics Value := do
  let bigInt ← decodeBigInt valueJSON
  .ok (.int bigInt)

/-- Go `decodeInt8`. -/
def decodeInt8 (valueJSON : JSONValue) : Panics Value := do
  let v ← toString valueJSON
  match strconvParseInt v 8 with
  | some i => .ok (.int8 (wrapSigned 8 i))
  | none => invalid

/-- Go `decodeInt16`. -/
def decodeInt16 (valueJSON : JSONValue) : Panics Value := do
  let v ← toString valueJSON
  match strconvParseInt v 16 with
  | some i => .ok (.int16 (wrapSigned 16 i))
  | none => invalid

/-- Go `decodeInt32`. -/
def decodeInt32 (valueJSON : JSONValue) : Panics Value := do
  let v ← toString valueJSON
  match strconvParseInt v 32 with
  | some i => .ok (.int32 (wrapSigned 32 i))
  | none => invalid

/-- Go `decodeInt64`. -/
def decodeInt64 (valueJSON : JSONValue) : Panics Value := do
  let v ← toString valueJSON
  match strconvParseInt v 64 with
  | some i => .ok (.int64 i)
  | none => invalid

/-- Go `decodeInt128`. -/
def decodeInt128 (valueJSON : JSONValue) : Panics Value := do
  let bigInt ← decodeBigInt valueJSON
  match NewSignedFromBig 128 bigInt with
  | some value => .ok (.int128 value)
  | none => invalid

/-- Go `decodeInt256`. -/
def decodeInt256 (valueJSON : JSONValue) : Panics Value := do
  let bigInt ← decodeBigInt valueJSON
  match NewSignedFromBig 256 bigInt with
  | some value => .ok (.int256 value)
  | none => invalid

/-- Go `decodeUInt`. -/
def decodeUInt (valueJSON : JSONValue) : Panics Value := do
  let bigInt ← decodeBigInt valueJSON
  match NewUIntFromBig bigInt with
  | some value => .ok (.uint value)
  | none => invalid

/-- Go `decodeUInt8`. -/
def decodeUInt8 (valueJSON : JSONValue) : Panics Value := do
  let v ← toString valueJSON
  match strconvParseUint v 8 with
  | some i => .ok (.uint8 (wrapUnsigned 8 i))
  | none => invalid

/-- Go `decodeUInt16`. -/
def decodeUInt16 (valueJSON : JSONValue) : Panics Value := do
  let v ← toString valueJSON
  match strconvParseUint v 16 with
  | some i => .ok (.uint16 (wrapUnsigned 16 i))
  | none => invalid

/-- Go `decodeUInt32`. -/
def decodeUInt32 (valueJSON : JSONValue) : Panics Value := do
  let v ← toString valueJSON
  match strconvParseUint v 32 with
  | some i => .ok (.uint32 (wrapUnsigned 32 i))
  | none => invalid

/-- Go `decodeUInt64`. -/
def decodeUInt64 (valueJSON : JSONValue) : Panics Value := do
  let v ← toString valueJSON
  match strconvParseUint v 64 with
  | some i => .ok (.uint64 i)
  | none => invalid

/-- Go `decodeUInt128`. -/
def decodeUInt128 (valueJSON : JSONValue) : Panics Value := do
  let bigInt ← decodeBigInt valueJSON
  match NewUnsignedFromBig 128 bigInt with
  | some value => .ok (.uint128 value)
  | none => invalid

/-- Go `decodeUInt256`. -/
def decodeUInt256 (valueJSON : JSONValue) : Panics Value := do
  let bigInt ← decodeBigInt valueJSON
  match NewUnsignedFromBig 256 bigInt with
  | some value => .ok (.uint256 value)
  | none => invalid

/-- Go `decodeWord8`. -/
def decodeWord8 (valueJSON : JSONValue) : Panics Value := do
  let v ← toString valueJSON
  match strconvParseUint v 8 with
  | some i => .ok (.word8 (wrapUnsigned 8 i))
  | none => invalid

/-- Go `decodeWord16`. -/
def decodeWord16 (valueJSON : JSONValue) : Panics Value := do
  let v ← toString valueJSON
  match strconvParseUint v 16 with
  | some i => .ok (.word16 (wrapUnsigned 16 i))
  | none => invalid

/-- Go `decodeWord32`. -/
def decodeWord32 (valueJSON : JSONValue) : Panics Value := do
  let v ← toString valueJSON
  match strconvParseUint v 32 with
  | some i => .ok (.word32 (wrapUnsigned 32 i))
  | none => invalid

/-- Go `decodeWord64`. -/
def decodeWord64 (valueJSON : JSONValue) : Panics Value := do
  let v ← toString valueJSON
  match strconvParseUint v 64 with
  | some i => .ok (.word64 i)
  | none => invalid

/-- Go `decodeFix64`. -/
def decodeFix64 (d : Decoder) (valueJSON : JSONValue) : Panics Value := do
  let s ← toString valueJSON
  match d.env.ParseFix64 s with
  | some v => .ok (.fix64 v)
  | none => invalid

/-- Go `decodeUFix64`. -/
def decodeUFix64 (d : Decoder) (valueJSON : JSONValue) : Panics Value := do
  let s ← toString valueJSON
  match d.env.ParseUFix64 s with
  | some v => .ok (.ufix64 v)
  | none => invalid

/-- Go `decodeArray`. -/
def decodeArray (d : Decoder) (valueJSON : JSONValue) : Panics Value := do
  let v ← toSlice valueJSON
  let values ← forRange d.decodeJSON v
  .ok (.array values)

/-- Go `decodeKeyValuePair`. -/
def decodeKeyValuePair (d : Decoder) (valueJSON : JSONValue) : Panics (Value × Value) := do
  let obj ← toObject valueJSON
  let key ← obj.GetValue d keyKey
  let value ← obj.GetValue d valueKey
  .ok (key, value)

/-- Go `decodeDictionary`. -/
def decodeDictionary (d : Decoder) (valueJSON : JSONValue) : Panics Value := do
  let v ← toSlice valueJSON
  let pairs ← forRange (decodeKeyValuePair d) v
  .ok (.dictionary pairs)

/-- The Go struct `composite`. -/
structure composite where
  location : Option Location
  qualifiedIdentifier : String
  fieldValues : List Value
  fieldTypes : List Field

/-- Go `decodeCompositeField`. -/
def decodeCompositeField (d : Decoder) (valueJSON : JSONValue) : Panics (Value × Field) := do
  let obj ← toObject valueJSON
  let name ← obj.GetString nameKey
  let value ← obj.GetValue d valueKey
  let field := Field.mk name (d.env.typeOf value)
  .ok (value, field)

/-- Go `decodeComposite`. -/
def decodeComposite (d : Decoder) (valueJSON : JSONValue) : Panics composite := do
  let obj ← toObject valueJSON
  let typeID ← obj.GetString idKey
  match d.env.DecodeTypeID typeID with
  | none => .error (.invalidTypeID typeID)
  | some (location, qualifiedIdentifier) =>
    if location.isNone ∧ d.env.NativeCompositeTypes typeID = false then
      .error (.invalidTypeID typeID)
    else do
      let fields ← obj.GetSlice fieldsKey
      let decoded ← forRange (decodeCompositeField d) fields
      .ok { location := location
            qualifiedIdentifier := qualifiedIdentifier
            fieldValues := decoded.map Prod.fst
            fieldTypes := decoded.map Prod.snd }

/-- Go `decodeStruct`. -/
def decodeStruct (d : Decoder) (valueJSON : JSONValue) : Panics Value := do
  let comp ← decodeComposite d valueJSON
  .ok (.struct (.struct comp.location comp.qualifiedIdentifier comp.fieldTypes []) comp.fieldValues)

/-- Go `decodeResource`. -/
def decodeResource (d : Decoder) (valueJSON : JSONValue) : Panics Value := do
  let comp ← decodeComposite d valueJSON
  .ok (.resource (.resource comp.location comp.qualifiedIdentifier comp.fieldTypes [])
    comp.fieldValues)

/-- Go `decodeEvent`. -/
def decodeEvent (d : Decoder) (valueJSON : JSONValue) : Panics Value := do
  let comp ← decodeComposite d valueJSON
  .ok (.event (.event comp.location comp.qualifiedIdentifier comp.fieldTypes []) comp.fieldValues)

/-- Go `decodeContract`. -/
def decodeContract (d : Decoder) (valueJSON : JSONValue) : Panics Value := do
  let comp ← decodeComposite d valueJSON
  .ok (.contract (.contract comp.location comp.qualifiedIdentifier comp.fieldTypes [])
    comp.fieldValues)

/-- Go `decodeEnum`. -/
def decodeEnum (d : Decoder) (valueJSON : JSONValue) : Panics Value := do
  let comp ← decodeComposite d valueJSON
  .ok (.enum (.enum comp.location comp.qualifiedIdentifier .nil comp.fieldTypes [])
    comp.fieldValues)

/-- Go type assertion `.(cadence.Path)` followed by the panic of the source. -/
def assertPath : Value → Panics Path
  | .path p => .ok p
  | _ => invalid

/-- Go `decodeLink`. -/
def decodeLink (d : Decoder) (valueJSON : JSONValue) : Panics Value := do
  let obj ← toObject valueJSON
  let targetJSON ← obj.Get targetPathKey
  let target ← d.decodeJSON targetJSON
  let targetPath ← assertPath target
  let borrowType ← obj.GetString borrowTypeKey
  .ok (.link targetPath borrowType)

/-- Go `decodePath`. -/
def decodePath (valueJSON : JSONValue) : Panics Value := do
  let obj ← toObject valueJSON
  let domain ← obj.GetString domainKey
  let identifier ← obj.GetString identifierKey
  .ok (.path { domain := domain, identifier := identifier })

/-- Go `decodeParamType`. -/
def decodeParamType (d : Decoder) (valueJSON : JSONValue) : Panics Parameter := do
  let obj ← toObject valueJSON
  let label ← toString (← obj.Get labelKey)
  let identifier ← toString (← obj.Get idKey)
  let type ← d.decodeType (← obj.Get typeKey)
  .ok (Parameter.mk label identifier type)

/-- Go `decodeParamTypes`. -/
def decodeParamTypes (d : Decoder) (params : List JSONValue) : Panics (List Parameter) :=
  forRange (decodeParamType d) params

/-- Go `decodeFieldType`. -/
def decodeFieldType (d : Decoder) (valueJSON : JSONValue) : Panics Field := do
  let obj ← toObject valueJSON
  let identifier ← toString (← obj.Get idKey)
  let type ← d.decodeType (← obj.Get typeKey)
  .ok (Field.mk identifier type)

/-- Go `decodeFieldTypes`. -/
def decodeFieldTypes (d : Decoder) (fs : List JSONValue) : Panics (List Field) :=
  forRange (decodeFieldType d) fs

/-- Go `decodeFunctionType`; the slice conversion of `parametersValue` is made by the
caller in the source and is evaluated first. -/
def decodeFunctionType (d : Decoder) (returnValue parametersValue id : JSONValue) :
    Panics CadenceType := do
  let parameters ← decodeParamTypes d (← toSlice parametersValue)
  let returnType ← d.decodeType returnValue
  let typeID ← toString id
  .ok (.function typeID parameters returnType)

/-- Go `decodeNominalType`. -/
def decodeNominalType (d : Decoder) (obj : jsonObject) (kind typeID : String)
    (fs initializers : List JSONValue) : Panics CadenceType := do
  let fields ← decodeFieldTypes d fs
  let inits ← forRange (fun params => do decodeParamTypes d (← toSlice params)) initializers
  match d.env.DecodeTypeID typeID with
  | none => invalid
  | some (location, id) =>
    if kind = "Struct" then
      .ok (.struct location id fields inits)
    else if kind = "Resource" then
      .ok (.resource location id fields inits)
    else if kind = "Event" then
      match inits with
      | init :: _ => .ok (.event location id fields init)
      | [] => .error (.runtimeError "index out of range [0] with length 0")
    else if kind = "Contract" then
      .ok (.contract location id fields inits)
    else if kind = "StructInterface" then
      .ok (.structInterface location id fields inits)
    else if kind = "ResourceInterface" then
      .ok (.resourceInterface location id fields inits)
    else if kind = "ContractInterface" then
      .ok (.contractInterface location id fields inits)
    else if kind = "Enum" then do
      let rawType ← d.decodeType (← obj.Get typeKey)
      .ok (.enum location id rawType fields inits)
    else
      invalid

/-- Go `decodeRestrictedType`. -/
def decodeRestrictedType (d : Decoder) (typeValue : JSONValue)
    (restrictionsValue : List JSONValue) (typeIDValue : String) : Panics CadenceType := do
  let typ ← d.decodeType typeValue
  let restrictions ← forRange d.decodeType restrictionsValue
  .ok (.restricted typeIDValue typ restrictions)

/-- The cases of the `switch` of `decodeType` that build a type from the kind alone. -/
def simpleTypeOfKind (kindValue : String) : Option SimpleType :=
  if kindValue = "Any" then some .any
  else if kindValue = "AnyStruct" then some .anyStruct
  else if kindValue = "AnyResource" then some .anyResource
  else if kindValue = "Type" then some .meta
  else if kindValue = "Void" then some .void
  else if kindValue = "Never" then some .never
  else if kindValue = "Bool" then some .bool
  else if kindValue = "String" then some .string
  else if kindValue = "Character" then some .character
  else if kindValue = "Bytes" then some .bytes
  else if kindValue = "Address" then some .address
  else if kindValue = "Number" then some .number
  else if kindValue = "SignedNumber" then some .signedNumber
  else if kindValue = "Integer" then some .integer
  else if kindValue = "SignedInteger" then some .signedInteger
  else if kindValue = "FixedPoint" then some .fixedPoint
  else if kindValue = "SignedFixedPoint" then some .signedFixedPoint
  else if kindValue = "Int" then some .int
  else if kindValue = "Int8" then some .int8
  else if kindValue = "Int16" then some .int16
  else if kindValue = "Int32" then some .int32
  else if kindValue = "Int64" then some .int64
  else if kindValue = "Int128" then some .int128
  else if kindValue = "Int256" then some .int256
  else if kindValue = "UInt" then some .uint
  else if kindValue = "UInt8" then some .uint8
  else if kindValue = "UInt16" then some .uint16
  else if kindValue = "UInt32" then some .uint32
  else if kindValue = "UInt64" then some .uint64
  else if kindValue = "UInt128" then some .uint128
  else if kindValue = "UInt256" then some .uint256
  else if kindValue = "Word8" then some .word8
  else if kindValue = "Word16" then some .word16
  else if kindValue = "Word32" then some .word32
  else if kindValue = "Word64" then some .word64
  else if kindValue = "Fix64" then some .fix64
  else if kindValue = "UFix64" then some .ufix64
  else if kindValue = "Path" then some .path
  else if kindValue = "CapabilityPath" then some .capabilityPath
  else if kindValue = "StoragePath" then some .storagePath
  else if kindValue = "PublicPath" then some .publicPath
  else if kindValue = "PrivatePath" then some .privatePath
  else if kindValue = "AuthAccount" then some .authAccount
  else if kindValue = "PublicAccount" then some .publicAccount
  else if kindValue = "AuthAccount.Keys" then some .authAccountKeys
  else if kindValue = "PublicAccount.Keys" then some .publicAccountKeys
  else if kindValue = "AuthAccount.Contracts" then some .authAccountContracts
  else if kindValue = "PublicAccount.Contracts" then some .publicAccountContracts
  else if kindValue = "DeployedContract" then some .deployedContract
  else if kindValue = "AccountKey" then some .accountKey
  else none

/-- The `switch kindValue` of Go `decodeType`; the recursive calls go through
`d.decodeType`. -/
def decodeKind (d : Decoder) (obj : jsonObject) (kindValue : String) : Panics CadenceType :=
  if kindValue = "Function" then do
    let returnValue ← obj.Get returnKey
    let parametersValue ← obj.Get parametersKey
    let idValue ← obj.Get typeIDKey
    decodeFunctionType d returnValue parametersValue idValue
  else if kindValue = "Restriction" then do
    let restrictionsValue ← obj.Get restrictionsKey
    let typeIDValue ← toString (← obj.Get typeIDKey)
    let typeValue ← obj.Get typeKey
    decodeRestrictedType d typeValue (← toSlice restrictionsValue) typeIDValue
  else if kindValue = "Optional" then do
    let t ← d.decodeType (← obj.Get typeKey)
    .ok (.optional t)
  else if kindValue = "VariableSizedArray" then do
    let t ← d.decodeType (← obj.Get typeKey)
    .ok (.variableSizedArray t)
  else if kindValue = "Capability" then do
    let t ← d.decodeType (← obj.Get typeKey)
    .ok (.capability t)
  else if kindValue = "Dictionary" then do
    let k ← d.decodeType (← obj.Get keyKey)
    let v ← d.decodeType (← obj.Get valueKey)
    .ok (.dictionary k v)
  else if kindValue = "ConstantSizedArray" then do
    let size ← toUInt d.env.uintOutOfRange (← obj.Get sizeKey)
    let t ← d.decodeType (← obj.Get typeKey)
    .ok (.constantSizedArray size t)
  else if kindValue = "Reference" then do
    let auth ← toBool (← obj.Get authorizedKey)
    let t ← d.decodeType (← obj.Get typeKey)
    .ok (.reference auth t)
  else
    match simpleTypeOfKind kindValue with
    | some t => .ok (.simple t)
    | none => do
      let fieldsValue ← obj.Get fieldsKey
      let typeIDValue ← toString (← obj.Get typeIDKey)
      let initValue ← obj.Get initializersKey
      decodeNominalType d obj kindValue typeIDValue (← toSlice fieldsValue) (← toSlice initValue)

/-- Body of Go `decodeType`; the recursive calls go through `d.decodeType`. -/
def decodeTypeBody (d : Decoder) (valueJSON : JSONValue) : Panics CadenceType :=
  match valueJSON with
  | .string "" => .ok .nil
  | _ => do
    let obj ← toObject valueJSON
    let kindValue ← toString (← obj.Get kindKey)
    decodeKind d obj kindValue

/-- Go `decodeTypeValue`. -/
def decodeTypeValue (d : Decoder) (valueJSON : JSONValue) : Panics Value := do
  let obj ← toObject valueJSON
  let staticType ← d.decodeType (← obj.Get staticTypeKey)
  .ok (.typeValue staticType)

/-- Go `decodeCapability`. -/
def decodeCapability (d : Decoder) (valueJSON : JSONValue) : Panics Value := do
  let obj ← toObject valueJSON
  let pathValue ← d.decodeJSON (← obj.Get pathKey)
  let path ← assertPath pathValue
  let address ← decodeAddress (← obj.Get addressKey)
  let borrowType ← d.decodeType (← obj.Get borrowTypeKey)
  .ok (.capability path address borrowType)

/-- The `switch typeStr` of Go `decodeJSON`.  Modelled from the spec: the tag constants
(`optionalTypeStr`, `boolTypeStr`, ...) are declared with the encoder, which is absent from
the sources; the tags are those of the interchange format. -/
def decodeTagged (d : Decoder) (typeStr : String) (valueJSON : JSONValue) : Panics Value :=
  if typeStr = "Optional" then decodeOptional d valueJSON
  else if typeStr = "Bool" then decodeBool valueJSON
  else if typeStr = "Character" then decodeCharacter d valueJSON
  else if typeStr = "String" then decodeString d valueJSON
  else if typeStr = "Address" then do
    let a ← decodeAddress valueJSON
    .ok (.address a)
  else if typeStr = "Int" then decodeInt valueJSON
  else if typeStr = "Int8" then decodeInt8 valueJSON
  else if typeStr = "Int16" then decodeInt16 valueJSON
  else if typeStr = "Int32" then decodeInt32 valueJSON
  else if typeStr = "Int64" then decodeInt64 valueJSON
  else if typeStr = "Int128" then decodeInt128 valueJSON
  else if typeStr = "Int256" then decodeInt256 valueJSON
  else if typeStr = "UInt" then decodeUInt valueJSON
  else if typeStr = "UInt8" then decodeUInt8 valueJSON
  else if typeStr = "UInt16" then decodeUInt16 valueJSON
  else if typeStr = "UInt32" then decodeUInt32 valueJSON
  else if typeStr = "UInt64" then decodeUInt64 valueJSON
  else if typeStr = "UInt128" then decodeUInt128 valueJSON
  else if typeStr = "UInt256" then decodeUInt256 valueJSON
  else if typeStr = "Word8" then decodeWord8 valueJSON
  else if typeStr = "Word16" then decodeWord16 valueJSON
  else if typeStr = "Word32" then decodeWord32 valueJSON
  else if typeStr = "Word64" then decodeWord64 valueJSON
  else if typeStr = "Fix64" then decodeFix64 d valueJSON
  else if typeStr = "UFix64" then decodeUFix64 d valueJSON
  else if typeStr = "Array" then decodeArray d valueJSON
  else if typeStr = "Dictionary" then decodeDictionary d valueJSON
  else if typeStr = "Resource" then decodeResource d valueJSON
  else if typeStr = "Struct" then decodeStruct d valueJSON
  else if typeStr = "Event" then decodeEvent d valueJSON
  else if typeStr = "Contract" then decodeContract d valueJSON
  else if typeStr = "Link" then decodeLink d valueJSON
  else if typeStr = "Path" then decodePath valueJSON
  else if typeStr = "Type" then decodeTypeValue d valueJSON
  else if typeStr = "Capability" then decodeCapability d valueJSON
  else if typeStr = "Enum" then decodeEnum d valueJSON
  else invalid

/-- Body of Go `decodeJSON`; the recursive calls go through `d`. -/
def decodeJSONBody (d : Decoder) (v : JSONValue) : Panics Value := do
  let obj ← toObject v
  let typeStr ← obj.GetString typeKey
  if typeStr = voidTypeStr then
    decodeVoid obj
  else if obj.len ≠ 2 then
    invalid
  else do
    let valueJSON ← obj.Get valueKey
    decodeTagged d typeStr valueJSON

/-- The decoder whose recursive methods may nest `fuel` levels deep. -/
def decoderAt (env : Env) : Nat → Decoder
  | 0 =>
    { env := env
      decodeJSON := fun _ => .error .outOfFuel
      decodeType := fun _ => .error .outOfFuel }
  | fuel + 1 =>
    { env := env
      decodeJSON := decodeJSONBody (decoderAt env fuel)
      decodeType := decodeTypeBody (decoderAt env fuel) }

/-- Go `Decoder.decodeJSON`: the fuel is the size of the tree, which bounds its depth. -/
def decodeJSON (env : Env) (v : JSONValue) : Panics Value :=
  (decoderAt env v.size).decodeJSON v

/-- Go `Decoder.decodeType`: the fuel is the size of the tree, which bounds its depth. -/
def decodeType (env : Env) (v : JSONValue) : Panics CadenceType :=
  (decoderAt env v.size).decodeType v

/-- Go `Decoder.Decode`.  The argument is the outcome of `d.dec.Decode(&jsonMap)`: the
map, or the message of the error of `encoding/json`.  The result is the Go pair
`(value, err)`; the deferred function turns a panic into `err` and `value` stays nil. -/
def Decoder.Decode (env : Env) (dec : Except String jsonObject) : Option Value × Option GoError :=
  match dec with
  | .error err =>
    (none, some (.wrap "json-cdc: failed to decode valid JSON structure" (.jsonError err)))
  | .ok jsonMap =>
    match JsonCdc.decodeJSON env (.object jsonMap) with
    | .ok value => (some value, none)
    | .error panicErr => (none, some (.wrap "failed to decode value" panicErr))

/-- Go `Decode`.  `jsonDecode` is the reading of the first JSON value of the bytes into a
map by `encoding/json`. -/
def Decode (env : Env) (jsonDecode : Bytes → Except String jsonObject) (b : Bytes) :
    Option Value × Option GoError :=
  match Decoder.Decode env (jsonDecode b) with
  | (_, some err) => (none, some err)
  | (v, none) => (v, none)

/-! ## Auxiliary definitions of the proofs -/

/-- Two decoders built over the same environment whose recursive methods agree on every
tree of size at most `n`. -/
def Agree (d₁ d₂ : Decoder) (n : Nat) : Prop :=
  d₁.env = d₂.env ∧
    ∀ x : JSONValue, x.size ≤ n →
      d₁.decodeJSON x = d₂.decodeJSON x ∧ d₁.decodeType x = d₂.decodeType x

/-- The decoder whose recursive methods are the decoding functions themselves. -/
def theDecoder (env : Env) : Decoder :=
  { env := env, decodeJSON := decodeJSON env, decodeType := decodeType env }

/-- The tags of the `switch` of `decodeJSON`, with `Void`. -/
def recognizedTags : List String :=
  ["Void", "Optional", "Bool", "Character", "String", "Address", "Int", "Int8", "Int16",
   "Int32", "Int64", "Int128", "Int256", "UInt", "UInt8", "UInt16", "UInt32", "UInt64",
   "UInt128", "UInt256", "Word8", "Word16", "Word32", "Word64", "Fix64", "UFix64", "Array",
   "Dictionary", "Resource", "Struct", "Event", "Contract", "Link", "Path", "Type",
   "Capability", "Enum"]

/-- The keys of a JSON object. -/
def jsonObject.keys (obj : jsonObject) : List String :=
  obj.map Prod.fst

/-- A value node: the object with the keys `type` and `value`. -/
def node (tag : String) (payload : JSONValue) : JSONValue :=
  .object [("type", .string tag), ("value", payload)]

/-- An environment for concrete evaluations: every string is a valid character and string,
a type ID without a dot has no location and names a native type only if it is `Native`,
and fixed-point numbers are not parsed. -/
def sampleEnv : Env :=
  { typeOf := fun _ => .nil
    DecodeTypeID := fun s => if s = "" then none else some (none, s)
    NativeCompositeTypes := fun s => s = "Native"
    NewCharacter := fun s => if s.length = 1 then .ok s else .error "invalid character"
    NewString := fun s => .ok s
    ParseFix64 := fun _ => none
    ParseUFix64 := fun _ => none
    uintOutOfRange := fun _ => 0 }

/-- The hexadecimal digits, lowercase and uppercase. -/
def hexDigits : List Char :=
  ['0', '1', '2', '3', '4', '5', '6', '7', '8', '9', 'a', 'b', 'c', 'd', 'e', 'f',
   'A', 'B', 'C', 'D', 'E', 'F']

/-- Whether the character is a hexadecimal digit. -/
def isHexDigit (c : Char) : Bool :=
  hexDigits.contains c

/-- Whether the characters are the hexadecimal encoding of some bytes: two digits a byte. -/
def isHexString (t : List Char) : Bool :=
  t.length % 2 == 0 && t.all isHexDigit

/-- The value of a hexadecimal digit: its position among `0..9a..f` or among `0..9A..F`. -/
def hexDigitValue (c : Char) : Nat :=
  if c ∈ ['0', '1', '2', '3', '4', '5', '6', '7', '8', '9', 'a', 'b', 'c', 'd', 'e', 'f'] then
    ['0', '1', '2', '3', '4', '5', '6', '7', '8', '9', 'a', 'b', 'c', 'd', 'e', 'f'].indexOf c
  else
    ['0', '1', '2', '3', '4', '5', '6', '7', '8', '9', 'A', 'B', 'C', 'D', 'E', 'F'].indexOf c

/-- The bytes that a string of hexadecimal digits encodes, two digits a byte. -/
def hexBytes : List Char → List Nat
  | p :: q :: rest => (hexDigitValue p * 16 + hexDigitValue q) :: hexBytes rest
  | _ => []

/-- The integer types of the interchange format. -/
inductive IntegerTag where
  | int | int8 | int16 | int32 | int64 | int128 | int256
  | uint | uint8 | uint16 | uint32 | uint64 | uint128 | uint256
  | word8 | word16 | word32 | word64
  deriving DecidableEq, Repr

/-- The tag of an integer type. -/
def IntegerTag.name : IntegerTag → String
  | .int => "Int" | .int8 => "Int8" | .int16 => "Int16" | .int32 => "Int32"
  | .int64 => "Int64" | .int128 => "Int128" | .int256 => "Int256"
  | .uint => "UInt" | .uint8 => "UInt8" | .uint16 => "UInt16" | .uint32 => "UInt32"
  | .uint64 => "UInt64" | .uint128 => "UInt128" | .uint256 => "UInt256"
  | .word8 => "Word8" | .word16 => "Word16" | .word32 => "Word32" | .word64 => "Word64"

/-- The integers that an integer type represents. -/
def IntegerTag.inRange : IntegerTag → Int → Prop
  | .int, _ => True
  | .int8, n => -2 ^ 7 ≤ n ∧ n < 2 ^ 7
  | .int16, n => -2 ^ 15 ≤ n ∧ n < 2 ^ 15
  | .int32, n => -2 ^ 31 ≤ n ∧ n < 2 ^ 31
  | .int64, n => -2 ^ 63 ≤ n ∧ n < 2 ^ 63
  | .int128, n => -2 ^ 127 ≤ n ∧ n < 2 ^ 127
  | .int256, n => -2 ^ 255 ≤ n ∧ n < 2 ^ 255
  | .uint, n => 0 ≤ n
  | .uint8, n => 0 ≤ n ∧ n < 2 ^ 8
  | .uint16, n => 0 ≤ n ∧ n < 2 ^ 16
  | .uint32, n => 0 ≤ n ∧ n < 2 ^ 32
  | .uint64, n => 0 ≤ n ∧ n < 2 ^ 64
  | .uint128, n => 0 ≤ n ∧ n < 2 ^ 128
  | .uint256, n => 0 ≤ n ∧ n < 2 ^ 256
  | .word8, n => 0 ≤ n ∧ n < 2 ^ 8
  | .word16, n => 0 ≤ n ∧ n < 2 ^ 16
  | .word32, n => 0 ≤ n ∧ n < 2 ^ 32
  | .word64, n => 0 ≤ n ∧ n < 2 ^ 64

/-- The value of an integer type that equals the integer `n`. -/
def IntegerTag.value : IntegerTag → Int → Value
  | .int, n => .int n
  | .int8, n => .int8 n
  | .int16, n => .int16 n
  | .int32, n => .int32 n
  | .int64, n => .int64 n
  | .int128, n => .int128 n
  | .int256, n => .int256 n
  | .uint, n => .uint n
  | .uint8, n => .uint8 n.toNat
  | .uint16, n => .uint16 n.toNat
  | .uint32, n => .uint32 n.toNat
  | .uint64, n => .uint64 n.toNat
  | .uint128, n => .uint128 n
  | .uint256, n => .uint256 n
  | .word8, n => .word8 n.toNat
  | .word16, n => .word16 n.toNat
  | .word32, n => .word32 n.toNat
  | .word64, n => .word64 n.toNat

/-- The bounded integer types: all but the arbitrary-precision `Int`. -/
def IntegerTag.bounded : IntegerTag → Bool
  | .int => false
  | _ => true

/-- Whether the decoder of the type reads a sign: the unsigned types of at most 64 bits
are read with `strconv.ParseUint`, which takes none. -/
def IntegerTag.readsSign : IntegerTag → Bool
  | .uint8 | .uint16 | .uint32 | .uint64 | .word8 | .word16 | .word32 | .word64 => false
  | _ => true

/-- The characters are one or more decimal digits. -/
def isDecimalDigits (cs : List Char) : Bool :=
  !cs.isEmpty && cs.all Char.isDigit

/-- The number that decimal digits denote, most significant digit first. -/
def decimalValue (cs : List Char) : Nat :=
  Nat.ofDigits 10 (cs.reverse.map fun c => c.toNat - 48)

/-- The string is one or more decimal digits that denote `n`. -/
def UnsignedDecimal (s : String) (n : Int) : Prop :=
  isDecimalDigits s.toList = true ∧ n = decimalValue s.toList

/-- The string is an optional sign, `+` or `-`, followed by one or more decimal digits,
and denotes `n`. -/
def SignedDecimal (s : String) (n : Int) : Prop :=
  ∃ digits : List Char, isDecimalDigits digits = true ∧
    ((s.toList = digits ∧ n = decimalValue digits) ∨
     (s.toList = '+' :: digits ∧ n = decimalValue digits) ∨
     (s.toList = '-' :: digits ∧ n = - (decimalValue digits : Int)))

/-- The reading of the payload of an integer type: with or without a sign. -/
def IntegerTag.Holds (T : IntegerTag) (s : String) (n : Int) : Prop :=
  if T.readsSign then SignedDecimal s n else UnsignedDecimal s n



/-- The method that `decodeJSON` calls for the tag of an integer type. -/
def IntegerTag.decoder : IntegerTag → JSONValue → Panics Value
  | .int => decodeInt
  | .int8 => decodeInt8
  | .int16 => decodeInt16
  | .int32 => decodeInt32
  | .int64 => decodeInt64
  | .int128 => decodeInt128
  | .int256 => decodeInt256
  | .uint => decodeUInt
  | .uint8 => decodeUInt8
  | .uint16 => decodeUInt16
  | .uint32 => decodeUInt32
  | .uint64 => decodeUInt64
  | .uint128 => decodeUInt128
  | .uint256 => decodeUInt256
  | .word8 => decodeWord8
  | .word16 => decodeWord16
  | .word32 => decodeWord32
  | .word64 => decodeWord64



instance IntegerTag.decidableInRange (T : IntegerTag) (n : Int) : Decidable (T.inRange n) := by
  cases T <;> (unfold IntegerTag.inRange; infer_instance)

/-- The computation panics. -/
def Fails {α : Type} (r : Panics α) : Prop :=
  ∃ e, r = .error e

/-- The tags of the composite values. -/
def compositeTags : List String :=
  ["Struct", "Resource", "Event", "Contract", "Enum"]

/-- `ValueChild v x`: the value node `x` stands directly inside the value node `v`, at a
place where the decoder of the tag of `v` decodes a value node. -/
inductive ValueChild : JSONValue → JSONValue → Prop where
  | optionalInner {obj : jsonObject} {p : JSONValue} :
      obj.GetString typeKey = .ok "Optional" → obj.Get valueKey = .ok p → p ≠ .null →
      ValueChild (.object obj) p
  | arrayElement {obj : jsonObject} {xs : List JSONValue} {x : JSONValue} :
      obj.GetString typeKey = .ok "Array" → obj.Get valueKey = .ok (.array xs) → x ∈ xs →
      ValueChild (.object obj) x
  | dictionaryKey {obj entry : jsonObject} {xs : List JSONValue} {k : JSONValue} :
      obj.GetString typeKey = .ok "Dictionary" → obj.Get valueKey = .ok (.array xs) →
      JSONValue.object entry ∈ xs → entry.Get keyKey = .ok k →
      ValueChild (.object obj) k
  | dictionaryValue {obj entry : jsonObject} {xs : List JSONValue} {x : JSONValue} :
      obj.GetString typeKey = .ok "Dictionary" → obj.Get valueKey = .ok (.array xs) →
      JSONValue.object entry ∈ xs → entry.Get valueKey = .ok x →
      ValueChild (.object obj) x
  | compositeField {obj comp field : jsonObject} {tag : String} {fs : List JSONValue}
      {x : JSONValue} :
      tag ∈ compositeTags → obj.GetString typeKey = .ok tag →
      obj.Get valueKey = .ok (.object comp) → comp.Get fieldsKey = .ok (.array fs) →
      JSONValue.object field ∈ fs → field.Get valueKey = .ok x →
      ValueChild (.object obj) x
  | linkTargetPath {obj link : jsonObject} {x : JSONValue} :
      obj.GetString typeKey = .ok "Link" → obj.Get valueKey = .ok (.object link) →
      link.Get targetPathKey = .ok x →
      ValueChild (.object obj) x
  | capabilityPath {obj cap : jsonObject} {x : JSONValue} :
      obj.GetString typeKey = .ok "Capability" → obj.Get valueKey = .ok (.object cap) →
      cap.Get pathKey = .ok x →
      ValueChild (.object obj) x

/-- `TypeChild v t`: the type payload `t` stands directly inside the value node `v`. -/
inductive TypeChild : JSONValue → JSONValue → Prop where
  | staticType {obj tv : jsonObject} {t : JSONValue} :
      obj.GetString typeKey = .ok "Type" → obj.Get valueKey = .ok (.object tv) →
      tv.Get staticTypeKey = .ok t →
      TypeChild (.object obj) t
  | borrowType {obj cap : jsonObject} {t : JSONValue} :
      obj.GetString typeKey = .ok "Capability" → obj.Get valueKey = .ok (.object cap) →
      cap.Get borrowTypeKey = .ok t →
      TypeChild (.object obj) t

/-- The kinds of `decodeType` whose payload carries one inner type under the key `type`. -/
def innerTypeKinds : List String :=
  ["Optional", "VariableSizedArray", "Capability", "ConstantSizedArray", "Reference"]

/-- The kinds of `decodeType` that do not reach `decodeNominalType`. -/
def structuralKinds : List String :=
  ["Function", "Restriction", "Optional", "VariableSizedArray", "Capability", "Dictionary",
   "ConstantSizedArray", "Reference"]

/-- `NestedType t u`: the type payload `u` stands directly inside the type payload `t`. -/
inductive NestedType : JSONValue → JSONValue → Prop where
  | inner {obj : jsonObject} {kind : String} {u : JSONValue} :
      kind ∈ innerTypeKinds → obj.GetString kindKey = .ok kind → obj.Get typeKey = .ok u →
      NestedType (.object obj) u
  | dictionaryKey {obj : jsonObject} {u : JSONValue} :
      obj.GetString kindKey = .ok "Dictionary" → obj.Get keyKey = .ok u →
      NestedType (.object obj) u
  | dictionaryValue {obj : jsonObject} {u : JSONValue} :
      obj.GetString kindKey = .ok "Dictionary" → obj.Get valueKey = .ok u →
      NestedType (.object obj) u
  | functionReturn {obj : jsonObject} {u : JSONValue} :
      obj.GetString kindKey = .ok "Function" → obj.Get returnKey = .ok u →
      NestedType (.object obj) u
  | functionParameter {obj param : jsonObject} {ps : List JSONValue} {u : JSONValue} :
      obj.GetString kindKey = .ok "Function" → obj.Get parametersKey = .ok (.array ps) →
      JSONValue.object param ∈ ps → param.Get typeKey = .ok u →
      NestedType (.object obj) u
  | restrictedType {obj : jsonObject} {u : JSONValue} :
      obj.GetString kindKey = .ok "Restriction" → obj.Get typeKey = .ok u →
      NestedType (.object obj) u
  | restriction {obj : jsonObject} {rs : List JSONValue} {u : JSONValue} :
      obj.GetString kindKey = .ok "Restriction" → obj.Get restrictionsKey = .ok (.array rs) →
      u ∈ rs →
      NestedType (.object obj) u
  | nominalField {obj field : jsonObject} {kind : String} {fs : List JSONValue}
      {u : JSONValue} :
      kind ∉ structuralKinds → simpleTypeOfKind kind = none →
      obj.GetString kindKey = .ok kind → obj.Get fieldsKey = .ok (.array fs) →
      JSONValue.object field ∈ fs → field.Get typeKey = .ok u →
      NestedType (.object obj) u
  | nominalInitializer {obj param : jsonObject} {kind : String} {inits ps : List JSONValue}
      {u : JSONValue} :
      kind ∉ structuralKinds → simpleTypeOfKind kind = none →
      obj.GetString kindKey = .ok kind → obj.Get initializersKey = .ok (.array inits) →
      JSONValue.array ps ∈ inits → JSONValue.object param ∈ ps → param.Get typeKey = .ok u →
      NestedType (.object obj) u

/-- The errors that the decoding methods panic with: the sentinel, the error of an invalid
type ID, a Go run-time error, and an error passed on from a constructor of `cadence`. -/
def GoError.isPanicValue : GoError → Bool
  | .ErrInvalidJSONCadence => true
  | .invalidTypeID _ => true
  | .runtimeError _ => true
  | .constructorError _ => true
  | _ => false

/-- The computation panics with nothing but the errors of `isPanicValue`. -/
def Sound {α : Type} (r : Panics α) : Prop :=
  ∀ e, r = .error e → e.isPanicValue = true

/-- The recursive methods of the decoder are `Sound` on every tree of size at most `n`. -/
def SoundUpTo (d : Decoder) (n : Nat) : Prop :=
  ∀ x : JSONValue, x.size ≤ n → Sound (d.decodeJSON x) ∧ Sound (d.decodeType x)

/-! ## The encoder, from the interchange format -/

/-- Modelled from the spec: the functions of the encoder side whose code is absent from the
sources: the type ID of a location and a qualified identifier, and the decimal rendering
of the fixed-point numbers. -/
structure Encoder where
  TypeID : Option Location → String → String
  FormatFix64 : Int → String
  FormatUFix64 : Nat → String

/-- The lowercase hexadecimal digit of a value below 16. -/
def hexDigitChar (n : Nat) : Char :=
  ['0', '1', '2', '3', '4', '5', '6', '7', '8', '9', 'a', 'b', 'c', 'd', 'e', 'f'].getD n '0'

/-- The hexadecimal encoding of bytes, two lowercase digits a byte. -/
def hexEncode : List Nat → List Char
  | [] => []
  | b :: bs => hexDigitChar (b / 16) :: hexDigitChar (b % 16) :: hexEncode bs

/-- The `kind` of a type without components: the inverse of `simpleTypeOfKind`. -/
def SimpleType.kindName : SimpleType → String
  | .any => "Any" | .anyStruct => "AnyStruct" | .anyResource => "AnyResource"
  | .meta => "Type" | .void => "Void" | .never => "Never" | .bool => "Bool"
  | .string => "String" | .character => "Character" | .bytes => "Bytes"
  | .address => "Address" | .number => "Number" | .signedNumber => "SignedNumber"
  | .integer => "Integer" | .signedInteger => "SignedInteger" | .fixedPoint => "FixedPoint"
  | .signedFixedPoint => "SignedFixedPoint" | .int => "Int" | .int8 => "Int8"
  | .int16 => "Int16" | .int32 => "Int32" | .int64 => "Int64" | .int128 => "Int128"
  | .int256 => "Int256" | .uint => "UInt" | .uint8 => "UInt8" | .uint16 => "UInt16"
  | .uint32 => "UInt32" | .uint64 => "UInt64" | .uint128 => "UInt128"
  | .uint256 => "UInt256" | .word8 => "Word8" | .word16 => "Word16" | .word32 => "Word32"
  | .word64 => "Word64" | .fix64 => "Fix64" | .ufix64 => "UFix64" | .path => "Path"
  | .capabilityPath => "CapabilityPath" | .storagePath => "StoragePath"
  | .publicPath => "PublicPath" | .privatePath => "PrivatePath"
  | .authAccount => "AuthAccount" | .publicAccount => "PublicAccount"
  | .authAccountKeys => "AuthAccount.Keys" | .publicAccountKeys => "PublicAccount.Keys"
  | .authAccountContracts => "AuthAccount.Contracts"
  | .publicAccountContracts => "PublicAccount.Contracts"
  | .deployedContract => "DeployedContract" | .accountKey => "AccountKey"

/-- The payload of a nominal type: its kind, type ID, field types and initializers. -/
def nominalPayload (kind typeID : String) (fields inits : List JSONValue) : JSONValue :=
  .object [("kind", .string kind), ("typeID", .string typeID), ("fields", .array fields),
    ("initializers", .array inits)]

mutual
/-- Modelled from the spec: the payload of a type: the object with its `kind` and the
keys of the kind, which are those that `decodeType` reads; the nil type is the empty
string. -/
def encodeType (enc : Encoder) : CadenceType → JSONValue
  | .nil => .string ""
  | .simple t => .object [("kind", .string t.kindName)]
  | .optional t => .object [("kind", .string "Optional"), ("type", encodeType enc t)]
  | .variableSizedArray t =>
    .object [("kind", .string "VariableSizedArray"), ("type", encodeType enc t)]
  | .constantSizedArray size t =>
    .object [("kind", .string "ConstantSizedArray"), ("size", .number size),
      ("type", encodeType enc t)]
  | .dictionary k v =>
    .object [("kind", .string "Dictionary"), ("key", encodeType enc k),
      ("value", encodeType enc v)]
  | .capability t => .object [("kind", .string "Capability"), ("type", encodeType enc t)]
  | .reference auth t =>
    .object [("kind", .string "Reference"), ("authorized", .bool auth),
      ("type", encodeType enc t)]
  | .function typeID params ret =>
    .object [("kind", .string "Function"), ("typeID", .string typeID),
      ("parameters", .array (encodeParameters enc params)), ("return", encodeType enc ret)]
  | .restricted typeID t restrictions =>
    .object [("kind", .string "Restriction"), ("typeID", .string typeID),
      ("type", encodeType enc t), ("restrictions", .array (encodeTypes enc restrictions))]
  | .struct loc qid fields inits =>
    nominalPayload "Struct" (enc.TypeID loc qid) (encodeFields enc fields)
      (encodeInitializers enc inits)
  | .resource loc qid fields inits =>
    nominalPayload "Resource" (enc.TypeID loc qid) (encodeFields enc fields)
      (encodeInitializers enc inits)
  | .event loc qid fields init =>
    nominalPayload "Event" (enc.TypeID loc qid) (encodeFields enc fields)
      [.array (encodeParameters enc init)]
  | .contract loc qid fields inits =>
    nominalPayload "Contract" (enc.TypeID loc qid) (encodeFields enc fields)
      (encodeInitializers enc inits)
  | .structInterface loc qid fields inits =>
    nominalPayload "StructInterface" (enc.TypeID loc qid) (encodeFields enc fields)
      (encodeInitializers enc inits)
  | .resourceInterface loc qid fields inits =>
    nominalPayload "ResourceInterface" (enc.TypeID loc qid) (encodeFields enc fields)
      (encodeInitializers enc inits)
  | .contractInterface loc qid fields inits =>
    nominalPayload "ContractInterface" (enc.TypeID loc qid) (encodeFields enc fields)
      (encodeInitializers enc inits)
  | .enum loc qid rawType fields inits =>
    .object [("kind", .string "Enum"), ("type", encodeType enc rawType),
      ("typeID", .string (enc.TypeID loc qid)), ("fields", .array (encodeFields enc fields)),
      ("initializers", .array (encodeInitializers enc inits))]
/-- The payloads of a list of types. -/
def encodeTypes (enc : Encoder) : List CadenceType → List JSONValue
  | [] => []
  | t :: ts => encodeType enc t :: encodeTypes enc ts
/-- The payload of a field type. -/
def encodeField (enc : Encoder) : Field → JSONValue
  | .mk identifier type => .object [("id", .string identifier), ("type", encodeType enc type)]
/-- The payloads of a list of field types. -/
def encodeFields (enc : Encoder) : List Field → List JSONValue
  | [] => []
  | f :: fs => encodeField enc f :: encodeFields enc fs
/-- The payload of a parameter. -/
def encodeParameter (enc : Encoder) : Parameter → JSONValue
  | .mk label identifier type =>
    .object [("label", .string label), ("id", .string identifier),
      ("type", encodeType enc type)]
/-- The payloads of a list of parameters. -/
def encodeParameters (enc : Encoder) : List Parameter → List JSONValue
  | [] => []
  | p :: ps => encodeParameter enc p :: encodeParameters enc ps
/-- The payloads of a list of initializers. -/
def encodeInitializers (enc : Encoder) : List (List Parameter) → List JSONValue
  | [] => []
  | ps :: rest => .array (encodeParameters enc ps) :: encodeInitializers enc rest
end

/-- The name of a field. -/
def Field.identifier : Field → String
  | .mk identifier _ => identifier

/-- The type of a field. -/
def Field.type : Field → CadenceType
  | .mk _ type => type

/-- The location of a nominal type. -/
def CadenceType.location : CadenceType → Option Location
  | .struct loc _ _ _ => loc
  | .resource loc _ _ _ => loc
  | .event loc _ _ _ => loc
  | .contract loc _ _ _ => loc
  | .structInterface loc _ _ _ => loc
  | .resourceInterface loc _ _ _ => loc
  | .contractInterface loc _ _ _ => loc
  | .enum loc _ _ _ _ => loc
  | _ => none

/-- The qualified identifier of a nominal type. -/
def CadenceType.qualifiedIdentifier : CadenceType → String
  | .struct _ qid _ _ => qid
  | .resource _ qid _ _ => qid
  | .event _ qid _ _ => qid
  | .contract _ qid _ _ => qid
  | .structInterface _ qid _ _ => qid
  | .resourceInterface _ qid _ _ => qid
  | .contractInterface _ qid _ _ => qid
  | .enum _ qid _ _ _ => qid
  | _ => ""

/-- The fields of a nominal type. -/
def CadenceType.fieldList : CadenceType → List Field
  | .struct _ _ fields _ => fields
  | .resource _ _ fields _ => fields
  | .event _ _ fields _ => fields
  | .contract _ _ fields _ => fields
  | .structInterface _ _ fields _ => fields
  | .resourceInterface _ _ fields _ => fields
  | .contractInterface _ _ fields _ => fields
  | .enum _ _ _ fields _ => fields
  | _ => []

/-- The value node of a path. -/
def pathNode (p : Path) : JSONValue :=
  node "Path" (.object [("domain", .string p.domain), ("identifier", .string p.identifier)])

/-- The payload of an address: `0x` and the lowercase hexadecimal digits of its bytes. -/
def addressPayload (a : Bytes) : JSONValue :=
  .string (String.mk ('0' :: 'x' :: hexEncode a))

/-- The payload of a composite value: the type ID of its type and its fields. -/
def compositePayload (enc : Encoder) (t : CadenceType) (fields : List JSONValue) : JSONValue :=
  .object [("id", .string (enc.TypeID t.location t.qualifiedIdentifier)),
    ("fields", .array fields)]

mutual
/-- Modelled from the spec: the JSON-Cadence encoding of a value: the node with the tag of
the value and its payload, as the interchange format has it; the encoder is absent from
the sources. -/
def encodeValue (enc : Encoder) : Value → JSONValue
  | .void => .object [("type", .string "Void")]
  | .optional none => node "Optional" .null
  | .optional (some v) => node "Optional" (encodeValue enc v)
  | .bool b => node "Bool" (.bool b)
  | .character s => node "Character" (.string s)
  | .string s => node "String" (.string s)
  | .address a => node "Address" (addressPayload a)
  | .int i => node "Int" (.string (ToString.toString i))
  | .int8 i => node "Int8" (.string (ToString.toString i))
  | .int16 i => node "Int16" (.string (ToString.toString i))
  | .int32 i => node "Int32" (.string (ToString.toString i))
  | .int64 i => node "Int64" (.string (ToString.toString i))
  | .int128 i => node "Int128" (.string (ToString.toString i))
  | .int256 i => node "Int256" (.string (ToString.toString i))
  | .uint i => node "UInt" (.string (ToString.toString i))
  | .uint8 n => node "UInt8" (.string (ToString.toString n))
  | .uint16 n => node "UInt16" (.string (ToString.toString n))
  | .uint32 n => node "UInt32" (.string (ToString.toString n))
  | .uint64 n => node "UInt64" (.string (ToString.toString n))
  | .uint128 i => node "UInt128" (.string (ToString.toString i))
  | .uint256 i => node "UInt256" (.string (ToString.toString i))
  | .word8 n => node "Word8" (.string (ToString.toString n))
  | .word16 n => node "Word16" (.string (ToString.toString n))
  | .word32 n => node "Word32" (.string (ToString.toString n))
  | .word64 n => node "Word64" (.string (ToString.toString n))
  | .fix64 raw => node "Fix64" (.string (enc.FormatFix64 raw))
  | .ufix64 raw => node "UFix64" (.string (enc.FormatUFix64 raw))
  | .array vs => node "Array" (.array (encodeValues enc vs))
  | .dictionary pairs => node "Dictionary" (.array (encodePairs enc pairs))
  | .struct t fs => node "Struct" (compositePayload enc t (encodeFieldValues enc t.fieldList fs))
  | .resource t fs =>
    node "Resource" (compositePayload enc t (encodeFieldValues enc t.fieldList fs))
  | .event t fs => node "Event" (compositePayload enc t (encodeFieldValues enc t.fieldList fs))
  | .contract t fs =>
    node "Contract" (compositePayload enc t (encodeFieldValues enc t.fieldList fs))
  | .enum t fs => node "Enum" (compositePayload enc t (encodeFieldValues enc t.fieldList fs))
  | .link target borrowType =>
    node "Link" (.object [("targetPath", pathNode target), ("borrowType", .string borrowType)])
  | .path p => pathNode p
  | .typeValue t => node "Type" (.object [("staticType", encodeType enc t)])
  | .capability p a borrowType =>
    node "Capability" (.object [("path", pathNode p), ("address", addressPayload a),
      ("borrowType", encodeType enc borrowType)])
/-- The nodes of a list of values. -/
def encodeValues (enc : Encoder) : List Value → List JSONValue
  | [] => []
  | v :: vs => encodeValue enc v :: encodeValues enc vs
/-- The entries of a dictionary. -/
def encodePairs (enc : Encoder) : List (Value × Value) → List JSONValue
  | [] => []
  | (k, v) :: rest =>
    .object [("key", encodeValue enc k), ("value", encodeValue enc v)] :: encodePairs enc rest
/-- The fields of a composite value: the name of the field of the type at the same place,
and the node of the value. -/
def encodeFieldValues (enc : Encoder) : List Field → List Value → List JSONValue
  | _, [] => []
  | fields, v :: vs =>
    .object [("name", .string (fields.head?.elim "" Field.identifier)),
      ("value", encodeValue enc v)] :: encodeFieldValues enc fields.tail vs
end

mutual
/-- The types that the interchange format carries faithfully: the type ID of a nominal
type is read back as its location and qualified identifier, and the size of a
constant-sized array is a number that a `float64` holds exactly. -/
def RepresentableType (env : Env) (enc : Encoder) : CadenceType → Prop
  | .nil => True
  | .simple _ => True
  | .optional t => RepresentableType env enc t
  | .variableSizedArray t => RepresentableType env enc t
  | .constantSizedArray size t => size < 2 ^ 53 ∧ RepresentableType env enc t
  | .dictionary k v => RepresentableType env enc k ∧ RepresentableType env enc v
  | .capability t => RepresentableType env enc t
  | .reference _ t => RepresentableType env enc t
  | .function _ params ret =>
    RepresentableParameters env enc params ∧ RepresentableType env enc ret
  | .restricted _ t restrictions =>
    RepresentableType env enc t ∧ RepresentableTypes env enc restrictions
  | .struct loc qid fields inits =>
    env.DecodeTypeID (enc.TypeID loc qid) = some (loc, qid) ∧
      RepresentableFields env enc fields ∧ RepresentableInitializers env enc inits
  | .resource loc qid fields inits =>
    env.DecodeTypeID (enc.TypeID loc qid) = some (loc, qid) ∧
      RepresentableFields env enc fields ∧ RepresentableInitializers env enc inits
  | .event loc qid fields init =>
    env.DecodeTypeID (enc.TypeID loc qid) = some (loc, qid) ∧
      RepresentableFields env enc fields ∧ RepresentableParameters env enc init
  | .contract loc qid fields inits =>
    env.DecodeTypeID (enc.TypeID loc qid) = some (loc, qid) ∧
      RepresentableFields env enc fields ∧ RepresentableInitializers env enc inits
  | .structInterface loc qid fields inits =>
    env.DecodeTypeID (enc.TypeID loc qid) = some (loc, qid) ∧
      RepresentableFields env enc fields ∧ RepresentableInitializers env enc inits
  | .resourceInterface loc qid fields inits =>
    env.DecodeTypeID (enc.TypeID loc qid) = some (loc, qid) ∧
      RepresentableFields env enc fields ∧ RepresentableInitializers env enc inits
  | .contractInterface loc qid fields inits =>
    env.DecodeTypeID (enc.TypeID loc qid) = some (loc, qid) ∧
      RepresentableFields env enc fields ∧ RepresentableInitializers env enc inits
  | .enum loc qid rawType fields inits =>
    env.DecodeTypeID (enc.TypeID loc qid) = some (loc, qid) ∧
      RepresentableType env enc rawType ∧
      RepresentableFields env enc fields ∧ RepresentableInitializers env enc inits
/-- Every type of the list is representable. -/
def RepresentableTypes (env : Env) (enc : Encoder) : List CadenceType → Prop
  | [] => True
  | t :: ts => RepresentableType env enc t ∧ RepresentableTypes env enc ts
/-- The type of the field is representable. -/
def RepresentableField (env : Env) (enc : Encoder) : Field → Prop
  | .mk _ type => RepresentableType env enc type
/-- The type of every field of the list is representable. -/
def RepresentableFields (env : Env) (enc : Encoder) : List Field → Prop
  | [] => True
  | f :: fs => RepresentableField env enc f ∧ RepresentableFields env enc fs
/-- The type of the parameter is representable. -/
def RepresentableParameter (env : Env) (enc : Encoder) : Parameter → Prop
  | .mk _ _ type => RepresentableType env enc type
/-- The type of every parameter of the list is representable. -/
def RepresentableParameters (env : Env) (enc : Encoder) : List Parameter → Prop
  | [] => True
  | p :: ps => RepresentableParameter env enc p ∧ RepresentableParameters env enc ps
/-- The type of every parameter of every initializer is representable. -/
def RepresentableInitializers (env : Env) (enc : Encoder) : List (List Parameter) → Prop
  | [] => True
  | ps :: rest => RepresentableParameters env enc ps ∧ RepresentableInitializers env enc rest
end

/-- An address of the fixed width. -/
def RepresentableAddress (a : Bytes) : Prop :=
  a.length = AddressLength ∧ ∀ b ∈ a, b < 256

/-- The composite value carries what the decoder reconstructs: the type ID of its type is
read back as the location and qualified identifier, with a location or the name of a
native composite type, and the fields of the type are, one for one, of the types of the
field values. -/
def CompositeMatches (env : Env) (enc : Encoder) (t : CadenceType) (fs : List Value) : Prop :=
  env.DecodeTypeID (enc.TypeID t.location t.qualifiedIdentifier)
      = some (t.location, t.qualifiedIdentifier) ∧
    (t.location.isSome = true ∨
      env.NativeCompositeTypes (enc.TypeID t.location t.qualifiedIdentifier) = true) ∧
    t.fieldList.map Field.type = fs.map env.typeOf

mutual
/-- The values that the interchange format carries faithfully.  A scalar is in the range
of its type, a character or string is accepted by its constructor, a fixed-point number
is read back from its rendering, an address has the fixed width, and a composite value
carries the type that the decoder reconstructs: no initializers, no raw type, and the field
types of the field values (`CompositeMatches`). -/
def Representable (env : Env) (enc : Encoder) : Value → Prop
  | .void => True
  | .optional none => True
  | .optional (some v) => Representable env enc v
  | .bool _ => True
  | .character s => env.NewCharacter s = .ok s
  | .string s => env.NewString s = .ok s
  | .address a => RepresentableAddress a
  | .int i => IntegerTag.int.inRange i
  | .int8 i => IntegerTag.int8.inRange i
  | .int16 i => IntegerTag.int16.inRange i
  | .int32 i => IntegerTag.int32.inRange i
  | .int64 i => IntegerTag.int64.inRange i
  | .int128 i => IntegerTag.int128.inRange i
  | .int256 i => IntegerTag.int256.inRange i
  | .uint i => IntegerTag.uint.inRange i
  | .uint8 n => IntegerTag.uint8.inRange n
  | .uint16 n => IntegerTag.uint16.inRange n
  | .uint32 n => IntegerTag.uint32.inRange n
  | .uint64 n => IntegerTag.uint64.inRange n
  | .uint128 i => IntegerTag.uint128.inRange i
  | .uint256 i => IntegerTag.uint256.inRange i
  | .word8 n => IntegerTag.word8.inRange n
  | .word16 n => IntegerTag.word16.inRange n
  | .word32 n => IntegerTag.word32.inRange n
  | .word64 n => IntegerTag.word64.inRange n
  | .fix64 raw => env.ParseFix64 (enc.FormatFix64 raw) = some raw
  | .ufix64 raw => env.ParseUFix64 (enc.FormatUFix64 raw) = some raw
  | .array vs => RepresentableValues env enc vs
  | .dictionary pairs => RepresentablePairs env enc pairs
  | .struct t fs =>
    t = .struct t.location t.qualifiedIdentifier t.fieldList [] ∧
      CompositeMatches env enc t fs ∧ RepresentableValues env enc fs
  | .resource t fs =>
    t = .resource t.location t.qualifiedIdentifier t.fieldList [] ∧
      CompositeMatches env enc t fs ∧ RepresentableValues env enc fs
  | .event t fs =>
    t = .event t.location t.qualifiedIdentifier t.fieldList [] ∧
      CompositeMatches env enc t fs ∧ RepresentableValues env enc fs
  | .contract t fs =>
    t = .contract t.location t.qualifiedIdentifier t.fieldList [] ∧
      CompositeMatches env enc t fs ∧ RepresentableValues env enc fs
  | .enum t fs =>
    t = .enum t.location t.qualifiedIdentifier .nil t.fieldList [] ∧
      CompositeMatches env enc t fs ∧ RepresentableValues env enc fs
  | .link _ _ => True
  | .path _ => True
  | .typeValue t => RepresentableType env enc t
  | .capability _ a borrowType => RepresentableAddress a ∧ RepresentableType env enc borrowType
/-- Every value of the list is representable. -/
def RepresentableValues (env : Env) (enc : Encoder) : List Value → Prop
  | [] => True
  | v :: vs => Representable env enc v ∧ RepresentableValues env enc vs
/-- Every key and value of the dictionary is representable. -/
def RepresentablePairs (env : Env) (enc : Encoder) : List (Value × Value) → Prop
  | [] => True
  | (k, v) :: rest =>
    Representable env enc k ∧ Representable env enc v ∧ RepresentablePairs env enc rest
end

/-- An encoder for concrete evaluations: the type ID of a type without location is its
qualified identifier, and fixed-point numbers are not rendered. -/
def sampleEncoder : Encoder :=
  { TypeID := fun _ qid => qid
    FormatFix64 := fun _ => ""
    FormatUFix64 := fun _ => "" }

/-- The fields of a composite value that the decoder reads back: the names of the fields
of the type, with the types of the values. -/
def zipFields (env : Env) : List Field → List Value → List (Value × Field)
  | _, [] => []
  | fields, v :: vs =>
    (v, Field.mk (fields.head?.elim "" Field.identifier) (env.typeOf v))
      :: zipFields env fields.tail vs



/-- The JSON object that is the encoding of a value: what the JSON library reads from the
text that the encoder writes. -/
def encodeObject (enc : Encoder) (v : Value) : jsonObject :=
  match encodeValue enc v with
  | .object obj => obj
  | _ => []

/-- A struct of a native type with two fields: a negative 256-bit integer, and an array of
an unsigned byte and an empty optional. -/
def sampleStruct : Value :=
  .struct (.struct none "Native" [.mk "balance" .nil, .mk "items" .nil] [])
    [.int256 (-5), .array [.uint8 7, .optional none]]

/-- The type attached to a composite value: Go `StructType`, `ResourceType`, `EventType`,
`ContractType`, `EnumType`. -/
def Value.compositeType : Value → Option CadenceType
  | .struct t _ => some t
  | .resource t _ => some t
  | .event t _ => some t
  | .contract t _ => some t
  | .enum t _ => some t
  | _ => none

/-- The field values of a composite value: Go `Fields`. -/
def Value.fieldValues : Value → List Value
  | .struct _ fs => fs
  | .resource _ fs => fs
  | .event _ fs => fs
  | .contract _ fs => fs
  | .enum _ fs => fs
  | _ => []



/-- The node of a struct of a native type with two fields, for concrete evaluations. -/
def sampleCompositeObject : jsonObject :=
  [("type", .string "Struct"),
   ("value", .object [("id", .string "Native"),
     ("fields", .array
       [.object [("name", .string "balance"), ("value", node "Int8" (.string "-5"))],
        .object [("name", .string "flag"), ("value", node "Bool" (.bool true))]])])]

/-- The struct that `sampleCompositeObject` decodes to in `sampleEnv`. -/
def sampleCompositeValue : Value :=
  .struct (.struct none "Native" [.mk "balance" .nil, .mk "flag" .nil] [])
    [.int8 (-5), .bool true]

/-- The kinds of the `switch` of `decodeNominalType`. -/
def nominalKinds : List String :=
  ["Struct", "Resource", "Event", "Contract", "StructInterface", "ResourceInterface",
   "ContractInterface", "Enum"]

/-- The type of a composite value of the value model: its type ID is read back as its
location and qualified identifier, with a location or the name of a native composite type,
and it has as many fields as the value has field values. -/
def TypedComposite (env : Env) (enc : Encoder) (t : CadenceType) (fs : List Value) : Prop :=
  env.DecodeTypeID (enc.TypeID t.location t.qualifiedIdentifier)
      = some (t.location, t.qualifiedIdentifier) ∧
    (t.location.isSome = true ∨
      env.NativeCompositeTypes (enc.TypeID t.location t.qualifiedIdentifier) = true) ∧
    t.fieldList.length = fs.length

mutual
/-- The representable values of the specification, the values of its value model: a value
that is not a composite is as for `Representable`, and a composite value carries a type of
its kind, with whatever initializers, raw type and declared field types, whose type ID is
read back and which has as many fields as the value has field values
(`TypedComposite`). -/
def InValueModel (env : Env) (enc : Encoder) : Value → Prop
  | .optional (some v) => InValueModel env enc v
  | .array vs => InValueModelValues env enc vs
  | .dictionary pairs => InValueModelPairs env enc pairs
  | .struct t fs =>
    (∃ inits, t = .struct t.location t.qualifiedIdentifier t.fieldList inits) ∧
      TypedComposite env enc t fs ∧ InValueModelValues env enc fs
  | .resource t fs =>
    (∃ inits, t = .resource t.location t.qualifiedIdentifier t.fieldList inits) ∧
      TypedComposite env enc t fs ∧ InValueModelValues env enc fs
  | .event t fs =>
    (∃ init, t = .event t.location t.qualifiedIdentifier t.fieldList init) ∧
      TypedComposite env enc t fs ∧ InValueModelValues env enc fs
  | .contract t fs =>
    (∃ inits, t = .contract t.location t.qualifiedIdentifier t.fieldList inits) ∧
      TypedComposite env enc t fs ∧ InValueModelValues env enc fs
  | .enum t fs =>
    (∃ rawType inits,
        t = .enum t.location t.qualifiedIdentifier rawType t.fieldList inits) ∧
      TypedComposite env enc t fs ∧ InValueModelValues env enc fs
  | v => Representable env enc v
/-- Every value of the list is in the value model. -/
def InValueModelValues (env : Env) (enc : Encoder) : List Value → Prop
  | [] => True
  | v :: vs => InValueModel env enc v ∧ InValueModelValues env enc vs
/-- Every key and value of the dictionary is in the value model. -/
def InValueModelPairs (env : Env) (enc : Encoder) : List (Value × Value) → Prop
  | [] => True
  | (k, v) :: rest =>
    InValueModel env enc k ∧ InValueModel env enc v ∧ InValueModelPairs env enc rest
end

/-- The tags whose sub-decoder converts the payload with `toString` first. -/
def stringPayloadTags : List String :=
  ["Character", "String", "Address", "Int", "Int8", "Int16", "Int32", "Int64", "Int128",
   "Int256", "UInt", "UInt8", "UInt16", "UInt32", "UInt64", "UInt128", "UInt256", "Word8",
   "Word16", "Word32", "Word64", "Fix64", "UFix64"]

/-- The tags whose sub-decoder converts the payload with `toSlice` first. -/
def slicePayloadTags : List String :=
  ["Array", "Dictionary"]

/-- The tags whose sub-decoder converts the payload with `toObject` first. -/
def objectPayloadTags : List String :=
  ["Resource", "Struct", "Event", "Contract", "Link", "Path", "Type", "Capability", "Enum"]

/-- Whether the JSON value is a string. -/
def JSONValue.isString : JSONValue → Bool
  | .string _ => true
  | _ => false

/-- Whether the JSON value is a boolean. -/
def JSONValue.isBool : JSONValue → Bool
  | .bool _ => true
  | _ => false

/-- Whether the JSON value is an array. -/
def JSONValue.isArray : JSONValue → Bool
  | .array _ => true
  | _ => false

/-- Whether the JSON value is an object. -/
def JSONValue.isObject : JSONValue → Bool
  | .object _ => true
  | _ => false

/-- The payload is of another JSON kind than the one that the sub-decoder of the tag
converts it to first: a boolean for `Bool`, a string for the scalars with a textual
encoding, an array for `Array` and `Dictionary`, an object for the composites, `Link`,
`Path`, `Type` and `Capability`. -/
def wrongKind (typeStr : String) (payload : JSONValue) : Bool :=
  (decide (typeStr = "Bool") && !payload.isBool) ||
  (decide (typeStr ∈ stringPayloadTags) && !payload.isString) ||
  (decide (typeStr ∈ slicePayloadTags) && !payload.isArray) ||
  (decide (typeStr ∈ objectPayloadTags) && !payload.isObject)

/-- The object is not a value node of the interchange format: it has no string under the
key `type`; or its tag is not recognized; or it has other keys than `type` alone for the
tag `Void`, and than `type` and `value` for another tag; or its payload is of the wrong
JSON kind for its tag. -/
def WrongShape (obj : jsonObject) : Prop :=
  (∀ typeStr, obj.GetString typeKey ≠ .ok typeStr) ∨
  ∃ typeStr, obj.GetString typeKey = .ok typeStr ∧
    (typeStr ∉ recognizedTags ∨
     (typeStr = voidTypeStr ∧ obj.len ≠ 1) ∨
     (typeStr ≠ voidTypeStr ∧ obj.len ≠ 2) ∨
     (typeStr ≠ voidTypeStr ∧ ∀ payload, obj.Get valueKey ≠ .ok payload) ∨
     (∃ payload, obj.Get valueKey = .ok payload ∧ wrongKind typeStr payload = true))

end JsonCdc

namespace Migrations

/-! # Account storage and the capability migration

The embedding of `migrations/account_storage.go` and of
`migrations/capcons/capabilitymigration.go`.  The values, static types, storage maps and
the capability mapping live in packages whose code is not part of the sources; they are
modelled from the interfaces that the two files use. -/

/-- Go `common.Address`. -/
structure Address where
  bytes : List Nat
deriving DecidableEq

/-- Modelled from the spec: Go `common.PathDomain`, absent from the sources: the domains of
the storage of an account. -/
inductive PathDomain where
  | PathDomainStorage
  | PathDomainPrivate
  | PathDomainPublic
deriving DecidableEq

/-- Modelled from the spec: Go `PathDomain.Identifier`, absent from the sources: the name
under which the storage map of the domain is kept. -/
def PathDomain.Identifier : PathDomain → String
  | .PathDomainStorage => "storage"
  | .PathDomainPrivate => "private"
  | .PathDomainPublic => "public"

/-- Go `interpreter.Authorization` of a reference type. -/
inductive Authorization where
  | Unauthorized
  | EntitlementSet (entitlements : List String)
deriving DecidableEq

/-- Go `interpreter.StaticType`: a primitive static type, a reference static type
(`ReferenceStaticType`, with its `Authorization` and `ReferencedType`), or a static type of
another shape. -/
inductive StaticType where
  | primitive (name : String)
  | reference (authorization : Authorization) (referencedType : StaticType)
  | optional (type : StaticType)
  | composite (typeID : String)
deriving DecidableEq

/-- Go `interpreter.PrimitiveStaticTypeAuthAccount`. -/
def PrimitiveStaticTypeAuthAccount : StaticType := .primitive "AuthAccount"

/-- Go `sema.Type`: only handed from the capability mapping to
`ConvertSemaToStaticType`. -/
structure SemaType where
  ID : String
deriving DecidableEq

/-- Go `interpreter.PathValue`. -/
structure PathValue where
  Domain : PathDomain
  Identifier : String
deriving DecidableEq

/-- Go `interpreter.AddressPath`. -/
structure AddressPath where
  Address : Address
  Path : PathValue
deriving DecidableEq

/-- Go `interpreter.Value`: a legacy path capability (`PathCapabilityValue`, whose
`BorrowType` may be nil), an ID capability (`CapabilityValue`), and values of other
kinds. -/
inductive Value where
  | PathCapabilityValue (BorrowType : Option StaticType) (Path : PathValue) (Address : Address)
  | CapabilityValue (ID : Nat) (Address : Address) (BorrowType : StaticType)
  | BoolValue (b : Bool)
  | StringValue (s : String)
  | ArrayValue (elements : List Value)

/-- Go `PathCapabilityValue.AddressPath`. -/
def AddressPathOf (address : Address) (path : PathValue) : AddressPath :=
  { Address := address, Path := path }

/-- Go `interpreter.StorageKey`. -/
structure StorageKey where
  Address : Address
  Key : String

/-- Go `CapabilityMapping`: `Get` returns the capability ID and the borrow type of the
controller, or `ok = false`. -/
structure CapabilityMapping where
  Get : AddressPath → Option (Nat × SemaType)

/-- The functions and values of packages `interpreter` and `sema` that the migration uses
and whose code is not part of the sources; they are parameters of the embedding. -/
structure Conversions where
  ConvertSemaToStaticType : SemaType → StaticType
  fullyEntitledAccountReferenceStaticType : Authorization × StaticType

/-- What a call does besides returning: the consultation of the capability mapping and the
calls of the methods of `CapabilityMigrationReporter`. -/
inductive MigrationEvent where
  | Get (addressPath : AddressPath)
  | MissingCapabilityID (accountAddress : Address) (addressPath : AddressPath)
  | MigratedPathCapability (accountAddress : Address) (addressPath : AddressPath)
      (borrowType : StaticType)

/-- A Go panic value. -/
inductive PanicValue where
  | UnexpectedError (message : String)
  | other (message : String)

/-- The outcome of a Go call: what it did (`effects`) and what it returned, or the value it
panicked with. -/
structure Call (α : Type) where
  effects : List MigrationEvent
  outcome : Except PanicValue α

/-- Go `CapabilityValueMigration`.  `Reporter` says whether the reporter is set (non-nil);
its calls are recorded as effects. -/
structure CapabilityValueMigration where
  CapabilityMapping : CapabilityMapping
  Reporter : Bool

/-- Go `CapabilityValueMigration.Migrate`.  The result is the Go pair `(value, error)`. -/
def CapabilityValueMigration.Migrate (m : CapabilityValueMigration) (cv : Conversions)
    (storageKey : StorageKey) (value : Value) : Call (Option Value × Option String) :=
  match value with
  | .PathCapabilityValue borrowType path address =>
    let capabilityAddressPath := AddressPathOf address path
    match m.CapabilityMapping.Get capabilityAddressPath with
    | none =>
      { effects := .Get capabilityAddressPath ::
          (if m.Reporter then
            [.MissingCapabilityID storageKey.Address capabilityAddressPath]
          else []),
        outcome := .ok (none, none) }
    | some (capabilityID, controllerBorrowType) =>
      let oldBorrowType :=
        match borrowType with
        | none => cv.ConvertSemaToStaticType controllerBorrowType
        | some t => t
      match oldBorrowType with
      | .reference authorization referencedType =>
        let newBorrowType :=
          if referencedType = PrimitiveStaticTypeAuthAccount then
            StaticType.reference cv.fullyEntitledAccountReferenceStaticType.1
              cv.fullyEntitledAccountReferenceStaticType.2
          else
            StaticType.reference authorization referencedType
        { effects := .Get capabilityAddressPath ::
            (if m.Reporter then
              [.MigratedPathCapability storageKey.Address capabilityAddressPath newBorrowType]
            else []),
          outcome := .ok (some (.CapabilityValue capabilityID address newBorrowType), none) }
      | _ =>
        { effects := [.Get capabilityAddressPath],
          outcome := .error (.UnexpectedError "unexpected non-reference borrow type") }
  | _ => { effects := [], outcome := .ok (none, none) }

/-! ## Storage maps -/

/-- Modelled from the spec: Go `interpreter.StorageMap`, absent from the sources: the
entries `(identifier, value)` of a domain in the native order of the map, with one entry an
identifier. -/
structure StorageMap where
  entries : List (String × Value)
  nodup : (entries.map Prod.fst).Nodup

/-- Go `StorageMap.Count`. -/
def StorageMap.Count (m : StorageMap) : Nat :=
  m.entries.length

/-- The identifiers of the entries, in the native order. -/
def StorageMap.keys (m : StorageMap) : List String :=
  m.entries.map Prod.fst

/-- Overwrite the value of the entries with the given identifier. -/
def overwrite (key : String) (value : Value) (entries : List (String × Value)) :
    List (String × Value) :=
  entries.map (fun e => if e.1 = key then (e.1, value) else e)

/-- Modelled from the spec: Go `StorageMap.SetValue`, absent from the sources: the stored
entry under the identifier is overwritten, at its place; an identifier that the map does
not have is added at the end. -/
def StorageMap.SetValue (m : StorageMap) (key : String) (value : Value) : StorageMap :=
  if h : key ∈ m.entries.map Prod.fst then
    { entries := overwrite key value m.entries
      nodup := by
        have hk : (overwrite key value m.entries).map Prod.fst = m.entries.map Prod.fst := by
          unfold overwrite
          rw [List.map_map]
          apply List.map_congr_left
          intro e _
          by_cases he : e.1 = key
          · simp only [Function.comp, he, if_true]
          · simp only [Function.comp, he, if_false]
        rw [hk]
        exact m.nodup }
  else
    { entries := m.entries ++ [(key, value)]
      nodup := by
        rw [List.map_append, List.map_singleton]
        refine List.Nodup.append m.nodup (List.nodup_singleton key) ?_
        intro k hk hk2
        rw [List.mem_singleton] at hk2
        have hkey : k = key := hk2
        rw [hkey] at hk
        exact h hk }

/-- Modelled from the spec: the iterator of a storage map (Go `StorageMap.Iterator`, absent
from the sources): `Next` at position `pos` returns the entry that the map has at this
place when it is called, or a nil key behind the last place; a value overwritten in place
during the traversal does not move the iterator. -/
def StorageMap.Next (m : StorageMap) (pos : Nat) : Option (String × Value) :=
  m.entries.get? pos

/-- Go `runtime.Storage`: the storage maps by address and domain name. -/
structure Storage where
  maps : Address → String → Option StorageMap

/-- Go `Storage.GetStorageMap` with `createIfNotExists = false`: the map, or nil. -/
def Storage.GetStorageMap (s : Storage) (address : Address) (domain : String) :
    Option StorageMap :=
  s.maps address domain

/-- The storage after a write through the storage map of the address and domain. -/
def Storage.setMap (s : Storage) (address : Address) (domain : String) (m : StorageMap) :
    Storage :=
  { maps := fun a d => if a = address ∧ d = domain then some m else s.maps a d }

/-! ## `AccountStorage.ForEachValue` -/

/-- What `ForEachValue` does: a call of the value converter with the value stored under
the identifier (and what the converter did in that call), a write through
`StorageMap.SetValue`, a call of `Reporter.Report`. -/
inductive StorageEvent where
  | valueConverter (domain : PathDomain) (identifier : String) (value : Value)
      (effects : List MigrationEvent)
  | SetValue (domain : PathDomain) (identifier : String) (newValue : Value)
  | Report (address : Address) (domain : PathDomain) (identifier : String)

/-- Why a run ended before the last entry: the converter panicked, or the model ran out of
fuel (which does not happen, see `forEachEntry_runs`). -/
inductive Stop where
  | panic (value : PanicValue)
  | outOfFuel

/-- The state of a run of `ForEachValue`: the storage, what was done so far, and whether
the run has ended early. -/
structure Run where
  storage : Storage
  trace : List StorageEvent
  stop : Option Stop

/-- Go `AccountStorage`. -/
structure AccountStorage where
  storage : Storage
  address : Address

/-- Go `NewAccountStorage`. -/
def NewAccountStorage (storage : Storage) (address : Address) : AccountStorage :=
  { storage := storage, address := address }

/-- The value converter of `ForEachValue`: a Go function that returns
`(newValue, updated)`, may call a reporter of its own, and may panic. -/
abbrev ValueConverter := Value → Call (Option Value × Bool)

/-- The inner loop of `ForEachValue`,
`for key, value := iterator.Next(); key != nil; key, value = iterator.Next()`, from the
position `pos` of the iterator; `fuel` bounds the number of iterations.  The keys of the
storage map of a path domain are strings, so that the type assertion
`key.(interpreter.StringAtreeValue)` holds. -/
def forEachEntry (address : Address) (domain : PathDomain) (valueConverter : ValueConverter) :
    Nat → Nat → Run → Run
  | 0, _, run => { run with stop := some .outOfFuel }
  | fuel + 1, pos, run =>
    match run.storage.GetStorageMap address domain.Identifier with
    | none => run
    | some storageMap =>
      match storageMap.Next pos with
      | none => run
      | some (key, value) =>
        let call := valueConverter value
        let called : Run :=
          { run with trace := run.trace ++ [.valueConverter domain key value call.effects] }
        match call.outcome with
        | .error p => { called with stop := some (.panic p) }
        | .ok (newValue, updated) =>
          if newValue.isNone ∧ updated = false then
            forEachEntry address domain valueConverter fuel (pos + 1) called
          else
            let identifier := key
            let written : Run :=
              match newValue with
              | some v =>
                { called with
                  storage := called.storage.setMap address domain.Identifier
                    (storageMap.SetValue identifier v)
                  trace := called.trace ++ [.SetValue domain identifier v] }
              | none => called
            forEachEntry address domain valueConverter fuel (pos + 1)
              { written with trace := written.trace ++ [.Report address domain identifier] }

/-- The body of the outer loop of `ForEachValue` for one domain. -/
def forDomain (address : Address) (valueConverter : ValueConverter) (run : Run)
    (domain : PathDomain) : Run :=
  match run.storage.GetStorageMap address domain.Identifier with
  | none => run
  | some storageMap =>
    if storageMap.Count = 0 then run
    else forEachEntry address domain valueConverter (storageMap.Count + 1) 0 run

/-- The outer loop of `ForEachValue`, `for _, domain := range domains`; a panic ends it. -/
def forDomains (address : Address) (valueConverter : ValueConverter) :
    List PathDomain → Run → Run
  | [], run => run
  | domain :: rest, run =>
    match (forDomain address valueConverter run domain).stop with
    | some _ => forDomain address valueConverter run domain
    | none => forDomains address valueConverter rest (forDomain address valueConverter run domain)

/-- Go `AccountStorage.ForEachValue`.  The reporter is the one the caller gives (not nil);
its calls are recorded in the trace of the run. -/
def AccountStorage.ForEachValue (i : AccountStorage) (domains : List PathDomain)
    (valueConverter : ValueConverter) : Run :=
  forDomains i.address valueConverter domains
    { storage := i.storage, trace := [], stop := none }

/-! ## Auxiliary definitions of the proofs -/

/-- The value that an entry holds after its visit: the new value of the converter, or the
value it held. -/
def stored (newValue : Option Value) (value : Value) : Value :=
  newValue.getD value

/-- What the visit of an entry does after the converter has returned: nothing, or a write
of the new value if there is one, and a report. -/
def entryEvents (address : Address) (domain : PathDomain) (key : String)
    (newValue : Option Value) (updated : Bool) : List StorageEvent :=
  if newValue.isNone ∧ updated = false then []
  else
    (match newValue with
      | some v => [StorageEvent.SetValue domain key v]
      | none => []) ++ [StorageEvent.Report address domain key]

/-- The outcome of the visit of a list of entries. -/
structure Visit where
  entries : List (String × Value)
  trace : List StorageEvent
  stop : Option Stop

/-- The visit of the entries of a storage map, one after the other, as a function of the
list of entries: the entries after the visit, what was done, and the panic that ended
it. -/
def visitEntries (address : Address) (domain : PathDomain) (valueConverter : ValueConverter) :
    List (String × Value) → Visit
  | [] => { entries := [], trace := [], stop := none }
  | (key, value) :: rest =>
    match (valueConverter value).outcome with
    | .error p =>
      { entries := (key, value) :: rest
        trace := [.valueConverter domain key value (valueConverter value).effects]
        stop := some (.panic p) }
    | .ok (newValue, updated) =>
      { entries := (key, stored newValue value) ::
          (visitEntries address domain valueConverter rest).entries
        trace := .valueConverter domain key value (valueConverter value).effects ::
          (entryEvents address domain key newValue updated ++
            (visitEntries address domain valueConverter rest).trace)
        stop := (visitEntries address domain valueConverter rest).stop }

/-- The domain of an event. -/
def StorageEvent.domain : StorageEvent → PathDomain
  | .valueConverter d _ _ _ => d
  | .SetValue d _ _ => d
  | .Report _ d _ => d

/-- The value that an entry holds after one visit: the new value that the converter
returns for the value, or the value itself. -/
def visited (valueConverter : ValueConverter) (value : Value) : Value :=
  match (valueConverter value).outcome with
  | .ok (newValue, _) => stored newValue value
  | .error _ => value

/-- The identifiers that were reported for the domain, in the order of the calls of
`Report`. -/
def reported (domain : PathDomain) (trace : List StorageEvent) : List String :=
  trace.filterMap fun e =>
    match e with
    | .Report _ d identifier => if d = domain then some identifier else none
    | _ => none

/-- The number of entries of the storage map of the address and domain name; none if
there is no map. -/
def Storage.count (s : Storage) (address : Address) (domain : String) : Nat :=
  match s.GetStorageMap address domain with
  | some m => m.Count
  | none => 0

/-! ## An account for concrete evaluations -/

/-- The address of the sample account. -/
def sampleAddress : Address :=
  { bytes := [0, 0, 0, 0, 0, 0, 0, 1] }

/-- The storage map of the domain `storage` of the sample account: three entries. -/
def sampleStorageMap : StorageMap :=
  { entries := [("a", .BoolValue true), ("b", .StringValue "x"), ("c", .BoolValue false)]
    nodup := by decide }

/-- The storage map of the domain `public` of the sample account: no entries. -/
def emptyStorageMap : StorageMap :=
  { entries := [], nodup := List.nodup_nil }

/-- A storage: the sample account has the maps of `storage` and of `public`, and none of
`private`. -/
def sampleStorage : Storage :=
  { maps := fun a d =>
      if a = sampleAddress then
        if d = "storage" then some sampleStorageMap
        else if d = "public" then some emptyStorageMap
        else none
      else none }

/-- The sample account. -/
def sampleAccount : AccountStorage :=
  NewAccountStorage sampleStorage sampleAddress

/-- A value converter: a boolean is replaced by its negation, a string is reported as
updated in place, everything else is left. -/
def sampleConverter : ValueConverter := fun value =>
  match value with
  | .BoolValue b => { effects := [], outcome := .ok (some (.BoolValue (!b)), false) }
  | .StringValue _ => { effects := [], outcome := .ok (none, true) }
  | _ => { effects := [], outcome := .ok (none, false) }

/-! ## The capability migration as the value converter -/

/-- Modelled from the spec: the replacement that the engine takes from what `Migrate`
returned (the code of the engine is absent from the sources): the new value, or none when
`Migrate` returned nil; an error aborts the migration of that value only, which is left as
it is. -/
def migratedValue (result : Option Value × Option String) : Option Value :=
  match result with
  | (newValue, none) => newValue
  | (_, some _) => none

mutual

/-- Modelled from the spec: the migration engine on a value (its code is absent from the
sources), with the capability migration as its pass: depth-first, children before parents.
The elements of a container are migrated first, and every element for which a replacement
is returned is replaced in the container; then `Migrate` is called with the container, which
holds the migrated children.  The engine returns the replacement of the value: the value
that `Migrate` returned, or else the container with the replaced children if a child was
replaced, or nil if the value is unchanged.  A panic of `Migrate` ends the migration. -/
def CapabilityValueMigration.migrateNested (m : CapabilityValueMigration) (cv : Conversions)
    (storageKey : StorageKey) : Value → Call (Option Value)
  | .ArrayValue elements =>
    match (CapabilityValueMigration.migrateElements m cv storageKey elements).outcome with
    | .error p =>
      { effects := (CapabilityValueMigration.migrateElements m cv storageKey elements).effects
        outcome := .error p }
    | .ok (newElements, replaced) =>
      { effects :=
          (CapabilityValueMigration.migrateElements m cv storageKey elements).effects ++
            (m.Migrate cv storageKey (.ArrayValue newElements)).effects
        outcome := (m.Migrate cv storageKey (.ArrayValue newElements)).outcome.map fun result =>
          match migratedValue result with
          | some newValue => some newValue
          | none => if replaced then some (.ArrayValue newElements) else none }
  | .PathCapabilityValue borrowType path address =>
    { effects := (m.Migrate cv storageKey (.PathCapabilityValue borrowType path address)).effects
      outcome := (m.Migrate cv storageKey
        (.PathCapabilityValue borrowType path address)).outcome.map migratedValue }
  | .CapabilityValue id address borrowType =>
    { effects := (m.Migrate cv storageKey (.CapabilityValue id address borrowType)).effects
      outcome := (m.Migrate cv storageKey
        (.CapabilityValue id address borrowType)).outcome.map migratedValue }
  | .BoolValue b =>
    { effects := (m.Migrate cv storageKey (.BoolValue b)).effects
      outcome := (m.Migrate cv storageKey (.BoolValue b)).outcome.map migratedValue }
  | .StringValue s =>
    { effects := (m.Migrate cv storageKey (.StringValue s)).effects
      outcome := (m.Migrate cv storageKey (.StringValue s)).outcome.map migratedValue }

/-- Modelled from the spec: the engine on the elements of a container, one after the other:
the elements after the migration, each replaced by its replacement if one was returned,
and whether one was replaced. -/
def CapabilityValueMigration.migrateElements (m : CapabilityValueMigration) (cv : Conversions)
    (storageKey : StorageKey) : List Value → Call (List Value × Bool)
  | [] => { effects := [], outcome := .ok ([], false) }
  | element :: rest =>
    match (CapabilityValueMigration.migrateNested m cv storageKey element).outcome with
    | .error p =>
      { effects := (CapabilityValueMigration.migrateNested m cv storageKey element).effects
        outcome := .error p }
    | .ok newElement =>
      { effects :=
          (CapabilityValueMigration.migrateNested m cv storageKey element).effects ++
            (CapabilityValueMigration.migrateElements m cv storageKey rest).effects
        outcome :=
          (CapabilityValueMigration.migrateElements m cv storageKey rest).outcome.map fun r =>
            (newElement.getD element :: r.1, newElement.isSome || r.2) }

end

/-- Modelled from the spec: the migration engine as the value converter of `ForEachValue`
(the code that joins them is absent from the sources): the new value is the replacement
that the engine returns for the stored value and its nested values, and nothing is updated
in place, a migration step returning unchanged or a full replacement value. -/
def CapabilityValueMigration.valueConverter (m : CapabilityValueMigration) (cv : Conversions)
    (storageKey : StorageKey) : ValueConverter := fun value =>
  { effects := (m.migrateNested cv storageKey value).effects
    outcome := (m.migrateNested cv storageKey value).outcome.map fun newValue =>
      (newValue, false) }

/-- Whether the event is a call of `MigratedPathCapability`. -/
def MigrationEvent.isMigratedPathCapability : MigrationEvent → Bool
  | .MigratedPathCapability _ _ _ => true
  | _ => false

/-- Whether the event is a call of a method of the reporter. -/
def MigrationEvent.isReporterCall : MigrationEvent → Bool
  | .Get _ => false
  | _ => true

/-- Whether the event of a run is neither a write nor a call of `Report`, nor a call of
the converter in which `MigratedPathCapability` was called. -/
def StorageEvent.quiet : StorageEvent → Bool
  | .valueConverter _ _ _ effects => effects.all fun e => !e.isMigratedPathCapability
  | _ => false

/-- The visit of the storage map that the storage has for the address and the domain. -/
def visitOf (address : Address) (valueConverter : ValueConverter) (s : Storage)
    (domain : PathDomain) : Visit :=
  match s.maps address domain.Identifier with
  | none => { entries := [], trace := [], stop := none }
  | some m => visitEntries address domain valueConverter m.entries

/-- The visit of the domain changes no entry and is quiet. -/
def Settled (address : Address) (valueConverter : ValueConverter) (s : Storage)
    (domain : PathDomain) : Prop :=
  (∀ m, s.maps address domain.Identifier = some m →
    (visitEntries address domain valueConverter m.entries).entries = m.entries) ∧
  ∀ e ∈ (visitOf address valueConverter s domain).trace, e.quiet = true

/-- What a run over the domains does on a storage all of whose visits are settled: it ends
with `stop`, at the first domain whose visit panics if there is one. -/
def RunsQuiet (address : Address) (valueConverter : ValueConverter) (s : Storage) :
    List PathDomain → Option Stop → Prop
  | [], stop => stop = none
  | domain :: rest, stop =>
    Settled address valueConverter s domain ∧
      match (visitOf address valueConverter s domain).stop with
      | none => RunsQuiet address valueConverter s rest stop
      | some p => stop = some p

/-- A capability mapping for concrete evaluations: the path `/public/cap` of the sample
account is mapped to the capability ID 7. -/
def sampleMapping : CapabilityMapping :=
  { Get := fun addressPath =>
      if addressPath = AddressPathOf sampleAddress
          { Domain := .PathDomainPublic, Identifier := "cap" } then
        some (7, { ID := "SomeType" })
      else none }

/-- Conversions for concrete evaluations. -/
def sampleConversions : Conversions :=
  { ConvertSemaToStaticType := fun t => .reference .Unauthorized (.composite t.ID)
    fullyEntitledAccountReferenceStaticType :=
      (.EntitlementSet ["Storage", "Contracts", "Keys", "Inbox", "Capabilities"],
        .primitive "Account") }

/-- A capability migration for concrete evaluations, with a reporter. -/
def sampleMigration : CapabilityValueMigration :=
  { CapabilityMapping := sampleMapping, Reporter := true }

/-- An account whose domain `storage` holds a mapped path capability, an unmapped path
capability and a string. -/
def capabilityAccount : AccountStorage :=
  NewAccountStorage
    { maps := fun a d =>
        if a = sampleAddress ∧ d = "storage" then
          some
            { entries :=
                [("mapped", .PathCapabilityValue
                    (some (.reference .Unauthorized PrimitiveStaticTypeAuthAccount))
                    { Domain := .PathDomainPublic, Identifier := "cap" } sampleAddress),
                 ("unmapped", .PathCapabilityValue none
                    { Domain := .PathDomainPublic, Identifier := "other" } sampleAddress),
                 ("name", .StringValue "x")]
              nodup := by decide }
        else none }
    sampleAddress

/-- An account whose domain `storage` holds an array with a mapped path capability, a
string and an inner array with a second mapped path capability, and a boolean. -/
def nestedAccount : AccountStorage :=
  NewAccountStorage
    { maps := fun a d =>
        if a = sampleAddress ∧ d = "storage" then
          some
            { entries :=
                [("nested", .ArrayValue
                    [.PathCapabilityValue
                        (some (.reference .Unauthorized PrimitiveStaticTypeAuthAccount))
                        { Domain := .PathDomainPublic, Identifier := "cap" } sampleAddress,
                     .StringValue "x",
                     .ArrayValue
                       [.PathCapabilityValue none
                          { Domain := .PathDomainPublic, Identifier := "cap" } sampleAddress]]),
                 ("flag", .BoolValue true)]
              nodup := by decide }
        else none }
    sampleAddress

/-! ## The reports and the borrow type of `Migrate` -/

/-- The calls of `MissingCapabilityID` among the effects of a call, with their arguments. -/
def missingReports (effects : List MigrationEvent) : List (Address × AddressPath) :=
  effects.filterMap fun e =>
    match e with
    | .MissingCapabilityID accountAddress addressPath => some (accountAddress, addressPath)
    | _ => none

/-- The calls of `MigratedPathCapability` among the effects of a call, with their
arguments. -/
def migratedReports (effects : List MigrationEvent) :
    List (Address × AddressPath × StaticType) :=
  effects.filterMap fun e =>
    match e with
    | .MigratedPathCapability accountAddress addressPath borrowType =>
      some (accountAddress, addressPath, borrowType)
    | _ => none

/-- The borrow type that the migration resolves, as the spec words it: the declared borrow
type of the capability if it has one, otherwise the static type of the borrow type of the
controller. -/
def resolveBorrowType (cv : Conversions) (declared : Option StaticType)
    (controllerBorrowType : SemaType) : StaticType :=
  match declared with
  | some borrowType => borrowType
  | none => cv.ConvertSemaToStaticType controllerBorrowType

/-- The new borrow type of a reference type, in `Migrate`: the fully entitled account
reference type if the referenced type is `AuthAccount`, otherwise the reference type. -/
def newBorrowTypeOf (cv : Conversions) (authorization : Authorization)
    (referencedType : StaticType) : StaticType :=
  if referencedType = PrimitiveStaticTypeAuthAccount then
    StaticType.reference cv.fullyEntitledAccountReferenceStaticType.1
      cv.fullyEntitledAccountReferenceStaticType.2
  else
    StaticType.reference authorization referencedType

/-- The part of `Migrate` behind the resolution of the borrow type: the type assertion to
a reference type, the new borrow type, the new capability and the report. -/
def migrateResolved (m : CapabilityValueMigration) (cv : Conversions) (storageKey : StorageKey)
    (path : PathValue) (address : Address) (capabilityID : Nat) (oldBorrowType : StaticType) :
    Call (Option Value × Option String) :=
  match oldBorrowType with
  | .reference authorization referencedType =>
    { effects := .Get (AddressPathOf address path) ::
        (if m.Reporter then
          [.MigratedPathCapability storageKey.Address (AddressPathOf address path)
            (newBorrowTypeOf cv authorization referencedType)]
        else [])
      outcome := .ok (some (.CapabilityValue capabilityID address
        (newBorrowTypeOf cv authorization referencedType)), none) }
  | _ =>
    { effects := [.Get (AddressPathOf address path)]
      outcome := .error (.UnexpectedError "unexpected non-reference borrow type") }

/-- The sample migration without a reporter. -/
def silentMigration : CapabilityValueMigration :=
  { CapabilityMapping := sampleMapping, Reporter := false }

/-- A path capability of the sample account that the sample mapping does not have. -/
def unmappedCapability : Value :=
  .PathCapabilityValue none { Domain := .PathDomainPublic, Identifier := "other" } sampleAddress

/-- The path capability of the sample account that the sample mapping has, with the
declared borrow type of an unauthorized reference to `AuthAccount`. -/
def accountCapability : Value :=
  .PathCapabilityValue (some (.reference .Unauthorized PrimitiveStaticTypeAuthAccount))
    { Domain := .PathDomainPublic, Identifier := "cap" } sampleAddress

/-- The storage key of the domain `storage` of the sample account. -/
def sampleStorageKey : StorageKey :=
  { Address := sampleAddress, Key := "storage" }

/-! ## The calls of the value converter -/

/-- The calls of the value converter in a trace, in the order of the calls: the domain and
the identifier of the entry, and the value that the converter was called with. -/
def converterCalls (trace : List StorageEvent) : List (PathDomain × String × Value) :=
  trace.filterMap fun e =>
    match e with
    | .valueConverter domain identifier value _ => some (domain, identifier, value)
    | _ => none

/-- The entries of the storage maps of the domains of the address, domain after domain in
the order of the list and in the native order of each map, with the values stored. -/
def storedEntries (s : Storage) (address : Address) :
    List PathDomain → List (PathDomain × String × Value)
  | [] => []
  | domain :: rest =>
    (match s.GetStorageMap address domain.Identifier with
      | some m => m.entries.map fun e => (domain, e.1, e.2)
      | none => []) ++ storedEntries s address rest

/-- What `ForEachValue` does for one call of the converter, on the entry `c`: the call,
and, when the converter returns, the write and the report that follow it in the body of
the loop. -/
def callEvents (address : Address) (valueConverter : ValueConverter)
    (c : PathDomain × String × Value) : List StorageEvent :=
  .valueConverter c.1 c.2.1 c.2.2 (valueConverter c.2.2).effects ::
    match (valueConverter c.2.2).outcome with
    | .ok (newValue, updated) => entryEvents address c.1 c.2.1 newValue updated
    | .error _ => []

/-- The events of a sequence of calls of the converter. -/
def eventsOfCalls (address : Address) (valueConverter : ValueConverter) :
    List (PathDomain × String × Value) → List StorageEvent
  | [] => []
  | c :: rest =>
    callEvents address valueConverter c ++ eventsOfCalls address valueConverter rest

/-! ## The replacements of an entry -/

/-- The replacement that a call of the converter returned for the entry of the domain under
the identifier: the new value, if the call was for this entry and the converter returned
one. -/
def replacementOf (valueConverter : ValueConverter) (domain : PathDomain) (identifier : String)
    (c : PathDomain × String × Value) : Option Value :=
  if c.1 = domain ∧ c.2.1 = identifier then
    match (valueConverter c.2.2).outcome with
    | .ok (some newValue, _) => some newValue
    | _ => none
  else none

/-- The replacements that the converter returned for the entry of the domain under the
identifier, in the order of the calls of the converter that the trace records. -/
def replacements (valueConverter : ValueConverter) (domain : PathDomain) (identifier : String)
    (trace : List StorageEvent) : List Value :=
  (converterCalls trace).filterMap (replacementOf valueConverter domain identifier)

/-- The values that the trace records as written under the identifier of the domain, in the
order of the calls of `SetValue`. -/
def written (domain : PathDomain) (identifier : String) (trace : List StorageEvent) :
    List Value :=
  trace.filterMap fun e =>
    match e with
    | .SetValue d k v => if d = domain ∧ k = identifier then some v else none
    | _ => none

end Migrations

namespace DecodeStateValues

/-! # The state dump reader

The embedding of `runtime/cmd/decode-state-values/main.go`: the key of a slab in the
in-memory storage, and the function `read` that fills the storage from the entries of the
input. -/

/-- The bytes of a Go string or byte slice. -/
abbrev Bytes := List Nat

/-- Go `keyPartCount`. -/
def keyPartCount : Nat := 3

/-- Go `storageKey`, the array `[keyPartCount]string`: its three strings. -/
abbrev storageKey := Bytes × Bytes × Bytes

/-- Go `slabKeyLength`: `'$' + 8 byte index`. -/
def slabKeyLength : Nat := 9

/-- Go `atree.StorageID`, declared outside of the sources: an address and an index, which
are arrays of 8 bytes (`'$' + 8 byte index`). -/
structure StorageID where
  Address : Bytes
  Index : Bytes
  address_length : Address.length = 8
  index_length : Index.length = 8

/-- Go `storageIDStorageKey`. -/
def storageIDStorageKey (id : StorageID) : storageKey :=
  (id.Address, [], '$'.toNat :: id.Index)

/-- The slab test of Go `load`, on the third part of a storage key:
`len(key) == slabKeyLength && key[0] == '$'`. -/
def isSlab (key : Bytes) : Bool :=
  key.length == slabKeyLength && key.head? == some '$'.toNat

/-- Go `encodedKeyPart`. -/
structure encodedKeyPart where
  Value : String

/-- Go `encodedKey`. -/
structure encodedKey where
  KeyParts : List encodedKeyPart

/-- Go `encodedEntry`. -/
structure encodedEntry where
  Value : String
  Key : encodedKey

/-- Go `hex.DecodeString`; `none` stands for a non-nil error. -/
def hexDecodeString (s : String) : Option Bytes :=
  JsonCdc.hexDecode s.toList

/-- The Go variable `storage`, a `map[storageKey][]byte`. -/
abbrev Storage := storageKey → Option Bytes

/-- The initial value of `storage`, the empty map. -/
def emptyStorage : Storage := fun _ => none

/-- Go assignment `storage[storageKey] = data`. -/
def Storage.set (storage : Storage) (key : storageKey) (data : Bytes) : Storage :=
  fun k => if k = key then some data else storage k

/-- What `read` needs of package `common`, which is outside of the sources: the type
`common.Address` is an array of bytes, and `BytesToAddress` makes an address of a byte
slice. -/
structure Common where
  BytesToAddress : Bytes → Bytes

/-- The loop `for i := 0; i < keyPartCount; i++` of Go `read`, behind the test of the
number of key parts: the first three key parts, hex-decoded; `log.Fatalf` ends the
program. -/
def decodeKeyParts (parts : List encodedKeyPart) : Except String storageKey :=
  match parts with
  | p0 :: p1 :: p2 :: _ =>
    match hexDecodeString p0.Value with
    | none => .error "Failed to hex-decode key part 0"
    | some k0 =>
      match hexDecodeString p1.Value with
      | none => .error "Failed to hex-decode key part 1"
      | some k1 =>
        match hexDecodeString p2.Value with
        | none => .error "Failed to hex-decode key part 2"
        | some k2 => .ok (k0, k1, k2)
  | _ => .error "Invalid storage key parts"

/-- The body of the loop `payloadLoop` of Go `read` for a decoded entry: the new storage, or
the message of `log.Fatalf`. -/
def readEntry (common : Common) (addresses : List Bytes) (storage : Storage)
    (e : encodedEntry) : Except String Storage := do
  let storageKey ← decodeKeyParts e.Key.KeyParts
  let filter := decide (addresses.length > 0)
  let owner := common.BytesToAddress storageKey.1
  if filter ∧ ¬ addresses.any (fun address => decide (owner = address)) then
    .ok storage
  else
    match hexDecodeString e.Value with
    | none => .error "Invalid value"
    | some data =>
      if data.length > 0 then .ok (storage.set storageKey data) else .ok storage

/-- Go `read`, on the results of `decoder.Decode(&e)` up to `io.EOF`: an entry, or an error
of the JSON decoder, at which `log.Fatal` ends the program.  The result is the storage
when `read` returns. -/
def read (common : Common) (addresses : List Bytes) :
    List (Except String encodedEntry) → Storage → Except String Storage
  | [], storage => .ok storage
  | .error err :: _, _ => .error err
  | .ok e :: rest, storage =>
    match readEntry common addresses storage e with
    | .error err => .error err
    | .ok storage => read common addresses rest storage

/-- An entry as the specification keeps it: the key of its first three key parts and its value,
hex-decoded, if the value is not empty and, when addresses are given, the owner is one of
them. -/
def keptEntry (common : Common) (addresses : List Bytes) (e : encodedEntry) :
    Option (storageKey × Bytes) :=
  match (e.Key.KeyParts.take 3).map (fun p => hexDecodeString p.Value) with
  | [some k0, some k1, some k2] =>
    match hexDecodeString e.Value with
    | some data =>
      if data ≠ [] ∧ (addresses = [] ∨ common.BytesToAddress k0 ∈ addresses) then
        some ((k0, k1, k2), data)
      else none
    | none => none
  | _ => none

/-- The value of the last pair with the key, if there is one. -/
def lastValue : List (storageKey × Bytes) → storageKey → Option Bytes
  | [], _ => none
  | (k, v) :: rest, key =>
    match lastValue rest key with
    | some w => some w
    | none => if k = key then some v else none

/-- The entries of the input as the specification keeps them, in the order of the
input. -/
def keptEntries (common : Common) (addresses : List Bytes)
    (input : List (Except String encodedEntry)) : List (storageKey × Bytes) :=
  input.filterMap fun item =>
    match item with
    | .ok e => keptEntry common addresses e
    | .error _ => none

/-- The storage after a kept entry, if there is one, was put into it. -/
def Storage.put (storage : Storage) : Option (storageKey × Bytes) → Storage
  | some (key, data) => storage.set key data
  | none => storage

/-- Whether `read` gets past the entry: the JSON decoder gave an entry with at least three
key parts, the first three of which are hex strings, and the value is a hex string unless
the entry is dropped for its owner. -/
def readable (common : Common) (addresses : List Bytes) :
    Except String encodedEntry → Bool
  | .error _ => false
  | .ok e =>
    match decodeKeyParts e.Key.KeyParts with
    | .error _ => false
    | .ok key =>
      (decide (addresses.length > 0)
          && !addresses.any (fun address => decide (common.BytesToAddress key.1 = address)))
        || (hexDecodeString e.Value).isSome



/-- A `common` for concrete evaluations: the address of a byte slice is the slice. -/
def sampleCommon : Common :=
  { BytesToAddress := fun b => b }

/-- An input for concrete evaluations: two entries of the owner `01` with the same key, an
entry of the owner `02` with an empty value, and an entry of the owner `02` with a fourth
key part. -/
def sampleInput : List (Except String encodedEntry) :=
  [.ok { Value := "ff", Key := { KeyParts := [⟨"01"⟩, ⟨""⟩, ⟨"24aa"⟩] } },
   .ok { Value := "ee", Key := { KeyParts := [⟨"01"⟩, ⟨""⟩, ⟨"24aa"⟩] } },
   .ok { Value := "", Key := { KeyParts := [⟨"02"⟩, ⟨""⟩, ⟨"61"⟩] } },
   .ok { Value := "0a0b", Key := { KeyParts := [⟨"02"⟩, ⟨""⟩, ⟨"62"⟩, ⟨"zz"⟩] } }]

end DecodeStateValues

namespace Ast

/-! # The generated `String` methods of package `ast`

The embedding of `runtime/ast/precedence_string.go` and
`runtime/ast/primitiveaccess_string.go`, which `stringer` generated.  The types `precedence`
and `PrimitiveAccess` are declared outside of the sources.  The methods have no test
`i < 0`, which `stringer` writes for a signed type, so both are unsigned integer types; a
value is given by its number, below `2 ^ 64`. -/

/-- Go `strconv.FormatInt(i, 10)`: the decimal digits of the number, behind `-` if it is
negative. -/
def FormatInt (i : Int) : String :=
  toString i

/-- Go conversion `int64(i)` of a value of an unsigned integer type of at most 64 bits: the
bits of the value are read as a 64-bit number in two's complement. -/
def int64 (i : Nat) : Int :=
  if i % 2 ^ 64 < 2 ^ 63 then ((i % 2 ^ 64 : Nat) : Int)
  else ((i % 2 ^ 64 : Nat) : Int) - 2 ^ 64

/-- Go index expression `table[i]` on an array: a run-time panic outside of the array. -/
def index (table : List Nat) (i : Nat) : Except String Nat :=
  match table.get? i with
  | some v => .ok v
  | none => .error "index out of range"

/-- Go slice expression `s[lo:hi]` on a string: a run-time panic unless
`lo ≤ hi ≤ len(s)`.  The strings of the generated code are ASCII: a character is a
byte. -/
def slice (s : String) (lo hi : Nat) : Except String String :=
  if lo ≤ hi ∧ hi ≤ s.length then .ok (String.mk ((s.toList.drop lo).take (hi - lo)))
  else .error "slice bounds out of range"

/-- The constants of type `precedence` by value, as the generated function `_` lists them
(`_ = x[precedenceUnknown-0]`, ...). -/
def precedenceConstants : List String :=
  ["precedenceUnknown", "precedenceTernary", "precedenceLogicalOr", "precedenceLogicalAnd",
   "precedenceComparison", "precedenceNilCoalescing", "precedenceBitwiseOr",
   "precedenceBitwiseXor", "precedenceBitwiseAnd", "precedenceBitwiseShift",
   "precedenceAddition", "precedenceMultiplication", "precedenceCasting",
   "precedenceUnaryPrefix", "precedenceUnaryPostfix", "precedenceAccess",
   "precedenceLiteral"]

/-- Go `_precedence_name`. -/
def _precedence_name : String :=
  "precedenceUnknownprecedenceTernaryprecedenceLogicalOrprecedenceLogicalAndprecedenceComparisonprecedenceNilCoalescingprecedenceBitwiseOrprecedenceBitwiseXorprecedenceBitwiseAndprecedenceBitwiseShiftprecedenceAdditionprecedenceMultiplicationprecedenceCastingprecedenceUnaryPrefixprecedenceUnaryPostfixprecedenceAccessprecedenceLiteral"

/-- Go `_precedence_index`. -/
def _precedence_index : List Nat :=
  [0, 17, 34, 53, 73, 93, 116, 135, 155, 175, 197, 215, 239, 256, 277, 299, 315, 332]

/-- Go `precedence.String`, on the number of the value. -/
def precedence.String (i : Nat) : Except String String :=
  if i ≥ _precedence_index.length - 1 then
    .ok ("precedence(" ++ FormatInt (int64 i) ++ ")")
  else do
    let lo ← index _precedence_index i
    let hi ← index _precedence_index (i + 1)
    slice _precedence_name lo hi

/-- The constants of type `PrimitiveAccess` by value, as the generated function `_` lists
them. -/
def PrimitiveAccessConstants : List String :=
  ["AccessNotSpecified", "AccessSelf", "AccessContract", "AccessAccount", "AccessAll",
   "AccessPubSettableLegacy"]

/-- Go `_PrimitiveAccess_name`. -/
def _PrimitiveAccess_name : String :=
  "AccessNotSpecifiedAccessSelfAccessContractAccessAccountAccessAllAccessPubSettableLegacy"

/-- Go `_PrimitiveAccess_index`. -/
def _PrimitiveAccess_index : List Nat :=
  [0, 18, 28, 42, 55, 64, 87]

/-- Go `PrimitiveAccess.String`, on the number of the value. -/
def PrimitiveAccess.String (i : Nat) : Except String String :=
  if i ≥ _PrimitiveAccess_index.length - 1 then
    .ok ("PrimitiveAccess(" ++ FormatInt (int64 i) ++ ")")
  else do
    let lo ← index _PrimitiveAccess_index i
    let hi ← index _PrimitiveAccess_index (i + 1)
    slice _PrimitiveAccess_name lo hi

/-- The index table of a generated `String` method is well formed for the string of the
names: it begins with 0, increases strictly and ends with the length of the string. -/
def IndexTable (table : List Nat) (names : String) : Prop :=
  table.head? = some 0 ∧ table.Pairwise (fun a b => a < b) ∧
    table.getLast? = some names.length

end Ast

namespace JsonCdc

/-! ## Independence of the fuel -/

theorem JSONValue.size_pos (v : JSONValue) : 0 < v.size := by
  cases v <;> simp [JSONValue.size]

theorem size_le_sizeList {x : JSONValue} {xs : List JSONValue} (h : x ∈ xs) :
    x.size ≤ sizeList xs := by
  induction xs with
  | nil => cases h
  | cons y ys ih =>
    simp only [sizeList]
    rcases List.mem_cons.mp h with rfl | h
    · omega
    · have := ih h
      omega

theorem size_le_of_lookup {key : String} {x : JSONValue} :
    ∀ {m : List (String × JSONValue)}, m.lookup key = some x → x.size ≤ sizeFields m
  | [], h => by simp at h
  | (k, v) :: rest, h => by
    simp only [sizeFields]
    rw [List.lookup_cons] at h
    by_cases hk : key == k
    · simp only [hk] at h
      cases h
      omega
    · simp only [hk] at h
      have := size_le_of_lookup h
      omega

theorem size_lt_of_Get {obj : jsonObject} {key : String} {x : JSONValue}
    (h : obj.Get key = .ok x) : x.size < (JSONValue.object obj).size := by
  unfold jsonObject.Get at h
  split at h
  · rename_i v hv
    cases h
    have := size_le_of_lookup hv
    simp only [JSONValue.size]
    omega
  · cases h

theorem Agree.mono {d₁ d₂ : Decoder} {n m : Nat} (h : Agree d₁ d₂ n) (hm : m ≤ n) :
    Agree d₁ d₂ m :=
  ⟨h.1, fun x hx => h.2 x (by omega)⟩

theorem forRange_congr {α β : Type} {f g : α → Panics β} :
    ∀ {xs : List α}, (∀ x ∈ xs, f x = g x) → forRange f xs = forRange g xs
  | [], _ => rfl
  | x :: xs, h => by
    simp only [forRange]
    rw [h x (by simp), forRange_congr (fun y hy => h y (by simp [hy]))]

theorem bind_congr_ok {α β : Type} (r : Panics α) {f g : α → Panics β}
    (h : ∀ a, r = .ok a → f a = g a) : (r >>= f) = (r >>= g) := by
  cases r with
  | error e => rfl
  | ok a => exact h a rfl

theorem toObject_ok {v : JSONValue} {obj : jsonObject} (h : toObject v = .ok obj) :
    v = .object obj := by
  cases v <;> simp [toObject, invalid] at h
  rw [h]

theorem toSlice_ok {v : JSONValue} {xs : List JSONValue} (h : toSlice v = .ok xs) :
    v = .array xs := by
  cases v <;> simp [toSlice, invalid] at h
  rw [h]

theorem toString_ok {v : JSONValue} {s : String} (h : toString v = .ok s) :
    v = .string s := by
  cases v <;> simp [toString, invalid] at h
  rw [h]

theorem GetValue_congr {d₁ d₂ : Decoder} {n : Nat} (h : Agree d₁ d₂ n) {obj : jsonObject}
    (hv : (JSONValue.object obj).size ≤ n + 1) (key : String) :
    obj.GetValue d₁ key = obj.GetValue d₂ key := by
  unfold jsonObject.GetValue
  apply bind_congr_ok
  intro x hx
  exact (h.2 x (by have := size_lt_of_Get hx; omega)).1

theorem decodeOptional_congr {d₁ d₂ : Decoder} {n : Nat} (h : Agree d₁ d₂ n) {v : JSONValue}
    (hv : v.size ≤ n) : decodeOptional d₁ v = decodeOptional d₂ v := by
  unfold decodeOptional
  cases v <;> simp only [(h.2 _ hv).1]

theorem decodeArray_congr {d₁ d₂ : Decoder} {n : Nat} (h : Agree d₁ d₂ n) {v : JSONValue}
    (hv : v.size ≤ n) : decodeArray d₁ v = decodeArray d₂ v := by
  unfold decodeArray
  apply bind_congr_ok
  intro xs hxs
  rw [toSlice_ok hxs] at hv
  rw [forRange_congr]
  intro x hx
  have := size_le_sizeList hx
  simp only [JSONValue.size] at hv
  exact (h.2 x (by omega)).1

theorem decodeKeyValuePair_congr {d₁ d₂ : Decoder} {n : Nat} (h : Agree d₁ d₂ n)
    {v : JSONValue} (hv : v.size ≤ n + 1) :
    decodeKeyValuePair d₁ v = decodeKeyValuePair d₂ v := by
  unfold decodeKeyValuePair
  apply bind_congr_ok
  intro obj hobj
  rw [toObject_ok hobj] at hv
  rw [GetValue_congr h hv keyKey, GetValue_congr h hv valueKey]

theorem decodeDictionary_congr {d₁ d₂ : Decoder} {n : Nat} (h : Agree d₁ d₂ n)
    {v : JSONValue} (hv : v.size ≤ n + 1) :
    decodeDictionary d₁ v = decodeDictionary d₂ v := by
  unfold decodeDictionary
  apply bind_congr_ok
  intro xs hxs
  rw [toSlice_ok hxs] at hv
  rw [forRange_congr]
  intro x hx
  have := size_le_sizeList hx
  simp only [JSONValue.size] at hv
  exact decodeKeyValuePair_congr h (by omega)

theorem decodeCompositeField_congr {d₁ d₂ : Decoder} {n : Nat} (h : Agree d₁ d₂ n)
    {v : JSONValue} (hv : v.size ≤ n + 1) :
    decodeCompositeField d₁ v = decodeCompositeField d₂ v := by
  unfold decodeCompositeField
  apply bind_congr_ok
  intro obj hobj
  rw [toObject_ok hobj] at hv
  rw [GetValue_congr h hv valueKey, h.1]

theorem decodeComposite_congr {d₁ d₂ : Decoder} {n : Nat} (h : Agree d₁ d₂ n)
    {v : JSONValue} (hv : v.size ≤ n + 1) :
    decodeComposite d₁ v = decodeComposite d₂ v := by
  unfold decodeComposite
  apply bind_congr_ok
  intro obj hobj
  rw [toObject_ok hobj] at hv
  apply bind_congr_ok
  intro typeID _
  rw [h.1]
  split
  · rfl
  · split
    · rfl
    · apply bind_congr_ok
      intro fields hf
      have hfs : (JSONValue.array fields).size < (JSONValue.object obj).size := by
        unfold jsonObject.GetSlice at hf
        cases hg : obj.Get fieldsKey with
        | error e => rw [hg] at hf; cases hf
        | ok x =>
          rw [hg] at hf
          have hx := toSlice_ok hf
          rw [← hx]
          exact size_lt_of_Get hg
      rw [forRange_congr]
      intro x hx
      have := size_le_sizeList hx
      simp only [JSONValue.size] at hfs hv
      exact decodeCompositeField_congr h (by omega)

theorem decodeLink_congr {d₁ d₂ : Decoder} {n : Nat} (h : Agree d₁ d₂ n)
    {v : JSONValue} (hv : v.size ≤ n + 1) : decodeLink d₁ v = decodeLink d₂ v := by
  unfold decodeLink
  apply bind_congr_ok
  intro obj hobj
  rw [toObject_ok hobj] at hv
  apply bind_congr_ok
  intro x hx
  rw [(h.2 x (by have := size_lt_of_Get hx; omega)).1]

theorem decodeTypeValue_congr {d₁ d₂ : Decoder} {n : Nat} (h : Agree d₁ d₂ n)
    {v : JSONValue} (hv : v.size ≤ n + 1) : decodeTypeValue d₁ v = decodeTypeValue d₂ v := by
  unfold decodeTypeValue
  apply bind_congr_ok
  intro obj hobj
  rw [toObject_ok hobj] at hv
  apply bind_congr_ok
  intro x hx
  rw [(h.2 x (by have := size_lt_of_Get hx; omega)).2]

theorem decodeCapability_congr {d₁ d₂ : Decoder} {n : Nat} (h : Agree d₁ d₂ n)
    {v : JSONValue} (hv : v.size ≤ n + 1) : decodeCapability d₁ v = decodeCapability d₂ v := by
  unfold decodeCapability
  apply bind_congr_ok
  intro obj hobj
  rw [toObject_ok hobj] at hv
  apply bind_congr_ok
  intro x hx
  rw [(h.2 x (by have := size_lt_of_Get hx; omega)).1]
  apply bind_congr_ok
  intro _ _
  apply bind_congr_ok
  intro _ _
  apply bind_congr_ok
  intro _ _
  apply bind_congr_ok
  intro _ _
  apply bind_congr_ok
  intro y hy
  rw [(h.2 y (by have := size_lt_of_Get hy; omega)).2]

theorem decodeParamType_congr {d₁ d₂ : Decoder} {n : Nat} (h : Agree d₁ d₂ n)
    {v : JSONValue} (hv : v.size ≤ n + 1) : decodeParamType d₁ v = decodeParamType d₂ v := by
  unfold decodeParamType
  apply bind_congr_ok
  intro obj hobj
  rw [toObject_ok hobj] at hv
  apply bind_congr_ok
  intro _ _
  apply bind_congr_ok
  intro _ _
  apply bind_congr_ok
  intro _ _
  apply bind_congr_ok
  intro _ _
  apply bind_congr_ok
  intro y hy
  rw [(h.2 y (by have := size_lt_of_Get hy; omega)).2]

theorem decodeParamTypes_congr {d₁ d₂ : Decoder} {n : Nat} (h : Agree d₁ d₂ n)
    {vs : List JSONValue} (hv : sizeList vs ≤ n + 1) :
    decodeParamTypes d₁ vs = decodeParamTypes d₂ vs := by
  unfold decodeParamTypes
  apply forRange_congr
  intro x hx
  have := size_le_sizeList hx
  exact decodeParamType_congr h (by omega)

theorem decodeFieldType_congr {d₁ d₂ : Decoder} {n : Nat} (h : Agree d₁ d₂ n)
    {v : JSONValue} (hv : v.size ≤ n + 1) : decodeFieldType d₁ v = decodeFieldType d₂ v := by
  unfold decodeFieldType
  apply bind_congr_ok
  intro obj hobj
  rw [toObject_ok hobj] at hv
  apply bind_congr_ok
  intro _ _
  apply bind_congr_ok
  intro _ _
  apply bind_congr_ok
  intro y hy
  rw [(h.2 y (by have := size_lt_of_Get hy; omega)).2]

theorem decodeFieldTypes_congr {d₁ d₂ : Decoder} {n : Nat} (h : Agree d₁ d₂ n)
    {vs : List JSONValue} (hv : sizeList vs ≤ n + 1) :
    decodeFieldTypes d₁ vs = decodeFieldTypes d₂ vs := by
  unfold decodeFieldTypes
  apply forRange_congr
  intro x hx
  have := size_le_sizeList hx
  exact decodeFieldType_congr h (by omega)

theorem decodeFunctionType_congr {d₁ d₂ : Decoder} {n : Nat} (h : Agree d₁ d₂ n)
    {r p i : JSONValue} (hr : r.size ≤ n) (hp : p.size ≤ n) :
    decodeFunctionType d₁ r p i = decodeFunctionType d₂ r p i := by
  unfold decodeFunctionType
  apply bind_congr_ok
  intro ps hps
  rw [toSlice_ok hps] at hp
  simp only [JSONValue.size] at hp
  rw [decodeParamTypes_congr h (by omega), (h.2 r hr).2]

theorem decodeRestrictedType_congr {d₁ d₂ : Decoder} {n : Nat} (h : Agree d₁ d₂ n)
    {t : JSONValue} {rs : List JSONValue} {s : String} (ht : t.size ≤ n)
    (hrs : sizeList rs ≤ n) :
    decodeRestrictedType d₁ t rs s = decodeRestrictedType d₂ t rs s := by
  unfold decodeRestrictedType
  rw [(h.2 t ht).2]
  apply bind_congr_ok
  intro _ _
  rw [forRange_congr]
  intro x hx
  have := size_le_sizeList hx
  exact (h.2 x (by omega)).2

theorem decodeNominalType_congr {d₁ d₂ : Decoder} {n : Nat} (h : Agree d₁ d₂ n)
    {obj : jsonObject} {kind typeID : String} {fs inits : List JSONValue}
    (hobj : (JSONValue.object obj).size ≤ n + 1) (hfs : sizeList fs ≤ n)
    (hinits : sizeList inits ≤ n) :
    decodeNominalType d₁ obj kind typeID fs inits
      = decodeNominalType d₂ obj kind typeID fs inits := by
  unfold decodeNominalType
  rw [decodeFieldTypes_congr h (by omega)]
  apply bind_congr_ok
  intro _ _
  have hloop : forRange (fun params => do decodeParamTypes d₁ (← toSlice params)) inits
      = forRange (fun params => do decodeParamTypes d₂ (← toSlice params)) inits := by
    apply forRange_congr
    intro x hx
    have hxs := size_le_sizeList hx
    apply bind_congr_ok
    intro ps hps
    rw [toSlice_ok hps] at hxs
    simp only [JSONValue.size] at hxs
    exact decodeParamTypes_congr h (by omega)
  rw [hloop]
  apply bind_congr_ok
  intro _ _
  rw [h.1]
  split
  · rfl
  · repeat' split
    all_goals try rfl
    apply bind_congr_ok
    intro y hy
    rw [(h.2 y (by have := size_lt_of_Get hy; omega)).2]

theorem decodeCompositeKinds_congr {d₁ d₂ : Decoder} {n : Nat} (h : Agree d₁ d₂ n)
    {v : JSONValue} (hv : v.size ≤ n + 1) :
    decodeStruct d₁ v = decodeStruct d₂ v ∧ decodeResource d₁ v = decodeResource d₂ v ∧
    decodeEvent d₁ v = decodeEvent d₂ v ∧ decodeContract d₁ v = decodeContract d₂ v ∧
    decodeEnum d₁ v = decodeEnum d₂ v := by
  unfold decodeStruct decodeResource decodeEvent decodeContract decodeEnum
  rw [decodeComposite_congr h hv]
  exact ⟨rfl, rfl, rfl, rfl, rfl⟩

theorem decodeTagged_congr {d₁ d₂ : Decoder} {n : Nat} (h : Agree d₁ d₂ n)
    (typeStr : String) {v : JSONValue} (hv : v.size ≤ n) :
    decodeTagged d₁ typeStr v = decodeTagged d₂ typeStr v := by
  have hk := decodeCompositeKinds_congr h (Nat.le_succ_of_le hv)
  unfold decodeTagged decodeCharacter decodeString decodeFix64 decodeUFix64
  rw [decodeOptional_congr h hv, decodeArray_congr h hv,
    decodeDictionary_congr h (Nat.le_succ_of_le hv), hk.1, hk.2.1, hk.2.2.1, hk.2.2.2.1,
    hk.2.2.2.2, decodeLink_congr h (Nat.le_succ_of_le hv),
    decodeTypeValue_congr h (Nat.le_succ_of_le hv),
    decodeCapability_congr h (Nat.le_succ_of_le hv), h.1]

theorem decodeJSONBody_congr {d₁ d₂ : Decoder} {n : Nat} (h : Agree d₁ d₂ n)
    {v : JSONValue} (hv : v.size ≤ n + 1) : decodeJSONBody d₁ v = decodeJSONBody d₂ v := by
  unfold decodeJSONBody
  apply bind_congr_ok
  intro obj hobj
  rw [toObject_ok hobj] at hv
  apply bind_congr_ok
  intro typeStr _
  split
  · rfl
  · split
    · rfl
    · apply bind_congr_ok
      intro x hx
      exact decodeTagged_congr h typeStr (by have := size_lt_of_Get hx; omega)

theorem decodeKind_congr {d₁ d₂ : Decoder} {n : Nat} (h : Agree d₁ d₂ n)
    {obj : jsonObject} (hv : (JSONValue.object obj).size ≤ n + 1) (kindValue : String) :
    decodeKind d₁ obj kindValue = decodeKind d₂ obj kindValue := by
  unfold decodeKind
  have hget : ∀ {key : String} {x : JSONValue}, obj.Get key = .ok x → x.size ≤ n := by
    intro key x hx
    have := size_lt_of_Get hx
    omega
  refine ite_congr rfl (fun _ => ?_) (fun _ => ?_)
  · apply bind_congr_ok
    intro r hr
    apply bind_congr_ok
    intro p hp
    apply bind_congr_ok
    intro i _
    exact decodeFunctionType_congr h (hget hr) (hget hp)
  refine ite_congr rfl (fun _ => ?_) (fun _ => ?_)
  · apply bind_congr_ok
    intro rs hrs
    apply bind_congr_ok
    intro _ _
    apply bind_congr_ok
    intro _ _
    apply bind_congr_ok
    intro t ht
    apply bind_congr_ok
    intro rl hrl
    have := hget hrs
    rw [toSlice_ok hrl] at this
    simp only [JSONValue.size] at this
    exact decodeRestrictedType_congr h (hget ht) (by omega)
  refine ite_congr rfl (fun _ => ?_) (fun _ => ?_)
  · apply bind_congr_ok
    intro x hx
    rw [(h.2 x (hget hx)).2]
  refine ite_congr rfl (fun _ => ?_) (fun _ => ?_)
  · apply bind_congr_ok
    intro x hx
    rw [(h.2 x (hget hx)).2]
  refine ite_congr rfl (fun _ => ?_) (fun _ => ?_)
  · apply bind_congr_ok
    intro x hx
    rw [(h.2 x (hget hx)).2]
  refine ite_congr rfl (fun _ => ?_) (fun _ => ?_)
  · apply bind_congr_ok
    intro x hx
    rw [(h.2 x (hget hx)).2]
    apply bind_congr_ok
    intro _ _
    apply bind_congr_ok
    intro y hy
    rw [(h.2 y (hget hy)).2]
  refine ite_congr rfl (fun _ => ?_) (fun _ => ?_)
  · rw [h.1]
    apply bind_congr_ok
    intro _ _
    apply bind_congr_ok
    intro _ _
    apply bind_congr_ok
    intro y hy
    rw [(h.2 y (hget hy)).2]
  refine ite_congr rfl (fun _ => ?_) (fun _ => ?_)
  · apply bind_congr_ok
    intro _ _
    apply bind_congr_ok
    intro _ _
    apply bind_congr_ok
    intro y hy
    rw [(h.2 y (hget hy)).2]
  cases simpleTypeOfKind kindValue with
  | some t => rfl
  | none =>
    apply bind_congr_ok
    intro fv hfv
    apply bind_congr_ok
    intro _ _
    apply bind_congr_ok
    intro _ _
    apply bind_congr_ok
    intro iv hiv
    apply bind_congr_ok
    intro fs hfs
    apply bind_congr_ok
    intro inits hinits
    have h1 := hget hfv
    have h2 := hget hiv
    rw [toSlice_ok hfs] at h1
    rw [toSlice_ok hinits] at h2
    simp only [JSONValue.size] at h1 h2
    exact decodeNominalType_congr h hv (by omega) (by omega)

theorem decodeTypeBody_congr {d₁ d₂ : Decoder} {n : Nat} (h : Agree d₁ d₂ n)
    {v : JSONValue} (hv : v.size ≤ n + 1) : decodeTypeBody d₁ v = decodeTypeBody d₂ v := by
  unfold decodeTypeBody
  split
  · rfl
  · apply bind_congr_ok
    intro obj hobj
    rw [toObject_ok hobj] at hv
    apply bind_congr_ok
    intro _ _
    apply bind_congr_ok
    intro kindValue _
    exact decodeKind_congr h hv kindValue

/-- With enough fuel the recursive methods do not depend on the fuel. -/
theorem decoderAt_stable (env : Env) :
    ∀ (k : Nat) (v : JSONValue), v.size ≤ k → ∀ n m : Nat, v.size ≤ n → v.size ≤ m →
      (decoderAt env n).decodeJSON v = (decoderAt env m).decodeJSON v ∧
      (decoderAt env n).decodeType v = (decoderAt env m).decodeType v := by
  intro k
  induction k with
  | zero =>
    intro v hv
    have := v.size_pos
    omega
  | succ k ih =>
    intro v hv n m hn hm
    have hpos := v.size_pos
    obtain ⟨n, rfl⟩ : ∃ n', n = n' + 1 := ⟨n - 1, by omega⟩
    obtain ⟨m, rfl⟩ : ∃ m', m = m' + 1 := ⟨m - 1, by omega⟩
    have hag : Agree (decoderAt env n) (decoderAt env m) (v.size - 1) := by
      refine ⟨?_, fun x hx => ih x (by omega) n m (by omega) (by omega)⟩
      cases n <;> cases m <;> rfl
    simp only [decoderAt]
    exact ⟨decodeJSONBody_congr hag (by omega), decodeTypeBody_congr hag (by omega)⟩

theorem decoderAt_agree_theDecoder (env : Env) (n : Nat) :
    Agree (decoderAt env n) (theDecoder env) n := by
  refine ⟨by cases n <;> rfl, fun x hx => ?_⟩
  have := decoderAt_stable env x.size x le_rfl n x.size hx le_rfl
  exact ⟨this.1, this.2⟩

/-- The recursive equation of Go `decodeJSON`. -/
theorem decodeJSON_eq (env : Env) (v : JSONValue) :
    decodeJSON env v = decodeJSONBody (theDecoder env) v := by
  have hpos := v.size_pos
  obtain ⟨n, hn⟩ : ∃ n, v.size = n + 1 := ⟨v.size - 1, by omega⟩
  unfold decodeJSON
  rw [hn]
  simp only [decoderAt]
  exact decodeJSONBody_congr (decoderAt_agree_theDecoder env n) (by omega)

/-- The recursive equation of Go `decodeType`. -/
theorem decodeType_eq (env : Env) (v : JSONValue) :
    decodeType env v = decodeTypeBody (theDecoder env) v := by
  have hpos := v.size_pos
  obtain ⟨n, hn⟩ : ∃ n, v.size = n + 1 := ⟨v.size - 1, by omega⟩
  unfold decodeType
  rw [hn]
  simp only [decoderAt]
  exact decodeTypeBody_congr (decoderAt_agree_theDecoder env n) (by omega)

/-! ## Shape of a value node -/

theorem Get_error {obj : jsonObject} {key : String} {e : GoError}
    (h : obj.Get key = .error e) : e = .ErrInvalidJSONCadence := by
  unfold jsonObject.Get at h
  split at h
  · cases h
  · cases h; rfl

theorem mem_keys_of_lookup {key : String} {x : JSONValue} :
    ∀ {m : List (String × JSONValue)}, m.lookup key = some x → key ∈ m.map Prod.fst
  | [], h => by simp at h
  | (k, v) :: rest, h => by
    rw [List.lookup_cons] at h
    by_cases hk : key == k
    · simp only [beq_iff_eq] at hk
      simp [hk]
    · simp only [hk] at h
      simp [mem_keys_of_lookup h]

theorem mem_keys_of_Get {obj : jsonObject} {key : String} {x : JSONValue}
    (h : obj.Get key = .ok x) : key ∈ obj.keys := by
  unfold jsonObject.Get at h
  split at h
  · rename_i v hv
    exact mem_keys_of_lookup hv
  · cases h

theorem mem_keys_of_GetString {obj : jsonObject} {key s : String}
    (h : obj.GetString key = .ok s) : key ∈ obj.keys := by
  unfold jsonObject.GetString at h
  cases hg : obj.Get key with
  | error e => rw [hg] at h; cases h
  | ok x => exact mem_keys_of_Get hg

theorem keys_of_len_one {obj : jsonObject} {a : String} (hlen : obj.len = 1)
    (ha : a ∈ obj.keys) : ∀ k, k ∈ obj.keys ↔ k = a := by
  unfold jsonObject.len at hlen
  unfold jsonObject.keys at *
  have ha' : a ∈ (obj.map Prod.fst).dedup := List.mem_dedup.mpr ha
  intro k
  rw [← List.mem_dedup]
  match hl : (obj.map Prod.fst).dedup, hlen, ha' with
  | [x], _, ha' =>
    simp only [List.mem_singleton] at ha' ⊢
    rw [ha']

theorem keys_of_len_two {obj : jsonObject} {a b : String} (hlen : obj.len = 2)
    (ha : a ∈ obj.keys) (hb : b ∈ obj.keys) (hab : a ≠ b) :
    ∀ k, k ∈ obj.keys ↔ (k = a ∨ k = b) := by
  unfold jsonObject.len at hlen
  unfold jsonObject.keys at *
  have ha' : a ∈ (obj.map Prod.fst).dedup := List.mem_dedup.mpr ha
  have hb' : b ∈ (obj.map Prod.fst).dedup := List.mem_dedup.mpr hb
  have hnd : ((obj.map Prod.fst).dedup).Nodup := List.nodup_dedup _
  intro k
  rw [← List.mem_dedup]
  match hl : (obj.map Prod.fst).dedup, hlen, ha', hb', hnd with
  | [x, y], _, ha', hb', hnd =>
    simp only [List.mem_cons, List.mem_singleton, List.not_mem_nil, or_false] at ha' hb' ⊢
    rcases ha' with rfl | rfl <;> rcases hb' with rfl | rfl
    · exact absurd rfl hab
    · rfl
    · exact or_comm
    · exact absurd rfl hab

/-- C2: a value node decodes only if its object has exactly the keys `type` and `value`,
or exactly the key `type` when the tag is `Void` (which then decodes to `Void`); this holds
for the node at the top and for every nested node, all being decoded by `decodeJSON`;
and the object with the single key `type` and tag `Void` decodes to `Void`. -/
theorem decodeJSON_node_shape (env : Env) :
    (∀ (v : JSONValue) (r : Value), decodeJSON env v = .ok r →
      ∃ (obj : jsonObject) (typeStr : String), v = .object obj ∧
        obj.GetString typeKey = .ok typeStr ∧
        ((typeStr = "Void" ∧ r = .void ∧ ∀ k, k ∈ obj.keys ↔ k = "type") ∨
         (typeStr ≠ "Void" ∧ (∃ payload, obj.Get valueKey = .ok payload) ∧
            ∀ k, k ∈ obj.keys ↔ (k = "type" ∨ k = "value")))) ∧
    decodeJSON env (.object [("type", .string "Void")]) = .ok .void := by
  constructor
  · intro v r h
    rw [decodeJSON_eq] at h
    unfold decodeJSONBody at h
    cases hobj : toObject v with
    | error e => rw [hobj] at h; cases h
    | ok obj =>
      rw [hobj] at h
      cases hts : obj.GetString typeKey with
      | error e => simp only [hts, bind, Except.bind] at h; cases h
      | ok typeStr =>
        simp only [hts, bind, Except.bind] at h
        have htype : "type" ∈ obj.keys := mem_keys_of_GetString hts
        refine ⟨obj, typeStr, toObject_ok hobj, hts, ?_⟩
        by_cases hvoid : typeStr = voidTypeStr
        · left
          rw [if_pos hvoid] at h
          unfold decodeVoid at h
          by_cases hlen : obj.len = 1
          · simp only [hlen, ne_eq, not_true_eq_false, if_false] at h
            cases h
            exact ⟨hvoid, rfl, keys_of_len_one hlen htype⟩
          · simp only [ne_eq, hlen, not_false_eq_true, if_true, invalid] at h
            cases h
        · right
          rw [if_neg hvoid] at h
          by_cases hlen : obj.len = 2
          · simp only [hlen, ne_eq, not_true_eq_false, if_false] at h
            cases hget : obj.Get valueKey with
            | error e => simp only [hget] at h; cases h
            | ok payload =>
              refine ⟨hvoid, ⟨payload, rfl⟩, ?_⟩
              exact keys_of_len_two hlen htype (mem_keys_of_Get hget) (by decide)
          · simp only [ne_eq, hlen, not_false_eq_true, if_true, invalid] at h
            cases h
  · rfl

/-- Witness of C2 at the node of the `Int8` value 5. -/
theorem decodeJSON_node_shape_witness :
    ∃ (obj : jsonObject) (typeStr : String), node "Int8" (.string "5") = .object obj ∧
        obj.GetString typeKey = .ok typeStr ∧
        ((typeStr = "Void" ∧ Value.int8 5 = .void ∧ ∀ k, k ∈ obj.keys ↔ k = "type") ∨
         (typeStr ≠ "Void" ∧ (∃ payload, obj.Get valueKey = .ok payload) ∧
            ∀ k, k ∈ obj.keys ↔ (k = "type" ∨ k = "value"))) :=
  (decodeJSON_node_shape sampleEnv).1 (node "Int8" (.string "5")) (.int8 5) rfl

/-! ## Unknown tags -/

theorem decodeTagged_unknown (d : Decoder) {typeStr : String} (hn : typeStr ∉ recognizedTags)
    (v : JSONValue) : decodeTagged d typeStr v = .error .ErrInvalidJSONCadence := by
  simp only [recognizedTags, List.mem_cons, List.mem_singleton, List.not_mem_nil, or_false,
    not_or] at hn
  obtain ⟨_, h1, h2, h3, h4, h5, h6, h7, h8, h9, h10, h11, h12, h13, h14, h15, h16, h17, h18,
    h19, h20, h21, h22, h23, h24, h25, h26, h27, h28, h29, h30, h31, h32, h33, h34, h35, h36⟩ := hn
  unfold decodeTagged
  rw [if_neg h1, if_neg h2, if_neg h3, if_neg h4, if_neg h5, if_neg h6, if_neg h7, if_neg h8,
    if_neg h9, if_neg h10, if_neg h11, if_neg h12, if_neg h13, if_neg h14, if_neg h15,
    if_neg h16, if_neg h17, if_neg h18, if_neg h19, if_neg h20, if_neg h21, if_neg h22,
    if_neg h23, if_neg h24, if_neg h25, if_neg h26, if_neg h28, if_neg h27, if_neg h29,
    if_neg h30, if_neg h31, if_neg h32, if_neg h33, if_neg h34, if_neg h35, if_neg h36]
  rfl

theorem decodeJSON_unknown_tag (env : Env) {obj : jsonObject} {typeStr : String}
    (h : obj.GetString typeKey = .ok typeStr) (hn : typeStr ∉ recognizedTags) :
    decodeJSON env (.object obj) = .error .ErrInvalidJSONCadence := by
  have hvoid : typeStr ≠ voidTypeStr := by
    intro hv
    apply hn
    rw [hv]
    decide
  rw [decodeJSON_eq]
  unfold decodeJSONBody
  simp only [toObject, h, bind, Except.bind]
  rw [if_neg hvoid]
  by_cases hlen : obj.len = 2
  · simp only [hlen, ne_eq, not_true_eq_false, if_false]
    cases hget : obj.Get valueKey with
    | error e => simp only [Get_error hget]
    | ok payload => exact decodeTagged_unknown _ hn payload
  · simp only [ne_eq, hlen, not_false_eq_true, if_true, invalid]

/-- C3: an object whose `type` string is not one of the recognized tags is rejected:
`Decode` returns no value and an error that wraps `ErrInvalidJSONCadence`. -/
theorem Decode_unknown_tag (env : Env) (jsonDecode : Bytes → Except String jsonObject)
    (b : Bytes) (obj : jsonObject) (typeStr : String) (hb : jsonDecode b = .ok obj)
    (h : obj.GetString typeKey = .ok typeStr) (hn : typeStr ∉ recognizedTags) :
    ∃ err, Decode env jsonDecode b = (none, some err) ∧
      Decoder.Decode env (.ok obj) = (none, some err) ∧
      err = .wrap "failed to decode value" .ErrInvalidJSONCadence ∧
      err.isInvalidJSONCadence = true := by
  refine ⟨.wrap "failed to decode value" .ErrInvalidJSONCadence, ?_, ?_, rfl, rfl⟩
  · simp only [Decode, hb, Decoder.Decode, decodeJSON_unknown_tag env h hn]
  · simp only [Decoder.Decode, decodeJSON_unknown_tag env h hn]

/-- Witness of C3 at the object with tag `Bogus` and payload `x`. -/
theorem Decode_unknown_tag_witness :
    ∃ err, Decode sampleEnv (fun _ => .ok [("type", .string "Bogus"), ("value", .string "x")]) []
        = (none, some err) ∧
      Decoder.Decode sampleEnv (.ok [("type", .string "Bogus"), ("value", .string "x")])
        = (none, some err) ∧
      err = .wrap "failed to decode value" .ErrInvalidJSONCadence ∧
      err.isInvalidJSONCadence = true :=
  Decode_unknown_tag sampleEnv (fun _ => .ok [("type", .string "Bogus"), ("value", .string "x")])
    [] [("type", .string "Bogus"), ("value", .string "x")] "Bogus" rfl rfl (by decide)

/-! ## Optional -/

theorem decodeTagged_of_node (env : Env) (obj : jsonObject) (typeStr : String)
    (payload : JSONValue) (htype : obj.GetString typeKey = .ok typeStr)
    (hvoid : typeStr ≠ voidTypeStr) (hlen : obj.len = 2)
    (hvalue : obj.Get valueKey = .ok payload) :
    decodeJSON env (.object obj) = decodeTagged (theDecoder env) typeStr payload := by
  rw [decodeJSON_eq]
  unfold decodeJSONBody
  simp only [toObject, htype, bind, Except.bind]
  rw [if_neg hvoid]
  simp only [hlen, ne_eq, not_true_eq_false, if_false, hvalue]

/-- C10: a node with tag `Optional` and payload `p` decodes to the empty optional when `p`
is JSON null, and otherwise to the optional that wraps the decoding of `p` as a value node;
it fails exactly when `p` is not null and the decoding of `p` fails. -/
theorem decodeJSON_optional (env : Env) (obj : jsonObject) (p : JSONValue)
    (htype : obj.GetString typeKey = .ok "Optional") (hlen : obj.len = 2)
    (hvalue : obj.Get valueKey = .ok p) :
    (p = .null → decodeJSON env (.object obj) = .ok (.optional none)) ∧
    (p ≠ .null → ∀ inner, decodeJSON env p = .ok inner →
      decodeJSON env (.object obj) = .ok (.optional (some inner))) ∧
    ((∃ e, decodeJSON env (.object obj) = .error e) ↔
      (p ≠ .null ∧ ∃ e, decodeJSON env p = .error e)) := by
  have hd := decodeTagged_of_node env obj "Optional" p htype (by decide) hlen hvalue
  have hopt : decodeTagged (theDecoder env) "Optional" p = decodeOptional (theDecoder env) p := by
    unfold decodeTagged
    rw [if_pos rfl]
  rw [hd, hopt]
  cases p with
  | null => simp [decodeOptional]
  | bool b => cases h : decodeJSON env (.bool b) <;> simp [decodeOptional, theDecoder, h, bind, Except.bind]
  | number f => cases h : decodeJSON env (.number f) <;> simp [decodeOptional, theDecoder, h, bind, Except.bind]
  | string s => cases h : decodeJSON env (.string s) <;> simp [decodeOptional, theDecoder, h, bind, Except.bind]
  | array xs => cases h : decodeJSON env (.array xs) <;> simp [decodeOptional, theDecoder, h, bind, Except.bind]
  | object m => cases h : decodeJSON env (.object m) <;> simp [decodeOptional, theDecoder, h, bind, Except.bind]

/-- Witness of C10 at the optional that wraps the `Int8` value 5. -/
theorem decodeJSON_optional_witness :
    (node "Int8" (.string "5") = .null →
      decodeJSON sampleEnv (node "Optional" (node "Int8" (.string "5"))) = .ok (.optional none)) ∧
    (node "Int8" (.string "5") ≠ .null → ∀ inner,
      decodeJSON sampleEnv (node "Int8" (.string "5")) = .ok inner →
      decodeJSON sampleEnv (node "Optional" (node "Int8" (.string "5")))
        = .ok (.optional (some inner))) ∧
    ((∃ e, decodeJSON sampleEnv (node "Optional" (node "Int8" (.string "5"))) = .error e) ↔
      (node "Int8" (.string "5") ≠ .null ∧
        ∃ e, decodeJSON sampleEnv (node "Int8" (.string "5")) = .error e)) :=
  decodeJSON_optional sampleEnv [("type", .string "Optional"), ("value", node "Int8" (.string "5"))]
    (node "Int8" (.string "5")) rfl rfl rfl

/-! ## Addresses -/

theorem char_eq_of_toNat {c : Char} {n : Nat} (h : c.toNat = n) : c = Char.ofNat n := by
  rw [← h, Char.ofNat_toNat]

theorem fromHexChar_eq (c : Char) :
    fromHexChar c = if isHexDigit c then some (hexDigitValue c) else none := by
  by_cases h : isHexDigit c = true
  · rw [if_pos h]
    simp only [isHexDigit, hexDigits, List.contains_iff_exists_mem_beq, List.mem_cons,
      List.mem_singleton, beq_iff_eq, exists_eq_or_imp, exists_eq_left, List.not_mem_nil,
      false_and, exists_false, or_false] at h
    rcases h with h | h | h | h | h | h | h | h | h | h | h | h | h | h | h | h | h | h | h | h | h | h <;>
      subst h <;> rfl
  · rw [if_neg h]
    unfold fromHexChar
    have hlt : ∀ a b : Char, a ≤ b ↔ a.toNat ≤ b.toNat := fun a b => Iff.rfl
    by_cases h1 : '0' ≤ c ∧ c ≤ '9'
    · exfalso
      apply h
      obtain ⟨ha, hb⟩ := h1
      rw [hlt] at ha hb
      have h48 : ('0' : Char).toNat = 48 := rfl
      have h57 : ('9' : Char).toNat = 57 := rfl
      rw [h48] at ha
      rw [h57] at hb
      generalize hn : c.toNat = n at ha hb
      have hc := char_eq_of_toNat hn
      interval_cases n <;> subst hc <;> rfl
    · rw [if_neg h1]
      by_cases h2 : 'a' ≤ c ∧ c ≤ 'f'
      · exfalso
        apply h
        obtain ⟨ha, hb⟩ := h2
        rw [hlt] at ha hb
        have h97 : ('a' : Char).toNat = 97 := rfl
        have h102 : ('f' : Char).toNat = 102 := rfl
        rw [h97] at ha
        rw [h102] at hb
        generalize hn : c.toNat = n at ha hb
        have hc := char_eq_of_toNat hn
        interval_cases n <;> subst hc <;> rfl
      · rw [if_neg h2]
        by_cases h3 : 'A' ≤ c ∧ c ≤ 'F'
        · exfalso
          apply h
          obtain ⟨ha, hb⟩ := h3
          rw [hlt] at ha hb
          have h65 : ('A' : Char).toNat = 65 := rfl
          have h70 : ('F' : Char).toNat = 70 := rfl
          rw [h65] at ha
          rw [h70] at hb
          generalize hn : c.toNat = n at ha hb
          have hc := char_eq_of_toNat hn
          interval_cases n <;> subst hc <;> rfl
        · rw [if_neg h3]

theorem hexDecode_eq : ∀ t : List Char,
    hexDecode t = if isHexString t then some (hexBytes t) else none
  | [] => rfl
  | [c] => by simp [hexDecode, isHexString]
  | p :: q :: rest => by
    have ih := hexDecode_eq rest
    have hlen : ((p :: q :: rest).length % 2 == 0) = (rest.length % 2 == 0) := by
      simp only [List.length_cons]
      congr 1
      omega
    unfold hexDecode
    rw [fromHexChar_eq p, fromHexChar_eq q, ih]
    simp only [isHexString, hlen, List.all_cons, hexBytes]
    by_cases hp : isHexDigit p = true <;> by_cases hq : isHexDigit q = true <;>
      by_cases hl : (rest.length % 2 == 0) = true <;>
      by_cases hr : rest.all isHexDigit = true <;>
      simp [hp, hq, hl, hr]

theorem hexBytes_length : ∀ t : List Char, t.length % 2 = 0 → (hexBytes t).length = t.length / 2
  | [], _ => rfl
  | [c], h => by simp at h
  | p :: q :: rest, h => by
    simp only [List.length_cons] at h
    have := hexBytes_length rest (by omega)
    simp only [hexBytes, List.length_cons, this]
    omega

theorem utf8ByteSize_go_ge (cs : List Char) (n : Nat) :
    n ≤ String.utf8ByteSize.go cs + n := by omega

theorem utf8ByteSize_ge_two (c₁ c₂ : Char) (cs : List Char) :
    2 ≤ (String.mk (c₁ :: c₂ :: cs)).utf8ByteSize := by
  have h1 : 1 ≤ c₁.utf8Size := Char.utf8Size_pos c₁
  have h2 : 1 ≤ c₂.utf8Size := Char.utf8Size_pos c₂
  simp only [String.utf8ByteSize, String.utf8ByteSize.go]
  omega

theorem decodeTagged_address (d : Decoder) (v : JSONValue) :
    decodeTagged d "Address" v = (decodeAddress v >>= fun a => .ok (.address a)) := by
  unfold decodeTagged
  simp +decide only [if_true, if_false]

theorem decodeJSON_address_node (env : Env) (v : JSONValue) :
    decodeJSON env (node "Address" v) = (decodeAddress v >>= fun a => .ok (.address a)) := by
  rw [node, decodeTagged_of_node env [("type", .string "Address"), ("value", v)]
    "Address" v rfl (by decide) rfl rfl]
  exact decodeTagged_address _ v

/-- C8: decoding an address fails for every string payload that does not begin with `0x`,
and for every payload that continues `0x` with something that is not the hexadecimal
encoding of bytes (a character that is no hexadecimal digit, or an odd number of digits). -/
theorem decodeAddress_rejects (env : Env) (s : String)
    (h : ¬ (['0', 'x'] <+: s.toList) ∨
      ∃ t, s.toList = '0' :: 'x' :: t ∧ isHexString t = false) :
    (∃ e, decodeAddress (.string s) = .error e) ∧
    (∃ e, decodeJSON env (node "Address" (.string s)) = .error e) := by
  have key : ∃ e, decodeAddress (.string s) = .error e := by
    simp only [decodeAddress, toString, bind, Except.bind]
    split
    · exact ⟨_, rfl⟩
    · rcases h with h | ⟨t, ht, hhex⟩
      · have hne : s.toList.take 2 ≠ ['0', 'x'] := by
          intro heq
          apply h
          rw [← heq]
          exact List.take_prefix 2 _
        rw [if_pos hne]
        exact ⟨_, rfl⟩
      · have heq : ¬ (s.toList.take 2 ≠ ['0', 'x']) := by rw [ht]; simp
        rw [if_neg heq]
        have hd : s.toList.drop 2 = t := by rw [ht]; rfl
        rw [hd, hexDecode_eq, hhex]
        exact ⟨_, rfl⟩
  refine ⟨key, ?_⟩
  obtain ⟨e, he⟩ := key
  rw [decodeJSON_address_node, he]
  exact ⟨e, rfl⟩

/-- Witness of C8 at the payloads `abcdef` (no `0x`) and `0xYYYY` (no hexadecimal digits). -/
theorem decodeAddress_rejects_witness :
    ((∃ e, decodeAddress (.string "abcdef") = .error e) ∧
      (∃ e, decodeJSON sampleEnv (node "Address" (.string "abcdef")) = .error e)) ∧
    ((∃ e, decodeAddress (.string "0xYYYY") = .error e) ∧
      (∃ e, decodeJSON sampleEnv (node "Address" (.string "0xYYYY")) = .error e)) :=
  ⟨decodeAddress_rejects sampleEnv "abcdef" (Or.inl (by decide)),
   decodeAddress_rejects sampleEnv "0xYYYY" (Or.inr ⟨['Y', 'Y', 'Y', 'Y'], rfl, rfl⟩)⟩

/-- C9: a payload that continues `0x` with the hexadecimal encoding (digits of either case)
of at most `AddressLength` bytes decodes to the address made of exactly these bytes: they
are its last bytes, every byte before them is zero, and at full width the address is the
byte sequence itself; the payload `0x01` gives the address `0x01`. -/
theorem decodeAddress_accepts (env : Env) (s : String) (t : List Char)
    (hs : s.toList = '0' :: 'x' :: t) (hhex : isHexString t = true)
    (hlen : t.length / 2 ≤ AddressLength) :
    ∃ a : Bytes, decodeJSON env (node "Address" (.string s)) = .ok (.address a) ∧
      decodeAddress (.string s) = .ok a ∧
      a = List.replicate (AddressLength - (hexBytes t).length) 0 ++ hexBytes t ∧
      a.length = AddressLength ∧
      a.drop (AddressLength - (hexBytes t).length) = hexBytes t ∧
      ((hexBytes t).length = AddressLength → a = hexBytes t) := by
  have heven : t.length % 2 = 0 := by
    simp only [isHexString, Bool.and_eq_true, beq_iff_eq] at hhex
    exact hhex.1
  have hbl := hexBytes_length t heven
  have hsz : ¬ s.utf8ByteSize < 2 := by
    have : s = String.mk ('0' :: 'x' :: t) := by
      rw [← hs]
      rfl
    rw [this]
    have := utf8ByteSize_ge_two '0' 'x' t
    omega
  have heq : ¬ (s.toList.take 2 ≠ ['0', 'x']) := by rw [hs]; simp
  have hd : s.toList.drop 2 = t := by rw [hs]; rfl
  have hdec : decodeAddress (.string s)
      = .ok (List.replicate (AddressLength - (hexBytes t).length) 0 ++ hexBytes t) := by
    simp only [decodeAddress, toString, bind, Except.bind]
    rw [if_neg hsz, if_neg heq, hd, hexDecode_eq, hhex]
    simp only [if_true, BytesToUnmeteredAddress]
    rw [if_pos (by omega)]
  refine ⟨_, ?_, hdec, rfl, ?_, ?_, ?_⟩
  · rw [decodeJSON_address_node, hdec]
    rfl
  · simp only [List.length_append, List.length_replicate]
    omega
  · rw [List.drop_left' (by simp)]
  · intro hfull
    rw [hfull]
    simp

/-- Witness of C9 at the payload `0x01`. -/
theorem decodeAddress_accepts_witness :
    decodeJSON sampleEnv (node "Address" (.string "0x01")) = .ok (.address [0, 0, 0, 0, 0, 0, 0, 1]) ∧
    ∃ a : Bytes, decodeJSON sampleEnv (node "Address" (.string "0x01")) = .ok (.address a) ∧
      decodeAddress (.string "0x01") = .ok a ∧
      a = List.replicate (AddressLength - (hexBytes ['0', '1']).length) 0 ++ hexBytes ['0', '1'] ∧
      a.length = AddressLength ∧
      a.drop (AddressLength - (hexBytes ['0', '1']).length) = hexBytes ['0', '1'] ∧
      ((hexBytes ['0', '1']).length = AddressLength → a = hexBytes ['0', '1']) :=
  ⟨rfl, decodeAddress_accepts sampleEnv "0x01" ['0', '1'] rfl rfl (by decide)⟩

/-! ## Integers -/

theorem digitValue_eq (c : Char) :
    digitValue c = if c.isDigit then some (c.toNat - 48) else none := by
  unfold digitValue Char.isDigit
  have hle : ∀ a b : Char, a ≤ b ↔ a.val ≤ b.val := fun a b => Iff.rfl
  have h0 : ('0' : Char).val = 48 := rfl
  have h9 : ('9' : Char).val = 57 := rfl
  have hn : ('0' : Char).toNat = 48 := rfl
  simp only [hle, h0, h9, hn, ge_iff_le, Bool.and_eq_true, decide_eq_true_eq]

theorem parseDigitsAux_eq : ∀ (cs : List Char) (acc : Nat),
    parseDigitsAux cs acc = if cs.all Char.isDigit then
      some (acc * 10 ^ cs.length + decimalValue cs) else none
  | [], acc => by simp [parseDigitsAux, decimalValue]
  | c :: cs, acc => by
    unfold parseDigitsAux
    rw [digitValue_eq]
    by_cases hc : c.isDigit = true
    · simp only [hc, if_true, List.all_cons, Bool.true_and]
      rw [parseDigitsAux_eq cs]
      by_cases hcs : cs.all Char.isDigit = true
      · simp only [hcs, if_true, decimalValue, List.reverse_cons, List.map_append, List.map_cons,
          List.map_nil, Nat.ofDigits_append, List.length_map, List.length_reverse,
          Nat.ofDigits_singleton, List.length_cons]
        congr 1
        ring
      · simp only [hcs, if_false]
        rfl
    · simp only [hc, if_false, List.all_cons, Bool.false_and]
      rfl

theorem parseDigits_eq (cs : List Char) :
    parseDigits cs = if isDecimalDigits cs then some (decimalValue cs) else none := by
  cases cs with
  | nil => rfl
  | cons c cs =>
    show parseDigitsAux (c :: cs) 0 = _
    rw [parseDigitsAux_eq]
    simp [isDecimalDigits]

theorem parseDigits_sign {c : Char} (hc : c.isDigit = false) (cs : List Char) :
    parseDigits (c :: cs) = none := by
  rw [parseDigits_eq]
  simp [isDecimalDigits, hc]

theorem parseSignedDigits_iff (s : String) (n : Int) :
    parseSignedDigits s.toList = some n ↔ SignedDecimal s n := by
  unfold SignedDecimal
  generalize s.toList = cs
  constructor
  · intro h
    unfold parseSignedDigits at h
    split at h
    · rename_i ds
      rw [parseDigits_eq] at h
      by_cases hd : isDecimalDigits ds = true
      · simp only [hd, if_true, Option.map_some', Option.some.injEq] at h
        exact ⟨ds, hd, Or.inr (Or.inl ⟨rfl, h.symm⟩)⟩
      · simp [hd] at h
    · rename_i ds
      rw [parseDigits_eq] at h
      by_cases hd : isDecimalDigits ds = true
      · simp only [hd, if_true, Option.map_some', Option.some.injEq] at h
        exact ⟨ds, hd, Or.inr (Or.inr ⟨rfl, h.symm⟩)⟩
      · simp [hd] at h
    · rw [parseDigits_eq] at h
      by_cases hd : isDecimalDigits cs = true
      · simp only [hd, if_true, Option.map_some', Option.some.injEq] at h
        exact ⟨cs, hd, Or.inl ⟨rfl, h.symm⟩⟩
      · simp [hd] at h
  · rintro ⟨ds, hd, h | h | h⟩
    · obtain ⟨rfl, rfl⟩ := h
      have hp : parseDigits cs = some (decimalValue cs) := by rw [parseDigits_eq, hd]; rfl
      unfold parseSignedDigits
      split
      · rw [parseDigits_sign (by decide)] at hp
        cases hp
      · rw [parseDigits_sign (by decide)] at hp
        cases hp
      · rw [hp]
        rfl
    · obtain ⟨rfl, rfl⟩ := h
      simp only [parseSignedDigits, parseDigits_eq, hd, if_true, Option.map_some']
      rfl
    · obtain ⟨rfl, rfl⟩ := h
      simp only [parseSignedDigits, parseDigits_eq, hd, if_true, Option.map_some']
      rfl

theorem parseDigits_iff (s : String) (n : Nat) :
    parseDigits s.toList = some n ↔ UnsignedDecimal s n := by
  unfold UnsignedDecimal
  rw [parseDigits_eq]
  generalize s.toList = cs
  by_cases hd : isDecimalDigits cs = true
  · simp only [hd, if_true, Option.some.injEq, true_and]
    constructor
    · intro h; rw [h]
    · intro h; exact_mod_cast h.symm
  · simp [hd]

theorem decodeJSON_node (env : Env) (tag : String) (payload : JSONValue)
    (hvoid : tag ≠ voidTypeStr) :
    decodeJSON env (node tag payload) = decodeTagged (theDecoder env) tag payload := by
  rw [node, decodeTagged_of_node env [("type", .string tag), ("value", payload)]
    tag payload rfl hvoid rfl rfl]

theorem decodeTagged_integer (d : Decoder) (T : IntegerTag) (v : JSONValue) :
    decodeTagged d T.name v = T.decoder v := by
  cases T <;>
    (unfold decodeTagged
     simp +decide only [IntegerTag.name, IntegerTag.decoder, if_true, if_false])

theorem IntegerTag.name_ne_void (T : IntegerTag) : T.name ≠ voidTypeStr := by
  cases T <;> decide

theorem strconvParseInt_iff (s : String) (w : Nat) (i : Int) :
    strconvParseInt s w = some i ↔
      SignedDecimal s i ∧ -2 ^ (w - 1) ≤ i ∧ i < 2 ^ (w - 1) := by
  unfold strconvParseInt
  rw [← parseSignedDigits_iff]
  cases h : parseSignedDigits s.toList with
  | none => simp
  | some j =>
    by_cases hr : -(2 : Int) ^ (w - 1) ≤ j ∧ j < (2 : Int) ^ (w - 1)
    · simp only [hr, and_self, if_true, Option.some.injEq]
      constructor
      · rintro rfl
        exact ⟨rfl, hr⟩
      · rintro ⟨h, _⟩
        exact h
    · simp only [hr, if_false]
      constructor
      · intro h
        cases h
      · rintro ⟨hji, h1, h2⟩
        cases hji
        exact absurd ⟨h1, h2⟩ hr

theorem strconvParseUint_iff (s : String) (w : Nat) (n : Nat) :
    strconvParseUint s w = some n ↔ UnsignedDecimal s n ∧ n < 2 ^ w := by
  unfold strconvParseUint
  rw [← parseDigits_iff]
  cases h : parseDigits s.toList with
  | none => simp
  | some j =>
    by_cases hr : j < 2 ^ w
    · simp only [hr, if_true, Option.some.injEq]
      constructor
      · rintro rfl
        exact ⟨rfl, hr⟩
      · rintro ⟨h, _⟩
        exact h
    · simp only [hr, if_false]
      constructor
      · intro h
        cases h
      · rintro ⟨hji, h1⟩
        cases hji
        exact absurd h1 hr

theorem wrapSigned_of_range (w : Nat) (hw : 0 < w) (i : Int)
    (h : -2 ^ (w - 1) ≤ i ∧ i < 2 ^ (w - 1)) : wrapSigned w i = i := by
  unfold wrapSigned
  have hp : (2 : Int) ^ w = 2 * 2 ^ (w - 1) := by
    obtain ⟨k, rfl⟩ : ∃ k, w = k + 1 := ⟨w - 1, by omega⟩
    simp [pow_succ, mul_comm]
  rw [Int.emod_eq_of_lt (by omega) (by omega)]
  omega

theorem wrapUnsigned_of_range (w : Nat) (n : Nat) (h : n < 2 ^ w) : wrapUnsigned w n = n :=
  Nat.mod_eq_of_lt h

theorem parseInt_family (c : Int → Value) (w : Nat) (hw : 0 < w) (s : String) (v : Value) :
    (match strconvParseInt s w with
      | some i => (Except.ok (c (wrapSigned w i)) : Panics Value)
      | none => invalid) = .ok v ↔
    ∃ n, SignedDecimal s n ∧ (-2 ^ (w - 1) ≤ n ∧ n < 2 ^ (w - 1)) ∧ v = c n := by
  cases h : strconvParseInt s w with
  | none =>
    simp only [invalid]
    constructor
    · intro h'; cases h'
    · rintro ⟨n, hs, hr, _⟩
      have := (strconvParseInt_iff s w n).mpr ⟨hs, hr⟩
      rw [h] at this
      cases this
  | some i =>
    have hi := (strconvParseInt_iff s w i).mp h
    simp only [wrapSigned_of_range w hw i hi.2]
    constructor
    · intro h'
      cases h'
      exact ⟨i, hi.1, hi.2, rfl⟩
    · rintro ⟨n, hs, hr, rfl⟩
      have := (strconvParseInt_iff s w n).mpr ⟨hs, hr⟩
      rw [h] at this
      cases this
      rfl

theorem parseUint_family (c : Nat → Value) (w : Nat) (s : String) (v : Value) :
    (match strconvParseUint s w with
      | some i => (Except.ok (c (wrapUnsigned w i)) : Panics Value)
      | none => invalid) = .ok v ↔
    ∃ n : Int, UnsignedDecimal s n ∧ (0 ≤ n ∧ n < 2 ^ w) ∧ v = c n.toNat := by
  cases h : strconvParseUint s w with
  | none =>
    simp only [invalid]
    constructor
    · intro h'; cases h'
    · rintro ⟨n, hs, hr, _⟩
      have hn : n = (n.toNat : Int) := (Int.toNat_of_nonneg hr.1).symm
      have := (strconvParseUint_iff s w n.toNat).mpr
        ⟨by rw [← hn]; exact hs, by have := hr.2; zify; rw [← hn]; exact_mod_cast this⟩
      rw [h] at this
      cases this
  | some i =>
    have hi := (strconvParseUint_iff s w i).mp h
    simp only [wrapUnsigned_of_range w i hi.2]
    constructor
    · intro h'
      cases h'
      exact ⟨i, hi.1, ⟨by omega, by exact_mod_cast hi.2⟩, rfl⟩
    · rintro ⟨n, hs, hr, rfl⟩
      have hn : n = (n.toNat : Int) := (Int.toNat_of_nonneg hr.1).symm
      have := (strconvParseUint_iff s w n.toNat).mpr
        ⟨by rw [← hn]; exact hs, by have := hr.2; zify; rw [← hn]; exact_mod_cast this⟩
      rw [h] at this
      cases this
      rfl

theorem bigInt_family (c : Int → Value) (check : Int → Option Int) (R : Int → Prop)
    (hcheck : ∀ i j, check i = some j ↔ (R i ∧ j = i)) (s : String) (v : Value) :
    ((match bigIntSetString s with
      | some i => (Except.ok i : Panics Int)
      | none => invalid) >>= fun bigInt =>
        match check bigInt with
        | some value => (Except.ok (c value) : Panics Value)
        | none => invalid) = .ok v ↔
    ∃ n, SignedDecimal s n ∧ R n ∧ v = c n := by
  unfold bigIntSetString
  cases h : parseSignedDigits s.toList with
  | none =>
    simp only [invalid, bind, Except.bind]
    constructor
    · intro h'; cases h'
    · rintro ⟨n, hs, _, _⟩
      have := (parseSignedDigits_iff s n).mpr hs
      rw [h] at this
      cases this
  | some i =>
    have hi := (parseSignedDigits_iff s i).mp h
    simp only [bind, Except.bind]
    cases hc : check i with
    | none =>
      simp only [invalid]
      constructor
      · intro h'; cases h'
      · rintro ⟨n, hs, hr, _⟩
        have := (parseSignedDigits_iff s n).mpr hs
        rw [h] at this
        cases this
        have := (hcheck i i).mpr ⟨hr, rfl⟩
        rw [hc] at this
        cases this
    | some j =>
      obtain ⟨hr, rfl⟩ := (hcheck i j).mp hc
      simp only
      constructor
      · intro h'
        cases h'
        exact ⟨j, hi, hr, rfl⟩
      · rintro ⟨n, hs, _, rfl⟩
        have := (parseSignedDigits_iff s n).mpr hs
        rw [h] at this
        cases this
        rfl

theorem NewSignedFromBig_iff (bits : Nat) (i j : Int) :
    NewSignedFromBig bits i = some j ↔
      ((-2 ^ (bits - 1) ≤ i ∧ i < 2 ^ (bits - 1)) ∧ j = i) := by
  unfold NewSignedFromBig
  split
  · rename_i h
    simp only [Option.some.injEq]
    constructor
    · rintro rfl; exact ⟨h, rfl⟩
    · rintro ⟨_, rfl⟩; rfl
  · rename_i h
    constructor
    · intro h'; cases h'
    · rintro ⟨h', _⟩; exact absurd h' h

theorem NewUnsignedFromBig_iff (bits : Nat) (i j : Int) :
    NewUnsignedFromBig bits i = some j ↔ ((0 ≤ i ∧ i < 2 ^ bits) ∧ j = i) := by
  unfold NewUnsignedFromBig
  split
  · rename_i h
    simp only [Option.some.injEq]
    constructor
    · rintro rfl; exact ⟨h, rfl⟩
    · rintro ⟨_, rfl⟩; rfl
  · rename_i h
    constructor
    · intro h'; cases h'
    · rintro ⟨h', _⟩; exact absurd h' h

theorem NewUIntFromBig_iff (i j : Int) : NewUIntFromBig i = some j ↔ (0 ≤ i ∧ j = i) := by
  unfold NewUIntFromBig
  split
  · rename_i h
    simp only [Option.some.injEq]
    constructor
    · rintro rfl; exact ⟨h, rfl⟩
    · rintro ⟨_, rfl⟩; rfl
  · rename_i h
    constructor
    · intro h'; cases h'
    · rintro ⟨h', _⟩; exact absurd h' h

theorem IntegerTag.decoder_string (T : IntegerTag) (s : String) (v : Value) :
    T.decoder (.string s) = .ok v ↔ ∃ n, T.Holds s n ∧ T.inRange n ∧ v = T.value n := by
  cases T
  case int =>
    simp only [IntegerTag.decoder, decodeInt, decodeBigInt, toString, IntegerTag.Holds,
      IntegerTag.readsSign, IntegerTag.inRange, IntegerTag.value, if_true]
    have := bigInt_family Value.int some (fun _ => True) (by simp [eq_comm]) s v
    simpa [bind, Except.bind] using this
  case int8 =>
    simp only [IntegerTag.decoder, decodeInt8, toString, IntegerTag.Holds,
      IntegerTag.readsSign, IntegerTag.inRange, IntegerTag.value, if_true]
    have := parseInt_family Value.int8 8 (by decide) s v
    simpa [bind, Except.bind] using this
  case int16 =>
    simp only [IntegerTag.decoder, decodeInt16, toString, IntegerTag.Holds,
      IntegerTag.readsSign, IntegerTag.inRange, IntegerTag.value, if_true]
    have := parseInt_family Value.int16 16 (by decide) s v
    simpa [bind, Except.bind] using this
  case int32 =>
    simp only [IntegerTag.decoder, decodeInt32, toString, IntegerTag.Holds,
      IntegerTag.readsSign, IntegerTag.inRange, IntegerTag.value, if_true]
    have := parseInt_family Value.int32 32 (by decide) s v
    simpa [bind, Except.bind] using this
  case int64 =>
    simp only [IntegerTag.decoder, decodeInt64, toString, IntegerTag.Holds,
      IntegerTag.readsSign, IntegerTag.inRange, IntegerTag.value, if_true]
    have := parseInt_family Value.int64 64 (by decide) s v
    have hw : ∀ i, strconvParseInt s 64 = some i → wrapSigned 64 i = i := fun i hi =>
      wrapSigned_of_range 64 (by decide) i ((strconvParseInt_iff s 64 i).mp hi).2
    simp only [bind, Except.bind]
    cases hp : strconvParseInt s 64 with
    | none => rw [hp] at this; simpa [bind, Except.bind] using this
    | some i => rw [hp] at this; simp only [hw i hp] at this; simpa [bind, Except.bind] using this
  case int128 =>
    simp only [IntegerTag.decoder, decodeInt128, decodeBigInt, toString, IntegerTag.Holds,
      IntegerTag.readsSign, IntegerTag.inRange, IntegerTag.value, if_true]
    have := bigInt_family Value.int128 (NewSignedFromBig 128) _ (NewSignedFromBig_iff 128) s v
    simpa [bind, Except.bind] using this
  case int256 =>
    simp only [IntegerTag.decoder, decodeInt256, decodeBigInt, toString, IntegerTag.Holds,
      IntegerTag.readsSign, IntegerTag.inRange, IntegerTag.value, if_true]
    have := bigInt_family Value.int256 (NewSignedFromBig 256) _ (NewSignedFromBig_iff 256) s v
    simpa [bind, Except.bind] using this
  case uint =>
    simp only [IntegerTag.decoder, decodeUInt, decodeBigInt, toString, IntegerTag.Holds,
      IntegerTag.readsSign, IntegerTag.inRange, IntegerTag.value, if_true]
    have := bigInt_family Value.uint (NewUIntFromBig) _ (NewUIntFromBig_iff) s v
    simpa [bind, Except.bind] using this
  case uint8 =>
    simp only [IntegerTag.decoder, decodeUInt8, toString, IntegerTag.Holds,
      IntegerTag.readsSign, IntegerTag.inRange, IntegerTag.value, if_false, Bool.false_eq_true]
    have := parseUint_family Value.uint8 8 s v
    simpa [bind, Except.bind] using this
  case uint16 =>
    simp only [IntegerTag.decoder, decodeUInt16, toString, IntegerTag.Holds,
      IntegerTag.readsSign, IntegerTag.inRange, IntegerTag.value, if_false, Bool.false_eq_true]
    have := parseUint_family Value.uint16 16 s v
    simpa [bind, Except.bind] using this
  case uint32 =>
    simp only [IntegerTag.decoder, decodeUInt32, toString, IntegerTag.Holds,
      IntegerTag.readsSign, IntegerTag.inRange, IntegerTag.value, if_false, Bool.false_eq_true]
    have := parseUint_family Value.uint32 32 s v
    simpa [bind, Except.bind] using this
  case uint64 =>
    simp only [IntegerTag.decoder, decodeUInt64, toString, IntegerTag.Holds,
      IntegerTag.readsSign, IntegerTag.inRange, IntegerTag.value, if_false, Bool.false_eq_true]
    have := parseUint_family Value.uint64 64 s v
    have hw : ∀ i, strconvParseUint s 64 = some i → wrapUnsigned 64 i = i := fun i hi =>
      wrapUnsigned_of_range 64 i ((strconvParseUint_iff s 64 i).mp hi).2
    simp only [bind, Except.bind]
    cases hp : strconvParseUint s 64 with
    | none => rw [hp] at this; simpa [bind, Except.bind] using this
    | some i => rw [hp] at this; simp only [hw i hp] at this; simpa [bind, Except.bind] using this
  case uint128 =>
    simp only [IntegerTag.decoder, decodeUInt128, decodeBigInt, toString, IntegerTag.Holds,
      IntegerTag.readsSign, IntegerTag.inRange, IntegerTag.value, if_true]
    have := bigInt_family Value.uint128 (NewUnsignedFromBig 128) _ (NewUnsignedFromBig_iff 128) s v
    simpa [bind, Except.bind] using this
  case uint256 =>
    simp only [IntegerTag.decoder, decodeUInt256, decodeBigInt, toString, IntegerTag.Holds,
      IntegerTag.readsSign, IntegerTag.inRange, IntegerTag.value, if_true]
    have := bigInt_family Value.uint256 (NewUnsignedFromBig 256) _ (NewUnsignedFromBig_iff 256) s v
    simpa [bind, Except.bind] using this
  case word8 =>
    simp only [IntegerTag.decoder, decodeWord8, toString, IntegerTag.Holds,
      IntegerTag.readsSign, IntegerTag.inRange, IntegerTag.value, if_false, Bool.false_eq_true]
    have := parseUint_family Value.word8 8 s v
    simpa [bind, Except.bind] using this
  case word16 =>
    simp only [IntegerTag.decoder, decodeWord16, toString, IntegerTag.Holds,
      IntegerTag.readsSign, IntegerTag.inRange, IntegerTag.value, if_false, Bool.false_eq_true]
    have := parseUint_family Value.word16 16 s v
    simpa [bind, Except.bind] using this
  case word32 =>
    simp only [IntegerTag.decoder, decodeWord32, toString, IntegerTag.Holds,
      IntegerTag.readsSign, IntegerTag.inRange, IntegerTag.value, if_false, Bool.false_eq_true]
    have := parseUint_family Value.word32 32 s v
    simpa [bind, Except.bind] using this
  case word64 =>
    simp only [IntegerTag.decoder, decodeWord64, toString, IntegerTag.Holds,
      IntegerTag.readsSign, IntegerTag.inRange, IntegerTag.value, if_false, Bool.false_eq_true]
    have := parseUint_family Value.word64 64 s v
    have hw : ∀ i, strconvParseUint s 64 = some i → wrapUnsigned 64 i = i := fun i hi =>
      wrapUnsigned_of_range 64 i ((strconvParseUint_iff s 64 i).mp hi).2
    simp only [bind, Except.bind]
    cases hp : strconvParseUint s 64 with
    | none => rw [hp] at this; simpa [bind, Except.bind] using this
    | some i => rw [hp] at this; simp only [hw i hp] at this; simpa [bind, Except.bind] using this

theorem IntegerTag.decoder_not_string (T : IntegerTag) (p : JSONValue)
    (hp : ∀ s, p ≠ .string s) : T.decoder p = .error .ErrInvalidJSONCadence := by
  cases p with
  | string s => exact absurd rfl (hp s)
  | _ => cases T <;> rfl

theorem digitValue_digitChar (m : Nat) (h : m < 10) : digitValue (Nat.digitChar m) = some m := by
  interval_cases m <;> rfl

theorem parseDigitsAux_toDigitsCore : ∀ (fuel n : Nat) (ds : List Char), n < fuel →
    parseDigitsAux (Nat.toDigitsCore 10 fuel n ds) 0 = parseDigitsAux ds n
  | 0, n, ds, h => by omega
  | fuel + 1, n, ds, h => by
    unfold Nat.toDigitsCore
    simp only
    split
    · rename_i h0
      have hn : n < 10 := by omega
      simp only [parseDigitsAux, Nat.mod_eq_of_lt hn, digitValue_digitChar n hn]
      simp
    · rename_i h0
      rw [parseDigitsAux_toDigitsCore fuel (n / 10) _ (by omega)]
      simp only [parseDigitsAux, digitValue_digitChar (n % 10) (Nat.mod_lt _ (by decide))]
      congr 1
      omega

theorem toDigitsCore_ne_nil (fuel n : Nat) (ds : List Char) (hds : ds ≠ []) :
    Nat.toDigitsCore 10 fuel n ds ≠ [] := by
  induction fuel generalizing n ds with
  | zero => exact hds
  | succ fuel ih =>
    unfold Nat.toDigitsCore
    simp only
    split
    · simp
    · exact ih _ _ (by simp)

theorem toDigits_ne_nil (n : Nat) : Nat.toDigits 10 n ≠ [] := by
  unfold Nat.toDigits Nat.toDigitsCore
  simp only
  split
  · simp
  · exact toDigitsCore_ne_nil _ _ _ (by simp)

theorem parseDigits_toDigits (n : Nat) : parseDigits (Nat.toDigits 10 n) = some n := by
  have h := parseDigitsAux_toDigitsCore (n + 1) n [] (by omega)
  have hne := toDigits_ne_nil n
  unfold Nat.toDigits at hne ⊢
  cases hd : Nat.toDigitsCore 10 (n + 1) n [] with
  | nil => exact absurd hd hne
  | cons c cs =>
    rw [hd] at h
    exact h

theorem toString_nat_toList (n : Nat) : (ToString.toString n).toList = Nat.toDigits 10 n := rfl

theorem unsignedDecimal_toString (n : Nat) : UnsignedDecimal (ToString.toString n) n := by
  have h := parseDigits_toDigits n
  rw [← toString_nat_toList] at h
  exact (parseDigits_iff _ n).mp h

theorem signedDecimal_toString (i : Int) : SignedDecimal (ToString.toString i) i := by
  cases i with
  | ofNat n =>
    have h := unsignedDecimal_toString n
    exact ⟨_, h.1, Or.inl ⟨rfl, h.2⟩⟩
  | negSucc n =>
    have h := unsignedDecimal_toString (n + 1)
    refine ⟨_, h.1, Or.inr (Or.inr ⟨?_, ?_⟩)⟩
    · show ("-" ++ ToString.toString (n + 1)).toList = _
      simp only [String.toList, String.data_append]
      rfl
    · rw [← h.2]
      rfl

theorem IntegerTag.holds_toString (T : IntegerTag) (n : Int) (h : T.inRange n) :
    T.Holds (ToString.toString n) n := by
  unfold IntegerTag.Holds
  by_cases hs : T.readsSign = true
  · rw [if_pos hs]
    exact signedDecimal_toString n
  · rw [if_neg hs]
    have h0 : 0 ≤ n := by
      cases T <;> first | exact absurd rfl hs | exact h.1
    obtain ⟨m, rfl⟩ := Int.eq_ofNat_of_zero_le h0
    exact unsignedDecimal_toString m

theorem IntegerTag.decoder_error (T : IntegerTag) (p : JSONValue) (e : GoError)
    (h : T.decoder p = .error e) : e = .ErrInvalidJSONCadence := by
  by_cases hp : ∃ s, p = .string s
  · obtain ⟨s, rfl⟩ := hp
    cases T <;>
      simp only [IntegerTag.decoder, decodeInt, decodeInt8, decodeInt16, decodeInt32,
        decodeInt64, decodeInt128, decodeInt256, decodeUInt, decodeUInt8, decodeUInt16,
        decodeUInt32, decodeUInt64, decodeUInt128, decodeUInt256, decodeWord8, decodeWord16,
        decodeWord32, decodeWord64, decodeBigInt, toString, bind, Except.bind, invalid] at h <;>
      first
        | (cases hb : bigIntSetString s <;> simp only [hb] at h <;> (repeat' split at h) <;>
            first | (cases h; rfl) | cases h)
        | ((repeat' split at h) <;> first | (cases h; rfl) | cases h)
  · rw [IntegerTag.decoder_not_string T p (fun s hs => hp ⟨s, hs⟩)] at h
    cases h
    rfl

/-- C7: for every integer type `T` and every integer `n` that `T` represents, the node
with the tag of `T` and the decimal string of `n` as payload decodes to the value of `T`
that equals `n`: sign and magnitude are kept, nothing is truncated or wrapped. -/
theorem decodeJSON_integer (env : Env) (T : IntegerTag) (n : Int) (h : T.inRange n) :
    decodeJSON env (node T.name (.string (ToString.toString n))) = .ok (T.value n) := by
  rw [decodeJSON_node env _ _ T.name_ne_void, decodeTagged_integer]
  exact (T.decoder_string _ _).mpr ⟨n, T.holds_toString n h, h, rfl⟩

/-- Witness of C7 at the least `Int8` and at the greatest `UInt256`. -/
theorem decodeJSON_integer_witness :
    decodeJSON sampleEnv (node IntegerTag.int8.name (.string (ToString.toString (-128 : Int))))
      = .ok (IntegerTag.int8.value (-128)) ∧
    decodeJSON sampleEnv
        (node IntegerTag.uint256.name (.string (ToString.toString ((2 : Int) ^ 256 - 1))))
      = .ok (IntegerTag.uint256.value (2 ^ 256 - 1)) :=
  ⟨decodeJSON_integer sampleEnv .int8 (-128) (by decide),
   decodeJSON_integer sampleEnv .uint256 (2 ^ 256 - 1) (by norm_num [IntegerTag.inRange])⟩

/-- C6, as the code has it: a node with the tag of an integer type decodes to a value
exactly when its payload is a JSON string that holds an integer of the range of the type,
the value being that integer; the string is decimal digits, after an optional sign `+` or
`-` for the types read through `strconv.ParseInt` or `math/big`, and without any sign for
the types read through `strconv.ParseUint`; every other payload is rejected with
`ErrInvalidJSONCadence`. -/
theorem decodeJSON_integer_iff (env : Env) (T : IntegerTag) (payload : JSONValue) :
    (∀ v, decodeJSON env (node T.name payload) = .ok v ↔
      ∃ s n, payload = .string s ∧ T.Holds s n ∧ T.inRange n ∧ v = T.value n) ∧
    ((¬ ∃ s n, payload = .string s ∧ T.Holds s n ∧ T.inRange n) →
      decodeJSON env (node T.name payload) = .error .ErrInvalidJSONCadence) := by
  rw [decodeJSON_node env _ _ T.name_ne_void, decodeTagged_integer]
  have key : ∀ v, T.decoder payload = .ok v ↔
      ∃ s n, payload = .string s ∧ T.Holds s n ∧ T.inRange n ∧ v = T.value n := by
    intro v
    by_cases hp : ∃ s, payload = .string s
    · obtain ⟨s, rfl⟩ := hp
      rw [T.decoder_string]
      constructor
      · rintro ⟨n, h1, h2, h3⟩
        exact ⟨s, n, rfl, h1, h2, h3⟩
      · rintro ⟨s', n, hs, h1, h2, h3⟩
        cases hs
        exact ⟨n, h1, h2, h3⟩
    · rw [IntegerTag.decoder_not_string T payload (fun s hs => hp ⟨s, hs⟩)]
      constructor
      · intro h; cases h
      · rintro ⟨s, n, hs, _⟩
        exact absurd ⟨s, hs⟩ hp
  refine ⟨key, fun hno => ?_⟩
  cases hd : T.decoder payload with
  | error e => rw [T.decoder_error payload e hd]
  | ok v =>
    obtain ⟨s, n, h1, h2, h3, _⟩ := (key v).mp hd
    exact absurd ⟨s, n, h1, h2, h3⟩ hno

/-- C6 fails as stated: the string `+5` is accepted for `Int8` and for `UInt` and is
rejected for `UInt8`, although 5 lies in all three ranges; so no reading of strings as
integers makes a bounded integer node decode exactly when its payload holds an integer of
the range. -/
theorem decodeJSON_integer_sign_counterexample :
    decodeJSON sampleEnv (node "Int8" (.string "+5")) = .ok (.int8 5) ∧
    decodeJSON sampleEnv (node "UInt" (.string "+5")) = .ok (.uint 5) ∧
    decodeJSON sampleEnv (node "UInt8" (.string "+5")) = .error .ErrInvalidJSONCadence ∧
    ¬ ∃ holds : String → Option Int, ∀ T : IntegerTag, T.bounded = true →
      ∀ payload : JSONValue, (∃ v, decodeJSON sampleEnv (node T.name payload) = .ok v) ↔
        ∃ s n, payload = .string s ∧ holds s = some n ∧ T.inRange n := by
  refine ⟨rfl, rfl, rfl, ?_⟩
  rintro ⟨holds, h⟩
  have h8 := (h .int8 rfl (.string "+5")).mp ⟨_, rfl⟩
  have hu := (h .uint rfl (.string "+5")).mp ⟨_, rfl⟩
  have hu8 := h .uint8 rfl (.string "+5")
  obtain ⟨s, n, hs, hn, hr⟩ := h8
  cases hs
  obtain ⟨s', n', hs', hn', hr'⟩ := hu
  cases hs'
  rw [hn] at hn'
  cases hn'
  have : ∃ v, decodeJSON sampleEnv (node IntegerTag.uint8.name (.string "+5")) = .ok v :=
    hu8.mpr ⟨"+5", n, rfl, hn, ⟨hr', by
      have := hr.2
      simp only [IntegerTag.inRange] at this ⊢
      omega⟩⟩
  obtain ⟨v, hv⟩ := this
  have hfalse : decodeJSON sampleEnv (node IntegerTag.uint8.name (.string "+5"))
      = .error .ErrInvalidJSONCadence := rfl
  rw [hfalse] at hv
  cases hv

/-! ## Failures abort the whole call -/

theorem fails_bind_left {α β : Type} {r : Panics α} (f : α → Panics β) (h : Fails r) :
    Fails (r >>= f) := by
  obtain ⟨e, rfl⟩ := h
  exact ⟨e, rfl⟩

theorem fails_bind_right {α β : Type} (r : Panics α) {f : α → Panics β}
    (h : ∀ a, r = .ok a → Fails (f a)) : Fails (r >>= f) := by
  cases r with
  | error e => exact ⟨e, rfl⟩
  | ok a => exact h a rfl

theorem fails_forRange {α β : Type} {f : α → Panics β} :
    ∀ {xs : List α} {x : α}, x ∈ xs → Fails (f x) → Fails (forRange f xs)
  | [], _, h, _ => by cases h
  | y :: ys, x, h, hx => by
    simp only [forRange]
    rcases List.mem_cons.mp h with rfl | h
    · exact fails_bind_left _ hx
    · apply fails_bind_right
      intro a _
      exact fails_bind_left _ (fails_forRange h hx)

theorem fails_invalid {α : Type} : Fails (invalid : Panics α) := ⟨_, rfl⟩

theorem Get_ok_inj {obj : jsonObject} {key : String} {a b : JSONValue}
    (ha : obj.Get key = .ok a) (hb : obj.Get key = .ok b) : a = b := by
  rw [ha] at hb
  cases hb
  rfl

theorem fails_of_tagged (env : Env) {obj : jsonObject} {tag : String} {p : JSONValue}
    (htype : obj.GetString typeKey = .ok tag) (hvoid : tag ≠ voidTypeStr)
    (hvalue : obj.Get valueKey = .ok p)
    (h : Fails (decodeTagged (theDecoder env) tag p)) :
    Fails (decodeJSON env (.object obj)) := by
  by_cases hlen : obj.len = 2
  · rw [decodeTagged_of_node env obj tag p htype hvoid hlen hvalue]
    exact h
  · rw [decodeJSON_eq]
    unfold decodeJSONBody
    simp only [toObject, htype, bind, Except.bind]
    rw [if_neg hvoid]
    simp only [ne_eq, hlen, not_false_eq_true, if_true]
    exact fails_invalid

theorem fails_compositeField (env : Env) {field : jsonObject} {x : JSONValue}
    (hx : field.Get valueKey = .ok x) (h : Fails (decodeJSON env x)) :
    Fails (decodeCompositeField (theDecoder env) (.object field)) := by
  unfold decodeCompositeField
  simp only [toObject]
  apply fails_bind_right
  intro obj hobj
  cases hobj
  apply fails_bind_right
  intro name _
  apply fails_bind_left
  unfold jsonObject.GetValue
  rw [hx]
  exact h

theorem fails_decodeComposite (env : Env) {comp field : jsonObject} {fs : List JSONValue}
    {x : JSONValue} (hfs : comp.Get fieldsKey = .ok (.array fs))
    (hmem : JSONValue.object field ∈ fs) (hx : field.Get valueKey = .ok x)
    (h : Fails (decodeJSON env x)) :
    Fails (decodeComposite (theDecoder env) (.object comp)) := by
  unfold decodeComposite
  simp only [toObject]
  apply fails_bind_right
  intro obj hobj
  cases hobj
  apply fails_bind_right
  intro typeID _
  split
  · exact ⟨_, rfl⟩
  · split
    · exact ⟨_, rfl⟩
    · have hslice : comp.GetSlice fieldsKey = .ok fs := by
        unfold jsonObject.GetSlice
        rw [hfs]
        rfl
      rw [hslice]
      apply fails_bind_right
      intro fields hfields
      cases hfields
      exact fails_bind_left _ (fails_forRange hmem (fails_compositeField env hx h))

theorem fails_keyValuePair (env : Env) {entry : jsonObject} {key : String} {x : JSONValue}
    (hkey : key = keyKey ∨ key = valueKey) (hx : entry.Get key = .ok x)
    (h : Fails (decodeJSON env x)) :
    Fails (decodeKeyValuePair (theDecoder env) (.object entry)) := by
  unfold decodeKeyValuePair
  simp only [toObject]
  apply fails_bind_right
  intro obj hobj
  cases hobj
  rcases hkey with rfl | rfl
  · apply fails_bind_left
    unfold jsonObject.GetValue
    rw [hx]
    exact h
  · apply fails_bind_right
    intro k _
    apply fails_bind_left
    unfold jsonObject.GetValue
    rw [hx]
    exact h

/-- A failure of a value node directly inside a value node makes that node fail. -/
theorem valueChild_fails (env : Env) {v x : JSONValue} (hc : ValueChild v x)
    (h : Fails (decodeJSON env x)) : Fails (decodeJSON env v) := by
  cases hc with
  | optionalInner htype hvalue hnull =>
    apply fails_of_tagged env htype (by decide) hvalue
    unfold decodeTagged
    rw [if_pos rfl]
    unfold decodeOptional
    cases x with
    | null => exact absurd rfl hnull
    | _ => exact fails_bind_left _ h
  | arrayElement htype hvalue hmem =>
    apply fails_of_tagged env htype (by decide) hvalue
    unfold decodeTagged
    simp +decide only [if_true, if_false]
    unfold decodeArray
    simp only [toSlice]
    apply fails_bind_right
    intro xs hxs
    cases hxs
    exact fails_bind_left _ (fails_forRange hmem h)
  | dictionaryKey htype hvalue hmem hk =>
    apply fails_of_tagged env htype (by decide) hvalue
    unfold decodeTagged
    simp +decide only [if_true, if_false]
    unfold decodeDictionary
    simp only [toSlice]
    apply fails_bind_right
    intro xs hxs
    cases hxs
    exact fails_bind_left _ (fails_forRange hmem (fails_keyValuePair env (Or.inl rfl) hk h))
  | dictionaryValue htype hvalue hmem hk =>
    apply fails_of_tagged env htype (by decide) hvalue
    unfold decodeTagged
    simp +decide only [if_true, if_false]
    unfold decodeDictionary
    simp only [toSlice]
    apply fails_bind_right
    intro xs hxs
    cases hxs
    exact fails_bind_left _ (fails_forRange hmem (fails_keyValuePair env (Or.inr rfl) hk h))
  | compositeField htag htype hvalue hfs hmem hx =>
    have hcomp := fails_decodeComposite env hfs hmem hx h
    simp only [compositeTags, List.mem_cons, List.mem_singleton, List.not_mem_nil,
      or_false] at htag
    rcases htag with rfl | rfl | rfl | rfl | rfl <;>
      (apply fails_of_tagged env htype (by decide) hvalue
       unfold decodeTagged
       simp +decide only [if_true, if_false]
       first
         | unfold decodeStruct
         | unfold decodeResource
         | unfold decodeEvent
         | unfold decodeContract
         | unfold decodeEnum
       exact fails_bind_left _ hcomp)
  | linkTargetPath htype hvalue hx =>
    apply fails_of_tagged env htype (by decide) hvalue
    unfold decodeTagged
    simp +decide only [if_true, if_false]
    unfold decodeLink
    simp only [toObject]
    apply fails_bind_right
    intro obj hobj
    cases hobj
    rw [hx]
    apply fails_bind_right
    intro y hy
    cases hy
    exact fails_bind_left _ h
  | capabilityPath htype hvalue hx =>
    apply fails_of_tagged env htype (by decide) hvalue
    unfold decodeTagged
    simp +decide only [if_true, if_false]
    unfold decodeCapability
    simp only [toObject]
    apply fails_bind_right
    intro obj hobj
    cases hobj
    rw [hx]
    apply fails_bind_right
    intro y hy
    cases hy
    exact fails_bind_left _ h

/-- A failure of a type payload directly inside a value node makes that node fail. -/
theorem typeChild_fails (env : Env) {v t : JSONValue} (hc : TypeChild v t)
    (h : Fails (decodeType env t)) : Fails (decodeJSON env v) := by
  cases hc with
  | staticType htype hvalue ht =>
    apply fails_of_tagged env htype (by decide) hvalue
    unfold decodeTagged
    simp +decide only [if_true, if_false]
    unfold decodeTypeValue
    simp only [toObject]
    apply fails_bind_right
    intro obj hobj
    cases hobj
    rw [ht]
    apply fails_bind_right
    intro y hy
    cases hy
    exact fails_bind_left _ h
  | borrowType htype hvalue ht =>
    apply fails_of_tagged env htype (by decide) hvalue
    unfold decodeTagged
    simp +decide only [if_true, if_false]
    unfold decodeCapability
    simp only [toObject]
    apply fails_bind_right
    intro obj hobj
    cases hobj
    apply fails_bind_right
    intro _ _
    apply fails_bind_right
    intro _ _
    apply fails_bind_right
    intro _ _
    apply fails_bind_right
    intro _ _
    apply fails_bind_right
    intro _ _
    rw [ht]
    apply fails_bind_right
    intro y hy
    cases hy
    exact fails_bind_left _ h

theorem decodeType_of_kind (env : Env) {obj : jsonObject} {kind : String}
    (hk : obj.GetString kindKey = .ok kind) :
    decodeType env (.object obj) = decodeKind (theDecoder env) obj kind := by
  rw [decodeType_eq]
  unfold decodeTypeBody
  unfold jsonObject.GetString at hk
  cases hg : obj.Get kindKey with
  | error e => rw [hg] at hk; cases hk
  | ok kv =>
    rw [hg] at hk
    have hs : toString kv = .ok kind := hk
    simp only [toObject, bind, Except.bind, hg, hs]

theorem fails_decodeType_at (env : Env) {obj : jsonObject} {key : String} {u : JSONValue}
    {β : Type} (f : CadenceType → Panics β)
    (hu : obj.Get key = .ok u) (h : Fails (decodeType env u)) :
    Fails (obj.Get key >>= fun x => (theDecoder env).decodeType x >>= f) := by
  rw [hu]
  show Fails ((theDecoder env).decodeType u >>= f)
  exact fails_bind_left _ h

theorem fails_paramType (env : Env) {param : jsonObject} {u : JSONValue}
    (hu : param.Get typeKey = .ok u) (h : Fails (decodeType env u)) :
    Fails (decodeParamType (theDecoder env) (.object param)) := by
  unfold decodeParamType
  simp only [toObject]
  apply fails_bind_right
  intro obj hobj
  cases hobj
  apply fails_bind_right
  intro _ _
  apply fails_bind_right
  intro _ _
  apply fails_bind_right
  intro _ _
  apply fails_bind_right
  intro _ _
  exact fails_decodeType_at env _ hu h

theorem fails_fieldType (env : Env) {field : jsonObject} {u : JSONValue}
    (hu : field.Get typeKey = .ok u) (h : Fails (decodeType env u)) :
    Fails (decodeFieldType (theDecoder env) (.object field)) := by
  unfold decodeFieldType
  simp only [toObject]
  apply fails_bind_right
  intro obj hobj
  cases hobj
  apply fails_bind_right
  intro _ _
  apply fails_bind_right
  intro _ _
  exact fails_decodeType_at env _ hu h

theorem decodeKind_nominal (d : Decoder) (obj : jsonObject) {kind : String}
    (hk : kind ∉ structuralKinds) (hs : simpleTypeOfKind kind = none) :
    decodeKind d obj kind = (do
      let fieldsValue ← obj.Get fieldsKey
      let typeIDValue ← toString (← obj.Get typeIDKey)
      let initValue ← obj.Get initializersKey
      decodeNominalType d obj kind typeIDValue (← toSlice fieldsValue) (← toSlice initValue)) := by
  simp only [structuralKinds, List.mem_cons, List.mem_singleton, List.not_mem_nil, or_false,
    not_or] at hk
  obtain ⟨h1, h2, h3, h4, h5, h6, h7, h8⟩ := hk
  unfold decodeKind
  rw [if_neg h1, if_neg h2, if_neg h3, if_neg h4, if_neg h5, if_neg h6, if_neg h7, if_neg h8, hs]

/-- A failure of a type payload directly inside a type payload makes that payload fail. -/
theorem nestedType_fails (env : Env) {t u : JSONValue} (hc : NestedType t u)
    (h : Fails (decodeType env u)) : Fails (decodeType env t) := by
  cases hc with
  | inner hkind hk hu =>
    rw [decodeType_of_kind env hk]
    simp only [innerTypeKinds, List.mem_cons, List.mem_singleton, List.not_mem_nil,
      or_false] at hkind
    rcases hkind with rfl | rfl | rfl | rfl | rfl <;>
      (unfold decodeKind
       simp +decide only [if_true, if_false]
       first
         | exact fails_decodeType_at env _ hu h
         | (apply fails_bind_right
            intro _ _
            apply fails_bind_right
            intro _ _
            exact fails_decodeType_at env _ hu h))
  | dictionaryKey hk hu =>
    rw [decodeType_of_kind env hk]
    unfold decodeKind
    simp +decide only [if_true, if_false]
    exact fails_decodeType_at env _ hu h
  | dictionaryValue hk hu =>
    rw [decodeType_of_kind env hk]
    unfold decodeKind
    simp +decide only [if_true, if_false]
    apply fails_bind_right
    intro _ _
    apply fails_bind_right
    intro _ _
    exact fails_decodeType_at env _ hu h
  | functionReturn hk hu =>
    rw [decodeType_of_kind env hk]
    unfold decodeKind
    simp +decide only [if_true, if_false]
    rw [hu]
    apply fails_bind_right
    intro r hr
    cases hr
    apply fails_bind_right
    intro _ _
    apply fails_bind_right
    intro _ _
    unfold decodeFunctionType
    apply fails_bind_right
    intro _ _
    apply fails_bind_right
    intro _ _
    exact fails_bind_left _ h
  | functionParameter hk hps hmem hu =>
    rw [decodeType_of_kind env hk]
    unfold decodeKind
    simp +decide only [if_true, if_false]
    apply fails_bind_right
    intro _ _
    rw [hps]
    apply fails_bind_right
    intro p hp
    cases hp
    apply fails_bind_right
    intro _ _
    unfold decodeFunctionType
    simp only [toSlice]
    apply fails_bind_right
    intro ps' hps'
    cases hps'
    apply fails_bind_left
    unfold decodeParamTypes
    exact fails_forRange hmem (fails_paramType env hu h)
  | restrictedType hk hu =>
    rw [decodeType_of_kind env hk]
    unfold decodeKind
    simp +decide only [if_true, if_false]
    apply fails_bind_right
    intro _ _
    apply fails_bind_right
    intro _ _
    apply fails_bind_right
    intro _ _
    rw [hu]
    apply fails_bind_right
    intro y hy
    cases hy
    apply fails_bind_right
    intro _ _
    unfold decodeRestrictedType
    exact fails_bind_left _ h
  | restriction hk hrs hmem =>
    rw [decodeType_of_kind env hk]
    unfold decodeKind
    simp +decide only [if_true, if_false]
    rw [hrs]
    apply fails_bind_right
    intro rv hrv
    cases hrv
    apply fails_bind_right
    intro _ _
    apply fails_bind_right
    intro _ _
    apply fails_bind_right
    intro _ _
    simp only [toSlice]
    apply fails_bind_right
    intro rs' hrs'
    cases hrs'
    unfold decodeRestrictedType
    apply fails_bind_right
    intro _ _
    exact fails_bind_left _ (fails_forRange hmem h)
  | nominalField hkind hs hk hfs hmem hu =>
    rw [decodeType_of_kind env hk, decodeKind_nominal _ _ hkind hs, hfs]
    apply fails_bind_right
    intro fv hfv
    cases hfv
    apply fails_bind_right
    intro _ _
    apply fails_bind_right
    intro _ _
    apply fails_bind_right
    intro _ _
    simp only [toSlice]
    apply fails_bind_right
    intro fs' hfs'
    cases hfs'
    apply fails_bind_right
    intro _ _
    unfold decodeNominalType
    apply fails_bind_left
    unfold decodeFieldTypes
    exact fails_forRange hmem (fails_fieldType env hu h)
  | nominalInitializer hkind hs hk hinits hmemps hmem hu =>
    rw [decodeType_of_kind env hk, decodeKind_nominal _ _ hkind hs]
    apply fails_bind_right
    intro _ _
    apply fails_bind_right
    intro _ _
    apply fails_bind_right
    intro _ _
    rw [hinits]
    apply fails_bind_right
    intro iv hiv
    cases hiv
    apply fails_bind_right
    intro _ _
    simp only [toSlice]
    apply fails_bind_right
    intro is' his'
    cases his'
    unfold decodeNominalType
    apply fails_bind_right
    intro _ _
    apply fails_bind_left
    apply fails_forRange hmemps
    simp only [toSlice]
    apply fails_bind_right
    intro ps' hps'
    cases hps'
    unfold decodeParamTypes
    exact fails_forRange hmem (fails_paramType env hu h)

theorem valueDescendant_fails (env : Env) {v x : JSONValue}
    (hc : Relation.ReflTransGen ValueChild v x) (h : Fails (decodeJSON env x)) :
    Fails (decodeJSON env v) := by
  induction hc with
  | refl => exact h
  | tail _ hstep ih => exact ih (valueChild_fails env hstep h)

theorem nestedTypeDescendant_fails (env : Env) {t u : JSONValue}
    (hc : Relation.ReflTransGen NestedType t u) (h : Fails (decodeType env u)) :
    Fails (decodeType env t) := by
  induction hc with
  | refl => exact h
  | tail _ hstep ih => exact ih (nestedType_fails env hstep h)

theorem Decode_of_fails (env : Env) {obj : jsonObject}
    (h : Fails (decodeJSON env (.object obj))) :
    ∃ err, Decoder.Decode env (.ok obj) = (none, some err) ∧
      ∀ (jsonDecode : Bytes → Except String jsonObject) (b : Bytes),
        jsonDecode b = .ok obj → Decode env jsonDecode b = (none, some err) := by
  obtain ⟨e, he⟩ := h
  refine ⟨.wrap "failed to decode value" e, ?_, ?_⟩
  · simp only [Decoder.Decode, he]
  · intro jd b hb
    simp only [Decode, hb, Decoder.Decode, he]

theorem Decoder_Decode_cases (env : Env) (dec : Except String jsonObject) :
    (∃ v, Decoder.Decode env dec = (some v, none)) ∨
    (∃ err, Decoder.Decode env dec = (none, some err)) := by
  cases dec with
  | error msg => exact Or.inr ⟨_, rfl⟩
  | ok obj =>
    cases h : decodeJSON env (.object obj) with
    | error e =>
      right
      simp only [Decoder.Decode, h]
      exact ⟨_, rfl⟩
    | ok v =>
      left
      simp only [Decoder.Decode, h]
      exact ⟨v, rfl⟩

theorem Decode_cases (env : Env) (jsonDecode : Bytes → Except String jsonObject) (b : Bytes) :
    (∃ v, Decode env jsonDecode b = (some v, none)) ∨
    (∃ err, Decode env jsonDecode b = (none, some err)) := by
  unfold Decode
  rcases Decoder_Decode_cases env (jsonDecode b) with ⟨v, hv⟩ | ⟨err, herr⟩
  · rw [hv]
    exact Or.inl ⟨v, rfl⟩
  · rw [herr]
    exact Or.inr ⟨err, rfl⟩

/-- C5: `Decode` and `Decoder.Decode` return either a value with a nil error or a nil value
with an error, never a value next to an error; and a failure anywhere in the tree, at a
value node (an optional inner value, an array element, a dictionary key or value, a
composite field, a link or capability path) or at a type payload nested in it, makes
the whole call return a nil value with an error. -/
theorem Decode_aborts_on_failure (env : Env) :
    (∀ dec : Except String jsonObject,
      (∃ v, Decoder.Decode env dec = (some v, none)) ∨
      (∃ err, Decoder.Decode env dec = (none, some err))) ∧
    (∀ (jsonDecode : Bytes → Except String jsonObject) (b : Bytes),
      (∃ v, Decode env jsonDecode b = (some v, none)) ∨
      (∃ err, Decode env jsonDecode b = (none, some err))) ∧
    (∀ (obj : jsonObject) (x : JSONValue),
      Relation.ReflTransGen ValueChild (.object obj) x → Fails (decodeJSON env x) →
      ∃ err, Decoder.Decode env (.ok obj) = (none, some err) ∧
        ∀ (jsonDecode : Bytes → Except String jsonObject) (b : Bytes),
          jsonDecode b = .ok obj → Decode env jsonDecode b = (none, some err)) ∧
    (∀ (obj : jsonObject) (y t u : JSONValue),
      Relation.ReflTransGen ValueChild (.object obj) y → TypeChild y t →
      Relation.ReflTransGen NestedType t u → Fails (decodeType env u) →
      ∃ err, Decoder.Decode env (.ok obj) = (none, some err) ∧
        ∀ (jsonDecode : Bytes → Except String jsonObject) (b : Bytes),
          jsonDecode b = .ok obj → Decode env jsonDecode b = (none, some err)) := by
  refine ⟨Decoder_Decode_cases env, Decode_cases env, ?_, ?_⟩
  · intro obj x hc hx
    exact Decode_of_fails env (valueDescendant_fails env hc hx)
  · intro obj y t u hc hty hn hu
    exact Decode_of_fails env
      (valueDescendant_fails env hc
        (typeChild_fails env hty (nestedTypeDescendant_fails env hn hu)))

/-- Witness of C5 at an array whose second element has an unknown tag, and at a type value
whose optional type has an inner type of the wrong shape. -/
theorem Decode_aborts_on_failure_witness :
    (∃ err, Decoder.Decode sampleEnv
        (.ok [("type", .string "Array"),
              ("value", .array [node "Int8" (.string "5"), node "Bogus" (.string "x")])])
          = (none, some err) ∧
        ∀ (jsonDecode : Bytes → Except String jsonObject) (b : Bytes),
          jsonDecode b = .ok [("type", .string "Array"),
              ("value", .array [node "Int8" (.string "5"), node "Bogus" (.string "x")])] →
          Decode sampleEnv jsonDecode b = (none, some err)) ∧
    (∃ err, Decoder.Decode sampleEnv
        (.ok [("type", .string "Type"),
              ("value", .object [("staticType",
                .object [("kind", .string "Optional"), ("type", .number 1)])])])
          = (none, some err) ∧
        ∀ (jsonDecode : Bytes → Except String jsonObject) (b : Bytes),
          jsonDecode b = .ok [("type", .string "Type"),
              ("value", .object [("staticType",
                .object [("kind", .string "Optional"), ("type", .number 1)])])] →
          Decode sampleEnv jsonDecode b = (none, some err)) :=
  ⟨(Decode_aborts_on_failure sampleEnv).2.2.1 _ (node "Bogus" (.string "x"))
      (Relation.ReflTransGen.single
        (ValueChild.arrayElement rfl rfl (List.mem_cons_of_mem _ (List.mem_singleton.mpr rfl))))
      ⟨_, rfl⟩,
   (Decode_aborts_on_failure sampleEnv).2.2.2 _ _ _ (.number 1)
      Relation.ReflTransGen.refl
      (TypeChild.staticType rfl rfl rfl)
      (Relation.ReflTransGen.single (NestedType.inner (List.mem_cons_self _ _) rfl rfl))
      ⟨_, rfl⟩⟩

/-! ## The errors of `Decode` -/

theorem sound_ok {α : Type} (a : α) : Sound (Except.ok a : Panics α) := by
  intro e h
  cases h

theorem sound_error {α : Type} {e : GoError} (h : e.isPanicValue = true) :
    Sound (Except.error e : Panics α) := by
  intro e' h'
  cases h'
  exact h

theorem sound_invalid {α : Type} : Sound (invalid : Panics α) := sound_error rfl

theorem sound_bind {α β : Type} {r : Panics α} {f : α → Panics β} (hr : Sound r)
    (hf : ∀ a, r = .ok a → Sound (f a)) : Sound (r >>= f) := by
  cases r with
  | error e =>
    intro e' h'
    have h2 : (Except.error e : Panics α) = .error e' := by
      cases h'
      rfl
    exact hr e' h2
  | ok a => exact hf a rfl

theorem sound_forRange {α β : Type} {f : α → Panics β} :
    ∀ {xs : List α}, (∀ x ∈ xs, Sound (f x)) → Sound (forRange f xs)
  | [], _ => sound_ok _
  | x :: xs, h => by
    simp only [forRange]
    refine sound_bind (h x (by simp)) (fun y _ => ?_)
    refine sound_bind (sound_forRange (fun z hz => h z (by simp [hz]))) (fun ys _ => ?_)
    exact sound_ok _

theorem sound_toObject (v : JSONValue) : Sound (toObject v) := by
  cases v <;> first | exact sound_ok _ | exact sound_invalid

theorem sound_toString (v : JSONValue) : Sound (toString v) := by
  cases v <;> first | exact sound_ok _ | exact sound_invalid

theorem sound_toSlice (v : JSONValue) : Sound (toSlice v) := by
  cases v <;> first | exact sound_ok _ | exact sound_invalid

theorem sound_toBool (v : JSONValue) : Sound (toBool v) := by
  cases v <;> first | exact sound_ok _ | exact sound_invalid

theorem sound_toUInt (f : Rat → Nat) (v : JSONValue) : Sound (toUInt f v) := by
  cases v <;> first | exact sound_ok _ | exact sound_invalid

theorem sound_Get (obj : jsonObject) (key : String) : Sound (obj.Get key) := by
  unfold jsonObject.Get
  split
  · exact sound_ok _
  · exact sound_invalid

theorem sound_GetString (obj : jsonObject) (key : String) : Sound (obj.GetString key) :=
  sound_bind (sound_Get obj key) (fun v _ => sound_toString v)

theorem sound_GetSlice (obj : jsonObject) (key : String) : Sound (obj.GetSlice key) :=
  sound_bind (sound_Get obj key) (fun v _ => sound_toSlice v)

theorem sound_assertPath (v : Value) : Sound (assertPath v) := by
  cases v <;> first | exact sound_ok _ | exact sound_invalid

theorem sound_decodeAddress (v : JSONValue) : Sound (decodeAddress v) := by
  unfold decodeAddress
  refine sound_bind (sound_toString v) (fun s _ => ?_)
  split
  · exact sound_error rfl
  · split
    · exact sound_invalid
    · split
      · exact sound_invalid
      · unfold BytesToUnmeteredAddress
        split
        · exact sound_ok _
        · exact sound_error rfl

theorem sound_decodeBigInt (v : JSONValue) : Sound (decodeBigInt v) := by
  unfold decodeBigInt
  refine sound_bind (sound_toString v) (fun s _ => ?_)
  split
  · exact sound_ok _
  · exact sound_invalid

theorem sound_integer (T : IntegerTag) (v : JSONValue) : Sound (T.decoder v) := by
  intro e h
  rw [T.decoder_error v e h]
  rfl

theorem sound_GetValue {d : Decoder} {n : Nat} (hd : SoundUpTo d n) {obj : jsonObject}
    (hv : (JSONValue.object obj).size ≤ n + 1) (key : String) : Sound (obj.GetValue d key) := by
  unfold jsonObject.GetValue
  refine sound_bind (sound_Get obj key) (fun x hx => ?_)
  exact (hd x (by have := size_lt_of_Get hx; omega)).1

theorem sound_GetType {d : Decoder} {n : Nat} (hd : SoundUpTo d n) {obj : jsonObject}
    (hv : (JSONValue.object obj).size ≤ n + 1) (key : String) {β : Type}
    {f : CadenceType → Panics β} (hf : ∀ t, Sound (f t)) :
    Sound (obj.Get key >>= fun x => d.decodeType x >>= f) := by
  refine sound_bind (sound_Get obj key) (fun x hx => ?_)
  exact sound_bind (hd x (by have := size_lt_of_Get hx; omega)).2 (fun t _ => hf t)

theorem sound_decodeOptional {d : Decoder} {n : Nat} (hd : SoundUpTo d n) {v : JSONValue}
    (hv : v.size ≤ n) : Sound (decodeOptional d v) := by
  unfold decodeOptional
  cases v <;>
    first
      | exact sound_ok _
      | exact sound_bind (hd _ hv).1 (fun _ _ => sound_ok _)

theorem sound_decodeArray {d : Decoder} {n : Nat} (hd : SoundUpTo d n) {v : JSONValue}
    (hv : v.size ≤ n) : Sound (decodeArray d v) := by
  unfold decodeArray
  refine sound_bind (sound_toSlice v) (fun xs hxs => ?_)
  rw [toSlice_ok hxs] at hv
  simp only [JSONValue.size] at hv
  refine sound_bind (sound_forRange (fun x hx => ?_)) (fun _ _ => sound_ok _)
  have := size_le_sizeList hx
  exact (hd x (by omega)).1

theorem sound_decodeKeyValuePair {d : Decoder} {n : Nat} (hd : SoundUpTo d n)
    {v : JSONValue} (hv : v.size ≤ n + 1) : Sound (decodeKeyValuePair d v) := by
  unfold decodeKeyValuePair
  refine sound_bind (sound_toObject v) (fun obj hobj => ?_)
  rw [toObject_ok hobj] at hv
  refine sound_bind (sound_GetValue hd hv _) (fun _ _ => ?_)
  exact sound_bind (sound_GetValue hd hv _) (fun _ _ => sound_ok _)

theorem sound_decodeDictionary {d : Decoder} {n : Nat} (hd : SoundUpTo d n)
    {v : JSONValue} (hv : v.size ≤ n + 1) : Sound (decodeDictionary d v) := by
  unfold decodeDictionary
  refine sound_bind (sound_toSlice v) (fun xs hxs => ?_)
  rw [toSlice_ok hxs] at hv
  simp only [JSONValue.size] at hv
  refine sound_bind (sound_forRange (fun x hx => ?_)) (fun _ _ => sound_ok _)
  have := size_le_sizeList hx
  exact sound_decodeKeyValuePair hd (by omega)

theorem sound_decodeCompositeField {d : Decoder} {n : Nat} (hd : SoundUpTo d n)
    {v : JSONValue} (hv : v.size ≤ n + 1) : Sound (decodeCompositeField d v) := by
  unfold decodeCompositeField
  refine sound_bind (sound_toObject v) (fun obj hobj => ?_)
  rw [toObject_ok hobj] at hv
  refine sound_bind (sound_GetString obj _) (fun _ _ => ?_)
  exact sound_bind (sound_GetValue hd hv _) (fun _ _ => sound_ok _)

theorem sound_decodeComposite {d : Decoder} {n : Nat} (hd : SoundUpTo d n)
    {v : JSONValue} (hv : v.size ≤ n + 1) : Sound (decodeComposite d v) := by
  unfold decodeComposite
  refine sound_bind (sound_toObject v) (fun obj hobj => ?_)
  rw [toObject_ok hobj] at hv
  refine sound_bind (sound_GetString obj _) (fun typeID _ => ?_)
  split
  · exact sound_error rfl
  · split
    · exact sound_error rfl
    · refine sound_bind (sound_GetSlice obj _) (fun fields hf => ?_)
      have hfs : (JSONValue.array fields).size < (JSONValue.object obj).size := by
        unfold jsonObject.GetSlice at hf
        cases hg : obj.Get fieldsKey with
        | error e => rw [hg] at hf; cases hf
        | ok x =>
          rw [hg] at hf
          have hx := toSlice_ok hf
          rw [← hx]
          exact size_lt_of_Get hg
      refine sound_bind (sound_forRange (fun x hx => ?_)) (fun _ _ => sound_ok _)
      have := size_le_sizeList hx
      simp only [JSONValue.size] at hfs hv
      exact sound_decodeCompositeField hd (by omega)

theorem sound_compositeKinds {d : Decoder} {n : Nat} (hd : SoundUpTo d n)
    {v : JSONValue} (hv : v.size ≤ n + 1) :
    Sound (decodeStruct d v) ∧ Sound (decodeResource d v) ∧ Sound (decodeEvent d v) ∧
    Sound (decodeContract d v) ∧ Sound (decodeEnum d v) := by
  have h := sound_decodeComposite hd hv
  unfold decodeStruct decodeResource decodeEvent decodeContract decodeEnum
  exact ⟨sound_bind h (fun _ _ => sound_ok _), sound_bind h (fun _ _ => sound_ok _),
    sound_bind h (fun _ _ => sound_ok _), sound_bind h (fun _ _ => sound_ok _),
    sound_bind h (fun _ _ => sound_ok _)⟩

theorem sound_decodeLink {d : Decoder} {n : Nat} (hd : SoundUpTo d n)
    {v : JSONValue} (hv : v.size ≤ n + 1) : Sound (decodeLink d v) := by
  unfold decodeLink
  refine sound_bind (sound_toObject v) (fun obj hobj => ?_)
  rw [toObject_ok hobj] at hv
  refine sound_bind (sound_Get obj _) (fun x hx => ?_)
  refine sound_bind (hd x (by have := size_lt_of_Get hx; omega)).1 (fun t _ => ?_)
  refine sound_bind (sound_assertPath t) (fun _ _ => ?_)
  exact sound_bind (sound_GetString obj _) (fun _ _ => sound_ok _)

theorem sound_decodePath (v : JSONValue) : Sound (decodePath v) := by
  unfold decodePath
  refine sound_bind (sound_toObject v) (fun obj _ => ?_)
  refine sound_bind (sound_GetString obj _) (fun _ _ => ?_)
  exact sound_bind (sound_GetString obj _) (fun _ _ => sound_ok _)

theorem sound_decodeTypeValue {d : Decoder} {n : Nat} (hd : SoundUpTo d n)
    {v : JSONValue} (hv : v.size ≤ n + 1) : Sound (decodeTypeValue d v) := by
  unfold decodeTypeValue
  refine sound_bind (sound_toObject v) (fun obj hobj => ?_)
  rw [toObject_ok hobj] at hv
  exact sound_GetType hd hv _ (fun _ => sound_ok _)

theorem sound_decodeCapability {d : Decoder} {n : Nat} (hd : SoundUpTo d n)
    {v : JSONValue} (hv : v.size ≤ n + 1) : Sound (decodeCapability d v) := by
  unfold decodeCapability
  refine sound_bind (sound_toObject v) (fun obj hobj => ?_)
  rw [toObject_ok hobj] at hv
  refine sound_bind (sound_Get obj _) (fun x hx => ?_)
  refine sound_bind (hd x (by have := size_lt_of_Get hx; omega)).1 (fun t _ => ?_)
  refine sound_bind (sound_assertPath t) (fun _ _ => ?_)
  refine sound_bind (sound_Get obj _) (fun a _ => ?_)
  refine sound_bind (sound_decodeAddress a) (fun _ _ => ?_)
  exact sound_GetType hd hv _ (fun _ => sound_ok _)

theorem sound_decodeParamType {d : Decoder} {n : Nat} (hd : SoundUpTo d n)
    {v : JSONValue} (hv : v.size ≤ n + 1) : Sound (decodeParamType d v) := by
  unfold decodeParamType
  refine sound_bind (sound_toObject v) (fun obj hobj => ?_)
  rw [toObject_ok hobj] at hv
  refine sound_bind (sound_Get obj _) (fun a _ => ?_)
  refine sound_bind (sound_toString a) (fun _ _ => ?_)
  refine sound_bind (sound_Get obj _) (fun b _ => ?_)
  refine sound_bind (sound_toString b) (fun _ _ => ?_)
  exact sound_GetType hd hv _ (fun _ => sound_ok _)

theorem sound_decodeParamTypes {d : Decoder} {n : Nat} (hd : SoundUpTo d n)
    {vs : List JSONValue} (hv : sizeList vs ≤ n + 1) : Sound (decodeParamTypes d vs) := by
  unfold decodeParamTypes
  refine sound_forRange (fun x hx => ?_)
  have := size_le_sizeList hx
  exact sound_decodeParamType hd (by omega)

theorem sound_decodeFieldType {d : Decoder} {n : Nat} (hd : SoundUpTo d n)
    {v : JSONValue} (hv : v.size ≤ n + 1) : Sound (decodeFieldType d v) := by
  unfold decodeFieldType
  refine sound_bind (sound_toObject v) (fun obj hobj => ?_)
  rw [toObject_ok hobj] at hv
  refine sound_bind (sound_Get obj _) (fun a _ => ?_)
  refine sound_bind (sound_toString a) (fun _ _ => ?_)
  exact sound_GetType hd hv _ (fun _ => sound_ok _)

theorem sound_decodeFieldTypes {d : Decoder} {n : Nat} (hd : SoundUpTo d n)
    {vs : List JSONValue} (hv : sizeList vs ≤ n + 1) : Sound (decodeFieldTypes d vs) := by
  unfold decodeFieldTypes
  refine sound_forRange (fun x hx => ?_)
  have := size_le_sizeList hx
  exact sound_decodeFieldType hd (by omega)

theorem sound_decodeFunctionType {d : Decoder} {n : Nat} (hd : SoundUpTo d n)
    {r p i : JSONValue} (hr : r.size ≤ n) (hp : p.size ≤ n) :
    Sound (decodeFunctionType d r p i) := by
  unfold decodeFunctionType
  refine sound_bind (sound_toSlice p) (fun ps hps => ?_)
  rw [toSlice_ok hps] at hp
  simp only [JSONValue.size] at hp
  refine sound_bind (sound_decodeParamTypes hd (by omega)) (fun _ _ => ?_)
  refine sound_bind (hd r hr).2 (fun _ _ => ?_)
  exact sound_bind (sound_toString i) (fun _ _ => sound_ok _)

theorem sound_decodeRestrictedType {d : Decoder} {n : Nat} (hd : SoundUpTo d n)
    {t : JSONValue} {rs : List JSONValue} {s : String} (ht : t.size ≤ n)
    (hrs : sizeList rs ≤ n) : Sound (decodeRestrictedType d t rs s) := by
  unfold decodeRestrictedType
  refine sound_bind (hd t ht).2 (fun _ _ => ?_)
  refine sound_bind (sound_forRange (fun x hx => ?_)) (fun _ _ => sound_ok _)
  have := size_le_sizeList hx
  exact (hd x (by omega)).2

theorem sound_decodeNominalType {d : Decoder} {n : Nat} (hd : SoundUpTo d n)
    {obj : jsonObject} {kind typeID : String} {fs inits : List JSONValue}
    (hobj : (JSONValue.object obj).size ≤ n + 1) (hfs : sizeList fs ≤ n)
    (hinits : sizeList inits ≤ n) :
    Sound (decodeNominalType d obj kind typeID fs inits) := by
  unfold decodeNominalType
  refine sound_bind (sound_decodeFieldTypes hd (by omega)) (fun _ _ => ?_)
  refine sound_bind (sound_forRange (fun x hx => ?_)) (fun _ _ => ?_)
  · have hxs := size_le_sizeList hx
    refine sound_bind (sound_toSlice x) (fun ps hps => ?_)
    rw [toSlice_ok hps] at hxs
    simp only [JSONValue.size] at hxs
    exact sound_decodeParamTypes hd (by omega)
  · split
    · exact sound_invalid
    · repeat' split
      all_goals first
        | exact sound_ok _
        | exact sound_invalid
        | exact sound_error rfl
        | exact sound_GetType hd hobj _ (fun _ => sound_ok _)

theorem sound_decodeKind {d : Decoder} {n : Nat} (hd : SoundUpTo d n)
    {obj : jsonObject} (hv : (JSONValue.object obj).size ≤ n + 1) (kindValue : String) :
    Sound (decodeKind d obj kindValue) := by
  unfold decodeKind
  have hget : ∀ {key : String} {x : JSONValue}, obj.Get key = .ok x → x.size ≤ n := by
    intro key x hx
    have := size_lt_of_Get hx
    omega
  split
  · refine sound_bind (sound_Get obj _) (fun r hr => ?_)
    refine sound_bind (sound_Get obj _) (fun p hp => ?_)
    refine sound_bind (sound_Get obj _) (fun i _ => ?_)
    exact sound_decodeFunctionType hd (hget hr) (hget hp)
  split
  · refine sound_bind (sound_Get obj _) (fun rs hrs => ?_)
    refine sound_bind (sound_Get obj _) (fun a _ => ?_)
    refine sound_bind (sound_toString a) (fun _ _ => ?_)
    refine sound_bind (sound_Get obj _) (fun t ht => ?_)
    refine sound_bind (sound_toSlice rs) (fun rl hrl => ?_)
    have := hget hrs
    rw [toSlice_ok hrl] at this
    simp only [JSONValue.size] at this
    exact sound_decodeRestrictedType hd (hget ht) (by omega)
  split
  · exact sound_GetType hd hv _ (fun _ => sound_ok _)
  split
  · exact sound_GetType hd hv _ (fun _ => sound_ok _)
  split
  · exact sound_GetType hd hv _ (fun _ => sound_ok _)
  split
  · refine sound_bind (sound_Get obj _) (fun x hx => ?_)
    refine sound_bind (hd x (hget hx)).2 (fun _ _ => ?_)
    exact sound_GetType hd hv _ (fun _ => sound_ok _)
  split
  · refine sound_bind (sound_Get obj _) (fun a _ => ?_)
    refine sound_bind (sound_toUInt _ a) (fun _ _ => ?_)
    exact sound_GetType hd hv _ (fun _ => sound_ok _)
  split
  · refine sound_bind (sound_Get obj _) (fun a _ => ?_)
    refine sound_bind (sound_toBool a) (fun _ _ => ?_)
    exact sound_GetType hd hv _ (fun _ => sound_ok _)
  split
  · exact sound_ok _
  · refine sound_bind (sound_Get obj _) (fun fv hfv => ?_)
    refine sound_bind (sound_Get obj _) (fun a _ => ?_)
    refine sound_bind (sound_toString a) (fun _ _ => ?_)
    refine sound_bind (sound_Get obj _) (fun iv hiv => ?_)
    refine sound_bind (sound_toSlice fv) (fun fs hfs => ?_)
    refine sound_bind (sound_toSlice iv) (fun inits hinits => ?_)
    have h1 := hget hfv
    have h2 := hget hiv
    rw [toSlice_ok hfs] at h1
    rw [toSlice_ok hinits] at h2
    simp only [JSONValue.size] at h1 h2
    exact sound_decodeNominalType hd hv (by omega) (by omega)

theorem sound_decodeTypeBody {d : Decoder} {n : Nat} (hd : SoundUpTo d n)
    {v : JSONValue} (hv : v.size ≤ n + 1) : Sound (decodeTypeBody d v) := by
  unfold decodeTypeBody
  split
  · exact sound_ok _
  · refine sound_bind (sound_toObject v) (fun obj hobj => ?_)
    rw [toObject_ok hobj] at hv
    refine sound_bind (sound_Get obj _) (fun a _ => ?_)
    refine sound_bind (sound_toString a) (fun kindValue _ => ?_)
    exact sound_decodeKind hd hv kindValue

theorem sound_leafDecoders (d : Decoder) (v : JSONValue) :
    Sound (decodeBool v) ∧ Sound (decodeCharacter d v) ∧ Sound (decodeString d v) ∧
    Sound (decodeFix64 d v) ∧ Sound (decodeUFix64 d v) := by
  unfold decodeBool decodeCharacter decodeString decodeFix64 decodeUFix64
  refine ⟨?_, ?_, ?_, ?_, ?_⟩
  · exact sound_bind (sound_toBool v) (fun _ _ => sound_ok _)
  · refine sound_bind (sound_toString v) (fun _ _ => ?_)
    split
    · exact sound_ok _
    · exact sound_error rfl
  · refine sound_bind (sound_toString v) (fun _ _ => ?_)
    split
    · exact sound_ok _
    · exact sound_error rfl
  · refine sound_bind (sound_toString v) (fun _ _ => ?_)
    split
    · exact sound_ok _
    · exact sound_invalid
  · refine sound_bind (sound_toString v) (fun _ _ => ?_)
    split
    · exact sound_ok _
    · exact sound_invalid

theorem sound_ite {α : Type} {c : Prop} [Decidable c] {a b : Panics α}
    (ha : c → Sound a) (hb : ¬c → Sound b) : Sound (if c then a else b) := by
  split
  · exact ha ‹_›
  · exact hb ‹_›

theorem sound_decodeTagged {d : Decoder} {n : Nat} (hd : SoundUpTo d n)
    (typeStr : String) {v : JSONValue} (hv : v.size ≤ n) :
    Sound (decodeTagged d typeStr v) := by
  have hk := sound_compositeKinds hd (Nat.le_succ_of_le hv)
  have hl := sound_leafDecoders d v
  unfold decodeTagged
  refine sound_ite (fun _ => ?_) (fun _ => ?_)
  · exact sound_decodeOptional hd hv
  refine sound_ite (fun _ => ?_) (fun _ => ?_)
  · exact hl.1
  refine sound_ite (fun _ => ?_) (fun _ => ?_)
  · exact hl.2.1
  refine sound_ite (fun _ => ?_) (fun _ => ?_)
  · exact hl.2.2.1
  refine sound_ite (fun _ => ?_) (fun _ => ?_)
  · exact sound_bind (sound_decodeAddress v) (fun _ _ => sound_ok _)
  refine sound_ite (fun _ => ?_) (fun _ => ?_)
  · exact sound_integer .int v
  refine sound_ite (fun _ => ?_) (fun _ => ?_)
  · exact sound_integer .int8 v
  refine sound_ite (fun _ => ?_) (fun _ => ?_)
  · exact sound_integer .int16 v
  refine sound_ite (fun _ => ?_) (fun _ => ?_)
  · exact sound_integer .int32 v
  refine sound_ite (fun _ => ?_) (fun _ => ?_)
  · exact sound_integer .int64 v
  refine sound_ite (fun _ => ?_) (fun _ => ?_)
  · exact sound_integer .int128 v
  refine sound_ite (fun _ => ?_) (fun _ => ?_)
  · exact sound_integer .int256 v
  refine sound_ite (fun _ => ?_) (fun _ => ?_)
  · exact sound_integer .uint v
  refine sound_ite (fun _ => ?_) (fun _ => ?_)
  · exact sound_integer .uint8 v
  refine sound_ite (fun _ => ?_) (fun _ => ?_)
  · exact sound_integer .uint16 v
  refine sound_ite (fun _ => ?_) (fun _ => ?_)
  · exact sound_integer .uint32 v
  refine sound_ite (fun _ => ?_) (fun _ => ?_)
  · exact sound_integer .uint64 v
  refine sound_ite (fun _ => ?_) (fun _ => ?_)
  · exact sound_integer .uint128 v
  refine sound_ite (fun _ => ?_) (fun _ => ?_)
  · exact sound_integer .uint256 v
  refine sound_ite (fun _ => ?_) (fun _ => ?_)
  · exact sound_integer .word8 v
  refine sound_ite (fun _ => ?_) (fun _ => ?_)
  · exact sound_integer .word16 v
  refine sound_ite (fun _ => ?_) (fun _ => ?_)
  · exact sound_integer .word32 v
  refine sound_ite (fun _ => ?_) (fun _ => ?_)
  · exact sound_integer .word64 v
  refine sound_ite (fun _ => ?_) (fun _ => ?_)
  · exact hl.2.2.2.1
  refine sound_ite (fun _ => ?_) (fun _ => ?_)
  · exact hl.2.2.2.2
  refine sound_ite (fun _ => ?_) (fun _ => ?_)
  · exact sound_decodeArray hd hv
  refine sound_ite (fun _ => ?_) (fun _ => ?_)
  · exact sound_decodeDictionary hd (Nat.le_succ_of_le hv)
  refine sound_ite (fun _ => ?_) (fun _ => ?_)
  · exact hk.2.1
  refine sound_ite (fun _ => ?_) (fun _ => ?_)
  · exact hk.1
  refine sound_ite (fun _ => ?_) (fun _ => ?_)
  · exact hk.2.2.1
  refine sound_ite (fun _ => ?_) (fun _ => ?_)
  · exact hk.2.2.2.1
  refine sound_ite (fun _ => ?_) (fun _ => ?_)
  · exact sound_decodeLink hd (Nat.le_succ_of_le hv)
  refine sound_ite (fun _ => ?_) (fun _ => ?_)
  · exact sound_decodePath v
  refine sound_ite (fun _ => ?_) (fun _ => ?_)
  · exact sound_decodeTypeValue hd (Nat.le_succ_of_le hv)
  refine sound_ite (fun _ => ?_) (fun _ => ?_)
  · exact sound_decodeCapability hd (Nat.le_succ_of_le hv)
  refine sound_ite (fun _ => ?_) (fun _ => ?_)
  · exact hk.2.2.2.2
  exact sound_invalid

theorem sound_decodeJSONBody {d : Decoder} {n : Nat} (hd : SoundUpTo d n)
    {v : JSONValue} (hv : v.size ≤ n + 1) : Sound (decodeJSONBody d v) := by
  unfold decodeJSONBody
  refine sound_bind (sound_toObject v) (fun obj hobj => ?_)
  rw [toObject_ok hobj] at hv
  refine sound_bind (sound_GetString obj _) (fun typeStr _ => ?_)
  split
  · unfold decodeVoid
    split
    · exact sound_invalid
    · exact sound_ok _
  · split
    · exact sound_invalid
    · refine sound_bind (sound_Get obj _) (fun x hx => ?_)
      exact sound_decodeTagged hd typeStr (by have := size_lt_of_Get hx; omega)

theorem soundUpTo_decoderAt (env : Env) : ∀ n : Nat, SoundUpTo (decoderAt env n) n
  | 0 => by
    intro x hx
    have := x.size_pos
    omega
  | n + 1 => by
    intro x hx
    have ih := soundUpTo_decoderAt env n
    simp only [decoderAt]
    exact ⟨sound_decodeJSONBody ih hx, sound_decodeTypeBody ih hx⟩

/-- The errors of `decodeJSON` are panic values of the decoding methods; in particular the
fuel never runs out. -/
theorem sound_decodeJSON (env : Env) (v : JSONValue) : Sound (decodeJSON env v) :=
  (soundUpTo_decoderAt env v.size v le_rfl).1

/-- The errors of `decodeType` are panic values of the decoding methods. -/
theorem sound_decodeType (env : Env) (v : JSONValue) : Sound (decodeType env v) :=
  (soundUpTo_decoderAt env v.size v le_rfl).2

theorem Decode_error_eq (env : Env) (jsonDecode : Bytes → Except String jsonObject)
    (b : Bytes) : (Decode env jsonDecode b).2 = (Decoder.Decode env (jsonDecode b)).2 := by
  unfold Decode
  rcases Decoder_Decode_cases env (jsonDecode b) with ⟨v, hv⟩ | ⟨err, herr⟩
  · rw [hv]
  · rw [herr]

theorem GetString_error {obj : jsonObject} {key : String} {e : GoError}
    (h : obj.GetString key = .error e) : e = .ErrInvalidJSONCadence := by
  unfold jsonObject.GetString at h
  cases hg : obj.Get key with
  | error e' =>
    rw [hg] at h
    cases h
    exact Get_error hg
  | ok x =>
    rw [hg] at h
    cases x <;> first | (cases h; rfl) | cases h

theorem decodeTagged_wrongKind (d : Decoder) (typeStr : String) (payload : JSONValue)
    (h : wrongKind typeStr payload = true) :
    decodeTagged d typeStr payload = .error .ErrInvalidJSONCadence := by
  unfold wrongKind at h
  simp only [Bool.or_eq_true, Bool.and_eq_true, decide_eq_true_eq, Bool.not_eq_true',
    stringPayloadTags, slicePayloadTags, objectPayloadTags, List.mem_cons, List.mem_singleton,
    List.not_mem_nil, or_false] at h
  rcases h with ((⟨rfl, hk⟩ | ⟨ht, hk⟩) | ⟨ht, hk⟩) | ⟨ht, hk⟩
  · cases payload <;> first | rfl | cases hk
  · rcases ht with rfl | rfl | rfl | rfl | rfl | rfl | rfl | rfl | rfl | rfl | rfl | rfl | rfl |
      rfl | rfl | rfl | rfl | rfl | rfl | rfl | rfl | rfl | rfl <;>
      cases payload <;> first | rfl | cases hk
  · rcases ht with rfl | rfl <;> cases payload <;> first | rfl | cases hk
  · rcases ht with rfl | rfl | rfl | rfl | rfl | rfl | rfl | rfl | rfl <;>
      cases payload <;> first | rfl | cases hk

theorem wrongKind_void (payload : JSONValue) : wrongKind voidTypeStr payload = false := by
  cases payload <;> rfl

theorem decodeJSON_wrongShape (env : Env) (obj : jsonObject) (h : WrongShape obj) :
    decodeJSON env (.object obj) = .error .ErrInvalidJSONCadence := by
  rcases h with hno | ⟨typeStr, htype, hcase⟩
  · rw [decodeJSON_eq]
    unfold decodeJSONBody
    cases hg : obj.GetString typeKey with
    | ok typeStr => exact absurd hg (hno typeStr)
    | error e =>
      simp only [toObject, hg, bind, Except.bind]
      rw [GetString_error hg]
  · rcases hcase with hn | ⟨hvoid, hlen⟩ | ⟨hvoid, hlen⟩ | ⟨hvoid, hget⟩ | ⟨payload, hget, hk⟩
    · exact decodeJSON_unknown_tag env htype hn
    · rw [decodeJSON_eq]
      unfold decodeJSONBody
      simp only [toObject, htype, bind, Except.bind]
      rw [if_pos hvoid]
      unfold decodeVoid
      rw [if_pos hlen]
      rfl
    · rw [decodeJSON_eq]
      unfold decodeJSONBody
      simp only [toObject, htype, bind, Except.bind]
      rw [if_neg hvoid, if_pos hlen]
      rfl
    · rw [decodeJSON_eq]
      unfold decodeJSONBody
      simp only [toObject, htype, bind, Except.bind]
      rw [if_neg hvoid]
      by_cases hlen : obj.len = 2
      · simp only [hlen, ne_eq, not_true_eq_false, if_false]
        cases hg : obj.Get valueKey with
        | error e => simp only [Get_error hg]
        | ok payload => exact absurd hg (hget payload)
      · simp only [ne_eq, hlen, not_false_eq_true, if_true, invalid]
    · have hvoid : typeStr ≠ voidTypeStr := by
        intro hv
        rw [hv, wrongKind_void] at hk
        cases hk
      rw [decodeJSON_eq]
      unfold decodeJSONBody
      simp only [toObject, htype, bind, Except.bind]
      rw [if_neg hvoid]
      by_cases hlen : obj.len = 2
      · simp only [hlen, ne_eq, not_true_eq_false, if_false, hget]
        exact decodeTagged_wrongKind _ typeStr payload hk
      · simp only [ne_eq, hlen, not_false_eq_true, if_true, invalid]

/-- C4, as the code has it: every error that `Decode` returns wraps its cause.  When the
JSON text is malformed, it wraps the error of the JSON library and is not (does not wrap)
`ErrInvalidJSONCadence`.  Otherwise it is `failed to decode value` wrapping the error that
the decoding panicked with, it is (wraps) `ErrInvalidJSONCadence` just when that error is,
and that error is `ErrInvalidJSONCadence` itself when the object is not a value node of the
format (`WrongShape`): no string under `type`, a tag that is not recognized, other keys
than `type` and `value`, or a payload of the wrong JSON kind for the tag.  The marker of the
embedding for exhausted fuel is never the error. -/
theorem Decode_error_cause (env : Env) (jsonDecode : Bytes → Except String jsonObject)
    (b : Bytes) (err : GoError) (h : (Decode env jsonDecode b).2 = some err) :
    (Decoder.Decode env (jsonDecode b)).2 = some err ∧
    ((∃ msg, jsonDecode b = .error msg ∧
        err = .wrap "json-cdc: failed to decode valid JSON structure" (.jsonError msg) ∧
        err.isInvalidJSONCadence = false) ∨
     (∃ obj p, jsonDecode b = .ok obj ∧ decodeJSON env (.object obj) = .error p ∧
        err = .wrap "failed to decode value" p ∧
        err.isInvalidJSONCadence = p.isInvalidJSONCadence ∧
        p ≠ .outOfFuel ∧
        (WrongShape obj → p = .ErrInvalidJSONCadence ∧ err.isInvalidJSONCadence = true))) := by
  rw [Decode_error_eq] at h
  refine ⟨h, ?_⟩
  cases hdec : jsonDecode b with
  | error msg =>
    left
    rw [hdec] at h
    simp only [Decoder.Decode, Option.some.injEq] at h
    exact ⟨msg, rfl, h.symm, by rw [← h]; rfl⟩
  | ok obj =>
    right
    rw [hdec] at h
    cases hd : decodeJSON env (.object obj) with
    | ok v =>
      simp only [Decoder.Decode, hd] at h
      cases h
    | error p =>
      simp only [Decoder.Decode, hd, Option.some.injEq] at h
      refine ⟨obj, p, rfl, hd, h.symm, by rw [← h]; rfl, ?_, fun hw => ?_⟩
      · intro hp
        have := sound_decodeJSON env (.object obj) p hd
        rw [hp] at this
        cases this
      · have hp : p = .ErrInvalidJSONCadence := by
          have := decodeJSON_wrongShape env obj hw
          rw [hd] at this
          exact Except.error.inj this
        refine ⟨hp, ?_⟩
        rw [← h, hp]
        rfl

/-- Witness of C4 at an object whose payload for the tag `Bool` is a string. -/
theorem Decode_error_cause_witness :
    (Decode sampleEnv (fun _ => .ok [("type", .string "Bool"), ("value", .string "x")]) []).2
      = some (.wrap "failed to decode value" .ErrInvalidJSONCadence) ∧
    WrongShape [("type", .string "Bool"), ("value", .string "x")] ∧
    (Decoder.Decode sampleEnv (.ok [("type", .string "Bool"), ("value", .string "x")])).2
      = some (.wrap "failed to decode value" .ErrInvalidJSONCadence) ∧
    ((∃ msg, (Except.ok [("type", .string "Bool"), ("value", .string "x")] :
          Except String jsonObject) = .error msg ∧
        GoError.wrap "failed to decode value" .ErrInvalidJSONCadence
          = .wrap "json-cdc: failed to decode valid JSON structure" (.jsonError msg) ∧
        (GoError.wrap "failed to decode value" .ErrInvalidJSONCadence).isInvalidJSONCadence
          = false) ∨
     (∃ obj p, (Except.ok [("type", .string "Bool"), ("value", .string "x")] :
          Except String jsonObject) = .ok obj ∧
        decodeJSON sampleEnv (.object obj) = .error p ∧
        GoError.wrap "failed to decode value" .ErrInvalidJSONCadence
          = .wrap "failed to decode value" p ∧
        (GoError.wrap "failed to decode value" .ErrInvalidJSONCadence).isInvalidJSONCadence
          = p.isInvalidJSONCadence ∧
        p ≠ .outOfFuel ∧
        (WrongShape obj → p = .ErrInvalidJSONCadence ∧
          (GoError.wrap "failed to decode value"
            .ErrInvalidJSONCadence).isInvalidJSONCadence = true))) :=
  ⟨rfl, Or.inr ⟨"Bool", rfl, Or.inr (Or.inr (Or.inr (Or.inr ⟨.string "x", rfl, rfl⟩)))⟩,
   Decode_error_cause sampleEnv
    (fun _ => .ok [("type", .string "Bool"), ("value", .string "x")]) []
    (.wrap "failed to decode value" .ErrInvalidJSONCadence) rfl⟩

/-- C4 fails as stated: for malformed JSON text `Decode` returns an error that wraps the
error of the JSON library, which is not (does not wrap) `ErrInvalidJSONCadence`. -/
theorem Decode_malformed_json_counterexample :
    Decode sampleEnv (fun _ => .error "unexpected end of JSON input") []
      = (none, some (.wrap "json-cdc: failed to decode valid JSON structure"
          (.jsonError "unexpected end of JSON input"))) ∧
    (GoError.wrap "json-cdc: failed to decode valid JSON structure"
        (.jsonError "unexpected end of JSON input")).isInvalidJSONCadence = false ∧
    ¬ (∀ (env : Env) (jsonDecode : Bytes → Except String jsonObject) (b : Bytes)
        (err : GoError), (Decode env jsonDecode b).2 = some err →
        err.isInvalidJSONCadence = true) := by
  refine ⟨rfl, rfl, ?_⟩
  intro h
  have := h sampleEnv (fun _ => .error "unexpected end of JSON input") [] _ rfl
  cases this

/-! ## Round trip through the encoder -/

theorem simpleTypeOfKind_kindName (k : SimpleType) : simpleTypeOfKind k.kindName = some k := by
  cases k <;> rfl

theorem decodeTypeBody_simple (d : Decoder) (k : SimpleType) :
    decodeTypeBody d (.object [("kind", .string k.kindName)]) = .ok (.simple k) := by
  cases k <;> rfl

theorem forRange_ok_cons {α β : Type} {f : α → Panics β} {x : α} {xs : List α} {y : β}
    {ys : List β} (hx : f x = .ok y) (hxs : forRange f xs = .ok ys) :
    forRange f (x :: xs) = .ok (y :: ys) := by
  simp only [forRange, hx, hxs, bind, Except.bind]

theorem floatToUInt_natCast (f : Rat → Nat) (n : Nat) (h : n < 2 ^ 53) :
    floatToUInt f (n : Rat) = n := by
  unfold floatToUInt
  have h1 : (-1 : Rat) < (n : Rat) := by
    have : (0 : Rat) ≤ (n : Rat) := Nat.cast_nonneg n
    linarith
  have h2 : (n : Rat) < 2 ^ 64 := by
    have h3 : n < 2 ^ 64 := lt_of_lt_of_le h (by norm_num)
    exact_mod_cast h3
  rw [if_pos ⟨h1, h2⟩]
  simp

theorem ok_bind {α β : Type} (a : α) (f : α → Panics β) :
    ((Except.ok a : Panics α) >>= f) = f a := rfl

theorem decodeNominalType_plain (d : Decoder) (obj : jsonObject) (typeID : String)
    (fs inits : List JSONValue) (fields : List Field) (is : List (List Parameter))
    (loc : Option Location) (qid : String)
    (hf : decodeFieldTypes d fs = .ok fields)
    (hi : forRange (fun params => do decodeParamTypes d (← toSlice params)) inits = .ok is)
    (hid : d.env.DecodeTypeID typeID = some (loc, qid)) :
    decodeNominalType d obj "Struct" typeID fs inits = .ok (.struct loc qid fields is) ∧
    decodeNominalType d obj "Resource" typeID fs inits = .ok (.resource loc qid fields is) ∧
    decodeNominalType d obj "Contract" typeID fs inits = .ok (.contract loc qid fields is) ∧
    decodeNominalType d obj "StructInterface" typeID fs inits
      = .ok (.structInterface loc qid fields is) ∧
    decodeNominalType d obj "ResourceInterface" typeID fs inits
      = .ok (.resourceInterface loc qid fields is) ∧
    decodeNominalType d obj "ContractInterface" typeID fs inits
      = .ok (.contractInterface loc qid fields is) := by
  unfold decodeNominalType
  rw [hf, hi]
  simp only [hid]
  simp +decide only [if_true, if_false]
  exact ⟨rfl, rfl, rfl, rfl, rfl, rfl⟩

theorem decodeNominalType_event (d : Decoder) (obj : jsonObject) (typeID : String)
    (fs inits : List JSONValue) (fields : List Field) (init : List Parameter)
    (loc : Option Location) (qid : String)
    (hf : decodeFieldTypes d fs = .ok fields)
    (hi : forRange (fun params => do decodeParamTypes d (← toSlice params)) inits = .ok [init])
    (hid : d.env.DecodeTypeID typeID = some (loc, qid)) :
    decodeNominalType d obj "Event" typeID fs inits = .ok (.event loc qid fields init) := by
  unfold decodeNominalType
  rw [hf, hi]
  simp only [hid]
  simp +decide only [if_true, if_false]
  rfl

theorem decodeNominalType_enum (d : Decoder) (obj : jsonObject) (typeID : String)
    (fs inits : List JSONValue) (fields : List Field) (is : List (List Parameter))
    (loc : Option Location) (qid : String) (raw : JSONValue) (rawType : CadenceType)
    (hf : decodeFieldTypes d fs = .ok fields)
    (hi : forRange (fun params => do decodeParamTypes d (← toSlice params)) inits = .ok is)
    (hid : d.env.DecodeTypeID typeID = some (loc, qid))
    (hraw : obj.Get typeKey = .ok raw) (hrawType : d.decodeType raw = .ok rawType) :
    decodeNominalType d obj "Enum" typeID fs inits
      = .ok (.enum loc qid rawType fields is) := by
  unfold decodeNominalType
  rw [hf, hi]
  simp only [hid]
  simp +decide only [if_true, if_false]
  rw [hraw]
  show (d.decodeType raw >>= fun rawType =>
    Except.ok (CadenceType.enum loc qid rawType fields is)) = _
  rw [hrawType]
  rfl

mutual
/-- Decoding the payload of a representable type gives the type back. -/
theorem decodeType_encodeType (env : Env) (enc : Encoder) :
    ∀ t : CadenceType, RepresentableType env enc t →
      decodeType env (encodeType enc t) = .ok t
  | .nil, _ => by
    rw [decodeType_eq]
    rfl
  | .simple k, _ => by
    rw [decodeType_eq]
    exact decodeTypeBody_simple _ k
  | .optional t, h => by
    have ih := decodeType_encodeType env enc t h
    rw [decodeType_eq]
    show (decodeType env (encodeType enc t) >>= fun t => Except.ok (CadenceType.optional t)) = _
    rw [ih]
    rfl
  | .variableSizedArray t, h => by
    have ih := decodeType_encodeType env enc t h
    rw [decodeType_eq]
    show (decodeType env (encodeType enc t) >>=
      fun t => Except.ok (CadenceType.variableSizedArray t)) = _
    rw [ih]
    rfl
  | .constantSizedArray size t, h => by
    have h' : size < 2 ^ 53 ∧ RepresentableType env enc t := h
    have ih := decodeType_encodeType env enc t h'.2
    rw [decodeType_eq]
    show (decodeType env (encodeType enc t) >>= fun t => Except.ok
      (CadenceType.constantSizedArray (floatToUInt env.uintOutOfRange (size : Rat)) t)) = _
    rw [ih, floatToUInt_natCast _ _ h'.1]
    rfl
  | .dictionary k v, h => by
    have h' : RepresentableType env enc k ∧ RepresentableType env enc v := h
    have ihk := decodeType_encodeType env enc k h'.1
    have ihv := decodeType_encodeType env enc v h'.2
    rw [decodeType_eq]
    show (decodeType env (encodeType enc k) >>= fun k => decodeType env (encodeType enc v) >>=
      fun v => Except.ok (CadenceType.dictionary k v)) = _
    rw [ihk, ok_bind, ihv]
    rfl
  | .capability t, h => by
    have ih := decodeType_encodeType env enc t h
    rw [decodeType_eq]
    show (decodeType env (encodeType enc t) >>=
      fun t => Except.ok (CadenceType.capability t)) = _
    rw [ih]
    rfl
  | .reference auth t, h => by
    have ih := decodeType_encodeType env enc t h
    rw [decodeType_eq]
    show (decodeType env (encodeType enc t) >>=
      fun t => Except.ok (CadenceType.reference auth t)) = _
    rw [ih]
    rfl
  | .function typeID params ret, h => by
    have h' : RepresentableParameters env enc params ∧ RepresentableType env enc ret := h
    have ihp := decodeParamTypes_encodeParameters env enc params h'.1
    have ihr := decodeType_encodeType env enc ret h'.2
    rw [decodeType_eq]
    show (decodeParamTypes (theDecoder env) (encodeParameters enc params) >>= fun ps =>
      decodeType env (encodeType enc ret) >>= fun r =>
        Except.ok (CadenceType.function typeID ps r)) = _
    rw [ihp, ok_bind, ihr]
    rfl
  | .restricted typeID t rs, h => by
    have h' : RepresentableType env enc t ∧ RepresentableTypes env enc rs := h
    have iht := decodeType_encodeType env enc t h'.1
    have ihr := decodeTypes_encodeTypes env enc rs h'.2
    rw [decodeType_eq]
    show (decodeType env (encodeType enc t) >>= fun t =>
      forRange (decodeType env) (encodeTypes enc rs) >>= fun rs =>
        Except.ok (CadenceType.restricted typeID t rs)) = _
    rw [iht, ok_bind, ihr]
    rfl
  | .struct loc qid fields inits, h => by
    have h' : env.DecodeTypeID (enc.TypeID loc qid) = some (loc, qid) ∧
      RepresentableFields env enc fields ∧ RepresentableInitializers env enc inits := h
    have ihf := decodeFieldTypes_encodeFields env enc fields h'.2.1
    have ihi := decodeInitializers_encode env enc inits h'.2.2
    rw [decodeType_eq]
    exact (decodeNominalType_plain (theDecoder env) _ _ _ _ _ _ _ _ ihf ihi h'.1).1
  | .resource loc qid fields inits, h => by
    have h' : env.DecodeTypeID (enc.TypeID loc qid) = some (loc, qid) ∧
      RepresentableFields env enc fields ∧ RepresentableInitializers env enc inits := h
    have ihf := decodeFieldTypes_encodeFields env enc fields h'.2.1
    have ihi := decodeInitializers_encode env enc inits h'.2.2
    rw [decodeType_eq]
    exact (decodeNominalType_plain (theDecoder env) _ _ _ _ _ _ _ _ ihf ihi h'.1).2.1
  | .event loc qid fields init, h => by
    have h' : env.DecodeTypeID (enc.TypeID loc qid) = some (loc, qid) ∧
      RepresentableFields env enc fields ∧ RepresentableParameters env enc init := h
    have ihf := decodeFieldTypes_encodeFields env enc fields h'.2.1
    have ihi := decodeParamTypes_encodeParameters env enc init h'.2.2
    have ihi' : forRange (fun params => do decodeParamTypes (theDecoder env) (← toSlice params))
        [.array (encodeParameters enc init)] = .ok [init] :=
      forRange_ok_cons (by show decodeParamTypes _ _ = _; exact ihi) rfl
    rw [decodeType_eq]
    exact decodeNominalType_event (theDecoder env) _ _ _ _ _ _ _ _ ihf ihi' h'.1
  | .contract loc qid fields inits, h => by
    have h' : env.DecodeTypeID (enc.TypeID loc qid) = some (loc, qid) ∧
      RepresentableFields env enc fields ∧ RepresentableInitializers env enc inits := h
    have ihf := decodeFieldTypes_encodeFields env enc fields h'.2.1
    have ihi := decodeInitializers_encode env enc inits h'.2.2
    rw [decodeType_eq]
    exact (decodeNominalType_plain (theDecoder env) _ _ _ _ _ _ _ _ ihf ihi h'.1).2.2.1
  | .structInterface loc qid fields inits, h => by
    have h' : env.DecodeTypeID (enc.TypeID loc qid) = some (loc, qid) ∧
      RepresentableFields env enc fields ∧ RepresentableInitializers env enc inits := h
    have ihf := decodeFieldTypes_encodeFields env enc fields h'.2.1
    have ihi := decodeInitializers_encode env enc inits h'.2.2
    rw [decodeType_eq]
    exact (decodeNominalType_plain (theDecoder env) _ _ _ _ _ _ _ _ ihf ihi h'.1).2.2.2.1
  | .resourceInterface loc qid fields inits, h => by
    have h' : env.DecodeTypeID (enc.TypeID loc qid) = some (loc, qid) ∧
      RepresentableFields env enc fields ∧ RepresentableInitializers env enc inits := h
    have ihf := decodeFieldTypes_encodeFields env enc fields h'.2.1
    have ihi := decodeInitializers_encode env enc inits h'.2.2
    rw [decodeType_eq]
    exact (decodeNominalType_plain (theDecoder env) _ _ _ _ _ _ _ _ ihf ihi h'.1).2.2.2.2.1
  | .contractInterface loc qid fields inits, h => by
    have h' : env.DecodeTypeID (enc.TypeID loc qid) = some (loc, qid) ∧
      RepresentableFields env enc fields ∧ RepresentableInitializers env enc inits := h
    have ihf := decodeFieldTypes_encodeFields env enc fields h'.2.1
    have ihi := decodeInitializers_encode env enc inits h'.2.2
    rw [decodeType_eq]
    exact (decodeNominalType_plain (theDecoder env) _ _ _ _ _ _ _ _ ihf ihi h'.1).2.2.2.2.2
  | .enum loc qid rawType fields inits, h => by
    have h' : env.DecodeTypeID (enc.TypeID loc qid) = some (loc, qid) ∧
      RepresentableType env enc rawType ∧
      RepresentableFields env enc fields ∧ RepresentableInitializers env enc inits := h
    have ihr := decodeType_encodeType env enc rawType h'.2.1
    have ihf := decodeFieldTypes_encodeFields env enc fields h'.2.2.1
    have ihi := decodeInitializers_encode env enc inits h'.2.2.2
    rw [decodeType_eq]
    exact decodeNominalType_enum (theDecoder env) _ _ _ _ _ _ _ _ (encodeType enc rawType)
      rawType ihf ihi h'.1 rfl ihr
/-- Decoding the payloads of representable types gives the types back. -/
theorem decodeTypes_encodeTypes (env : Env) (enc : Encoder) :
    ∀ ts : List CadenceType, RepresentableTypes env enc ts →
      forRange (decodeType env) (encodeTypes enc ts) = .ok ts
  | [], _ => rfl
  | t :: ts, h => by
    have h' : RepresentableType env enc t ∧ RepresentableTypes env enc ts := h
    exact forRange_ok_cons (decodeType_encodeType env enc t h'.1)
      (decodeTypes_encodeTypes env enc ts h'.2)
/-- Decoding the payload of a representable field type gives the field back. -/
theorem decodeFieldType_encodeField (env : Env) (enc : Encoder) :
    ∀ f : Field, RepresentableField env enc f →
      decodeFieldType (theDecoder env) (encodeField enc f) = .ok f
  | .mk identifier t, h => by
    have ih := decodeType_encodeType env enc t h
    show (decodeType env (encodeType enc t) >>= fun t => Except.ok (Field.mk identifier t)) = _
    rw [ih]
    rfl
/-- Decoding the payloads of representable field types gives the fields back. -/
theorem decodeFieldTypes_encodeFields (env : Env) (enc : Encoder) :
    ∀ fs : List Field, RepresentableFields env enc fs →
      decodeFieldTypes (theDecoder env) (encodeFields enc fs) = .ok fs
  | [], _ => rfl
  | f :: fs, h => by
    have h' : RepresentableField env enc f ∧ RepresentableFields env enc fs := h
    exact forRange_ok_cons (decodeFieldType_encodeField env enc f h'.1)
      (decodeFieldTypes_encodeFields env enc fs h'.2)
/-- Decoding the payload of a representable parameter gives the parameter back. -/
theorem decodeParamType_encodeParameter (env : Env) (enc : Encoder) :
    ∀ p : Parameter, RepresentableParameter env enc p →
      decodeParamType (theDecoder env) (encodeParameter enc p) = .ok p
  | .mk label identifier t, h => by
    have ih := decodeType_encodeType env enc t h
    show (decodeType env (encodeType enc t) >>=
      fun t => Except.ok (Parameter.mk label identifier t)) = _
    rw [ih]
    rfl
/-- Decoding the payloads of representable parameters gives the parameters back. -/
theorem decodeParamTypes_encodeParameters (env : Env) (enc : Encoder) :
    ∀ ps : List Parameter, RepresentableParameters env enc ps →
      decodeParamTypes (theDecoder env) (encodeParameters enc ps) = .ok ps
  | [], _ => rfl
  | p :: ps, h => by
    have h' : RepresentableParameter env enc p ∧ RepresentableParameters env enc ps := h
    exact forRange_ok_cons (decodeParamType_encodeParameter env enc p h'.1)
      (decodeParamTypes_encodeParameters env enc ps h'.2)
/-- Decoding the payloads of representable initializers gives the initializers back. -/
theorem decodeInitializers_encode (env : Env) (enc : Encoder) :
    ∀ inits : List (List Parameter), RepresentableInitializers env enc inits →
      forRange (fun params => do decodeParamTypes (theDecoder env) (← toSlice params))
        (encodeInitializers enc inits) = .ok inits
  | [], _ => rfl
  | ps :: rest, h => by
    have h' : RepresentableParameters env enc ps ∧ RepresentableInitializers env enc rest := h
    have ihp := decodeParamTypes_encodeParameters env enc ps h'.1
    exact forRange_ok_cons (by show decodeParamTypes _ _ = _; exact ihp)
      (decodeInitializers_encode env enc rest h'.2)
end

theorem fromHexChar_hexDigitChar : ∀ n : Nat, n < 16 → fromHexChar (hexDigitChar n) = some n := by
  decide

theorem hexDecode_hexEncode : ∀ bs : List Nat, (∀ b ∈ bs, b < 256) →
    hexDecode (hexEncode bs) = some bs
  | [], _ => rfl
  | b :: bs, h => by
    have hb : b < 256 := h b (List.mem_cons_self _ _)
    have ih := hexDecode_hexEncode bs (fun x hx => h x (List.mem_cons_of_mem _ hx))
    have h1 : b / 16 < 16 := by omega
    have h2 : b % 16 < 16 := by omega
    have h3 : b / 16 * 16 + b % 16 = b := by omega
    simp only [hexEncode, hexDecode, fromHexChar_hexDigitChar _ h1,
      fromHexChar_hexDigitChar _ h2, ih, Option.map_some', h3]

theorem decodeAddress_addressPayload (a : Bytes) (h : RepresentableAddress a) :
    decodeAddress (addressPayload a) = .ok a := by
  have hsize := utf8ByteSize_ge_two '0' 'x' (hexEncode a)
  unfold decodeAddress addressPayload
  simp only [toString, bind, Except.bind]
  rw [if_neg (by omega)]
  simp only [List.take, ne_eq, not_true_eq_false, if_false, List.drop,
    hexDecode_hexEncode a h.2, BytesToUnmeteredAddress]
  rw [if_pos (by rw [h.1])]
  simp [h.1]

theorem decodeTagged_integer_toString (d : Decoder) (T : IntegerTag) (n : Int)
    (h : T.inRange n) :
    decodeTagged d T.name (.string (ToString.toString n)) = .ok (T.value n) := by
  rw [decodeTagged_integer]
  exact (T.decoder_string _ _).mpr ⟨n, T.holds_toString n h, h, rfl⟩

theorem decodeJSON_pathNode (env : Env) (p : Path) : decodeJSON env (pathNode p) = .ok (.path p) := by
  rw [pathNode, decodeJSON_node env _ _ (by decide)]
  rfl

theorem encodeValue_ne_null (enc : Encoder) (v : Value) : encodeValue enc v ≠ .null := by
  cases v with
  | optional o => cases o <;> (intro h; cases h)
  | _ => intro h; cases h

theorem zipFields_fst (env : Env) : ∀ (fields : List Field) (vs : List Value),
    (zipFields env fields vs).map Prod.fst = vs
  | _, [] => rfl
  | fields, v :: vs => by
    simp only [zipFields, List.map_cons, zipFields_fst env fields.tail vs]

theorem zipFields_snd (env : Env) : ∀ (fields : List Field) (vs : List Value),
    fields.map Field.type = vs.map env.typeOf → (zipFields env fields vs).map Prod.snd = fields
  | [], [], _ => rfl
  | [], _ :: _, h => by cases h
  | _ :: _, [], h => by cases h
  | (.mk name t) :: fields, v :: vs, h => by
    simp only [List.map_cons, List.cons.injEq, Field.type] at h
    simp only [zipFields, List.map_cons, List.head?_cons, Option.elim, Field.identifier,
      List.tail_cons, zipFields_snd env fields vs h.2, ← h.1]

theorem decodeComposite_payload (env : Env) (enc : Encoder) (t : CadenceType)
    (fs : List Value) (h : CompositeMatches env enc t fs)
    (hfields : forRange (decodeCompositeField (theDecoder env))
      (encodeFieldValues enc t.fieldList fs) = .ok (zipFields env t.fieldList fs)) :
    decodeComposite (theDecoder env) (compositePayload enc t (encodeFieldValues enc t.fieldList fs))
      = .ok { location := t.location
              qualifiedIdentifier := t.qualifiedIdentifier
              fieldValues := fs
              fieldTypes := t.fieldList } := by
  obtain ⟨hid, hnative, htypes⟩ := h
  have hid' : (theDecoder env).env.DecodeTypeID (enc.TypeID t.location t.qualifiedIdentifier)
      = some (t.location, t.qualifiedIdentifier) := hid
  have hcond : ¬ (t.location.isNone = true ∧ (theDecoder env).env.NativeCompositeTypes
      (enc.TypeID t.location t.qualifiedIdentifier) = false) := by
    rintro ⟨h1, h2⟩
    rcases hnative with h3 | h3
    · cases hl : t.location <;> simp [hl] at h1 h3
    · have h2' : env.NativeCompositeTypes (enc.TypeID t.location t.qualifiedIdentifier)
          = false := h2
      rw [h3] at h2'
      cases h2'
  have hget : jsonObject.GetString
      [("id", JSONValue.string (enc.TypeID t.location t.qualifiedIdentifier)),
        ("fields", JSONValue.array (encodeFieldValues enc t.fieldList fs))] idKey
      = .ok (enc.TypeID t.location t.qualifiedIdentifier) := rfl
  have hslice : jsonObject.GetSlice
      [("id", JSONValue.string (enc.TypeID t.location t.qualifiedIdentifier)),
        ("fields", JSONValue.array (encodeFieldValues enc t.fieldList fs))] fieldsKey
      = .ok (encodeFieldValues enc t.fieldList fs) := rfl
  unfold decodeComposite compositePayload
  simp only [toObject]
  rw [ok_bind, hget, ok_bind]
  simp only [hid']
  rw [if_neg hcond, hslice, ok_bind, hfields, ok_bind, zipFields_fst, zipFields_snd _ _ _ htypes]

theorem decodeOptional_of_ne_null (d : Decoder) (p : JSONValue) (h : p ≠ .null) :
    decodeOptional d p = (d.decodeJSON p >>= fun inner => .ok (.optional (some inner))) := by
  cases p <;> first | rfl | exact absurd rfl h

theorem decodeCharacter_ok (d : Decoder) (s : String) (h : d.env.NewCharacter s = .ok s) :
    decodeCharacter d (.string s) = .ok (.character s) := by
  unfold decodeCharacter
  simp only [toString, bind, Except.bind, h]

theorem decodeString_ok (d : Decoder) (s : String) (h : d.env.NewString s = .ok s) :
    decodeString d (.string s) = .ok (.string s) := by
  unfold decodeString
  simp only [toString, bind, Except.bind, h]

theorem decodeFix64_ok (d : Decoder) (s : String) (raw : Int)
    (h : d.env.ParseFix64 s = some raw) : decodeFix64 d (.string s) = .ok (.fix64 raw) := by
  unfold decodeFix64
  simp only [toString, bind, Except.bind, h]

theorem decodeUFix64_ok (d : Decoder) (s : String) (raw : Nat)
    (h : d.env.ParseUFix64 s = some raw) : decodeUFix64 d (.string s) = .ok (.ufix64 raw) := by
  unfold decodeUFix64
  simp only [toString, bind, Except.bind, h]

theorem decodeTagged_composite (d : Decoder) (v : JSONValue) :
    decodeTagged d "Struct" v = decodeStruct d v ∧
    decodeTagged d "Resource" v = decodeResource d v ∧
    decodeTagged d "Event" v = decodeEvent d v ∧
    decodeTagged d "Contract" v = decodeContract d v ∧
    decodeTagged d "Enum" v = decodeEnum d v := by
  unfold decodeTagged
  simp +decide only [if_true, if_false, and_self]

theorem decodeTagged_scalar (d : Decoder) (v : JSONValue) :
    decodeTagged d "Optional" v = decodeOptional d v ∧
    decodeTagged d "Character" v = decodeCharacter d v ∧
    decodeTagged d "String" v = decodeString d v ∧
    decodeTagged d "Fix64" v = decodeFix64 d v ∧
    decodeTagged d "UFix64" v = decodeUFix64 d v := by
  unfold decodeTagged
  simp +decide only [if_true, if_false, and_self]

theorem decodeTagged_container (d : Decoder) (v : JSONValue) :
    decodeTagged d "Array" v = decodeArray d v ∧
    decodeTagged d "Dictionary" v = decodeDictionary d v ∧
    decodeTagged d "Link" v = decodeLink d v ∧
    decodeTagged d "Type" v = decodeTypeValue d v ∧
    decodeTagged d "Capability" v = decodeCapability d v := by
  unfold decodeTagged
  simp +decide only [if_true, if_false, and_self]

mutual
/-- Decoding the node of a representable value gives the value back. -/
theorem decodeJSON_encodeValue (env : Env) (enc : Encoder) :
    ∀ v : Value, Representable env enc v → decodeJSON env (encodeValue enc v) = .ok v
  | .void, _ => by
    rw [decodeJSON_eq]
    rfl
  | .optional none, _ => by
    show decodeJSON env (node "Optional" .null) = _
    rw [decodeJSON_node env _ _ (by decide)]
    rfl
  | .optional (some v), h => by
    have ih := decodeJSON_encodeValue env enc v h
    show decodeJSON env (node "Optional" (encodeValue enc v)) = _
    rw [decodeJSON_node env _ _ (by decide), (decodeTagged_scalar _ _).1,
      decodeOptional_of_ne_null _ _ (encodeValue_ne_null enc v)]
    show (decodeJSON env (encodeValue enc v) >>= fun inner =>
      Except.ok (Value.optional (some inner))) = _
    rw [ih]
    rfl
  | .bool b, _ => by
    show decodeJSON env (node "Bool" (.bool b)) = _
    rw [decodeJSON_node env _ _ (by decide)]
    rfl
  | .character s, h => by
    show decodeJSON env (node "Character" (.string s)) = _
    rw [decodeJSON_node env _ _ (by decide), (decodeTagged_scalar _ _).2.1]
    exact decodeCharacter_ok (theDecoder env) s h
  | .string s, h => by
    show decodeJSON env (node "String" (.string s)) = _
    rw [decodeJSON_node env _ _ (by decide), (decodeTagged_scalar _ _).2.2.1]
    exact decodeString_ok (theDecoder env) s h
  | .address a, h => by
    show decodeJSON env (node "Address" (addressPayload a)) = _
    rw [decodeJSON_node env _ _ (by decide), decodeTagged_address,
      decodeAddress_addressPayload a h]
    rfl
  | .int i, h => by
    show decodeJSON env (node "Int" _) = _
    rw [decodeJSON_node env _ _ (by decide)]
    exact decodeTagged_integer_toString _ .int i h
  | .int8 i, h => by
    show decodeJSON env (node "Int8" _) = _
    rw [decodeJSON_node env _ _ (by decide)]
    exact decodeTagged_integer_toString _ .int8 i h
  | .int16 i, h => by
    show decodeJSON env (node "Int16" _) = _
    rw [decodeJSON_node env _ _ (by decide)]
    exact decodeTagged_integer_toString _ .int16 i h
  | .int32 i, h => by
    show decodeJSON env (node "Int32" _) = _
    rw [decodeJSON_node env _ _ (by decide)]
    exact decodeTagged_integer_toString _ .int32 i h
  | .int64 i, h => by
    show decodeJSON env (node "Int64" _) = _
    rw [decodeJSON_node env _ _ (by decide)]
    exact decodeTagged_integer_toString _ .int64 i h
  | .int128 i, h => by
    show decodeJSON env (node "Int128" _) = _
    rw [decodeJSON_node env _ _ (by decide)]
    exact decodeTagged_integer_toString _ .int128 i h
  | .int256 i, h => by
    show decodeJSON env (node "Int256" _) = _
    rw [decodeJSON_node env _ _ (by decide)]
    exact decodeTagged_integer_toString _ .int256 i h
  | .uint i, h => by
    show decodeJSON env (node "UInt" _) = _
    rw [decodeJSON_node env _ _ (by decide)]
    exact decodeTagged_integer_toString _ .uint i h
  | .uint8 n, h => by
    show decodeJSON env (node "UInt8" _) = _
    rw [decodeJSON_node env _ _ (by decide)]
    exact decodeTagged_integer_toString _ .uint8 n h
  | .uint16 n, h => by
    show decodeJSON env (node "UInt16" _) = _
    rw [decodeJSON_node env _ _ (by decide)]
    exact decodeTagged_integer_toString _ .uint16 n h
  | .uint32 n, h => by
    show decodeJSON env (node "UInt32" _) = _
    rw [decodeJSON_node env _ _ (by decide)]
    exact decodeTagged_integer_toString _ .uint32 n h
  | .uint64 n, h => by
    show decodeJSON env (node "UInt64" _) = _
    rw [decodeJSON_node env _ _ (by decide)]
    exact decodeTagged_integer_toString _ .uint64 n h
  | .uint128 i, h => by
    show decodeJSON env (node "UInt128" _) = _
    rw [decodeJSON_node env _ _ (by decide)]
    exact decodeTagged_integer_toString _ .uint128 i h
  | .uint256 i, h => by
    show decodeJSON env (node "UInt256" _) = _
    rw [decodeJSON_node env _ _ (by decide)]
    exact decodeTagged_integer_toString _ .uint256 i h
  | .word8 n, h => by
    show decodeJSON env (node "Word8" _) = _
    rw [decodeJSON_node env _ _ (by decide)]
    exact decodeTagged_integer_toString _ .word8 n h
  | .word16 n, h => by
    show decodeJSON env (node "Word16" _) = _
    rw [decodeJSON_node env _ _ (by decide)]
    exact decodeTagged_integer_toString _ .word16 n h
  | .word32 n, h => by
    show decodeJSON env (node "Word32" _) = _
    rw [decodeJSON_node env _ _ (by decide)]
    exact decodeTagged_integer_toString _ .word32 n h
  | .word64 n, h => by
    show decodeJSON env (node "Word64" _) = _
    rw [decodeJSON_node env _ _ (by decide)]
    exact decodeTagged_integer_toString _ .word64 n h
  | .fix64 raw, h => by
    show decodeJSON env (node "Fix64" (.string (enc.FormatFix64 raw))) = _
    rw [decodeJSON_node env _ _ (by decide), (decodeTagged_scalar _ _).2.2.2.1]
    exact decodeFix64_ok (theDecoder env) _ raw h
  | .ufix64 raw, h => by
    show decodeJSON env (node "UFix64" (.string (enc.FormatUFix64 raw))) = _
    rw [decodeJSON_node env _ _ (by decide), (decodeTagged_scalar _ _).2.2.2.2]
    exact decodeUFix64_ok (theDecoder env) _ raw h
  | .array vs, h => by
    have ih := decodeValues_encodeValues env enc vs h
    show decodeJSON env (node "Array" (.array (encodeValues enc vs))) = _
    rw [decodeJSON_node env _ _ (by decide), (decodeTagged_container _ _).1]
    show (forRange (decodeJSON env) (encodeValues enc vs) >>= fun values =>
      Except.ok (Value.array values)) = _
    rw [ih]
    rfl
  | .dictionary pairs, h => by
    have ih := decodePairs_encodePairs env enc pairs h
    show decodeJSON env (node "Dictionary" (.array (encodePairs enc pairs))) = _
    rw [decodeJSON_node env _ _ (by decide), (decodeTagged_container _ _).2.1]
    show (forRange (decodeKeyValuePair (theDecoder env)) (encodePairs enc pairs) >>=
      fun pairs => Except.ok (Value.dictionary pairs)) = _
    rw [ih]
    rfl
  | .struct t fs, h => by
    have h' : t = .struct t.location t.qualifiedIdentifier t.fieldList [] ∧
      CompositeMatches env enc t fs ∧ RepresentableValues env enc fs := h
    have hc := decodeComposite_payload env enc t fs h'.2.1
      (decodeFields_encodeFieldValues env enc fs t.fieldList h'.2.2)
    show decodeJSON env (node "Struct"
      (compositePayload enc t (encodeFieldValues enc t.fieldList fs))) = _
    rw [decodeJSON_node env _ _ (by decide), (decodeTagged_composite _ _).1]
    unfold decodeStruct
    rw [hc, ok_bind]
    exact congrArg (fun x => Except.ok (Value.struct x fs)) h'.1.symm
  | .resource t fs, h => by
    have h' : t = .resource t.location t.qualifiedIdentifier t.fieldList [] ∧
      CompositeMatches env enc t fs ∧ RepresentableValues env enc fs := h
    have hc := decodeComposite_payload env enc t fs h'.2.1
      (decodeFields_encodeFieldValues env enc fs t.fieldList h'.2.2)
    show decodeJSON env (node "Resource"
      (compositePayload enc t (encodeFieldValues enc t.fieldList fs))) = _
    rw [decodeJSON_node env _ _ (by decide), (decodeTagged_composite _ _).2.1]
    unfold decodeResource
    rw [hc, ok_bind]
    exact congrArg (fun x => Except.ok (Value.resource x fs)) h'.1.symm
  | .event t fs, h => by
    have h' : t = .event t.location t.qualifiedIdentifier t.fieldList [] ∧
      CompositeMatches env enc t fs ∧ RepresentableValues env enc fs := h
    have hc := decodeComposite_payload env enc t fs h'.2.1
      (decodeFields_encodeFieldValues env enc fs t.fieldList h'.2.2)
    show decodeJSON env (node "Event"
      (compositePayload enc t (encodeFieldValues enc t.fieldList fs))) = _
    rw [decodeJSON_node env _ _ (by decide), (decodeTagged_composite _ _).2.2.1]
    unfold decodeEvent
    rw [hc, ok_bind]
    exact congrArg (fun x => Except.ok (Value.event x fs)) h'.1.symm
  | .contract t fs, h => by
    have h' : t = .contract t.location t.qualifiedIdentifier t.fieldList [] ∧
      CompositeMatches env enc t fs ∧ RepresentableValues env enc fs := h
    have hc := decodeComposite_payload env enc t fs h'.2.1
      (decodeFields_encodeFieldValues env enc fs t.fieldList h'.2.2)
    show decodeJSON env (node "Contract"
      (compositePayload enc t (encodeFieldValues enc t.fieldList fs))) = _
    rw [decodeJSON_node env _ _ (by decide), (decodeTagged_composite _ _).2.2.2.1]
    unfold decodeContract
    rw [hc, ok_bind]
    exact congrArg (fun x => Except.ok (Value.contract x fs)) h'.1.symm
  | .enum t fs, h => by
    have h' : t = .enum t.location t.qualifiedIdentifier .nil t.fieldList [] ∧
      CompositeMatches env enc t fs ∧ RepresentableValues env enc fs := h
    have hc := decodeComposite_payload env enc t fs h'.2.1
      (decodeFields_encodeFieldValues env enc fs t.fieldList h'.2.2)
    show decodeJSON env (node "Enum"
      (compositePayload enc t (encodeFieldValues enc t.fieldList fs))) = _
    rw [decodeJSON_node env _ _ (by decide), (decodeTagged_composite _ _).2.2.2.2]
    unfold decodeEnum
    rw [hc, ok_bind]
    exact congrArg (fun x => Except.ok (Value.enum x fs)) h'.1.symm
  | .link target borrowType, _ => by
    show decodeJSON env (node "Link"
      (.object [("targetPath", pathNode target), ("borrowType", .string borrowType)])) = _
    rw [decodeJSON_node env _ _ (by decide), (decodeTagged_container _ _).2.2.1]
    show (decodeJSON env (pathNode target) >>= fun t => assertPath t >>= fun targetPath =>
      Except.ok (Value.link targetPath borrowType)) = _
    rw [decodeJSON_pathNode]
    rfl
  | .path p, _ => decodeJSON_pathNode env p
  | .typeValue t, h => by
    have ih := decodeType_encodeType env enc t h
    show decodeJSON env (node "Type" (.object [("staticType", encodeType enc t)])) = _
    rw [decodeJSON_node env _ _ (by decide), (decodeTagged_container _ _).2.2.2.1]
    show (decodeType env (encodeType enc t) >>= fun staticType =>
      Except.ok (Value.typeValue staticType)) = _
    rw [ih]
    rfl
  | .capability p a borrowType, h => by
    have h' : RepresentableAddress a ∧ RepresentableType env enc borrowType := h
    have iht := decodeType_encodeType env enc borrowType h'.2
    show decodeJSON env (node "Capability" (.object [("path", pathNode p),
      ("address", addressPayload a), ("borrowType", encodeType enc borrowType)])) = _
    rw [decodeJSON_node env _ _ (by decide), (decodeTagged_container _ _).2.2.2.2]
    show (decodeJSON env (pathNode p) >>= fun pv => assertPath pv >>= fun path =>
      decodeAddress (addressPayload a) >>= fun address =>
      decodeType env (encodeType enc borrowType) >>= fun bt =>
      Except.ok (Value.capability path address bt)) = _
    rw [decodeJSON_pathNode, ok_bind]
    show (decodeAddress (addressPayload a) >>= fun address =>
      decodeType env (encodeType enc borrowType) >>= fun bt =>
      Except.ok (Value.capability p address bt)) = _
    rw [decodeAddress_addressPayload a h'.1, ok_bind, iht]
    rfl
/-- Decoding the nodes of representable values gives the values back. -/
theorem decodeValues_encodeValues (env : Env) (enc : Encoder) :
    ∀ vs : List Value, RepresentableValues env enc vs →
      forRange (decodeJSON env) (encodeValues enc vs) = .ok vs
  | [], _ => rfl
  | v :: vs, h => by
    have h' : Representable env enc v ∧ RepresentableValues env enc vs := h
    exact forRange_ok_cons (decodeJSON_encodeValue env enc v h'.1)
      (decodeValues_encodeValues env enc vs h'.2)
/-- Decoding the entries of a representable dictionary gives the pairs back. -/
theorem decodePairs_encodePairs (env : Env) (enc : Encoder) :
    ∀ pairs : List (Value × Value), RepresentablePairs env enc pairs →
      forRange (decodeKeyValuePair (theDecoder env)) (encodePairs enc pairs) = .ok pairs
  | [], _ => rfl
  | (k, v) :: rest, h => by
    have h' : Representable env enc k ∧ Representable env enc v ∧
      RepresentablePairs env enc rest := h
    have ihk := decodeJSON_encodeValue env enc k h'.1
    have ihv := decodeJSON_encodeValue env enc v h'.2.1
    refine forRange_ok_cons ?_ (decodePairs_encodePairs env enc rest h'.2.2)
    show (decodeJSON env (encodeValue enc k) >>= fun key =>
      decodeJSON env (encodeValue enc v) >>= fun value => Except.ok (key, value)) = _
    rw [ihk, ok_bind, ihv]
    rfl
/-- Decoding the fields of a composite value with representable field values gives the
values back, each with the name it was written with and the type of the value. -/
theorem decodeFields_encodeFieldValues (env : Env) (enc : Encoder) :
    ∀ (vs : List Value) (fields : List Field), RepresentableValues env enc vs →
      forRange (decodeCompositeField (theDecoder env)) (encodeFieldValues enc fields vs)
        = .ok (zipFields env fields vs)
  | [], _, _ => rfl
  | v :: vs, fields, h => by
    have h' : Representable env enc v ∧ RepresentableValues env enc vs := h
    have ihv := decodeJSON_encodeValue env enc v h'.1
    refine forRange_ok_cons ?_ (decodeFields_encodeFieldValues env enc vs fields.tail h'.2)
    show (decodeJSON env (encodeValue enc v) >>= fun value => Except.ok
      (value, Field.mk (fields.head?.elim "" Field.identifier) (env.typeOf value))) = _
    rw [ihv]
    rfl
end

theorem encodeValue_eq_object (enc : Encoder) (v : Value) :
    encodeValue enc v = .object (encodeObject enc v) := by
  cases v with
  | optional o => cases o <;> rfl
  | _ => rfl

/-- C1, as the code has it: for every representable value `v` whose composite values carry
the type that the decoder reconstructs (`Representable`, which is within the value model of
the specification, `InValueModel`), `Decode` applied to the JSON text of the encoding of
`v` succeeds and returns `v` itself: the same variant, the same fields in the same order,
the same sign and magnitude of every integer.  The type that the decoder reconstructs is a
type with the location and qualified identifier that its type ID is read back as, with no
initializers and no raw type, and with the types of the field values as field types. -/
theorem Decode_encode_round_trip (env : Env) (enc : Encoder)
    (jsonDecode : Bytes → Except String jsonObject) (b : Bytes) (v : Value)
    (hjson : jsonDecode b = .ok (encodeObject enc v)) (h : Representable env enc v) :
    decodeJSON env (encodeValue enc v) = .ok v ∧ Decode env jsonDecode b = (some v, none) := by
  have hv := decodeJSON_encodeValue env enc v h
  refine ⟨hv, ?_⟩
  rw [encodeValue_eq_object] at hv
  simp only [Decode, Decoder.Decode, hjson, hv]

/-- Witness of C1 at a struct of a native type with an `Int256` field and an array field. -/
theorem Decode_encode_round_trip_witness :
    Representable sampleEnv sampleEncoder sampleStruct ∧
    decodeJSON sampleEnv (encodeValue sampleEncoder sampleStruct) = .ok sampleStruct ∧
    Decode sampleEnv (fun _ => .ok (encodeObject sampleEncoder sampleStruct)) []
      = (some sampleStruct, none) :=
  ⟨⟨rfl, ⟨rfl, Or.inr rfl, rfl⟩,
      (show IntegerTag.int256.inRange (-5) by norm_num [IntegerTag.inRange]),
      ⟨(show IntegerTag.uint8.inRange ((7 : Nat) : Int) by norm_num [IntegerTag.inRange]),
        trivial, trivial⟩, trivial⟩,
   Decode_encode_round_trip sampleEnv sampleEncoder
    (fun _ => .ok (encodeObject sampleEncoder sampleStruct)) [] sampleStruct rfl
    ⟨rfl, ⟨rfl, Or.inr rfl, rfl⟩,
      (show IntegerTag.int256.inRange (-5) by norm_num [IntegerTag.inRange]),
      ⟨(show IntegerTag.uint8.inRange ((7 : Nat) : Int) by norm_num [IntegerTag.inRange]),
        trivial, trivial⟩, trivial⟩⟩

theorem TypedComposite.of_matches {env : Env} {enc : Encoder} {t : CadenceType}
    {fs : List Value} (h : CompositeMatches env enc t fs) : TypedComposite env enc t fs := by
  refine ⟨h.1, h.2.1, ?_⟩
  have := congrArg List.length h.2.2
  simpa only [List.length_map] using this

mutual

/-- A value that the interchange format carries faithfully is a representable value of the
specification. -/
theorem representable_inValueModel (env : Env) (enc : Encoder) :
    ∀ v : Value, Representable env enc v → InValueModel env enc v
  | .optional (some v), h => by
    rw [InValueModel]
    rw [Representable] at h
    exact representable_inValueModel env enc v h
  | .array vs, h => by
    rw [InValueModel]
    rw [Representable] at h
    exact representableValues_inValueModel env enc vs h
  | .dictionary pairs, h => by
    rw [InValueModel]
    rw [Representable] at h
    exact representablePairs_inValueModel env enc pairs h
  | .struct t fs, h => by
    rw [InValueModel]
    rw [Representable] at h
    exact ⟨⟨[], h.1⟩, TypedComposite.of_matches h.2.1,
      representableValues_inValueModel env enc fs h.2.2⟩
  | .resource t fs, h => by
    rw [InValueModel]
    rw [Representable] at h
    exact ⟨⟨[], h.1⟩, TypedComposite.of_matches h.2.1,
      representableValues_inValueModel env enc fs h.2.2⟩
  | .event t fs, h => by
    rw [InValueModel]
    rw [Representable] at h
    exact ⟨⟨[], h.1⟩, TypedComposite.of_matches h.2.1,
      representableValues_inValueModel env enc fs h.2.2⟩
  | .contract t fs, h => by
    rw [InValueModel]
    rw [Representable] at h
    exact ⟨⟨[], h.1⟩, TypedComposite.of_matches h.2.1,
      representableValues_inValueModel env enc fs h.2.2⟩
  | .enum t fs, h => by
    rw [InValueModel]
    rw [Representable] at h
    exact ⟨⟨.nil, [], h.1⟩, TypedComposite.of_matches h.2.1,
      representableValues_inValueModel env enc fs h.2.2⟩
  | .void, h => by simp only [InValueModel]; exact h
  | .optional none, h => by simp only [InValueModel]; exact h
  | .bool _, h => by simp only [InValueModel]; exact h
  | .character _, h => by simp only [InValueModel]; exact h
  | .string _, h => by simp only [InValueModel]; exact h
  | .address _, h => by simp only [InValueModel]; exact h
  | .int _, h => by simp only [InValueModel]; exact h
  | .int8 _, h => by simp only [InValueModel]; exact h
  | .int16 _, h => by simp only [InValueModel]; exact h
  | .int32 _, h => by simp only [InValueModel]; exact h
  | .int64 _, h => by simp only [InValueModel]; exact h
  | .int128 _, h => by simp only [InValueModel]; exact h
  | .int256 _, h => by simp only [InValueModel]; exact h
  | .uint _, h => by simp only [InValueModel]; exact h
  | .uint8 _, h => by simp only [InValueModel]; exact h
  | .uint16 _, h => by simp only [InValueModel]; exact h
  | .uint32 _, h => by simp only [InValueModel]; exact h
  | .uint64 _, h => by simp only [InValueModel]; exact h
  | .uint128 _, h => by simp only [InValueModel]; exact h
  | .uint256 _, h => by simp only [InValueModel]; exact h
  | .word8 _, h => by simp only [InValueModel]; exact h
  | .word16 _, h => by simp only [InValueModel]; exact h
  | .word32 _, h => by simp only [InValueModel]; exact h
  | .word64 _, h => by simp only [InValueModel]; exact h
  | .fix64 _, h => by simp only [InValueModel]; exact h
  | .ufix64 _, h => by simp only [InValueModel]; exact h
  | .link _ _, h => by simp only [InValueModel]; exact h
  | .path _, h => by simp only [InValueModel]; exact h
  | .typeValue _, h => by simp only [InValueModel]; exact h
  | .capability _ _ _, h => by simp only [InValueModel]; exact h

theorem representableValues_inValueModel (env : Env) (enc : Encoder) :
    ∀ vs : List Value, RepresentableValues env enc vs → InValueModelValues env enc vs
  | [], _ => by rw [InValueModelValues]; trivial
  | v :: vs, h => by
    rw [InValueModelValues]
    rw [RepresentableValues] at h
    exact ⟨representable_inValueModel env enc v h.1,
      representableValues_inValueModel env enc vs h.2⟩

theorem representablePairs_inValueModel (env : Env) (enc : Encoder) :
    ∀ pairs : List (Value × Value),
      RepresentablePairs env enc pairs → InValueModelPairs env enc pairs
  | [], _ => by rw [InValueModelPairs]; trivial
  | (k, v) :: rest, h => by
    rw [InValueModelPairs]
    rw [RepresentablePairs] at h
    exact ⟨representable_inValueModel env enc k h.1,
      representable_inValueModel env enc v h.2.1,
      representablePairs_inValueModel env enc rest h.2.2⟩

end

/-- C1 fails as stated: the encoding of a composite value carries the type ID of its type
and its fields, and the decoder attaches a type that it builds from these alone.  Each of
three representable values comes back changed: a struct whose type declares an initializer
comes back with a type without initializers, an enum whose type has the raw type `UInt8`
comes back with no raw type, and a struct whose field is declared `AnyStruct` comes back
with the type of the field value as field type. -/
theorem Decode_encode_representable_counterexample :
    InValueModel sampleEnv sampleEncoder (.struct (.struct none "Native" [] [[]]) []) ∧
    Decode sampleEnv (fun _ => .ok (encodeObject sampleEncoder
        (.struct (.struct none "Native" [] [[]]) []))) []
      = (some (.struct (.struct none "Native" [] []) []), none) ∧
    Value.struct (.struct none "Native" [] []) [] ≠ .struct (.struct none "Native" [] [[]]) [] ∧
    InValueModel sampleEnv sampleEncoder
      (.enum (.enum none "Native" (.simple .uint8) [.mk "rawValue" (.simple .uint8)] [])
        [.uint8 1]) ∧
    Decode sampleEnv (fun _ => .ok (encodeObject sampleEncoder
        (.enum (.enum none "Native" (.simple .uint8) [.mk "rawValue" (.simple .uint8)] [])
          [.uint8 1]))) []
      = (some (.enum (.enum none "Native" .nil [.mk "rawValue" (sampleEnv.typeOf (.uint8 1))] [])
          [.uint8 1]), none) ∧
    InValueModel sampleEnv sampleEncoder
      (.struct (.struct none "Native" [.mk "x" (.simple .anyStruct)] []) [.bool true]) ∧
    Decode sampleEnv (fun _ => .ok (encodeObject sampleEncoder
        (.struct (.struct none "Native" [.mk "x" (.simple .anyStruct)] []) [.bool true]))) []
      = (some (.struct (.struct none "Native" [.mk "x" (sampleEnv.typeOf (.bool true))] [])
          [.bool true]), none) ∧
    ¬ (∀ v : Value, InValueModel sampleEnv sampleEncoder v →
        decodeJSON sampleEnv (encodeValue sampleEncoder v) = .ok v) := by
  have h1 : InValueModel sampleEnv sampleEncoder (.struct (.struct none "Native" [] [[]]) []) := by
    rw [InValueModel]
    exact ⟨⟨[[]], rfl⟩, ⟨rfl, Or.inr rfl, rfl⟩, by rw [InValueModelValues]; trivial⟩
  refine ⟨h1, rfl, ?_, ?_, rfl, ?_, rfl, ?_⟩
  · intro h
    cases h
  · rw [InValueModel]
    refine ⟨⟨.simple .uint8, [], rfl⟩, ⟨rfl, Or.inr rfl, rfl⟩, ?_⟩
    rw [InValueModelValues, InValueModelValues]
    exact ⟨representable_inValueModel sampleEnv sampleEncoder (.uint8 1)
      (show IntegerTag.uint8.inRange ((1 : Nat) : Int) by norm_num [IntegerTag.inRange]),
      trivial⟩
  · rw [InValueModel]
    refine ⟨⟨[], rfl⟩, ⟨rfl, Or.inr rfl, rfl⟩, ?_⟩
    rw [InValueModelValues, InValueModelValues]
    exact ⟨representable_inValueModel sampleEnv sampleEncoder (.bool true) trivial, trivial⟩
  · intro h
    have h2 := h (.struct (.struct none "Native" [] [[]]) []) h1
    have h3 : decodeJSON sampleEnv (encodeValue sampleEncoder
        (.struct (.struct none "Native" [] [[]]) []))
      = .ok (.struct (.struct none "Native" [] []) []) := rfl
    rw [h3] at h2
    cases h2

/-! ## Arrays and dictionaries -/

theorem forRange_ok_iff_forall₂ {α β : Type} (f : α → Panics β) :
    ∀ (xs : List α) (ys : List β),
      forRange f xs = .ok ys ↔ List.Forall₂ (fun x y => f x = .ok y) xs ys
  | [], ys => by
    constructor
    · intro h
      cases h
      exact List.Forall₂.nil
    · intro h
      cases h
      rfl
  | x :: xs, ys => by
    constructor
    · intro h
      simp only [forRange] at h
      cases hx : f x with
      | error e => rw [hx] at h; cases h
      | ok y =>
        cases hxs : forRange f xs with
        | error e => rw [hx, hxs] at h; cases h
        | ok rest =>
          rw [hx, hxs] at h
          cases h
          exact List.Forall₂.cons hx ((forRange_ok_iff_forall₂ f xs rest).mp hxs)
    · intro h
      cases h with
      | cons hx hrest => exact forRange_ok_cons hx ((forRange_ok_iff_forall₂ f xs _).mpr hrest)

theorem forRange_ok_iff {α β : Type} (f : α → Panics β) (xs : List α) (ys : List β) :
    forRange f xs = .ok ys ↔
      ys.length = xs.length ∧
        ∀ (i : Nat) (h₁ : i < xs.length) (h₂ : i < ys.length),
          f (xs.get ⟨i, h₁⟩) = .ok (ys.get ⟨i, h₂⟩) := by
  rw [forRange_ok_iff_forall₂, List.forall₂_iff_get]
  constructor
  · rintro ⟨h1, h2⟩
    exact ⟨h1.symm, h2⟩
  · rintro ⟨h1, h2⟩
    exact ⟨h1.symm, h2⟩

theorem decodeArray_ok_iff (env : Env) (payload : JSONValue) (v : Value) :
    decodeArray (theDecoder env) payload = .ok v ↔
      ∃ items vs, payload = .array items ∧ v = .array vs ∧
        forRange (decodeJSON env) items = .ok vs := by
  constructor
  · intro h
    cases payload with
    | array items =>
      cases hvs : forRange (decodeJSON env) items with
      | error e =>
        have h' : (forRange (decodeJSON env) items >>= fun values =>
          Except.ok (Value.array values)) = .ok v := h
        rw [hvs] at h'
        cases h'
      | ok vs =>
        have h' : (forRange (decodeJSON env) items >>= fun values =>
          Except.ok (Value.array values)) = .ok v := h
        rw [hvs] at h'
        cases h'
        exact ⟨items, vs, rfl, rfl, hvs⟩
    | _ => cases h
  · rintro ⟨items, vs, rfl, rfl, h⟩
    show (forRange (decodeJSON env) items >>= fun values =>
      Except.ok (Value.array values)) = _
    rw [h]
    rfl

theorem decodeArray_not_list (d : Decoder) (payload : JSONValue)
    (h : ∀ items, payload ≠ .array items) :
    decodeArray d payload = .error .ErrInvalidJSONCadence := by
  cases payload with
  | array items => exact absurd rfl (h items)
  | _ => rfl

/-- C11: a node with tag `Array` decodes to a value exactly when its payload is a JSON list
each of whose nodes decodes, and the value is then the array of the decoded nodes: as many
elements as the list has nodes, the `i`-th element being the decoding of the `i`-th node.
A payload that is not a JSON list is rejected with `ErrInvalidJSONCadence`. -/
theorem decodeJSON_array (env : Env) (payload : JSONValue) :
    (∀ v, decodeJSON env (node "Array" payload) = .ok v ↔
      ∃ items vs, payload = .array items ∧ v = .array vs ∧ vs.length = items.length ∧
        ∀ (i : Nat) (h₁ : i < items.length) (h₂ : i < vs.length),
          decodeJSON env (items.get ⟨i, h₁⟩) = .ok (vs.get ⟨i, h₂⟩)) ∧
    ((∀ items, payload ≠ .array items) →
      decodeJSON env (node "Array" payload) = .error .ErrInvalidJSONCadence ∧
      Decode env (fun _ => .ok [("type", .string "Array"), ("value", payload)]) []
        = (none, some (.wrap "failed to decode value" .ErrInvalidJSONCadence))) := by
  rw [decodeJSON_node env _ _ (by decide), (decodeTagged_container _ _).1]
  constructor
  · intro v
    rw [decodeArray_ok_iff]
    constructor
    · rintro ⟨items, vs, hp, hv, h⟩
      exact ⟨items, vs, hp, hv, (forRange_ok_iff _ _ _).mp h⟩
    · rintro ⟨items, vs, hp, hv, h⟩
      exact ⟨items, vs, hp, hv, (forRange_ok_iff _ _ _).mpr h⟩
  · intro h
    have hd := decodeArray_not_list (theDecoder env) payload h
    refine ⟨hd, ?_⟩
    have hj : decodeJSON env (.object [("type", .string "Array"), ("value", payload)])
        = .error .ErrInvalidJSONCadence := by
      rw [← hd, ← (decodeTagged_container (theDecoder env) payload).1]
      exact decodeJSON_node env "Array" payload (by decide)
    simp only [Decode, Decoder.Decode, hj]

/-- Witness of C11 at the list of an `Int8` node and a `Bool` node. -/
theorem decodeJSON_array_witness :
    ∃ items vs, JSONValue.array [node "Int8" (.string "1"), node "Bool" (.bool true)]
        = .array items ∧
      Value.array [.int8 1, .bool true] = .array vs ∧ vs.length = items.length ∧
        ∀ (i : Nat) (h₁ : i < items.length) (h₂ : i < vs.length),
          decodeJSON sampleEnv (items.get ⟨i, h₁⟩) = .ok (vs.get ⟨i, h₂⟩) :=
  ((decodeJSON_array sampleEnv
    (.array [node "Int8" (.string "1"), node "Bool" (.bool true)])).1
      (.array [.int8 1, .bool true])).mp rfl

theorem Get_error_of_not_mem {key : String} :
    ∀ {obj : jsonObject}, key ∉ obj.keys → obj.Get key = .error .ErrInvalidJSONCadence := by
  intro obj h
  cases hg : obj.Get key with
  | ok x => exact absurd (mem_keys_of_Get hg) h
  | error e => rw [Get_error hg]

theorem decodeKeyValuePair_object (env : Env) (obj : jsonObject) :
    decodeKeyValuePair (theDecoder env) (.object obj) =
      (obj.Get keyKey >>= fun kj => decodeJSON env kj >>= fun key =>
        obj.Get valueKey >>= fun vj => decodeJSON env vj >>= fun value =>
          Except.ok (key, value)) := by
  unfold decodeKeyValuePair jsonObject.GetValue
  simp only [toObject, ok_bind, bind_assoc]
  rfl

theorem decodeKeyValuePair_ok_iff (env : Env) (entry : JSONValue) (k v : Value) :
    decodeKeyValuePair (theDecoder env) entry = .ok (k, v) ↔
      ∃ (obj : jsonObject) (kj vj : JSONValue), entry = .object obj ∧ obj.Get keyKey = .ok kj ∧
        obj.Get valueKey = .ok vj ∧ decodeJSON env kj = .ok k ∧ decodeJSON env vj = .ok v := by
  constructor
  · intro h
    cases entry with
    | object obj =>
      rw [decodeKeyValuePair_object] at h
      cases h1 : jsonObject.Get obj keyKey with
      | error e => rw [h1] at h; cases h
      | ok kj =>
        rw [h1, ok_bind] at h
        cases h2 : decodeJSON env kj with
        | error e => rw [h2] at h; cases h
        | ok key =>
          rw [h2, ok_bind] at h
          cases h3 : jsonObject.Get obj valueKey with
          | error e => rw [h3] at h; cases h
          | ok vj =>
            rw [h3, ok_bind] at h
            cases h4 : decodeJSON env vj with
            | error e => rw [h4] at h; cases h
            | ok value =>
              rw [h4, ok_bind] at h
              cases h
              exact ⟨obj, kj, vj, rfl, h1, h3, h2, h4⟩
    | _ => cases h
  · rintro ⟨obj, kj, vj, rfl, h1, h3, h2, h4⟩
    rw [decodeKeyValuePair_object, h1, ok_bind, h2, ok_bind, h3, ok_bind, h4]
    rfl

theorem fails_keyValuePair_shape (env : Env) (entry : JSONValue)
    (h : (∀ obj, entry ≠ .object obj) ∨
      ∃ obj : jsonObject, entry = .object obj ∧ (keyKey ∉ obj.keys ∨ valueKey ∉ obj.keys)) :
    Fails (decodeKeyValuePair (theDecoder env) entry) := by
  cases hr : decodeKeyValuePair (theDecoder env) entry with
  | error e => exact ⟨e, rfl⟩
  | ok kv =>
    obtain ⟨k, v⟩ := kv
    obtain ⟨obj, kj, vj, rfl, h1, h3, _, _⟩ := (decodeKeyValuePair_ok_iff env entry k v).mp hr
    rcases h with h | ⟨obj', hobj, h | h⟩
    · exact absurd rfl (h obj)
    · cases hobj
      exact absurd (mem_keys_of_Get h1) h
    · cases hobj
      exact absurd (mem_keys_of_Get h3) h

theorem decodeDictionary_ok_iff (env : Env) (payload : JSONValue) (v : Value) :
    decodeDictionary (theDecoder env) payload = .ok v ↔
      ∃ entries pairs, payload = .array entries ∧ v = .dictionary pairs ∧
        forRange (decodeKeyValuePair (theDecoder env)) entries = .ok pairs := by
  constructor
  · intro h
    cases payload with
    | array entries =>
      have h' : (forRange (decodeKeyValuePair (theDecoder env)) entries >>= fun pairs =>
        Except.ok (Value.dictionary pairs)) = .ok v := h
      cases hps : forRange (decodeKeyValuePair (theDecoder env)) entries with
      | error e => rw [hps] at h'; cases h'
      | ok pairs =>
        rw [hps] at h'
        cases h'
        exact ⟨entries, pairs, rfl, rfl, hps⟩
    | _ => cases h
  · rintro ⟨entries, pairs, rfl, rfl, h⟩
    show (forRange (decodeKeyValuePair (theDecoder env)) entries >>= fun pairs =>
      Except.ok (Value.dictionary pairs)) = _
    rw [h]
    rfl

/-- C12: a node with tag `Dictionary` decodes to a value exactly when its payload is a JSON
list of entries, each an object whose `key` and `value` are value nodes that decode, and the
value is then the dictionary of the decoded pairs: as many pairs as the list has entries, in
the order of the list, the `i`-th pair being the decoded key and the decoded value of the
`i`-th entry, whether or not keys are equal.  A list with an entry that is not an object,
or that lacks `key` or `value`, is rejected. -/
theorem decodeJSON_dictionary (env : Env) (payload : JSONValue) :
    (∀ v, decodeJSON env (node "Dictionary" payload) = .ok v ↔
      ∃ entries pairs, payload = .array entries ∧ v = .dictionary pairs ∧
        pairs.length = entries.length ∧
        ∀ (i : Nat) (h₁ : i < entries.length) (h₂ : i < pairs.length),
          ∃ (obj : jsonObject) (kj vj : JSONValue),
            entries.get ⟨i, h₁⟩ = .object obj ∧
            obj.Get keyKey = .ok kj ∧ obj.Get valueKey = .ok vj ∧
            decodeJSON env kj = .ok (pairs.get ⟨i, h₂⟩).1 ∧
            decodeJSON env vj = .ok (pairs.get ⟨i, h₂⟩).2) ∧
    (∀ entries entry, payload = .array entries → entry ∈ entries →
      ((∀ obj, entry ≠ .object obj) ∨
        ∃ obj : jsonObject, entry = .object obj ∧ (keyKey ∉ obj.keys ∨ valueKey ∉ obj.keys)) →
      Fails (decodeJSON env (node "Dictionary" payload))) := by
  rw [decodeJSON_node env _ _ (by decide), (decodeTagged_container _ _).2.1]
  constructor
  · intro v
    rw [decodeDictionary_ok_iff]
    constructor
    · rintro ⟨entries, pairs, hp, hv, h⟩
      rw [forRange_ok_iff] at h
      refine ⟨entries, pairs, hp, hv, h.1, fun i h₁ h₂ => ?_⟩
      exact (decodeKeyValuePair_ok_iff env _ _ _).mp (h.2 i h₁ h₂)
    · rintro ⟨entries, pairs, hp, hv, hlen, h⟩
      refine ⟨entries, pairs, hp, hv, (forRange_ok_iff _ _ _).mpr ⟨hlen, fun i h₁ h₂ => ?_⟩⟩
      exact (decodeKeyValuePair_ok_iff env _ _ _).mpr (h i h₁ h₂)
  · rintro entries entry rfl hmem hbad
    show Fails (forRange (decodeKeyValuePair (theDecoder env)) entries >>= fun pairs =>
      Except.ok (Value.dictionary pairs))
    exact fails_bind_left _ (fails_forRange hmem (fails_keyValuePair_shape env entry hbad))

/-- Witness of C12 at a list of two entries with the same key. -/
theorem decodeJSON_dictionary_witness :
    ∃ entries pairs,
      JSONValue.array
        [.object [("key", node "Bool" (.bool true)), ("value", node "Int8" (.string "1"))],
         .object [("key", node "Bool" (.bool true)), ("value", node "Int8" (.string "2"))]]
        = .array entries ∧
      Value.dictionary [(.bool true, .int8 1), (.bool true, .int8 2)] = .dictionary pairs ∧
        pairs.length = entries.length ∧
        ∀ (i : Nat) (h₁ : i < entries.length) (h₂ : i < pairs.length),
          ∃ (obj : jsonObject) (kj vj : JSONValue),
            entries.get ⟨i, h₁⟩ = .object obj ∧
            obj.Get keyKey = .ok kj ∧ obj.Get valueKey = .ok vj ∧
            decodeJSON sampleEnv kj = .ok (pairs.get ⟨i, h₂⟩).1 ∧
            decodeJSON sampleEnv vj = .ok (pairs.get ⟨i, h₂⟩).2 :=
  ((decodeJSON_dictionary sampleEnv
    (.array
      [.object [("key", node "Bool" (.bool true)), ("value", node "Int8" (.string "1"))],
       .object [("key", node "Bool" (.bool true)), ("value", node "Int8" (.string "2"))]])).1
      (.dictionary [(.bool true, .int8 1), (.bool true, .int8 2)])).mp rfl

/-! ## Composite values -/

theorem decodeJSON_ok_tagged (env : Env) {obj : jsonObject} {tag : String} {v : Value}
    (htype : obj.GetString typeKey = .ok tag) (hvoid : tag ≠ voidTypeStr)
    (h : decodeJSON env (.object obj) = .ok v) :
    ∃ payload, obj.Get valueKey = .ok payload ∧
      decodeTagged (theDecoder env) tag payload = .ok v := by
  rw [decodeJSON_eq] at h
  unfold decodeJSONBody at h
  simp only [toObject, ok_bind, htype] at h
  rw [if_neg hvoid] at h
  by_cases hlen : obj.len ≠ 2
  · rw [if_pos hlen] at h
    cases h
  · rw [if_neg hlen] at h
    cases hp : obj.Get valueKey with
    | error e => rw [hp] at h; cases h
    | ok payload =>
      rw [hp, ok_bind] at h
      exact ⟨payload, rfl, h⟩

theorem decodeCompositeField_object (env : Env) (field : jsonObject) :
    decodeCompositeField (theDecoder env) (.object field) =
      (field.GetString nameKey >>= fun name => field.Get valueKey >>= fun x =>
        decodeJSON env x >>= fun value =>
          Except.ok (value, Field.mk name (env.typeOf value))) := by
  unfold decodeCompositeField jsonObject.GetValue
  simp only [toObject, ok_bind, bind_assoc]
  rfl

theorem decodeCompositeField_ok_iff (env : Env) (entry : JSONValue) (value : Value)
    (fieldType : Field) :
    decodeCompositeField (theDecoder env) entry = .ok (value, fieldType) ↔
      ∃ (field : jsonObject) (name : String) (x : JSONValue), entry = .object field ∧
        field.GetString nameKey = .ok name ∧ field.Get valueKey = .ok x ∧
        decodeJSON env x = .ok value ∧ fieldType = Field.mk name (env.typeOf value) := by
  constructor
  · intro h
    cases entry with
    | object field =>
      rw [decodeCompositeField_object] at h
      cases h1 : jsonObject.GetString field nameKey with
      | error e => rw [h1] at h; cases h
      | ok name =>
        rw [h1, ok_bind] at h
        cases h2 : jsonObject.Get field valueKey with
        | error e => rw [h2] at h; cases h
        | ok x =>
          rw [h2, ok_bind] at h
          cases h3 : decodeJSON env x with
          | error e => rw [h3] at h; cases h
          | ok val =>
            rw [h3, ok_bind] at h
            cases h
            exact ⟨field, name, x, rfl, h1, h2, h3, rfl⟩
    | _ => cases h
  · rintro ⟨field, name, x, rfl, h1, h2, h3, rfl⟩
    rw [decodeCompositeField_object, h1, ok_bind, h2, ok_bind, h3]
    rfl

theorem decodeComposite_ok (env : Env) (payload : JSONValue) (comp : composite)
    (h : decodeComposite (theDecoder env) payload = .ok comp) :
    ∃ (obj : jsonObject) (typeID : String) (entries : List JSONValue)
      (decoded : List (Value × Field)),
      payload = .object obj ∧ obj.GetString idKey = .ok typeID ∧
      env.DecodeTypeID typeID = some (comp.location, comp.qualifiedIdentifier) ∧
      (comp.location.isSome = true ∨ env.NativeCompositeTypes typeID = true) ∧
      obj.GetSlice fieldsKey = .ok entries ∧
      forRange (decodeCompositeField (theDecoder env)) entries = .ok decoded ∧
      comp.fieldValues = decoded.map Prod.fst ∧ comp.fieldTypes = decoded.map Prod.snd := by
  cases payload with
  | object obj =>
    unfold decodeComposite at h
    simp only [toObject, ok_bind] at h
    cases h1 : jsonObject.GetString obj idKey with
    | error e => rw [h1] at h; cases h
    | ok typeID =>
      rw [h1, ok_bind] at h
      have henv : (theDecoder env).env = env := rfl
      rw [henv] at h
      cases h2 : env.DecodeTypeID typeID with
      | none => simp only [h2] at h; cases h
      | some lq =>
        obtain ⟨loc, qid⟩ := lq
        simp only [h2] at h
        by_cases hc : loc.isNone = true ∧ env.NativeCompositeTypes typeID = false
        · rw [if_pos hc] at h
          cases h
        · rw [if_neg hc] at h
          cases h3 : jsonObject.GetSlice obj fieldsKey with
          | error e => rw [h3] at h; cases h
          | ok entries =>
            rw [h3, ok_bind] at h
            cases h4 : forRange (decodeCompositeField (theDecoder env)) entries with
            | error e => rw [h4] at h; cases h
            | ok decoded =>
              rw [h4, ok_bind] at h
              cases h
              refine ⟨obj, typeID, entries, decoded, rfl, h1, h2, ?_, h3, h4, rfl, rfl⟩
              cases loc with
              | some l => exact Or.inl rfl
              | none =>
                right
                cases hn : env.NativeCompositeTypes typeID with
                | true => rfl
                | false => exact absurd ⟨rfl, hn⟩ hc
  | _ => cases h

theorem decodeTagged_composite_ok (d : Decoder) {tag : String} (htag : tag ∈ compositeTags)
    {payload : JSONValue} {v : Value} (h : decodeTagged d tag payload = .ok v) :
    ∃ (comp : composite) (t : CadenceType), decodeComposite d payload = .ok comp ∧
      v.compositeType = some t ∧ v.fieldValues = comp.fieldValues ∧
      t.fieldList = comp.fieldTypes ∧ t.location = comp.location ∧
      t.qualifiedIdentifier = comp.qualifiedIdentifier := by
  simp only [compositeTags, List.mem_cons, List.mem_singleton, List.not_mem_nil, or_false]
    at htag
  rcases htag with rfl | rfl | rfl | rfl | rfl
  · rw [(decodeTagged_composite d payload).1] at h
    unfold decodeStruct at h
    cases hc : decodeComposite d payload with
    | error e => rw [hc] at h; cases h
    | ok comp =>
      rw [hc, ok_bind] at h
      cases h
      exact ⟨comp, _, rfl, rfl, rfl, rfl, rfl, rfl⟩
  · rw [(decodeTagged_composite d payload).2.1] at h
    unfold decodeResource at h
    cases hc : decodeComposite d payload with
    | error e => rw [hc] at h; cases h
    | ok comp =>
      rw [hc, ok_bind] at h
      cases h
      exact ⟨comp, _, rfl, rfl, rfl, rfl, rfl, rfl⟩
  · rw [(decodeTagged_composite d payload).2.2.1] at h
    unfold decodeEvent at h
    cases hc : decodeComposite d payload with
    | error e => rw [hc] at h; cases h
    | ok comp =>
      rw [hc, ok_bind] at h
      cases h
      exact ⟨comp, _, rfl, rfl, rfl, rfl, rfl, rfl⟩
  · rw [(decodeTagged_composite d payload).2.2.2.1] at h
    unfold decodeContract at h
    cases hc : decodeComposite d payload with
    | error e => rw [hc] at h; cases h
    | ok comp =>
      rw [hc, ok_bind] at h
      cases h
      exact ⟨comp, _, rfl, rfl, rfl, rfl, rfl, rfl⟩
  · rw [(decodeTagged_composite d payload).2.2.2.2] at h
    unfold decodeEnum at h
    cases hc : decodeComposite d payload with
    | error e => rw [hc] at h; cases h
    | ok comp =>
      rw [hc, ok_bind] at h
      cases h
      exact ⟨comp, _, rfl, rfl, rfl, rfl, rfl, rfl⟩

/-- C13: for every composite value that a node with tag `Struct`, `Resource`, `Event`,
`Contract` or `Enum` decodes to, the payload is an object with a list `fields`, and the
field values of the value and the fields of its attached type are both as many as the
entries of that list, in its order: the `i`-th entry is an object with a `name` and a
`value`, the `i`-th field value is the decoding of that `value`, and the `i`-th field of the
type has that `name` and the type of the `i`-th field value. -/
theorem decodeJSON_composite_parallel (env : Env) (obj : jsonObject) (tag : String)
    (v : Value) (htag : tag ∈ compositeTags) (htype : obj.GetString typeKey = .ok tag)
    (h : decodeJSON env (.object obj) = .ok v) :
    ∃ (comp : jsonObject) (entries : List JSONValue) (t : CadenceType),
      obj.Get valueKey = .ok (.object comp) ∧ comp.GetSlice fieldsKey = .ok entries ∧
      v.compositeType = some t ∧
      v.fieldValues.length = entries.length ∧ t.fieldList.length = entries.length ∧
      ∀ (i : Nat) (h₁ : i < entries.length) (h₂ : i < v.fieldValues.length)
        (h₃ : i < t.fieldList.length),
        ∃ (field : jsonObject) (name : String) (x : JSONValue),
          entries.get ⟨i, h₁⟩ = .object field ∧
          field.GetString nameKey = .ok name ∧ field.Get valueKey = .ok x ∧
          decodeJSON env x = .ok (v.fieldValues.get ⟨i, h₂⟩) ∧
          t.fieldList.get ⟨i, h₃⟩
            = Field.mk name (env.typeOf (v.fieldValues.get ⟨i, h₂⟩)) := by
  have hvoid : tag ≠ voidTypeStr := by
    intro hv
    rw [hv] at htag
    revert htag
    decide
  obtain ⟨payload, hpayload, hdec⟩ := decodeJSON_ok_tagged env htype hvoid h
  obtain ⟨c, t, hc, hty, hvals, hfields, _, _⟩ := decodeTagged_composite_ok _ htag hdec
  obtain ⟨comp, typeID, entries, decoded, rfl, _, _, _, hslice, hfor, hcv, hct⟩ :=
    decodeComposite_ok env payload c hc
  rw [forRange_ok_iff] at hfor
  have hlv : v.fieldValues.length = entries.length := by
    rw [hvals, hcv, List.length_map, hfor.1]
  have hlt : t.fieldList.length = entries.length := by
    rw [hfields, hct, List.length_map, hfor.1]
  refine ⟨comp, entries, t, hpayload, hslice, hty, hlv, hlt, fun i h₁ h₂ h₃ => ?_⟩
  have hd : i < decoded.length := by rw [hfor.1]; exact h₁
  have hv : v.fieldValues.get ⟨i, h₂⟩ = (decoded.get ⟨i, hd⟩).1 := by
    have : v.fieldValues = decoded.map Prod.fst := by rw [hvals, hcv]
    simp only [List.get_eq_getElem, this, List.getElem_map]
  have ht : t.fieldList.get ⟨i, h₃⟩ = (decoded.get ⟨i, hd⟩).2 := by
    have : t.fieldList = decoded.map Prod.snd := by rw [hfields, hct]
    simp only [List.get_eq_getElem, this, List.getElem_map]
  obtain ⟨field, name, x, he, hn, hx, hdx, hft⟩ :=
    (decodeCompositeField_ok_iff env _ (decoded.get ⟨i, hd⟩).1 (decoded.get ⟨i, hd⟩).2).mp
      (hfor.2 i h₁ hd)
  refine ⟨field, name, x, he, hn, hx, ?_, ?_⟩
  · rw [hv]
    exact hdx
  · rw [ht, hv]
    exact hft

/-- Witness of C13 at a struct with an `Int8` field and a `Bool` field. -/
theorem decodeJSON_composite_parallel_witness :
    decodeJSON sampleEnv (.object sampleCompositeObject) = .ok sampleCompositeValue ∧
    ∃ (comp : jsonObject) (entries : List JSONValue) (t : CadenceType),
      sampleCompositeObject.Get valueKey = .ok (.object comp) ∧
      comp.GetSlice fieldsKey = .ok entries ∧
      sampleCompositeValue.compositeType = some t ∧
      sampleCompositeValue.fieldValues.length = entries.length ∧
      t.fieldList.length = entries.length ∧
      ∀ (i : Nat) (h₁ : i < entries.length) (h₂ : i < sampleCompositeValue.fieldValues.length)
        (h₃ : i < t.fieldList.length),
        ∃ (field : jsonObject) (name : String) (x : JSONValue),
          entries.get ⟨i, h₁⟩ = .object field ∧
          field.GetString nameKey = .ok name ∧ field.Get valueKey = .ok x ∧
          decodeJSON sampleEnv x = .ok (sampleCompositeValue.fieldValues.get ⟨i, h₂⟩) ∧
          t.fieldList.get ⟨i, h₃⟩
            = Field.mk name (sampleEnv.typeOf (sampleCompositeValue.fieldValues.get ⟨i, h₂⟩)) :=
  ⟨rfl, decodeJSON_composite_parallel sampleEnv sampleCompositeObject "Struct"
    sampleCompositeValue (by decide) rfl rfl⟩

theorem decodeComposite_invalid_typeID (d : Decoder) (comp : jsonObject) (typeID : String)
    (hid : comp.GetString idKey = .ok typeID)
    (hbad : d.env.DecodeTypeID typeID = none ∨
      ∃ qid, d.env.DecodeTypeID typeID = some (none, qid) ∧
        d.env.NativeCompositeTypes typeID = false) :
    decodeComposite d (.object comp) = .error (.invalidTypeID typeID) := by
  unfold decodeComposite
  simp only [toObject, ok_bind]
  rw [hid, ok_bind]
  rcases hbad with h | ⟨qid, h, hn⟩
  · simp only [h]
  · simp only [h]
    rw [if_pos ⟨rfl, hn⟩]

theorem decodeTagged_composite_error (d : Decoder) {tag : String} (htag : tag ∈ compositeTags)
    {payload : JSONValue} {e : GoError} (h : decodeComposite d payload = .error e) :
    decodeTagged d tag payload = .error e := by
  simp only [compositeTags, List.mem_cons, List.mem_singleton, List.not_mem_nil, or_false]
    at htag
  rcases htag with rfl | rfl | rfl | rfl | rfl
  · rw [(decodeTagged_composite d payload).1]
    unfold decodeStruct
    rw [h]
    rfl
  · rw [(decodeTagged_composite d payload).2.1]
    unfold decodeResource
    rw [h]
    rfl
  · rw [(decodeTagged_composite d payload).2.2.1]
    unfold decodeEvent
    rw [h]
    rfl
  · rw [(decodeTagged_composite d payload).2.2.2.1]
    unfold decodeContract
    rw [h]
    rfl
  · rw [(decodeTagged_composite d payload).2.2.2.2]
    unfold decodeEnum
    rw [h]
    rfl

/-- C14: for every node with tag `Struct`, `Resource`, `Event`, `Contract` or `Enum` whose
payload is an object with the string `id`, decoding panics with the error of an invalid type
ID when the `id` is not parsed as a type ID, and when it is parsed to no location and names
no native composite type; the rest of the payload, the list `fields` included, is not looked
at, and `Decode` returns no value, only the error. -/
theorem decodeJSON_composite_invalid_typeID (env : Env) (tag : String) (comp : jsonObject)
    (typeID : String) (htag : tag ∈ compositeTags)
    (hid : comp.GetString idKey = .ok typeID)
    (hbad : env.DecodeTypeID typeID = none ∨
      ∃ qid, env.DecodeTypeID typeID = some (none, qid) ∧
        env.NativeCompositeTypes typeID = false) :
    decodeJSON env (node tag (.object comp)) = .error (.invalidTypeID typeID) ∧
    Decode env (fun _ => .ok [("type", .string tag), ("value", .object comp)]) []
      = (none, some (.wrap "failed to decode value" (.invalidTypeID typeID))) := by
  have hvoid : tag ≠ voidTypeStr := by
    intro hv
    rw [hv] at htag
    revert htag
    decide
  have hj : decodeJSON env (node tag (.object comp)) = .error (.invalidTypeID typeID) := by
    rw [decodeJSON_node env _ _ hvoid]
    exact decodeTagged_composite_error _ htag
      (decodeComposite_invalid_typeID (theDecoder env) comp typeID hid hbad)
  refine ⟨hj, ?_⟩
  rw [node] at hj
  simp only [Decode, Decoder.Decode, hj]

/-- Witness of C14 at a struct and an enum with well-formed fields: the empty `id` is not
parsed, and the `id` `Foo` has no location and names no native composite type. -/
theorem decodeJSON_composite_invalid_typeID_witness :
    (decodeJSON sampleEnv (node "Struct" (.object [("id", .string ""),
        ("fields", .array [.object [("name", .string "x"),
          ("value", node "Bool" (.bool true))]])]))
      = .error (.invalidTypeID "") ∧
     Decode sampleEnv (fun _ => .ok [("type", .string "Struct"),
        ("value", .object [("id", .string ""),
          ("fields", .array [.object [("name", .string "x"),
            ("value", node "Bool" (.bool true))]])])]) []
      = (none, some (.wrap "failed to decode value" (.invalidTypeID "")))) ∧
    (decodeJSON sampleEnv (node "Enum" (.object [("id", .string "Foo"),
        ("fields", .array [])]))
      = .error (.invalidTypeID "Foo") ∧
     Decode sampleEnv (fun _ => .ok [("type", .string "Enum"),
        ("value", .object [("id", .string "Foo"), ("fields", .array [])])]) []
      = (none, some (.wrap "failed to decode value" (.invalidTypeID "Foo")))) :=
  ⟨decodeJSON_composite_invalid_typeID sampleEnv "Struct" _ "" (by decide) rfl (Or.inl rfl),
   decodeJSON_composite_invalid_typeID sampleEnv "Enum" _ "Foo" (by decide) rfl
    (Or.inr ⟨"Foo", rfl, rfl⟩)⟩

/-- C15 at the failing input: in `sampleEnv` the type ID `Foo` is parsed to no location and
names no native composite type.  The composite value with this `id` is rejected, but the
nominal type payloads with this `typeID` decode, for each of the eight nominal kinds, to a
type with an absent location, and `Decode` returns the type value of such a type; only a
`typeID` that is not parsed at all is rejected by `decodeNominalType`. -/
theorem decodeType_nominal_unlocated_typeID :
    sampleEnv.DecodeTypeID "Foo" = some (none, "Foo") ∧
    sampleEnv.NativeCompositeTypes "Foo" = false ∧
    decodeJSON sampleEnv (node "Struct" (.object [("id", .string "Foo"),
        ("fields", .array [])])) = .error (.invalidTypeID "Foo") ∧
    decodeType sampleEnv (nominalPayload "Struct" "Foo" [] [])
      = .ok (.struct none "Foo" [] []) ∧
    decodeType sampleEnv (nominalPayload "Resource" "Foo" [] [])
      = .ok (.resource none "Foo" [] []) ∧
    decodeType sampleEnv (nominalPayload "Event" "Foo" [] [.array []])
      = .ok (.event none "Foo" [] []) ∧
    decodeType sampleEnv (nominalPayload "Contract" "Foo" [] [])
      = .ok (.contract none "Foo" [] []) ∧
    decodeType sampleEnv (nominalPayload "StructInterface" "Foo" [] [])
      = .ok (.structInterface none "Foo" [] []) ∧
    decodeType sampleEnv (nominalPayload "ResourceInterface" "Foo" [] [])
      = .ok (.resourceInterface none "Foo" [] []) ∧
    decodeType sampleEnv (nominalPayload "ContractInterface" "Foo" [] [])
      = .ok (.contractInterface none "Foo" [] []) ∧
    decodeType sampleEnv (.object [("kind", .string "Enum"), ("typeID", .string "Foo"),
        ("fields", .array []), ("initializers", .array []),
        ("type", .object [("kind", .string "UInt8")])])
      = .ok (.enum none "Foo" (.simple .uint8) [] []) ∧
    Decode sampleEnv (fun _ => .ok [("type", .string "Type"),
        ("value", .object [("staticType", nominalPayload "Struct" "Foo" [] [])])]) []
      = (some (.typeValue (.struct none "Foo" [] [])), none) ∧
    decodeType sampleEnv (nominalPayload "Struct" "" [] [])
      = .error .ErrInvalidJSONCadence :=
  ⟨rfl, rfl, rfl, rfl, rfl, rfl, rfl, rfl, rfl, rfl, rfl, rfl, rfl⟩

/-! ## Type payloads of an unknown kind -/

theorem decodeNominalType_unknown_kind (d : Decoder) (obj : jsonObject) {kind : String}
    (typeID : String) (fs initializers : List JSONValue) (hn : kind ∉ nominalKinds) :
    Fails (decodeNominalType d obj kind typeID fs initializers) ∧
    ∀ fields inits parsed, decodeFieldTypes d fs = .ok fields →
      forRange (fun params => do decodeParamTypes d (← toSlice params)) initializers
        = .ok inits →
      d.env.DecodeTypeID typeID = some parsed →
      decodeNominalType d obj kind typeID fs initializers = .error .ErrInvalidJSONCadence := by
  simp only [nominalKinds, List.mem_cons, List.mem_singleton, List.not_mem_nil, or_false,
    not_or] at hn
  obtain ⟨h1, h2, h3, h4, h5, h6, h7, h8⟩ := hn
  have htail : ∀ fields inits,
      (match d.env.DecodeTypeID typeID with
        | none => (invalid : Panics CadenceType)
        | some (location, id) =>
          if kind = "Struct" then
            .ok (.struct location id fields inits)
          else if kind = "Resource" then
            .ok (.resource location id fields inits)
          else if kind = "Event" then
            match inits with
            | init :: _ => .ok (.event location id fields init)
            | [] => .error (.runtimeError "index out of range [0] with length 0")
          else if kind = "Contract" then
            .ok (.contract location id fields inits)
          else if kind = "StructInterface" then
            .ok (.structInterface location id fields inits)
          else if kind = "ResourceInterface" then
            .ok (.resourceInterface location id fields inits)
          else if kind = "ContractInterface" then
            .ok (.contractInterface location id fields inits)
          else if kind = "Enum" then do
            let rawType ← d.decodeType (← obj.Get typeKey)
            .ok (.enum location id rawType fields inits)
          else
            invalid) = .error .ErrInvalidJSONCadence := by
    intro fields inits
    cases d.env.DecodeTypeID typeID with
    | none => rfl
    | some parsed =>
      obtain ⟨location, id⟩ := parsed
      simp only [if_neg h1, if_neg h2, if_neg h3, if_neg h4, if_neg h5, if_neg h6, if_neg h7,
        if_neg h8]
      rfl
  constructor
  · unfold decodeNominalType
    apply fails_bind_right
    intro fields _
    apply fails_bind_right
    intro inits _
    exact ⟨_, htail fields inits⟩
  · intro fields inits parsed hf hi _
    unfold decodeNominalType
    rw [hf]
    show (do
      let inits ← forRange (fun params => do decodeParamTypes d (← toSlice params)) initializers
      _) = _
    rw [hi]
    exact htail fields inits

/-- C29: a type payload whose `kind` is none of the kinds of the `switch` of `decodeType`
(the structural kinds and the kinds of the built-in types) and none of the eight nominal
kinds is rejected: `decodeType` panics.  When the payload has well-formed `fields`,
`typeID` and `initializers`, which decode, the panic is the one behind the `switch` of
`decodeNominalType`, `ErrInvalidJSONCadence`. -/
theorem decodeType_unknown_kind (env : Env) (obj : jsonObject) (kind : String)
    (hk : obj.GetString kindKey = .ok kind)
    (hstructural : kind ∉ structuralKinds) (hsimple : simpleTypeOfKind kind = none)
    (hnominal : kind ∉ nominalKinds) :
    Fails (decodeType env (.object obj)) ∧
    ∀ fs initializers typeID fields inits parsed,
      obj.Get fieldsKey = .ok (.array fs) →
      obj.Get typeIDKey = .ok (.string typeID) →
      obj.Get initializersKey = .ok (.array initializers) →
      decodeFieldTypes (theDecoder env) fs = .ok fields →
      forRange (fun params => do decodeParamTypes (theDecoder env) (← toSlice params))
        initializers = .ok inits →
      (theDecoder env).env.DecodeTypeID typeID = some parsed →
      decodeType env (.object obj) = .error .ErrInvalidJSONCadence := by
  rw [decodeType_of_kind env hk, decodeKind_nominal _ _ hstructural hsimple]
  constructor
  · apply fails_bind_right
    intro _ _
    apply fails_bind_right
    intro _ _
    apply fails_bind_right
    intro _ _
    apply fails_bind_right
    intro _ _
    apply fails_bind_right
    intro _ _
    apply fails_bind_right
    intro _ _
    exact (decodeNominalType_unknown_kind _ obj _ _ _ hnominal).1
  · intro fs initializers typeID fields inits parsed hfs hid hinit hf hi hp
    rw [hfs, hid, hinit]
    exact (decodeNominalType_unknown_kind _ obj typeID fs initializers hnominal).2
      fields inits parsed hf hi hp

/-- Witness of C29 at a payload of the kind `Interface`, with a type ID that is parsed, a
field and an initializer. -/
theorem decodeType_unknown_kind_witness :
    decodeType sampleEnv (nominalPayload "Interface" "S.test.Foo"
        [.object [("id", .string "x"), ("type", .object [("kind", .string "Int")])]]
        [.array []])
      = .error .ErrInvalidJSONCadence ∧
    decodeType sampleEnv (nominalPayload "Struct" "S.test.Foo"
        [.object [("id", .string "x"), ("type", .object [("kind", .string "Int")])]]
        [.array []])
      = .ok (.struct none "S.test.Foo" [.mk "x" (.simple .int)] [[]]) :=
  ⟨(decodeType_unknown_kind sampleEnv
      [("kind", .string "Interface"), ("typeID", .string "S.test.Foo"),
        ("fields", .array
          [.object [("id", .string "x"), ("type", .object [("kind", .string "Int")])]]),
        ("initializers", .array [.array []])]
      "Interface" rfl (by decide) (by decide) (by decide)).2
      [.object [("id", .string "x"), ("type", .object [("kind", .string "Int")])]]
      [.array []] "S.test.Foo" [.mk "x" (.simple .int)] [[]] (none, "S.test.Foo")
      rfl rfl rfl rfl rfl rfl,
   rfl⟩

/-! ## Short address payloads -/

theorem decodeAddress_short (s : String) (h : s.length < 2) :
    Fails (decodeAddress (.string s)) ∧
    (s.utf8ByteSize < 2 →
      decodeAddress (.string s) = .error (.runtimeError "slice bounds out of range")) := by
  have htake : s.toList.take 2 ≠ ['0', 'x'] := by
    intro heq
    have hlen := congrArg List.length heq
    rw [List.length_take] at hlen
    have hs : s.toList.length = s.length := rfl
    simp only [List.length_cons, List.length_nil] at hlen
    omega
  constructor
  · simp only [decodeAddress, toString, bind, Except.bind]
    by_cases hb : s.utf8ByteSize < 2
    · rw [if_pos hb]
      exact ⟨_, rfl⟩
    · rw [if_neg hb, if_pos htake]
      exact fails_invalid
  · intro hb
    simp only [decodeAddress, toString, bind, Except.bind]
    rw [if_pos hb]

/-- C34: for every Address payload that is a string of fewer than two characters, decoding
the address panics, with the run-time error of the slice `v[:2]` when the string has fewer
than two bytes (the empty string, a single ASCII character), and `Decode` recovers the
panic: it returns an error and the nil value, not an address. -/
theorem Decode_short_address (env : Env) (obj : jsonObject) (s : String)
    (htype : obj.GetString typeKey = .ok "Address") (hlen : obj.len = 2)
    (hvalue : obj.Get valueKey = .ok (.string s)) (hs : s.length < 2) :
    Fails (decodeAddress (.string s)) ∧
    (s.utf8ByteSize < 2 →
      Decoder.Decode env (.ok obj)
        = (none, some (.wrap "failed to decode value"
            (.runtimeError "slice bounds out of range")))) ∧
    ∃ err, Decoder.Decode env (.ok obj) = (none, some err) ∧
      ∀ (jsonDecode : Bytes → Except String jsonObject) (b : Bytes),
        jsonDecode b = .ok obj → Decode env jsonDecode b = (none, some err) := by
  have hdec : decodeJSON env (.object obj)
      = (decodeAddress (.string s) >>= fun a => .ok (.address a)) := by
    rw [decodeTagged_of_node env obj "Address" (.string s) htype (by decide) hlen hvalue]
    exact decodeTagged_address _ _
  obtain ⟨hfail, hrun⟩ := decodeAddress_short s hs
  refine ⟨hfail, fun hb => ?_, ?_⟩
  · simp only [Decoder.Decode, hdec, hrun hb]
    rfl
  · apply Decode_of_fails
    rw [hdec]
    exact fails_bind_left _ hfail

/-- Witness of C34 at the payload of the single character `0`. -/
theorem Decode_short_address_witness :
    Decoder.Decode sampleEnv (.ok [("type", .string "Address"), ("value", .string "0")])
      = (none, some (.wrap "failed to decode value"
          (.runtimeError "slice bounds out of range"))) :=
  (Decode_short_address sampleEnv [("type", .string "Address"), ("value", .string "0")] "0"
    rfl rfl rfl (by decide)).2.1 (by decide)

/-! ## The empty type payload -/

theorem decodeType_not_object (env : Env) (v : JSONValue) (hne : v ≠ .string "")
    (hobj : ∀ obj, v ≠ .object obj) : decodeType env v = .error .ErrInvalidJSONCadence := by
  rw [decodeType_eq]
  unfold decodeTypeBody
  cases v with
  | null => rfl
  | bool b => rfl
  | number f => rfl
  | string s =>
    split
    · rename_i heq
      exact absurd heq hne
    · rfl
  | array xs => rfl
  | object m => exact absurd rfl (hobj m)

/-- C35: `decodeType` maps the payload of the empty string to the nil type, without error.
So a capability payload whose path and address decode and whose `borrowType` is the empty
string decodes to the capability with the nil borrow type, and a type value payload whose
`staticType` is the empty string decodes to the type value of the nil type.  Every other
payload that is not a JSON object (null, a boolean, a number, a string that is not empty,
an array) is rejected. -/
theorem decodeType_empty_string (env : Env) :
    decodeType env (.string "") = .ok .nil ∧
    (∀ (obj : jsonObject) (pathJSON addressJSON : JSONValue) (path : Path) (address : Bytes),
      obj.Get pathKey = .ok pathJSON → decodeJSON env pathJSON = .ok (.path path) →
      obj.Get addressKey = .ok addressJSON → decodeAddress addressJSON = .ok address →
      obj.Get borrowTypeKey = .ok (.string "") →
      decodeJSON env (node "Capability" (.object obj)) = .ok (.capability path address .nil)) ∧
    (∀ obj : jsonObject, obj.Get staticTypeKey = .ok (.string "") →
      decodeJSON env (node "Type" (.object obj)) = .ok (.typeValue .nil)) ∧
    (∀ v : JSONValue, v ≠ .string "" → (∀ obj, v ≠ .object obj) →
      decodeType env v = .error .ErrInvalidJSONCadence ∧ Fails (decodeType env v)) := by
  have hnil : decodeType env (.string "") = .ok .nil := by
    rw [decodeType_eq]
    rfl
  refine ⟨hnil, ?_, ?_, ?_⟩
  · intro obj pathJSON addressJSON path address hp hpath ha haddr hb
    rw [decodeJSON_node env "Capability" _ (by decide),
      (decodeTagged_container (theDecoder env) _).2.2.2.2]
    show (do
      let obj' ← toObject (.object obj)
      let pathValue ← decodeJSON env (← obj'.Get pathKey)
      let path ← assertPath pathValue
      let address ← decodeAddress (← obj'.Get addressKey)
      let borrowType ← decodeType env (← obj'.Get borrowTypeKey)
      (.ok (.capability path address borrowType) : Panics Value)) = _
    simp only [toObject, ok_bind, hp, hpath, assertPath, ha, haddr, hb, hnil]
  · intro obj hs
    rw [decodeJSON_node env "Type" _ (by decide),
      (decodeTagged_container (theDecoder env) _).2.2.2.1]
    show (do
      let obj' ← toObject (.object obj)
      let staticType ← decodeType env (← obj'.Get staticTypeKey)
      (.ok (.typeValue staticType) : Panics Value)) = _
    simp only [toObject, ok_bind, hs, hnil]
  · intro v hne hobj
    have h := decodeType_not_object env v hne hobj
    exact ⟨h, _, h⟩

/-- Witness of C35: a capability without borrow type and a type value without type, decoded
in the sample environment, and the rejection of the payload `null`. -/
theorem decodeType_empty_string_witness :
    decodeJSON sampleEnv (node "Capability" (.object
        [("path", node "Path" (.object [("domain", .string "public"),
            ("identifier", .string "cap")])),
         ("address", .string "0x01"), ("borrowType", .string "")]))
      = .ok (.capability { domain := "public", identifier := "cap" }
          [0, 0, 0, 0, 0, 0, 0, 1] .nil) ∧
    decodeJSON sampleEnv (node "Type" (.object [("staticType", .string "")]))
      = .ok (.typeValue .nil) ∧
    decodeType sampleEnv .null = .error .ErrInvalidJSONCadence :=
  ⟨(decodeType_empty_string sampleEnv).2.1
      [("path", node "Path" (.object [("domain", .string "public"),
          ("identifier", .string "cap")])),
       ("address", .string "0x01"), ("borrowType", .string "")]
      (node "Path" (.object [("domain", .string "public"), ("identifier", .string "cap")]))
      (.string "0x01") { domain := "public", identifier := "cap" } [0, 0, 0, 0, 0, 0, 0, 1]
      rfl rfl rfl rfl rfl,
   (decodeType_empty_string sampleEnv).2.2.1 [("staticType", .string "")] rfl,
   ((decodeType_empty_string sampleEnv).2.2.2 .null (fun h => JSONValue.noConfusion h)
      (fun _ h => JSONValue.noConfusion h)).1⟩

/-! ## The initializers of a nominal type payload -/

theorem decodeType_nominal (env : Env) (obj : jsonObject) (kind typeID : String)
    (fs initializers : List JSONValue)
    (hk : obj.GetString kindKey = .ok kind)
    (hstructural : kind ∉ structuralKinds) (hsimple : simpleTypeOfKind kind = none)
    (hfs : obj.Get fieldsKey = .ok (.array fs))
    (hid : obj.Get typeIDKey = .ok (.string typeID))
    (hinit : obj.Get initializersKey = .ok (.array initializers)) :
    decodeType env (.object obj)
      = decodeNominalType (theDecoder env) obj kind typeID fs initializers := by
  rw [decodeType_of_kind env hk, decodeKind_nominal _ _ hstructural hsimple, hfs, hid, hinit]
  rfl

theorem decodeNominalType_event_cases (d : Decoder) (obj : jsonObject) (typeID : String)
    (fs initializers : List JSONValue) (fields : List Field) (loc : Option Location)
    (qid : String)
    (hf : decodeFieldTypes d fs = .ok fields)
    (hid : d.env.DecodeTypeID typeID = some (loc, qid)) :
    (initializers = [] →
      decodeNominalType d obj "Event" typeID fs initializers
        = .error (.runtimeError "index out of range [0] with length 0")) ∧
    (∀ init rest,
      forRange (fun params => do decodeParamTypes d (← toSlice params)) initializers
        = .ok (init :: rest) →
      decodeNominalType d obj "Event" typeID fs initializers
        = .ok (.event loc qid fields init)) ∧
    (∀ x ∈ initializers, Fails (do decodeParamTypes d (← toSlice x)) →
      Fails (decodeNominalType d obj "Event" typeID fs initializers)) := by
  refine ⟨fun h => ?_, fun init rest hi => ?_, fun x hx hfail => ?_⟩
  · subst h
    unfold decodeNominalType
    rw [hf]
    simp only [forRange, ok_bind, hid]
    simp +decide only [if_true, if_false]
  · unfold decodeNominalType
    rw [hf, hi]
    simp only [hid]
    simp +decide only [if_true, if_false]
    rfl
  · unfold decodeNominalType
    apply fails_bind_right
    intro _ _
    apply fails_bind_left
    exact fails_forRange hx hfail

theorem decodeJSON_typeNode (env : Env) (t : JSONValue) :
    decodeJSON env (node "Type" (.object [("staticType", t)]))
      = (decodeType env t >>= fun staticType => .ok (.typeValue staticType)) := by
  rw [decodeJSON_node env "Type" _ (by decide),
    (decodeTagged_container (theDecoder env) _).2.2.2.1]
  rfl

/-- C36: a nominal type payload of kind `Event` whose fields and type ID decode is decoded
to the event type whose initializer is the first entry of the list `initializers`; the
further entries do not show in the type (they are decoded all the same, so that an entry
that fails to decode makes the decoding fail).  With an empty list the decoding panics
with the run-time error of the index `inits[0]`, which `Decode` returns as an error.  The
other nominal kinds keep every entry of the list, the empty list included. -/
theorem decodeType_event_initializers (env : Env) (obj : jsonObject) (kind typeID : String)
    (fs initializers : List JSONValue) (fields : List Field) (loc : Option Location)
    (qid : String)
    (hk : obj.GetString kindKey = .ok kind)
    (hfs : obj.Get fieldsKey = .ok (.array fs))
    (hid : obj.Get typeIDKey = .ok (.string typeID))
    (hinit : obj.Get initializersKey = .ok (.array initializers))
    (hf : decodeFieldTypes (theDecoder env) fs = .ok fields)
    (hp : (theDecoder env).env.DecodeTypeID typeID = some (loc, qid)) :
    (kind = "Event" →
      (initializers = [] →
        decodeType env (.object obj)
          = .error (.runtimeError "index out of range [0] with length 0") ∧
        Decoder.Decode env
            (.ok [("type", .string "Type"), ("value", .object [("staticType", .object obj)])])
          = (none, some (.wrap "failed to decode value"
              (.runtimeError "index out of range [0] with length 0")))) ∧
      (∀ init rest,
        forRange (fun params => do decodeParamTypes (theDecoder env) (← toSlice params))
          initializers = .ok (init :: rest) →
        decodeType env (.object obj) = .ok (.event loc qid fields init)) ∧
      (∀ x ∈ initializers,
        Fails (do decodeParamTypes (theDecoder env) (← toSlice x)) →
        Fails (decodeType env (.object obj)))) ∧
    (∀ inits,
      forRange (fun params => do decodeParamTypes (theDecoder env) (← toSlice params))
        initializers = .ok inits →
      (kind = "Struct" → decodeType env (.object obj) = .ok (.struct loc qid fields inits)) ∧
      (kind = "Resource" →
        decodeType env (.object obj) = .ok (.resource loc qid fields inits)) ∧
      (kind = "Contract" →
        decodeType env (.object obj) = .ok (.contract loc qid fields inits)) ∧
      (kind = "StructInterface" →
        decodeType env (.object obj) = .ok (.structInterface loc qid fields inits)) ∧
      (kind = "ResourceInterface" →
        decodeType env (.object obj) = .ok (.resourceInterface loc qid fields inits)) ∧
      (kind = "ContractInterface" →
        decodeType env (.object obj) = .ok (.contractInterface loc qid fields inits)) ∧
      (kind = "Enum" → ∀ raw rawType, obj.Get typeKey = .ok raw →
        decodeType env raw = .ok rawType →
        decodeType env (.object obj) = .ok (.enum loc qid rawType fields inits))) := by
  have hnom : ∀ k, kind = k → k ∉ structuralKinds → simpleTypeOfKind k = none →
      decodeType env (.object obj)
        = decodeNominalType (theDecoder env) obj k typeID fs initializers := by
    intro k hkk h1 h2
    subst hkk
    exact decodeType_nominal env obj kind typeID fs initializers hk h1 h2 hfs hid hinit
  constructor
  · intro hkind
    have hn := hnom "Event" hkind (by decide) (by decide)
    obtain ⟨hempty, hfirst, hbad⟩ := decodeNominalType_event_cases (theDecoder env) obj typeID
      fs initializers fields loc qid hf hp
    refine ⟨fun h => ?_, fun init rest hi => ?_, fun x hx hfail => ?_⟩
    · have hd := hn.trans (hempty h)
      refine ⟨hd, ?_⟩
      have hj : decodeJSON env (.object
          [("type", .string "Type"), ("value", .object [("staticType", .object obj)])])
          = .error (.runtimeError "index out of range [0] with length 0") := by
        have := decodeJSON_typeNode env (.object obj)
        rw [hd] at this
        exact this
      simp only [Decoder.Decode, hj]
    · exact hn.trans (hfirst init rest hi)
    · rw [hn]
      exact hbad x hx hfail
  · intro inits hi
    obtain ⟨h1, h2, h3, h4, h5, h6⟩ := decodeNominalType_plain (theDecoder env) obj typeID
      fs initializers fields inits loc qid hf hi hp
    refine ⟨fun hkind => ?_, fun hkind => ?_, fun hkind => ?_, fun hkind => ?_,
      fun hkind => ?_, fun hkind => ?_, fun hkind raw rawType hraw hrawType => ?_⟩
    · exact (hnom _ hkind (by decide) (by decide)).trans h1
    · exact (hnom _ hkind (by decide) (by decide)).trans h2
    · exact (hnom _ hkind (by decide) (by decide)).trans h3
    · exact (hnom _ hkind (by decide) (by decide)).trans h4
    · exact (hnom _ hkind (by decide) (by decide)).trans h5
    · exact (hnom _ hkind (by decide) (by decide)).trans h6
    · exact (hnom _ hkind (by decide) (by decide)).trans
        (decodeNominalType_enum (theDecoder env) obj typeID fs initializers fields inits loc
          qid raw rawType hf hi hp hraw hrawType)

/-- Witness of C36 in the sample environment: an event payload with two initializers
decodes to the event type with the first one, and with no initializer it fails. -/
theorem decodeType_event_initializers_witness :
    decodeType sampleEnv (nominalPayload "Event" "S.test.Foo" []
        [.array [], .array [.object [("label", .string "l"), ("id", .string "x"),
          ("type", .object [("kind", .string "Int")])]]])
      = .ok (.event none "S.test.Foo" [] []) ∧
    decodeType sampleEnv (nominalPayload "Event" "S.test.Foo" [] [])
      = .error (.runtimeError "index out of range [0] with length 0") :=
  ⟨((decodeType_event_initializers sampleEnv
      [("kind", .string "Event"), ("typeID", .string "S.test.Foo"), ("fields", .array []),
        ("initializers", .array [.array [], .array [.object [("label", .string "l"),
          ("id", .string "x"), ("type", .object [("kind", .string "Int")])]]])]
      "Event" "S.test.Foo" []
      [.array [], .array [.object [("label", .string "l"), ("id", .string "x"),
          ("type", .object [("kind", .string "Int")])]]]
      [] none "S.test.Foo" rfl rfl rfl rfl rfl rfl).1 rfl).2.1 []
      [[.mk "l" "x" (.simple .int)]] rfl,
   (((decodeType_event_initializers sampleEnv
      [("kind", .string "Event"), ("typeID", .string "S.test.Foo"), ("fields", .array []),
        ("initializers", .array [])]
      "Event" "S.test.Foo" [] [] [] none "S.test.Foo" rfl rfl rfl rfl rfl rfl).1 rfl).1
      rfl).1⟩

end JsonCdc

namespace Migrations

/-! ## The inner loop of `ForEachValue` and the visit of a list of entries -/

theorem overwrite_of_not_mem (key : String) (x : Value) :
    ∀ (entries : List (String × Value)), key ∉ entries.map Prod.fst →
      overwrite key x entries = entries
  | [], _ => rfl
  | e :: rest, h => by
    have h1 : e.1 ≠ key := fun he => h (by simp [he])
    have h2 : key ∉ rest.map Prod.fst := fun hm => h (by simp [hm])
    have ih := overwrite_of_not_mem key x rest h2
    unfold overwrite at ih ⊢
    rw [List.map_cons, ih, if_neg h1]

theorem overwrite_at (key : String) (value x : Value) :
    ∀ (entries : List (String × Value)) (pos : Nat),
      (entries.map Prod.fst).Nodup → entries.get? pos = some (key, value) →
      overwrite key x entries = entries.take pos ++ (key, x) :: entries.drop (pos + 1)
  | [], _, _, h => by simp at h
  | e :: rest, 0, hn, h => by
    simp only [List.get?_cons_zero, Option.some.injEq] at h
    subst h
    rw [List.map_cons, List.nodup_cons] at hn
    have := overwrite_of_not_mem key x rest hn.1
    unfold overwrite at this ⊢
    simp only [List.map_cons, if_true, this, List.take_zero, List.nil_append, List.drop_succ_cons,
      List.drop_zero]
  | e :: rest, pos + 1, hn, h => by
    rw [List.get?_cons_succ] at h
    rw [List.map_cons, List.nodup_cons] at hn
    have ih := overwrite_at key value x rest pos hn.2 h
    have hmem : key ∈ rest.map Prod.fst := by
      have := List.get?_mem h
      exact List.mem_map.mpr ⟨(key, value), this, rfl⟩
    have hne : e.1 ≠ key := fun he => hn.1 (he ▸ hmem)
    unfold overwrite at ih ⊢
    rw [List.map_cons, if_neg hne, ih]
    simp only [List.take_succ_cons, List.cons_append, List.drop_succ_cons]

theorem SetValue_entries (m : StorageMap) (key : String) (value x : Value) (pos : Nat)
    (h : m.Next pos = some (key, value)) :
    (m.SetValue key x).entries = m.entries.take pos ++ (key, x) :: m.entries.drop (pos + 1) := by
  have hmem : key ∈ m.entries.map Prod.fst :=
    List.mem_map.mpr ⟨(key, value), List.get?_mem h, rfl⟩
  unfold StorageMap.SetValue
  rw [dif_pos hmem]
  exact overwrite_at key value x m.entries pos m.nodup h

theorem drop_of_get? {α : Type} {l : List α} {pos : Nat} {a : α} (h : l.get? pos = some a) :
    l.drop pos = a :: l.drop (pos + 1) := by
  have hlt : pos < l.length := List.get?_eq_some.mp h |>.1
  have := List.drop_eq_getElem_cons hlt
  rw [this]
  congr 1
  have h2 := List.get?_eq_get hlt
  rw [h] at h2
  simp only [List.get_eq_getElem, Option.some.injEq] at h2
  exact h2.symm

theorem take_succ_of_get? {α : Type} {l : List α} {pos : Nat} {a : α}
    (h : l.get? pos = some a) : l.take (pos + 1) = l.take pos ++ [a] := by
  rw [List.take_succ]
  have : l[pos]? = some a := by rw [← List.get?_eq_getElem?]; exact h
  rw [this]
  rfl

theorem forEachEntry_visit (address : Address) (domain : PathDomain)
    (valueConverter : ValueConverter) :
    ∀ (fuel pos : Nat) (run : Run) (m : StorageMap),
      run.storage.GetStorageMap address domain.Identifier = some m →
      m.entries.length - pos < fuel →
      (forEachEntry address domain valueConverter fuel pos run).trace
        = run.trace ++ (visitEntries address domain valueConverter (m.entries.drop pos)).trace ∧
      (forEachEntry address domain valueConverter fuel pos run).stop
        = ((visitEntries address domain valueConverter (m.entries.drop pos)).stop.orElse
            fun _ => run.stop) ∧
      (∃ m', (forEachEntry address domain valueConverter fuel pos run).storage.GetStorageMap
            address domain.Identifier = some m' ∧
          m'.entries = m.entries.take pos ++
            (visitEntries address domain valueConverter (m.entries.drop pos)).entries) ∧
      (∀ a d, ¬ (a = address ∧ d = domain.Identifier) →
        (forEachEntry address domain valueConverter fuel pos run).storage.maps a d
          = run.storage.maps a d)
  | 0, pos, run, m, _, hfuel => by omega
  | fuel + 1, pos, run, m, hm, hfuel => by
    unfold forEachEntry
    simp only [hm]
    cases hnext : m.Next pos with
    | none =>
      have hlen : m.entries.length ≤ pos := by
        unfold StorageMap.Next at hnext
        exact List.get?_eq_none.mp hnext
      simp only [List.drop_of_length_le hlen, visitEntries, List.append_nil,
        List.take_of_length_le hlen, Option.orElse]
      exact ⟨trivial, trivial, ⟨m, hm, rfl⟩, fun _ _ _ => trivial⟩
    | some kv =>
      obtain ⟨key, value⟩ := kv
      have hdrop : m.entries.drop pos = (key, value) :: m.entries.drop (pos + 1) :=
        drop_of_get? hnext
      have htake : m.entries.take (pos + 1) = m.entries.take pos ++ [(key, value)] :=
        take_succ_of_get? hnext
      have hlt : pos < m.entries.length := (List.get?_eq_some.mp hnext).1
      simp only [hdrop]
      cases hout : (valueConverter value).outcome with
      | error p =>
        simp only [visitEntries, hout, Option.orElse]
        refine ⟨trivial, trivial, ⟨m, hm, ?_⟩, fun _ _ _ => trivial⟩
        rw [← hdrop, List.take_append_drop]
      | ok r =>
        obtain ⟨newValue, updated⟩ := r
        simp only [visitEntries, hout]
        by_cases hskip : newValue.isNone = true ∧ updated = false
        · rw [if_pos hskip]
          have ih := forEachEntry_visit address domain valueConverter fuel (pos + 1)
            { run with trace := run.trace ++
                [.valueConverter domain key value (valueConverter value).effects] }
            m hm (by omega)
          obtain ⟨h1, h2, ⟨m', hm', he⟩, h4⟩ := ih
          have hnone : newValue = none := Option.isNone_iff_eq_none.mp hskip.1
          refine ⟨?_, h2, ⟨m', hm', ?_⟩, h4⟩
          · rw [h1]
            simp only [entryEvents, if_pos hskip, List.nil_append, List.append_assoc,
              List.singleton_append]
          · rw [he, htake, hnone]
            simp only [stored, Option.getD_none, List.append_assoc, List.singleton_append]
        · rw [if_neg hskip]
          cases newValue with
          | none =>
            have ih := forEachEntry_visit address domain valueConverter fuel (pos + 1)
              { run with trace := run.trace ++
                  [.valueConverter domain key value (valueConverter value).effects] ++
                  [.Report address domain key] }
              m hm (by omega)
            obtain ⟨h1, h2, ⟨m', hm', he⟩, h4⟩ := ih
            refine ⟨?_, h2, ⟨m', hm', ?_⟩, h4⟩
            · rw [h1]
              simp only [entryEvents, if_neg hskip, List.nil_append, List.append_assoc,
                List.singleton_append, List.cons_append]
            · rw [he, htake]
              simp only [stored, Option.getD_none, List.append_assoc, List.singleton_append]
          | some x =>
            have hset := SetValue_entries m key value x pos hnext
            have hm1 : (Storage.setMap run.storage address domain.Identifier
                (m.SetValue key x)).GetStorageMap address domain.Identifier
                = some (m.SetValue key x) := by
              simp only [Storage.GetStorageMap, Storage.setMap, and_self, if_true]
            have hlen1 : (m.SetValue key x).entries.length = m.entries.length := by
              rw [hset]
              simp only [List.length_append, List.length_take, List.length_cons,
                List.length_drop]
              omega
            have ih := forEachEntry_visit address domain valueConverter fuel (pos + 1)
              { storage := run.storage.setMap address domain.Identifier (m.SetValue key x)
                trace := run.trace ++
                  [.valueConverter domain key value (valueConverter value).effects] ++
                  [.SetValue domain key x] ++ [.Report address domain key]
                stop := run.stop }
              (m.SetValue key x) hm1 (by omega)
            have hdrop1 : (m.SetValue key x).entries.drop (pos + 1)
                = m.entries.drop (pos + 1) := by
              rw [hset]
              have hl : (m.entries.take pos).length = pos := by
                rw [List.length_take]
                omega
              rw [List.drop_append_eq_append_drop]
              simp only [hl, List.drop_of_length_le (Nat.le_succ_of_le (le_of_eq hl)),
                List.nil_append, Nat.add_sub_cancel_left, List.drop_succ_cons, List.drop_zero]
            have htake1 : (m.SetValue key x).entries.take (pos + 1)
                = m.entries.take pos ++ [(key, x)] := by
              rw [hset]
              have hl : (m.entries.take pos).length = pos := by
                rw [List.length_take]
                omega
              rw [List.take_append_eq_append_take]
              simp only [hl, List.take_of_length_le (Nat.le_succ_of_le (le_of_eq hl)),
                Nat.add_sub_cancel_left, List.take_succ_cons, List.take_zero]
            rw [hdrop1, htake1] at ih
            obtain ⟨h1, h2, ⟨m', hm', he⟩, h4⟩ := ih
            refine ⟨?_, h2, ⟨m', hm', ?_⟩, ?_⟩
            · rw [h1]
              simp only [entryEvents, if_neg hskip, List.nil_append, List.append_assoc,
                List.singleton_append, List.cons_append]
            · rw [he]
              simp only [stored, Option.getD_some, List.append_assoc, List.singleton_append]
            · intro a d hne
              rw [h4 a d hne]
              simp only [Storage.setMap, if_neg hne]

theorem StorageMap.ext_entries {m m' : StorageMap} (h : m.entries = m'.entries) : m = m' := by
  cases m
  cases m'
  cases h
  rfl

theorem Identifier_injective {d d' : PathDomain} (h : d.Identifier = d'.Identifier) : d = d' := by
  cases d <;> cases d' <;> first | rfl | (revert h; decide)

theorem visitEntries_keys (address : Address) (domain : PathDomain)
    (valueConverter : ValueConverter) :
    ∀ es : List (String × Value),
      (visitEntries address domain valueConverter es).entries.map Prod.fst = es.map Prod.fst
  | [] => rfl
  | (key, value) :: rest => by
    have ih := visitEntries_keys address domain valueConverter rest
    unfold visitEntries
    cases hout : (valueConverter value).outcome with
    | error p => rfl
    | ok r =>
      obtain ⟨newValue, updated⟩ := r
      simp only [List.map_cons, ih]

theorem visitEntries_length (address : Address) (domain : PathDomain)
    (valueConverter : ValueConverter) (es : List (String × Value)) :
    (visitEntries address domain valueConverter es).entries.length = es.length := by
  have := congrArg List.length (visitEntries_keys address domain valueConverter es)
  simpa only [List.length_map] using this

theorem visitEntries_stop (address : Address) (domain : PathDomain)
    (valueConverter : ValueConverter) :
    ∀ es : List (String × Value),
      (visitEntries address domain valueConverter es).stop ≠ some .outOfFuel
  | [] => by simp [visitEntries]
  | (key, value) :: rest => by
    have ih := visitEntries_stop address domain valueConverter rest
    unfold visitEntries
    cases hout : (valueConverter value).outcome with
    | error p => simp
    | ok r =>
      obtain ⟨newValue, updated⟩ := r
      exact ih

theorem visitEntries_domain (address : Address) (domain : PathDomain)
    (valueConverter : ValueConverter) :
    ∀ es : List (String × Value),
      ∀ e ∈ (visitEntries address domain valueConverter es).trace, e.domain = domain
  | [] => by simp [visitEntries]
  | (key, value) :: rest => by
    have ih := visitEntries_domain address domain valueConverter rest
    unfold visitEntries
    cases hout : (valueConverter value).outcome with
    | error p =>
      intro e he
      simp only [List.mem_singleton] at he
      rw [he]
      rfl
    | ok r =>
      obtain ⟨newValue, updated⟩ := r
      intro e he
      simp only [List.mem_cons, List.mem_append] at he
      rcases he with rfl | he | he
      · rfl
      · unfold entryEvents at he
        by_cases hskip : newValue.isNone = true ∧ updated = false
        · rw [if_pos hskip] at he
          cases he
        · rw [if_neg hskip] at he
          cases newValue with
          | none =>
            simp only [List.nil_append, List.mem_singleton] at he
            rw [he]
            rfl
          | some x =>
            simp only [List.singleton_append, List.mem_cons, List.mem_singleton,
              List.not_mem_nil, or_false] at he
            rcases he with rfl | rfl <;> rfl
      · exact ih e he

theorem forDomain_absent (address : Address) (valueConverter : ValueConverter) (run : Run)
    (domain : PathDomain)
    (h : run.storage.GetStorageMap address domain.Identifier = none) :
    forDomain address valueConverter run domain = run := by
  unfold forDomain
  rw [h]

theorem forDomain_empty (address : Address) (valueConverter : ValueConverter) (run : Run)
    (domain : PathDomain) (m : StorageMap)
    (h : run.storage.GetStorageMap address domain.Identifier = some m) (hc : m.Count = 0) :
    forDomain address valueConverter run domain = run := by
  unfold forDomain
  rw [h]
  simp only [hc, if_true]

theorem forDomain_visit (address : Address) (valueConverter : ValueConverter) (run : Run)
    (domain : PathDomain) (m : StorageMap)
    (h : run.storage.GetStorageMap address domain.Identifier = some m) :
    (forDomain address valueConverter run domain).trace
      = run.trace ++ (visitEntries address domain valueConverter m.entries).trace ∧
    (forDomain address valueConverter run domain).stop
      = ((visitEntries address domain valueConverter m.entries).stop.orElse
          fun _ => run.stop) ∧
    (∃ m', (forDomain address valueConverter run domain).storage.GetStorageMap
          address domain.Identifier = some m' ∧
        m'.entries = (visitEntries address domain valueConverter m.entries).entries) ∧
    (∀ a d, ¬ (a = address ∧ d = domain.Identifier) →
      (forDomain address valueConverter run domain).storage.maps a d
        = run.storage.maps a d) := by
  by_cases hc : m.Count = 0
  · rw [forDomain_empty address valueConverter run domain m h hc]
    have he : m.entries = [] := List.length_eq_zero.mp hc
    rw [he]
    simp only [visitEntries, List.append_nil, Option.orElse]
    exact ⟨trivial, trivial, ⟨m, h, he⟩, fun _ _ _ => trivial⟩
  · have hv := forEachEntry_visit address domain valueConverter (m.Count + 1) 0 run m h
      (by unfold StorageMap.Count; omega)
    simp only [List.drop_zero, List.take_zero, List.nil_append] at hv
    unfold forDomain
    rw [h]
    simp only [hc, if_false]
    exact hv

/-- The inner loop, started as `ForEachValue` starts it, does not run out of fuel. -/
theorem forEachEntry_runs (address : Address) (valueConverter : ValueConverter) (run : Run)
    (domain : PathDomain) (m : StorageMap)
    (h : run.storage.GetStorageMap address domain.Identifier = some m)
    (hrun : run.stop ≠ some .outOfFuel) :
    (forEachEntry address domain valueConverter (m.Count + 1) 0 run).stop
      ≠ some .outOfFuel := by
  have hv := (forEachEntry_visit address domain valueConverter (m.Count + 1) 0 run m h
    (by unfold StorageMap.Count; omega)).2.1
  rw [hv]
  have hs := visitEntries_stop address domain valueConverter (m.entries.drop 0)
  cases hvs : (visitEntries address domain valueConverter (m.entries.drop 0)).stop with
  | none => exact hrun
  | some s =>
    rw [hvs] at hs
    exact hs

/-! ## The outer loop of `ForEachValue` -/

theorem forDomain_of_skipped (address : Address) (valueConverter : ValueConverter) (run : Run)
    (domain : PathDomain)
    (h : run.storage.GetStorageMap address domain.Identifier = none ∨
      ∃ m, run.storage.GetStorageMap address domain.Identifier = some m ∧ m.Count = 0) :
    forDomain address valueConverter run domain = run := by
  rcases h with h | ⟨m, h, hc⟩
  · exact forDomain_absent address valueConverter run domain h
  · exact forDomain_empty address valueConverter run domain m h hc

theorem forDomain_keys (address : Address) (valueConverter : ValueConverter) (run : Run)
    (domain : PathDomain) (a : Address) (d : String) :
    ((forDomain address valueConverter run domain).storage.maps a d).map StorageMap.keys
      = (run.storage.maps a d).map StorageMap.keys := by
  cases h : run.storage.GetStorageMap address domain.Identifier with
  | none => rw [forDomain_absent address valueConverter run domain h]
  | some m =>
    obtain ⟨_, _, ⟨m', hm', he⟩, hother⟩ := forDomain_visit address valueConverter run domain m h
    by_cases hd : a = address ∧ d = domain.Identifier
    · obtain ⟨rfl, rfl⟩ := hd
      have h1 : (forDomain a valueConverter run domain).storage.maps a domain.Identifier
          = some m' := hm'
      have h2 : run.storage.maps a domain.Identifier = some m := h
      rw [h1, h2]
      simp only [Option.map_some', StorageMap.keys, he, visitEntries_keys]
    · rw [hother a d hd]

theorem forDomain_trace (address : Address) (valueConverter : ValueConverter) (run : Run)
    (domain : PathDomain) :
    ∃ evs, (forDomain address valueConverter run domain).trace = run.trace ++ evs ∧
      ∀ e ∈ evs, e.domain = domain := by
  cases h : run.storage.GetStorageMap address domain.Identifier with
  | none =>
    rw [forDomain_absent address valueConverter run domain h]
    exact ⟨[], (List.append_nil _).symm, fun _ he => absurd he (List.not_mem_nil _)⟩
  | some m =>
    exact ⟨_, (forDomain_visit address valueConverter run domain m h).1,
      visitEntries_domain address domain valueConverter m.entries⟩

theorem skipped_forDomain (address : Address) (valueConverter : ValueConverter) (run : Run)
    (domain other : PathDomain)
    (h : run.storage.GetStorageMap address domain.Identifier = none ∨
      ∃ m, run.storage.GetStorageMap address domain.Identifier = some m ∧ m.Count = 0) :
    (forDomain address valueConverter run other).storage.GetStorageMap address
        domain.Identifier = none ∨
      ∃ m, (forDomain address valueConverter run other).storage.GetStorageMap address
        domain.Identifier = some m ∧ m.Count = 0 := by
  have hk := forDomain_keys address valueConverter run other address domain.Identifier
  unfold Storage.GetStorageMap at h ⊢
  rcases h with h | ⟨m, h, hc⟩
  · left
    rw [h] at hk
    cases hf : (forDomain address valueConverter run other).storage.maps address
        domain.Identifier with
    | none => rfl
    | some m' => rw [hf] at hk; cases hk
  · right
    rw [h] at hk
    cases hf : (forDomain address valueConverter run other).storage.maps address
        domain.Identifier with
    | none => rw [hf] at hk; cases hk
    | some m' =>
      rw [hf] at hk
      simp only [Option.map_some', Option.some.injEq, StorageMap.keys] at hk
      refine ⟨m', rfl, ?_⟩
      have := congrArg List.length hk
      simp only [List.length_map] at this
      unfold StorageMap.Count at hc ⊢
      omega

theorem forDomains_skip (address : Address) (valueConverter : ValueConverter)
    (domain : PathDomain) (after : List PathDomain) :
    ∀ (before : List PathDomain) (run : Run), run.stop = none →
      (run.storage.GetStorageMap address domain.Identifier = none ∨
        ∃ m, run.storage.GetStorageMap address domain.Identifier = some m ∧ m.Count = 0) →
      forDomains address valueConverter (before ++ domain :: after) run
        = forDomains address valueConverter (before ++ after) run
  | [], run, hstop, h => by
    simp only [List.nil_append]
    rw [forDomains, forDomain_of_skipped address valueConverter run domain h, hstop]
  | b :: bs, run, hstop, h => by
    simp only [List.cons_append, forDomains]
    cases hs : (forDomain address valueConverter run b).stop with
    | some s => rfl
    | none =>
      exact forDomains_skip address valueConverter domain after bs _ hs
        (skipped_forDomain address valueConverter run domain b h)

theorem forDomains_no_event (address : Address) (valueConverter : ValueConverter)
    (domain : PathDomain) :
    ∀ (domains : List PathDomain) (run : Run),
      (run.storage.GetStorageMap address domain.Identifier = none ∨
        ∃ m, run.storage.GetStorageMap address domain.Identifier = some m ∧ m.Count = 0) →
      (∀ e ∈ run.trace, e.domain ≠ domain) →
      ∀ e ∈ (forDomains address valueConverter domains run).trace, e.domain ≠ domain
  | [], run, _, ht => ht
  | b :: bs, run, h, ht => by
    have hstep : ∀ e ∈ (forDomain address valueConverter run b).trace, e.domain ≠ domain := by
      by_cases hb : b = domain
      · rw [hb, forDomain_of_skipped address valueConverter run domain h]
        exact ht
      · obtain ⟨evs, htr, hdom⟩ := forDomain_trace address valueConverter run b
        intro e he
        rw [htr, List.mem_append] at he
        rcases he with he | he
        · exact ht e he
        · rw [hdom e he]
          exact hb
    simp only [forDomains]
    cases hs : (forDomain address valueConverter run b).stop with
    | some s => exact hstep
    | none =>
      exact forDomains_no_event address valueConverter domain bs _
        (skipped_forDomain address valueConverter run domain b h) hstep

/-- C16: for every domain of the list whose storage map is absent or has no entries,
`ForEachValue` over the list does exactly what it does over the list without this domain:
the domain raises no panic and the domains after it are processed; and nothing that the run
does, no call of the converter, no write and no call of `Report`, is for this domain. -/
theorem ForEachValue_skips_empty (i : AccountStorage) (before after : List PathDomain)
    (domain : PathDomain) (valueConverter : ValueConverter)
    (h : i.storage.GetStorageMap i.address domain.Identifier = none ∨
      ∃ m, i.storage.GetStorageMap i.address domain.Identifier = some m ∧ m.Count = 0) :
    i.ForEachValue (before ++ domain :: after) valueConverter
      = i.ForEachValue (before ++ after) valueConverter ∧
    ∀ e ∈ (i.ForEachValue (before ++ domain :: after) valueConverter).trace,
      e.domain ≠ domain := by
  constructor
  · exact forDomains_skip i.address valueConverter domain after before _ rfl h
  · exact forDomains_no_event i.address valueConverter domain _ _ h
      (fun _ he => absurd he (List.not_mem_nil _))

/-- Witness of C16 at an account whose map of `public` has no entries and whose map of
`storage` has three. -/
theorem ForEachValue_skips_empty_witness :
    (sampleAccount.storage.GetStorageMap sampleAccount.address
        PathDomain.PathDomainPublic.Identifier = none ∨
      ∃ m, sampleAccount.storage.GetStorageMap sampleAccount.address
        PathDomain.PathDomainPublic.Identifier = some m ∧ m.Count = 0) ∧
    sampleAccount.ForEachValue ([] ++ .PathDomainPublic :: [.PathDomainStorage])
        sampleConverter
      = sampleAccount.ForEachValue ([] ++ [.PathDomainStorage]) sampleConverter ∧
    ∀ e ∈ (sampleAccount.ForEachValue ([] ++ .PathDomainPublic :: [.PathDomainStorage])
        sampleConverter).trace,
      e.domain ≠ .PathDomainPublic :=
  ⟨Or.inr ⟨_, rfl, rfl⟩,
   ForEachValue_skips_empty sampleAccount [] [.PathDomainStorage] .PathDomainPublic
    sampleConverter (Or.inr ⟨_, rfl, rfl⟩)⟩

/-! ## What is stored after `ForEachValue` -/

theorem visitEntries_entries (address : Address) (domain : PathDomain)
    (valueConverter : ValueConverter) :
    ∀ es : List (String × Value), (visitEntries address domain valueConverter es).stop = none →
      (visitEntries address domain valueConverter es).entries
        = es.map (fun e => (e.1, visited valueConverter e.2))
  | [], _ => rfl
  | (key, value) :: rest, h => by
    unfold visitEntries at h ⊢
    cases hout : (valueConverter value).outcome with
    | error p =>
      rw [hout] at h
      cases h
    | ok r =>
      obtain ⟨newValue, updated⟩ := r
      rw [hout] at h
      have ih := visitEntries_entries address domain valueConverter rest h
      simp only [List.map_cons, ih, visited, hout]

theorem forDomain_stop_none (address : Address) (valueConverter : ValueConverter) (run : Run)
    (domain : PathDomain) (m : StorageMap)
    (h : run.storage.GetStorageMap address domain.Identifier = some m)
    (hs : (forDomain address valueConverter run domain).stop = none) :
    (visitEntries address domain valueConverter m.entries).stop = none := by
  have := (forDomain_visit address valueConverter run domain m h).2.1
  rw [hs] at this
  cases hv : (visitEntries address domain valueConverter m.entries).stop with
  | none => rfl
  | some s =>
    rw [hv] at this
    cases this

theorem forDomain_other (address : Address) (valueConverter : ValueConverter) (run : Run)
    (domain : PathDomain) (a : Address) (d : String)
    (h : ¬ (a = address ∧ d = domain.Identifier)) :
    (forDomain address valueConverter run domain).storage.maps a d = run.storage.maps a d := by
  cases hm : run.storage.GetStorageMap address domain.Identifier with
  | none => rw [forDomain_absent address valueConverter run domain hm]
  | some m => exact (forDomain_visit address valueConverter run domain m hm).2.2.2 a d h

theorem forDomains_other (address : Address) (valueConverter : ValueConverter)
    (a : Address) (d : String) :
    ∀ (domains : List PathDomain) (run : Run),
      (a ≠ address ∨ ∀ domain ∈ domains, domain.Identifier ≠ d) →
      (forDomains address valueConverter domains run).storage.maps a d = run.storage.maps a d
  | [], _, _ => rfl
  | b :: bs, run, h => by
    have hb : ¬ (a = address ∧ d = b.Identifier) := by
      rintro ⟨ha, hd⟩
      rcases h with h | h
      · exact h ha
      · exact h b (List.mem_cons_self _ _) hd.symm
    have hstep := forDomain_other address valueConverter run b a d hb
    simp only [forDomains]
    cases hs : (forDomain address valueConverter run b).stop with
    | some s => exact hstep
    | none =>
      rw [forDomains_other address valueConverter a d bs _
        (h.imp id (fun h domain hd => h domain (List.mem_cons_of_mem _ hd)))]
      exact hstep

theorem forDomains_stored (address : Address) (valueConverter : ValueConverter)
    (d : PathDomain) :
    ∀ (domains : List PathDomain) (run : Run),
      (forDomains address valueConverter domains run).stop = none →
      ((forDomains address valueConverter domains run).storage.maps address
          d.Identifier).map StorageMap.entries
        = (run.storage.maps address d.Identifier).map fun m =>
            m.entries.map fun e => (e.1, (visited valueConverter)^[domains.count d] e.2)
  | [], run, _ => by
    simp only [forDomains, List.count_nil, Function.iterate_zero, id_eq, Prod.mk.eta,
      List.map_id']
  | b :: bs, run, h => by
    simp only [forDomains] at h ⊢
    cases hs : (forDomain address valueConverter run b).stop with
    | some s =>
      rw [hs] at h
      simp only [hs] at h
      cases h
    | none =>
      rw [hs] at h
      simp only at h ⊢
      rw [forDomains_stored address valueConverter d bs _ h]
      by_cases hb : b = d
      · subst hb
        cases hm : run.storage.GetStorageMap address b.Identifier with
        | none =>
          rw [forDomain_absent address valueConverter run b hm]
          have : run.storage.maps address b.Identifier = none := hm
          rw [this]
          rfl
        | some m =>
          obtain ⟨_, _, ⟨m', hm', he⟩, _⟩ := forDomain_visit address valueConverter run b m hm
          have h1 : (forDomain address valueConverter run b).storage.maps address
              b.Identifier = some m' := hm'
          have h2 : run.storage.maps address b.Identifier = some m := hm
          rw [h1, h2]
          simp only [Option.map_some', Option.some.injEq, he]
          rw [visitEntries_entries address b valueConverter m.entries
            (forDomain_stop_none address valueConverter run b m hm hs), List.map_map]
          apply List.map_congr_left
          intro e _
          simp only [Function.comp, List.count_cons_self, Function.iterate_succ]
      · have hne : ¬ (address = address ∧ d.Identifier = b.Identifier) := by
          rintro ⟨_, hd⟩
          exact hb (Identifier_injective hd).symm
        rw [forDomain_other address valueConverter run b address d.Identifier hne,
          List.count_cons_of_ne (Ne.symm hb)]

/-! ## What `ForEachValue` reports -/

theorem filter_domain_same (l : List StorageEvent) {d : PathDomain}
    (h : ∀ e ∈ l, e.domain = d) : l.filter (fun e => decide (e.domain = d)) = l := by
  rw [List.filter_eq_self]
  intro e he
  simp only [h e he, decide_True]

theorem filter_domain_other (l : List StorageEvent) {b d : PathDomain} (hb : b ≠ d)
    (h : ∀ e ∈ l, e.domain = b) : l.filter (fun e => decide (e.domain = d)) = [] := by
  rw [List.filter_eq_nil_iff]
  intro e he
  simp only [h e he, hb, decide_False, Bool.false_eq_true, not_false_eq_true]

theorem forDomain_events (address : Address) (valueConverter : ValueConverter) (run : Run)
    (domain : PathDomain) :
    ∃ evs, (forDomain address valueConverter run domain).trace = run.trace ++ evs ∧
      (∀ e ∈ evs, e.domain = domain) ∧
      (evs = [] ∨ ∃ m, run.storage.maps address domain.Identifier = some m ∧
        evs = (visitEntries address domain valueConverter m.entries).trace) := by
  cases h : run.storage.GetStorageMap address domain.Identifier with
  | none =>
    rw [forDomain_absent address valueConverter run domain h]
    exact ⟨[], (List.append_nil _).symm, fun _ he => absurd he (List.not_mem_nil _),
      Or.inl rfl⟩
  | some m =>
    exact ⟨_, (forDomain_visit address valueConverter run domain m h).1,
      visitEntries_domain address domain valueConverter m.entries, Or.inr ⟨m, h, rfl⟩⟩

theorem forDomains_events (address : Address) (valueConverter : ValueConverter)
    (d : PathDomain) :
    ∀ (domains : List PathDomain) (run : Run), domains.Nodup →
      ∃ evs, (forDomains address valueConverter domains run).trace.filter
            (fun e => decide (e.domain = d))
          = run.trace.filter (fun e => decide (e.domain = d)) ++ evs ∧
        (evs = [] ∨ (d ∈ domains ∧ ∃ m, run.storage.maps address d.Identifier = some m ∧
          evs = (visitEntries address d valueConverter m.entries).trace))
  | [], run, _ => ⟨[], (List.append_nil _).symm, Or.inl rfl⟩
  | b :: bs, run, hn => by
    rw [List.nodup_cons] at hn
    obtain ⟨evs, htr, hdom, hevs⟩ := forDomain_events address valueConverter run b
    have hstep : ∃ evs', (forDomain address valueConverter run b).trace.filter
            (fun e => decide (e.domain = d))
          = run.trace.filter (fun e => decide (e.domain = d)) ++ evs' ∧
        ((b = d ∧ evs' = evs) ∨ (b ≠ d ∧ evs' = [])) := by
      rw [htr, List.filter_append]
      by_cases hb : b = d
      · exact ⟨evs, by rw [filter_domain_same evs (hb ▸ hdom)], Or.inl ⟨hb, rfl⟩⟩
      · exact ⟨[], by rw [filter_domain_other evs hb hdom], Or.inr ⟨hb, rfl⟩⟩
    obtain ⟨evs', hfil, hcase⟩ := hstep
    simp only [forDomains]
    cases hs : (forDomain address valueConverter run b).stop with
    | some s =>
      refine ⟨evs', hfil, ?_⟩
      rcases hcase with ⟨hb, he⟩ | ⟨_, he⟩
      · rcases hevs with h0 | ⟨m, hm, hv⟩
        · left
          rw [he, h0]
        · right
          subst hb
          exact ⟨List.mem_cons_self _ _, m, hm, he.trans hv⟩
      · exact Or.inl he
    | none =>
      obtain ⟨later, hl, hlc⟩ := forDomains_events address valueConverter d bs
        (forDomain address valueConverter run b) hn.2
      simp only
      rw [hl, hfil, List.append_assoc]
      refine ⟨evs' ++ later, rfl, ?_⟩
      rcases hcase with ⟨hb, he⟩ | ⟨hb, he⟩
      · subst hb
        have hlater : later = [] := by
          rcases hlc with h0 | ⟨hmem, _⟩
          · exact h0
          · exact absurd hmem hn.1
        rw [hlater, List.append_nil, he]
        rcases hevs with h0 | ⟨m, hm, hv⟩
        · exact Or.inl h0
        · exact Or.inr ⟨List.mem_cons_self _ _, m, hm, hv⟩
      · rw [he, List.nil_append]
        rcases hlc with h0 | ⟨hmem, m, hm, hv⟩
        · exact Or.inl h0
        · right
          refine ⟨List.mem_cons_of_mem _ hmem, m, ?_, hv⟩
          rw [← hm]
          have hne : ¬ (address = address ∧ d.Identifier = b.Identifier) := by
            rintro ⟨_, hd⟩
            exact hb (Identifier_injective hd).symm
          exact (forDomain_other address valueConverter run b address d.Identifier hne).symm

theorem reported_filter (d : PathDomain) (trace : List StorageEvent) :
    reported d (trace.filter (fun e => decide (e.domain = d))) = reported d trace := by
  induction trace with
  | nil => rfl
  | cons e rest ih =>
    by_cases he : e.domain = d
    · rw [List.filter_cons_of_pos (by simpa using he)]
      unfold reported at ih ⊢
      rw [List.filterMap_cons, List.filterMap_cons, ih]
    · rw [List.filter_cons_of_neg (by simpa using he), ih]
      unfold reported
      rw [List.filterMap_cons]
      cases e with
      | Report a d' k =>
        have : d' ≠ d := he
        simp only [this, if_false]
      | valueConverter _ _ _ _ => rfl
      | SetValue _ _ _ => rfl

theorem reported_append (d : PathDomain) (l₁ l₂ : List StorageEvent) :
    reported d (l₁ ++ l₂) = reported d l₁ ++ reported d l₂ := by
  unfold reported
  rw [List.filterMap_append]

theorem reported_entryEvents (address : Address) (domain : PathDomain) (key : String)
    (newValue : Option Value) (updated : Bool) :
    reported domain (entryEvents address domain key newValue updated)
      = if newValue.isNone ∧ updated = false then [] else [key] := by
  unfold entryEvents
  by_cases hskip : newValue.isNone = true ∧ updated = false
  · rw [if_pos hskip, if_pos hskip]
    rfl
  · rw [if_neg hskip, if_neg hskip]
    cases newValue with
    | none => simp [reported]
    | some x => simp [reported]

theorem reported_visit_sublist (address : Address) (domain : PathDomain)
    (valueConverter : ValueConverter) :
    ∀ es : List (String × Value),
      List.Sublist (reported domain (visitEntries address domain valueConverter es).trace)
        (es.map Prod.fst)
  | [] => List.Sublist.slnil
  | (key, value) :: rest => by
    have ih := reported_visit_sublist address domain valueConverter rest
    unfold visitEntries
    cases hout : (valueConverter value).outcome with
    | error p => exact List.nil_sublist _
    | ok r =>
      obtain ⟨newValue, updated⟩ := r
      have hcons : reported domain
          (.valueConverter domain key value (valueConverter value).effects ::
            (entryEvents address domain key newValue updated ++
              (visitEntries address domain valueConverter rest).trace))
          = reported domain (entryEvents address domain key newValue updated) ++
              reported domain (visitEntries address domain valueConverter rest).trace := by
        rw [← reported_append]
        rfl
      simp only [hcons, reported_entryEvents, List.map_cons]
      by_cases hskip : newValue.isNone = true ∧ updated = false
      · rw [if_pos hskip, List.nil_append]
        exact List.Sublist.cons _ ih
      · rw [if_neg hskip, List.singleton_append]
        exact List.Sublist.cons₂ _ ih

theorem mem_reported {d : PathDomain} {trace : List StorageEvent} {k : String} :
    k ∈ reported d trace ↔ ∃ a, StorageEvent.Report a d k ∈ trace := by
  unfold reported
  rw [List.mem_filterMap]
  constructor
  · rintro ⟨e, he, hk⟩
    cases e with
    | Report a d' k' =>
      by_cases hd : d' = d
      · simp only [hd, if_true, Option.some.injEq] at hk
        subst hd
        subst hk
        exact ⟨a, he⟩
      · simp only [hd, if_false] at hk
        cases hk
    | valueConverter _ _ _ _ => cases hk
    | SetValue _ _ _ => cases hk
  · rintro ⟨a, he⟩
    exact ⟨_, he, by simp⟩

theorem visit_written_reported (address : Address) (domain : PathDomain)
    (valueConverter : ValueConverter) :
    ∀ (es : List (String × Value)) (d : PathDomain) (k : String) (v : Value),
      StorageEvent.SetValue d k v ∈ (visitEntries address domain valueConverter es).trace →
      StorageEvent.Report address d k ∈ (visitEntries address domain valueConverter es).trace
  | [], _, _, _, h => by simp [visitEntries] at h
  | (key, value) :: rest, d, k, v, h => by
    unfold visitEntries at h ⊢
    cases hout : (valueConverter value).outcome with
    | error p =>
      rw [hout] at h
      simp at h
    | ok r =>
      obtain ⟨newValue, updated⟩ := r
      rw [hout] at h
      simp only [List.mem_cons, List.mem_append] at h ⊢
      right
      rcases h with h | h | h
      · cases h
      · left
        unfold entryEvents at h ⊢
        by_cases hskip : newValue.isNone = true ∧ updated = false
        · rw [if_pos hskip] at h
          cases h
        · rw [if_neg hskip] at h ⊢
          cases newValue with
          | none => simp at h
          | some x =>
            simp only [List.singleton_append, List.mem_cons, StorageEvent.SetValue.injEq,
              List.mem_singleton, List.not_mem_nil, or_false] at h
            rcases h with ⟨rfl, rfl, rfl⟩ | h
            · simp
            · cases h
      · right
        exact visit_written_reported address domain valueConverter rest d k v h

theorem visit_report_caused (address : Address) (domain : PathDomain)
    (valueConverter : ValueConverter) :
    ∀ (es : List (String × Value)) (a : Address) (d : PathDomain) (k : String),
      StorageEvent.Report a d k ∈ (visitEntries address domain valueConverter es).trace →
      a = address ∧ d = domain ∧ ∃ value, (k, value) ∈ es ∧
        StorageEvent.valueConverter domain k value (valueConverter value).effects
          ∈ (visitEntries address domain valueConverter es).trace ∧
        ∃ newValue updated, (valueConverter value).outcome = .ok (newValue, updated) ∧
          ¬ (newValue.isNone = true ∧ updated = false)
  | [], _, _, _, h => by simp [visitEntries] at h
  | (key, value) :: rest, a, d, k, h => by
    unfold visitEntries at h ⊢
    cases hout : (valueConverter value).outcome with
    | error p =>
      rw [hout] at h
      simp at h
    | ok r =>
      obtain ⟨newValue, updated⟩ := r
      rw [hout] at h
      simp only [List.mem_cons, List.mem_append] at h
      rcases h with h | h | h
      · cases h
      · unfold entryEvents at h
        by_cases hskip : newValue.isNone = true ∧ updated = false
        · rw [if_pos hskip] at h
          cases h
        · rw [if_neg hskip] at h
          have hk : a = address ∧ d = domain ∧ k = key := by
            cases newValue with
            | none => simpa using h
            | some x => simpa using h
          obtain ⟨rfl, rfl, rfl⟩ := hk
          exact ⟨rfl, rfl, value, List.mem_cons_self _ _, List.mem_cons_self _ _,
            newValue, updated, hout, hskip⟩
      · obtain ⟨ha, hd, value', hmem, hcall, hcause⟩ :=
          visit_report_caused address domain valueConverter rest a d k h
        refine ⟨ha, hd, value', List.mem_cons_of_mem _ hmem, ?_, hcause⟩
        simp only [List.mem_cons, List.mem_append]
        exact Or.inr (Or.inr hcall)

theorem ForEachValue_events (i : AccountStorage) (domains : List PathDomain)
    (valueConverter : ValueConverter) (hnodup : domains.Nodup) (d : PathDomain) :
    (i.ForEachValue domains valueConverter).trace.filter (fun e => decide (e.domain = d)) = [] ∨
      (d ∈ domains ∧ ∃ m, i.storage.maps i.address d.Identifier = some m ∧
        (i.ForEachValue domains valueConverter).trace.filter (fun e => decide (e.domain = d))
          = (visitEntries i.address d valueConverter m.entries).trace) := by
  obtain ⟨evs, h, hc⟩ := forDomains_events i.address valueConverter d domains
    { storage := i.storage, trace := [], stop := none } hnodup
  simp only [List.filter_nil, List.nil_append] at h
  unfold AccountStorage.ForEachValue
  rw [h]
  exact hc

/-- C18, as the code has it: over a list that names no domain twice, the identifiers that
`ForEachValue` reports for a domain are at most as many as the entries of the storage map of
the domain (none if the map is absent or empty, or the domain is not listed), and no
identifier is reported twice for the domain.  Every call of `Report` carries the address of
the account, a listed domain and the identifier of an entry of the map of this domain, for
whose value the converter was called and returned a new value or `updated`; and an entry
that is written is reported exactly once. -/
theorem ForEachValue_reports (i : AccountStorage) (domains : List PathDomain)
    (valueConverter : ValueConverter) (hnodup : domains.Nodup) :
    (∀ d : PathDomain,
      (reported d (i.ForEachValue domains valueConverter).trace).length
        ≤ i.storage.count i.address d.Identifier ∧
      (reported d (i.ForEachValue domains valueConverter).trace).Nodup ∧
      (d ∉ domains → reported d (i.ForEachValue domains valueConverter).trace = [])) ∧
    (∀ (a : Address) (d : PathDomain) (k : String),
      StorageEvent.Report a d k ∈ (i.ForEachValue domains valueConverter).trace →
      a = i.address ∧ d ∈ domains ∧
      ∃ m value, i.storage.maps i.address d.Identifier = some m ∧ (k, value) ∈ m.entries ∧
        StorageEvent.valueConverter d k value (valueConverter value).effects
          ∈ (i.ForEachValue domains valueConverter).trace ∧
        ∃ newValue updated, (valueConverter value).outcome = .ok (newValue, updated) ∧
          ¬ (newValue.isNone = true ∧ updated = false)) ∧
    (∀ (d : PathDomain) (k : String) (v : Value),
      StorageEvent.SetValue d k v ∈ (i.ForEachValue domains valueConverter).trace →
      (reported d (i.ForEachValue domains valueConverter).trace).count k = 1) := by
  have hsub : ∀ d : PathDomain,
      reported d (i.ForEachValue domains valueConverter).trace = [] ∨
        (d ∈ domains ∧ ∃ m, i.storage.maps i.address d.Identifier = some m ∧
          List.Sublist (reported d (i.ForEachValue domains valueConverter).trace)
            (m.entries.map Prod.fst)) := by
    intro d
    rw [← reported_filter]
    rcases ForEachValue_events i domains valueConverter hnodup d with h | ⟨hd, m, hm, h⟩
    · left
      rw [h]
      rfl
    · right
      rw [h]
      exact ⟨hd, m, hm, reported_visit_sublist i.address d valueConverter m.entries⟩
  have hnd : ∀ d : PathDomain,
      (reported d (i.ForEachValue domains valueConverter).trace).Nodup := by
    intro d
    rcases hsub d with h | ⟨_, m, _, h⟩
    · rw [h]
      exact List.nodup_nil
    · exact h.nodup m.nodup
  refine ⟨fun d => ⟨?_, hnd d, ?_⟩, ?_, ?_⟩
  · rcases hsub d with h | ⟨_, m, hm, h⟩
    · rw [h]
      exact Nat.zero_le _
    · have hl := h.length_le
      rw [List.length_map] at hl
      unfold Storage.count Storage.GetStorageMap
      rw [hm]
      exact hl
  · intro hd
    rcases hsub d with h | ⟨hmem, _⟩
    · exact h
    · exact absurd hmem hd
  · intro a d k he
    have hf : StorageEvent.Report a d k ∈ (i.ForEachValue domains valueConverter).trace.filter
        (fun e => decide (e.domain = d)) :=
      List.mem_filter.mpr ⟨he, by simp [StorageEvent.domain]⟩
    rcases ForEachValue_events i domains valueConverter hnodup d with h | ⟨hd, m, hm, h⟩
    · rw [h] at hf
      cases hf
    · rw [h] at hf
      obtain ⟨ha, _, value, hmem, hcall, hcause⟩ :=
        visit_report_caused i.address d valueConverter m.entries a d k hf
      refine ⟨ha, hd, m, value, hm, hmem, ?_, hcause⟩
      rw [← h] at hcall
      exact (List.mem_filter.mp hcall).1
  · intro d k v he
    have hf : StorageEvent.SetValue d k v ∈ (i.ForEachValue domains valueConverter).trace.filter
        (fun e => decide (e.domain = d)) :=
      List.mem_filter.mpr ⟨he, by simp [StorageEvent.domain]⟩
    rcases ForEachValue_events i domains valueConverter hnodup d with h | ⟨hd, m, hm, h⟩
    · rw [h] at hf
      cases hf
    · rw [h] at hf
      have hrep := visit_written_reported i.address d valueConverter m.entries d k v hf
      rw [← h] at hrep
      have hk : k ∈ reported d (i.ForEachValue domains valueConverter).trace :=
        mem_reported.mpr ⟨i.address, (List.mem_filter.mp hrep).1⟩
      exact List.count_eq_one_of_mem (hnd d) hk

/-- Witness of C18 at the sample account, over the domains `public` and `storage`: nothing
is reported for `public`, and `a`, `b` and `c` are reported for `storage`. -/
theorem ForEachValue_reports_witness :
    [PathDomain.PathDomainPublic, .PathDomainStorage].Nodup ∧
    reported .PathDomainPublic
      (sampleAccount.ForEachValue [.PathDomainPublic, .PathDomainStorage]
        sampleConverter).trace = [] ∧
    reported .PathDomainStorage
      (sampleAccount.ForEachValue [.PathDomainPublic, .PathDomainStorage]
        sampleConverter).trace = ["a", "b", "c"] ∧
    (reported .PathDomainStorage
      (sampleAccount.ForEachValue [.PathDomainPublic, .PathDomainStorage]
        sampleConverter).trace).length
      ≤ sampleAccount.storage.count sampleAccount.address
          PathDomain.PathDomainStorage.Identifier ∧
    (reported .PathDomainStorage
      (sampleAccount.ForEachValue [.PathDomainPublic, .PathDomainStorage]
        sampleConverter).trace).Nodup :=
  ⟨by decide, rfl, rfl,
   ((ForEachValue_reports sampleAccount [.PathDomainPublic, .PathDomainStorage]
      sampleConverter (by decide)).1 .PathDomainStorage).1,
   ((ForEachValue_reports sampleAccount [.PathDomainPublic, .PathDomainStorage]
      sampleConverter (by decide)).1 .PathDomainStorage).2.1⟩

/-- C18 fails as stated for a list that names a domain twice: over the list `storage`,
`storage` the run reports six identifiers for the map of three entries of the sample
account, each of them twice. -/
theorem ForEachValue_reports_twice_counterexample :
    reported .PathDomainStorage
      (sampleAccount.ForEachValue [.PathDomainStorage, .PathDomainStorage]
        sampleConverter).trace = ["a", "b", "c", "a", "b", "c"] ∧
    sampleAccount.storage.count sampleAccount.address
      PathDomain.PathDomainStorage.Identifier = 3 ∧
    ¬ (∀ (i : AccountStorage) (domains : List PathDomain) (valueConverter : ValueConverter)
        (d : PathDomain),
        (reported d (i.ForEachValue domains valueConverter).trace).length
          ≤ i.storage.count i.address d.Identifier ∧
        (reported d (i.ForEachValue domains valueConverter).trace).Nodup) := by
  refine ⟨rfl, rfl, fun h => ?_⟩
  have h1 := (h sampleAccount [.PathDomainStorage, .PathDomainStorage] sampleConverter
    .PathDomainStorage).1
  have h2 : (reported .PathDomainStorage
      (sampleAccount.ForEachValue [.PathDomainStorage, .PathDomainStorage]
        sampleConverter).trace).length = 6 := rfl
  have h3 : sampleAccount.storage.count sampleAccount.address
      PathDomain.PathDomainStorage.Identifier = 3 := rfl
  rw [h2, h3] at h1
  omega

/-! ## The cases of `Migrate` -/

theorem Migrate_other (m : CapabilityValueMigration) (cv : Conversions)
    (storageKey : StorageKey) (value : Value)
    (h : ∀ borrowType path address, value ≠ .PathCapabilityValue borrowType path address) :
    m.Migrate cv storageKey value = { effects := [], outcome := .ok (none, none) } := by
  cases value with
  | PathCapabilityValue borrowType path address => exact absurd rfl (h borrowType path address)
  | CapabilityValue id address borrowType => rfl
  | BoolValue b => rfl
  | StringValue s => rfl
  | ArrayValue elements => rfl

theorem Migrate_unmapped (m : CapabilityValueMigration) (cv : Conversions)
    (storageKey : StorageKey) (borrowType : Option StaticType) (path : PathValue)
    (address : Address) (h : m.CapabilityMapping.Get (AddressPathOf address path) = none) :
    m.Migrate cv storageKey (.PathCapabilityValue borrowType path address)
      = { effects := .Get (AddressPathOf address path) ::
            (if m.Reporter then
              [.MissingCapabilityID storageKey.Address (AddressPathOf address path)]
            else [])
          outcome := .ok (none, none) } := by
  unfold CapabilityValueMigration.Migrate
  simp only [h]

theorem Migrate_reference (m : CapabilityValueMigration) (cv : Conversions)
    (storageKey : StorageKey) (borrowType : Option StaticType) (path : PathValue)
    (address : Address) (capabilityID : Nat) (controllerBorrowType : SemaType)
    (authorization : Authorization) (referencedType : StaticType)
    (h : m.CapabilityMapping.Get (AddressPathOf address path)
      = some (capabilityID, controllerBorrowType))
    (hr : borrowType.getD (cv.ConvertSemaToStaticType controllerBorrowType)
      = .reference authorization referencedType) :
    m.Migrate cv storageKey (.PathCapabilityValue borrowType path address)
      = { effects := .Get (AddressPathOf address path) ::
            (if m.Reporter then
              [.MigratedPathCapability storageKey.Address (AddressPathOf address path)
                (if referencedType = PrimitiveStaticTypeAuthAccount then
                  StaticType.reference cv.fullyEntitledAccountReferenceStaticType.1
                    cv.fullyEntitledAccountReferenceStaticType.2
                else StaticType.reference authorization referencedType)]
            else [])
          outcome := .ok (some (.CapabilityValue capabilityID address
            (if referencedType = PrimitiveStaticTypeAuthAccount then
              StaticType.reference cv.fullyEntitledAccountReferenceStaticType.1
                cv.fullyEntitledAccountReferenceStaticType.2
            else StaticType.reference authorization referencedType)), none) } := by
  unfold CapabilityValueMigration.Migrate
  simp only [h]
  cases borrowType with
  | none =>
    simp only [Option.getD_none] at hr
    simp only [hr]
  | some t =>
    simp only [Option.getD_some] at hr
    simp only [hr]

theorem Migrate_not_reference (m : CapabilityValueMigration) (cv : Conversions)
    (storageKey : StorageKey) (borrowType : Option StaticType) (path : PathValue)
    (address : Address) (capabilityID : Nat) (controllerBorrowType : SemaType)
    (h : m.CapabilityMapping.Get (AddressPathOf address path)
      = some (capabilityID, controllerBorrowType))
    (hr : ∀ authorization referencedType,
      borrowType.getD (cv.ConvertSemaToStaticType controllerBorrowType)
        ≠ .reference authorization referencedType) :
    m.Migrate cv storageKey (.PathCapabilityValue borrowType path address)
      = { effects := [.Get (AddressPathOf address path)]
          outcome := .error (.UnexpectedError "unexpected non-reference borrow type") } := by
  unfold CapabilityValueMigration.Migrate
  simp only [h]
  cases borrowType with
  | none =>
    simp only [Option.getD_none] at hr
    cases ht : cv.ConvertSemaToStaticType controllerBorrowType with
    | reference authorization referencedType => exact absurd ht (hr _ _)
    | primitive name => rfl
    | optional t => rfl
    | composite typeID => rfl
  | some t =>
    simp only [Option.getD_some] at hr
    cases t with
    | reference authorization referencedType => exact absurd rfl (hr _ _)
    | primitive name => rfl
    | optional t => rfl
    | composite typeID => rfl

/-! ## The capability migration run twice -/

theorem Storage.ext_maps {s s' : Storage} (h : ∀ a d, s.maps a d = s'.maps a d) : s = s' := by
  cases s
  cases s'
  simp only [Storage.mk.injEq]
  funext a d
  exact h a d

theorem migrateElements_cons_error (m : CapabilityValueMigration) (cv : Conversions)
    (storageKey : StorageKey) (element : Value) (rest : List Value) (p : PanicValue)
    (h : (m.migrateNested cv storageKey element).outcome = .error p) :
    m.migrateElements cv storageKey (element :: rest)
      = { effects := (m.migrateNested cv storageKey element).effects
          outcome := .error p } := by
  rw [CapabilityValueMigration.migrateElements]
  simp only [h]

theorem migrateElements_cons_ok (m : CapabilityValueMigration) (cv : Conversions)
    (storageKey : StorageKey) (element : Value) (rest : List Value) (newElement : Option Value)
    (h : (m.migrateNested cv storageKey element).outcome = .ok newElement) :
    m.migrateElements cv storageKey (element :: rest)
      = { effects := (m.migrateNested cv storageKey element).effects ++
            (m.migrateElements cv storageKey rest).effects
          outcome := (m.migrateElements cv storageKey rest).outcome.map fun r =>
            (newElement.getD element :: r.1, newElement.isSome || r.2) } := by
  rw [CapabilityValueMigration.migrateElements]
  simp only [h]

theorem migrateNested_array_error (m : CapabilityValueMigration) (cv : Conversions)
    (storageKey : StorageKey) (elements : List Value) (p : PanicValue)
    (h : (m.migrateElements cv storageKey elements).outcome = .error p) :
    m.migrateNested cv storageKey (.ArrayValue elements)
      = { effects := (m.migrateElements cv storageKey elements).effects
          outcome := .error p } := by
  rw [CapabilityValueMigration.migrateNested]
  simp only [h]

theorem migrateNested_array_ok (m : CapabilityValueMigration) (cv : Conversions)
    (storageKey : StorageKey) (elements newElements : List Value) (replaced : Bool)
    (h : (m.migrateElements cv storageKey elements).outcome = .ok (newElements, replaced)) :
    m.migrateNested cv storageKey (.ArrayValue elements)
      = { effects := (m.migrateElements cv storageKey elements).effects
          outcome := .ok (if replaced then some (.ArrayValue newElements) else none) } := by
  rw [CapabilityValueMigration.migrateNested]
  simp only [h]
  congr 1
  exact List.append_nil _

theorem migrateNested_capability (m : CapabilityValueMigration) (cv : Conversions)
    (storageKey : StorageKey) (borrowType : Option StaticType) (path : PathValue)
    (address : Address) :
    m.migrateNested cv storageKey (.PathCapabilityValue borrowType path address)
      = { effects :=
            (m.Migrate cv storageKey (.PathCapabilityValue borrowType path address)).effects
          outcome := (m.Migrate cv storageKey
            (.PathCapabilityValue borrowType path address)).outcome.map migratedValue } := by
  rw [CapabilityValueMigration.migrateNested]

mutual

theorem migrateNested_settles (m : CapabilityValueMigration) (cv : Conversions)
    (storageKey : StorageKey) :
    ∀ value : Value,
      ((m.migrateNested cv storageKey value).outcome = .ok none →
        (m.migrateNested cv storageKey value).effects.all
          (fun e => !e.isMigratedPathCapability) = true) ∧
      (∀ newValue, (m.migrateNested cv storageKey value).outcome = .ok (some newValue) →
        (m.migrateNested cv storageKey newValue).outcome = .ok none ∧
        (m.migrateNested cv storageKey newValue).effects.all
          (fun e => !e.isMigratedPathCapability) = true)
  | .ArrayValue elements => by
    obtain ⟨ih1, ih2⟩ := migrateElements_settles m cv storageKey elements
    cases hout : (m.migrateElements cv storageKey elements).outcome with
    | error p =>
      rw [migrateNested_array_error m cv storageKey elements p hout]
      exact ⟨fun h => Except.noConfusion h, fun _ h => Except.noConfusion h⟩
    | ok r =>
      obtain ⟨rs, replaced⟩ := r
      rw [migrateNested_array_ok m cv storageKey elements rs replaced hout]
      cases replaced with
      | false =>
        refine ⟨fun _ => (ih1 rs hout).2, fun newValue h => ?_⟩
        simp only [Bool.false_eq_true, if_false, Except.ok.injEq] at h
        cases h
      | true =>
        obtain ⟨h2, hq2⟩ := ih2 rs true hout
        refine ⟨fun h => ?_, fun newValue h => ?_⟩
        · simp only [if_true, Except.ok.injEq] at h
          cases h
        · simp only [if_true, Except.ok.injEq, Option.some.injEq] at h
          rw [← h, migrateNested_array_ok m cv storageKey rs rs false h2]
          exact ⟨rfl, hq2⟩
  | .PathCapabilityValue borrowType path address => by
    rw [migrateNested_capability]
    cases hget : m.CapabilityMapping.Get (AddressPathOf address path) with
    | none =>
      rw [Migrate_unmapped m cv storageKey borrowType path address hget]
      refine ⟨fun _ => ?_, fun _ h => ?_⟩
      · cases m.Reporter <;> rfl
      · cases h
    | some r =>
      obtain ⟨capabilityID, controllerBorrowType⟩ := r
      by_cases href : ∃ authorization referencedType,
          borrowType.getD (cv.ConvertSemaToStaticType controllerBorrowType)
            = .reference authorization referencedType
      · obtain ⟨authorization, referencedType, href⟩ := href
        rw [Migrate_reference m cv storageKey borrowType path address capabilityID
          controllerBorrowType authorization referencedType hget href]
        refine ⟨fun h => ?_, fun newValue h => ?_⟩
        · cases h
        · simp only [Except.map, migratedValue, Except.ok.injEq, Option.some.injEq] at h
          rw [← h]
          exact ⟨rfl, rfl⟩
      · rw [Migrate_not_reference m cv storageKey borrowType path address capabilityID
          controllerBorrowType hget (fun a r h => href ⟨a, r, h⟩)]
        exact ⟨fun h => Except.noConfusion h, fun _ h => Except.noConfusion h⟩
  | .CapabilityValue id address borrowType =>
    ⟨fun _ => rfl, fun _ h => Option.noConfusion (Except.ok.inj h)⟩
  | .BoolValue b => ⟨fun _ => rfl, fun _ h => Option.noConfusion (Except.ok.inj h)⟩
  | .StringValue s => ⟨fun _ => rfl, fun _ h => Option.noConfusion (Except.ok.inj h)⟩

theorem migrateElements_settles (m : CapabilityValueMigration) (cv : Conversions)
    (storageKey : StorageKey) :
    ∀ elements : List Value,
      (∀ newElements,
        (m.migrateElements cv storageKey elements).outcome = .ok (newElements, false) →
        newElements = elements ∧
        (m.migrateElements cv storageKey elements).effects.all
          (fun e => !e.isMigratedPathCapability) = true) ∧
      (∀ newElements replaced,
        (m.migrateElements cv storageKey elements).outcome = .ok (newElements, replaced) →
        (m.migrateElements cv storageKey newElements).outcome = .ok (newElements, false) ∧
        (m.migrateElements cv storageKey newElements).effects.all
          (fun e => !e.isMigratedPathCapability) = true)
  | [] => by
    refine ⟨fun newElements h => ?_, fun newElements replaced h => ?_⟩
    · have h' : (Except.ok ([], false) : Except PanicValue (List Value × Bool))
          = .ok (newElements, false) := h
      simp only [Except.ok.injEq, Prod.mk.injEq, and_true] at h'
      exact ⟨h'.symm, rfl⟩
    · have h' : (Except.ok ([], false) : Except PanicValue (List Value × Bool))
          = .ok (newElements, replaced) := h
      simp only [Except.ok.injEq, Prod.mk.injEq] at h'
      rw [← h'.1]
      exact ⟨rfl, rfl⟩
  | element :: rest => by
    obtain ⟨hv1, hv2⟩ := migrateNested_settles m cv storageKey element
    obtain ⟨hr1, hr2⟩ := migrateElements_settles m cv storageKey rest
    cases hout : (m.migrateNested cv storageKey element).outcome with
    | error p =>
      rw [migrateElements_cons_error m cv storageKey element rest p hout]
      exact ⟨fun _ h => Except.noConfusion h, fun _ _ h => Except.noConfusion h⟩
    | ok newElement =>
      rw [migrateElements_cons_ok m cv storageKey element rest newElement hout]
      cases hrest : (m.migrateElements cv storageKey rest).outcome with
      | error p =>
        exact ⟨fun _ h => Except.noConfusion h, fun _ _ h => Except.noConfusion h⟩
      | ok r =>
        obtain ⟨rs, replaced'⟩ := r
        refine ⟨fun newElements h => ?_, fun newElements replaced h => ?_⟩
        · simp only [Except.map, Except.ok.injEq, Prod.mk.injEq, Bool.or_eq_false_iff] at h
          obtain ⟨hnew, hsome, hrep⟩ := h
          cases newElement with
          | some x => cases hsome
          | none =>
            rw [hrep] at hrest
            obtain ⟨hrs, hq⟩ := hr1 rs hrest
            refine ⟨?_, ?_⟩
            · rw [← hnew, hrs]
              rfl
            · rw [List.all_append, hv1 hout, hq]
              rfl
        · simp only [Except.map, Except.ok.injEq, Prod.mk.injEq] at h
          obtain ⟨hnew, _⟩ := h
          obtain ⟨h2, hq2⟩ := hr2 rs replaced' hrest
          have hfirst : (m.migrateNested cv storageKey (newElement.getD element)).outcome
                = .ok none ∧
              (m.migrateNested cv storageKey (newElement.getD element)).effects.all
                (fun e => !e.isMigratedPathCapability) = true := by
            cases newElement with
            | none => exact ⟨hout, hv1 hout⟩
            | some x => exact hv2 x hout
          rw [← hnew, migrateElements_cons_ok m cv storageKey (newElement.getD element) rs none
            hfirst.1]
          refine ⟨?_, ?_⟩
          · simp only [h2, Except.map, Option.getD_none, Option.isSome_none, Bool.false_or]
          · rw [List.all_append, hfirst.2, hq2]
            rfl

end

theorem valueConverter_cases (m : CapabilityValueMigration) (cv : Conversions)
    (storageKey : StorageKey) (value : Value) :
    (∃ p, (m.valueConverter cv storageKey value).outcome = .error p) ∨
    ((m.valueConverter cv storageKey value).outcome = .ok (none, false) ∧
        (m.valueConverter cv storageKey value).effects.all
          (fun e => !e.isMigratedPathCapability) = true) ∨
    (∃ newValue, (m.valueConverter cv storageKey value).outcome = .ok (some newValue, false) ∧
        (m.valueConverter cv storageKey newValue).outcome = .ok (none, false) ∧
        (m.valueConverter cv storageKey newValue).effects.all
          (fun e => !e.isMigratedPathCapability) = true) := by
  obtain ⟨h1, h2⟩ := migrateNested_settles m cv storageKey value
  unfold CapabilityValueMigration.valueConverter
  cases hout : (m.migrateNested cv storageKey value).outcome with
  | error p => exact Or.inl ⟨p, rfl⟩
  | ok r =>
    cases r with
    | none => exact Or.inr (Or.inl ⟨rfl, h1 hout⟩)
    | some newValue =>
      obtain ⟨h3, h4⟩ := h2 newValue hout
      refine Or.inr (Or.inr ⟨newValue, rfl, ?_, h4⟩)
      simp only [h3, Except.map]

theorem visit_twice (m : CapabilityValueMigration) (cv : Conversions)
    (storageKey : StorageKey) (address : Address) (domain : PathDomain) :
    ∀ es : List (String × Value),
      (visitEntries address domain (m.valueConverter cv storageKey) es).stop = none →
      (visitEntries address domain (m.valueConverter cv storageKey)
          (visitEntries address domain (m.valueConverter cv storageKey) es).entries).entries
        = (visitEntries address domain (m.valueConverter cv storageKey) es).entries ∧
      (∀ e ∈ (visitEntries address domain (m.valueConverter cv storageKey)
          (visitEntries address domain (m.valueConverter cv storageKey) es).entries).trace,
        e.quiet = true) ∧
      (visitEntries address domain (m.valueConverter cv storageKey)
          (visitEntries address domain (m.valueConverter cv storageKey) es).entries).stop
        = none
  | [], _ => ⟨rfl, fun _ he => absurd he (List.not_mem_nil _), rfl⟩
  | (key, value) :: rest, hstop => by
    rcases valueConverter_cases m cv storageKey value with
      ⟨p, hp⟩ | ⟨hn, heff⟩ | ⟨newValue, hc, hn', heff'⟩
    · have h1 : visitEntries address domain (m.valueConverter cv storageKey)
          ((key, value) :: rest)
          = { entries := (key, value) :: rest
              trace := [.valueConverter domain key value
                (m.valueConverter cv storageKey value).effects]
              stop := some (.panic p) } := by
        rw [visitEntries]
        simp only [hp]
      rw [h1] at hstop
      cases hstop
    · have h1 : visitEntries address domain (m.valueConverter cv storageKey)
          ((key, value) :: rest)
          = { entries := (key, value) ::
                (visitEntries address domain (m.valueConverter cv storageKey) rest).entries
              trace := .valueConverter domain key value
                  (m.valueConverter cv storageKey value).effects ::
                (visitEntries address domain (m.valueConverter cv storageKey) rest).trace
              stop := (visitEntries address domain (m.valueConverter cv storageKey)
                rest).stop } := by
        rw [visitEntries]
        simp only [hn, stored, Option.getD_none, entryEvents, Option.isNone_none, and_self,
          if_true, List.nil_append]
      rw [h1] at hstop
      obtain ⟨ih1, ih2, ih3⟩ := visit_twice m cv storageKey address domain rest hstop
      rw [h1]
      simp only
      rw [visitEntries]
      simp only [hn, stored, Option.getD_none, entryEvents, Option.isNone_none, and_self,
        if_true, List.nil_append, ih1, ih3, true_and, and_true]
      intro e he
      rcases List.mem_cons.mp he with rfl | he
      · exact heff
      · exact ih2 e he
    · have h1 : visitEntries address domain (m.valueConverter cv storageKey)
          ((key, value) :: rest)
          = { entries := (key, newValue) ::
                (visitEntries address domain (m.valueConverter cv storageKey) rest).entries
              trace := .valueConverter domain key value
                  (m.valueConverter cv storageKey value).effects ::
                (entryEvents address domain key (some newValue) false ++
                  (visitEntries address domain (m.valueConverter cv storageKey) rest).trace)
              stop := (visitEntries address domain (m.valueConverter cv storageKey)
                rest).stop } := by
        rw [visitEntries]
        simp only [hc, stored, Option.getD_some]
      rw [h1] at hstop
      obtain ⟨ih1, ih2, ih3⟩ := visit_twice m cv storageKey address domain rest hstop
      rw [h1]
      simp only
      rw [visitEntries]
      simp only [hn', stored, Option.getD_none, entryEvents, Option.isNone_none, and_self,
        if_true, List.nil_append, ih1, ih3, true_and, and_true]
      intro e he
      rcases List.mem_cons.mp he with rfl | he
      · exact heff'
      · exact ih2 e he

theorem orElse_none {α : Type} (o : Option α) : (o.orElse fun _ => none) = o := by
  cases o <;> rfl

theorem forDomain_settled (address : Address) (valueConverter : ValueConverter) (run : Run)
    (domain : PathDomain) (h : Settled address valueConverter run.storage domain) :
    (forDomain address valueConverter run domain).storage = run.storage ∧
    (∃ evs, (forDomain address valueConverter run domain).trace = run.trace ++ evs ∧
      ∀ e ∈ evs, e.quiet = true) ∧
    (forDomain address valueConverter run domain).stop
      = ((visitOf address valueConverter run.storage domain).stop.orElse fun _ => run.stop) := by
  cases hm : run.storage.GetStorageMap address domain.Identifier with
  | none =>
    have hm' : run.storage.maps address domain.Identifier = none := hm
    rw [forDomain_absent address valueConverter run domain hm]
    refine ⟨rfl, ⟨[], (List.append_nil _).symm, fun _ he => absurd he (List.not_mem_nil _)⟩, ?_⟩
    simp only [visitOf, hm', Option.orElse]
  | some m =>
    have hm' : run.storage.maps address domain.Identifier = some m := hm
    obtain ⟨h1, h2, ⟨m', hm2, he⟩, h4⟩ := forDomain_visit address valueConverter run domain m hm
    have hv : visitOf address valueConverter run.storage domain
        = visitEntries address domain valueConverter m.entries := by
      simp only [visitOf, hm']
    refine ⟨?_, ⟨_, h1, ?_⟩, ?_⟩
    · apply Storage.ext_maps
      intro a d
      by_cases hd : a = address ∧ d = domain.Identifier
      · obtain ⟨rfl, rfl⟩ := hd
        have : (forDomain a valueConverter run domain).storage.maps a domain.Identifier
            = some m' := hm2
        rw [this, hm']
        congr 1
        apply StorageMap.ext_entries
        rw [he]
        exact h.1 m hm'
      · exact h4 a d hd
    · rw [← hv]
      exact h.2
    · rw [hv]
      exact h2

theorem settled_congr (address : Address) (valueConverter : ValueConverter) (s s' : Storage)
    (domain : PathDomain)
    (h : s'.maps address domain.Identifier = s.maps address domain.Identifier) :
    visitOf address valueConverter s' domain = visitOf address valueConverter s domain ∧
    (Settled address valueConverter s domain → Settled address valueConverter s' domain) := by
  have hv : visitOf address valueConverter s' domain
      = visitOf address valueConverter s domain := by
    simp only [visitOf, h]
  refine ⟨hv, fun hs => ⟨fun m hm => hs.1 m (h ▸ hm), ?_⟩⟩
  rw [hv]
  exact hs.2

theorem forDomain_keeps (address : Address) (valueConverter : ValueConverter) (run : Run)
    (domain other : PathDomain) (h : Settled address valueConverter run.storage domain) :
    (forDomain address valueConverter run other).storage.maps address domain.Identifier
      = run.storage.maps address domain.Identifier := by
  by_cases hb : other = domain
  · subst hb
    rw [(forDomain_settled address valueConverter run other h).1]
  · exact forDomain_other address valueConverter run other address domain.Identifier
      (fun hd => hb (Identifier_injective hd.2).symm)

theorem forDomains_keeps (address : Address) (valueConverter : ValueConverter)
    (domain : PathDomain) :
    ∀ (domains : List PathDomain) (run : Run),
      Settled address valueConverter run.storage domain →
      (forDomains address valueConverter domains run).storage.maps address domain.Identifier
        = run.storage.maps address domain.Identifier
  | [], _, _ => rfl
  | b :: bs, run, h => by
    have hstep := forDomain_keeps address valueConverter run domain b h
    simp only [forDomains]
    cases hs : (forDomain address valueConverter run b).stop with
    | some s => exact hstep
    | none =>
      simp only
      rw [forDomains_keeps address valueConverter domain bs _
        ((settled_congr address valueConverter run.storage _ domain hstep).2 h)]
      exact hstep

theorem forDomain_then_settled (m : CapabilityValueMigration) (cv : Conversions)
    (storageKey : StorageKey) (address : Address) (run : Run) (domain : PathDomain)
    (hstop : (forDomain address (m.valueConverter cv storageKey) run domain).stop = none) :
    Settled address (m.valueConverter cv storageKey)
      (forDomain address (m.valueConverter cv storageKey) run domain).storage domain ∧
    (visitOf address (m.valueConverter cv storageKey)
      (forDomain address (m.valueConverter cv storageKey) run domain).storage domain).stop
      = none := by
  cases hm : run.storage.GetStorageMap address domain.Identifier with
  | none =>
    have hm' : run.storage.maps address domain.Identifier = none := hm
    rw [forDomain_absent address _ run domain hm]
    refine ⟨⟨fun m' h' => ?_, ?_⟩, ?_⟩
    · rw [hm'] at h'
      cases h'
    · simp only [visitOf, hm']
      exact fun _ he => absurd he (List.not_mem_nil _)
    · simp only [visitOf, hm']
  | some sm =>
    obtain ⟨_, _, ⟨m', hm2, he⟩, _⟩ :=
      forDomain_visit address (m.valueConverter cv storageKey) run domain sm hm
    have hm2' : (forDomain address (m.valueConverter cv storageKey) run domain).storage.maps
        address domain.Identifier = some m' := hm2
    obtain ⟨t1, t2, t3⟩ := visit_twice m cv storageKey address domain sm.entries
      (forDomain_stop_none address (m.valueConverter cv storageKey) run domain sm hm hstop)
    have hv : visitOf address (m.valueConverter cv storageKey)
        (forDomain address (m.valueConverter cv storageKey) run domain).storage domain
        = visitEntries address domain (m.valueConverter cv storageKey)
            (visitEntries address domain (m.valueConverter cv storageKey) sm.entries).entries := by
      simp only [visitOf, hm2', he]
    refine ⟨⟨fun m'' h'' => ?_, ?_⟩, ?_⟩
    · rw [hm2'] at h''
      cases h''
      rw [he]
      exact t1
    · rw [hv]
      exact t2
    · rw [hv, t3]

theorem forDomains_runsQuiet (m : CapabilityValueMigration) (cv : Conversions)
    (storageKey : StorageKey) (address : Address) :
    ∀ (domains : List PathDomain) (run : Run),
      (forDomains address (m.valueConverter cv storageKey) domains run).stop = none →
      RunsQuiet address (m.valueConverter cv storageKey)
        (forDomains address (m.valueConverter cv storageKey) domains run).storage domains none
  | [], run, _ => rfl
  | b :: bs, run, hstop => by
    simp only [forDomains] at hstop ⊢
    cases hs : (forDomain address (m.valueConverter cv storageKey) run b).stop with
    | some s =>
      rw [hs] at hstop
      simp only [hs] at hstop
      cases hstop
    | none =>
      rw [hs] at hstop
      simp only at hstop ⊢
      obtain ⟨hset, hvs⟩ := forDomain_then_settled m cv storageKey address run b hs
      have hkeep := forDomains_keeps address (m.valueConverter cv storageKey) b bs _ hset
      obtain ⟨hv, hset'⟩ := settled_congr address (m.valueConverter cv storageKey) _ _ b hkeep
      refine ⟨hset' hset, ?_⟩
      rw [hv, hvs]
      exact forDomains_runsQuiet m cv storageKey address bs _ hstop

theorem runsQuiet_forDomains (address : Address) (valueConverter : ValueConverter) :
    ∀ (domains : List PathDomain) (run : Run) (stop : Option Stop), run.stop = none →
      RunsQuiet address valueConverter run.storage domains stop →
      (forDomains address valueConverter domains run).storage = run.storage ∧
      (∃ evs, (forDomains address valueConverter domains run).trace = run.trace ++ evs ∧
        ∀ e ∈ evs, e.quiet = true) ∧
      (forDomains address valueConverter domains run).stop = stop
  | [], run, stop, hstop, h => by
    refine ⟨rfl, ⟨[], (List.append_nil _).symm, fun _ he => absurd he (List.not_mem_nil _)⟩, ?_⟩
    rw [h]
    exact hstop
  | b :: bs, run, stop, hstop, h => by
    obtain ⟨hset, hrest⟩ := h
    obtain ⟨hsto, ⟨evs, htr, hq⟩, hst⟩ := forDomain_settled address valueConverter run b hset
    rw [hstop, orElse_none] at hst
    simp only [forDomains]
    cases hv : (visitOf address valueConverter run.storage b).stop with
    | some p =>
      rw [hv] at hst hrest
      simp only [hst]
      exact ⟨hsto, ⟨evs, htr, hq⟩, hrest.symm⟩
    | none =>
      rw [hv] at hst hrest
      simp only [hst]
      have hrest' : RunsQuiet address valueConverter
          (forDomain address valueConverter run b).storage bs stop := by
        rw [hsto]
        exact hrest
      obtain ⟨h1, ⟨evs', htr', hq'⟩, h3⟩ :=
        runsQuiet_forDomains address valueConverter bs _ stop hst hrest'
      refine ⟨h1.trans hsto, ⟨evs ++ evs', ?_, ?_⟩, h3⟩
      · rw [htr', htr, List.append_assoc]
      · intro e he
        rcases List.mem_append.mp he with he | he
        · exact hq e he
        · exact hq' e he

/-- C19: after `ForEachValue` has run over the storage of an account with the capability
migration as the value converter, the engine migrating every stored value with the values
nested in it, and has returned, a second run over the same domains with the same mapping
performs no write, so that every stored value is the one the first run left, calls neither
`Report` nor `MigratedPathCapability`, and returns. -/
theorem ForEachValue_migration_twice (m : CapabilityValueMigration) (cv : Conversions)
    (storageKey : StorageKey) (i : AccountStorage) (domains : List PathDomain)
    (hfirst : (i.ForEachValue domains (m.valueConverter cv storageKey)).stop = none) :
    ((NewAccountStorage (i.ForEachValue domains (m.valueConverter cv storageKey)).storage
        i.address).ForEachValue domains (m.valueConverter cv storageKey)).storage
      = (i.ForEachValue domains (m.valueConverter cv storageKey)).storage ∧
    (∀ e ∈ ((NewAccountStorage (i.ForEachValue domains (m.valueConverter cv storageKey)).storage
        i.address).ForEachValue domains (m.valueConverter cv storageKey)).trace,
      (∀ d k v, e ≠ .SetValue d k v) ∧ (∀ a d k, e ≠ .Report a d k) ∧
      ∀ d k v effects, e = .valueConverter d k v effects →
        ∀ a p t, MigrationEvent.MigratedPathCapability a p t ∉ effects) ∧
    ((NewAccountStorage (i.ForEachValue domains (m.valueConverter cv storageKey)).storage
        i.address).ForEachValue domains (m.valueConverter cv storageKey)).stop = none := by
  have hq := forDomains_runsQuiet m cv storageKey i.address domains
    { storage := i.storage, trace := [], stop := none } hfirst
  obtain ⟨h1, ⟨evs, htr, hquiet⟩, h3⟩ := runsQuiet_forDomains i.address
    (m.valueConverter cv storageKey) domains
    { storage := (i.ForEachValue domains (m.valueConverter cv storageKey)).storage
      trace := [], stop := none }
    none rfl hq
  refine ⟨h1, fun e he => ?_, h3⟩
  have hmem : e ∈ evs := by
    have he' : e ∈ (forDomains i.address (m.valueConverter cv storageKey) domains
        { storage := (i.ForEachValue domains (m.valueConverter cv storageKey)).storage
          trace := [], stop := none }).trace := he
    rw [htr] at he'
    simpa using he'
  have hqe := hquiet e hmem
  refine ⟨fun d k v h => ?_, fun a d k h => ?_, fun d k v effects h a p t hin => ?_⟩
  · rw [h] at hqe
    cases hqe
  · rw [h] at hqe
    cases hqe
  · rw [h] at hqe
    have := List.all_eq_true.mp hqe _ hin
    cases this

/-- An instance of C19 at an account that holds an array with a mapped path capability, a
string and an inner array with a second mapped path capability: the first run migrates both
capabilities, writes the array with the ID capabilities in their places and reports the
entry; the second run only calls the converter. -/
theorem ForEachValue_migration_twice_witness :
    (nestedAccount.ForEachValue [.PathDomainStorage]
      (sampleMigration.valueConverter sampleConversions
        { Address := sampleAddress, Key := "storage" })).stop = none ∧
    reported .PathDomainStorage (nestedAccount.ForEachValue [.PathDomainStorage]
      (sampleMigration.valueConverter sampleConversions
        { Address := sampleAddress, Key := "storage" })).trace = ["nested"] ∧
    written .PathDomainStorage "nested" (nestedAccount.ForEachValue [.PathDomainStorage]
      (sampleMigration.valueConverter sampleConversions
        { Address := sampleAddress, Key := "storage" })).trace
      = [.ArrayValue
          [.CapabilityValue 7 sampleAddress
            (.reference sampleConversions.fullyEntitledAccountReferenceStaticType.1
              sampleConversions.fullyEntitledAccountReferenceStaticType.2),
           .StringValue "x",
           .ArrayValue
             [.CapabilityValue 7 sampleAddress
               (.reference .Unauthorized (.composite "SomeType"))]]] ∧
    reported .PathDomainStorage ((NewAccountStorage
      (nestedAccount.ForEachValue [.PathDomainStorage]
        (sampleMigration.valueConverter sampleConversions
          { Address := sampleAddress, Key := "storage" })).storage
      nestedAccount.address).ForEachValue [.PathDomainStorage]
        (sampleMigration.valueConverter sampleConversions
          { Address := sampleAddress, Key := "storage" })).trace = [] ∧
    ((NewAccountStorage
      (nestedAccount.ForEachValue [.PathDomainStorage]
        (sampleMigration.valueConverter sampleConversions
          { Address := sampleAddress, Key := "storage" })).storage
      nestedAccount.address).ForEachValue [.PathDomainStorage]
        (sampleMigration.valueConverter sampleConversions
          { Address := sampleAddress, Key := "storage" })).storage
      = (nestedAccount.ForEachValue [.PathDomainStorage]
        (sampleMigration.valueConverter sampleConversions
          { Address := sampleAddress, Key := "storage" })).storage :=
  ⟨rfl, rfl, rfl, rfl,
   (ForEachValue_migration_twice sampleMigration sampleConversions
    { Address := sampleAddress, Key := "storage" } nestedAccount [.PathDomainStorage] rfl).1⟩

/-- C20: for every value that is not a path capability, an ID capability included,
`Migrate` returns the nil value and the nil error, and does nothing else: it does not
consult the capability mapping and calls no method of the reporter. -/
theorem Migrate_not_path_capability (m : CapabilityValueMigration) (cv : Conversions)
    (storageKey : StorageKey) (value : Value)
    (h : ∀ borrowType path address, value ≠ .PathCapabilityValue borrowType path address) :
    (m.Migrate cv storageKey value).outcome = .ok (none, none) ∧
    (m.Migrate cv storageKey value).effects = [] ∧
    (∀ addressPath, MigrationEvent.Get addressPath ∉ (m.Migrate cv storageKey value).effects) ∧
    ∀ e ∈ (m.Migrate cv storageKey value).effects, e.isReporterCall = false := by
  rw [Migrate_other m cv storageKey value h]
  exact ⟨rfl, rfl, fun _ he => absurd he (List.not_mem_nil _),
    fun _ he => absurd he (List.not_mem_nil _)⟩

/-- Witness of C20 at an ID capability whose address and path are in the mapping. -/
theorem Migrate_not_path_capability_witness :
    (sampleMigration.Migrate sampleConversions { Address := sampleAddress, Key := "storage" }
      (.CapabilityValue 7 sampleAddress
        (.reference .Unauthorized (.primitive "Int")))).outcome = .ok (none, none) ∧
    (sampleMigration.Migrate sampleConversions { Address := sampleAddress, Key := "storage" }
      (.CapabilityValue 7 sampleAddress
        (.reference .Unauthorized (.primitive "Int")))).effects = [] :=
  ⟨(Migrate_not_path_capability sampleMigration sampleConversions
      { Address := sampleAddress, Key := "storage" }
      (.CapabilityValue 7 sampleAddress (.reference .Unauthorized (.primitive "Int")))
      (fun _ _ _ h => Value.noConfusion h)).1,
   (Migrate_not_path_capability sampleMigration sampleConversions
      { Address := sampleAddress, Key := "storage" }
      (.CapabilityValue 7 sampleAddress (.reference .Unauthorized (.primitive "Int")))
      (fun _ _ _ h => Value.noConfusion h)).2.1⟩

/-! ## What `Migrate` returns and reports -/

theorem Migrate_resolved (m : CapabilityValueMigration) (cv : Conversions)
    (storageKey : StorageKey) (borrowType : Option StaticType) (path : PathValue)
    (address : Address) (capabilityID : Nat) (controllerBorrowType : SemaType)
    (h : m.CapabilityMapping.Get (AddressPathOf address path)
      = some (capabilityID, controllerBorrowType)) :
    m.Migrate cv storageKey (.PathCapabilityValue borrowType path address)
      = migrateResolved m cv storageKey path address capabilityID
          (resolveBorrowType cv borrowType controllerBorrowType) := by
  have hr : resolveBorrowType cv borrowType controllerBorrowType
      = borrowType.getD (cv.ConvertSemaToStaticType controllerBorrowType) := by
    cases borrowType <;> rfl
  by_cases href : ∃ authorization referencedType,
      borrowType.getD (cv.ConvertSemaToStaticType controllerBorrowType)
        = .reference authorization referencedType
  · obtain ⟨authorization, referencedType, href⟩ := href
    rw [Migrate_reference m cv storageKey borrowType path address capabilityID
      controllerBorrowType authorization referencedType h href, hr, href]
    rfl
  · rw [Migrate_not_reference m cv storageKey borrowType path address capabilityID
      controllerBorrowType h (fun a r hh => href ⟨a, r, hh⟩), hr]
    cases hb : borrowType.getD (cv.ConvertSemaToStaticType controllerBorrowType) with
    | reference authorization referencedType => exact absurd ⟨_, _, hb⟩ href
    | primitive name => rfl
    | optional t => rfl
    | composite typeID => rfl



theorem Migrate_outcome_cases (m : CapabilityValueMigration) (cv : Conversions)
    (storageKey : StorageKey) (value : Value) :
    (m.Migrate cv storageKey value).outcome = .ok (none, none) ∨
    (∃ borrowType path address capabilityID newBorrowType,
      value = .PathCapabilityValue borrowType path address ∧
      (m.Migrate cv storageKey value).outcome
        = .ok (some (.CapabilityValue capabilityID address newBorrowType), none)) ∨
    (∃ borrowType path address,
      value = .PathCapabilityValue borrowType path address ∧
      (m.Migrate cv storageKey value).outcome
        = .error (.UnexpectedError "unexpected non-reference borrow type")) := by
  by_cases hv : ∃ borrowType path address, value = .PathCapabilityValue borrowType path address
  · obtain ⟨borrowType, path, address, hv⟩ := hv
    subst hv
    cases hget : m.CapabilityMapping.Get (AddressPathOf address path) with
    | none =>
      left
      rw [Migrate_unmapped m cv storageKey borrowType path address hget]
    | some entry =>
      obtain ⟨capabilityID, controllerBorrowType⟩ := entry
      right
      rw [Migrate_resolved m cv storageKey borrowType path address capabilityID
        controllerBorrowType hget]
      cases resolveBorrowType cv borrowType controllerBorrowType with
      | reference authorization referencedType =>
        exact Or.inl ⟨borrowType, path, address, capabilityID, _, rfl, rfl⟩
      | primitive name => exact Or.inr ⟨borrowType, path, address, rfl, rfl⟩
      | optional t => exact Or.inr ⟨borrowType, path, address, rfl, rfl⟩
      | composite typeID => exact Or.inr ⟨borrowType, path, address, rfl, rfl⟩
  · left
    rw [Migrate_other m cv storageKey value (fun b p a h => hv ⟨b, p, a, h⟩)]

theorem Migrate_ok_some (m : CapabilityValueMigration) (cv : Conversions)
    (storageKey : StorageKey) (value newValue : Value) (err : Option String)
    (h : (m.Migrate cv storageKey value).outcome = .ok (some newValue, err)) :
    ∃ capabilityID address newBorrowType,
      newValue = .CapabilityValue capabilityID address newBorrowType ∧ err = none := by
  rcases Migrate_outcome_cases m cv storageKey value with h1 | h1 | h1
  · rw [h1] at h
    cases h
  · obtain ⟨_, _, address, capabilityID, newBorrowType, _, h1⟩ := h1
    rw [h1] at h
    cases h
    exact ⟨capabilityID, address, newBorrowType, rfl, rfl⟩
  · obtain ⟨_, _, _, _, h1⟩ := h1
    rw [h1] at h
    cases h

/-- C21, as the code has it: for every path capability whose address and path have no entry
in the capability mapping, `Migrate` returns the nil value and the nil error (the value is to be left as it is) and
does nothing but consult the mapping and report; it calls `MissingCapabilityID` once,
with the address of the storage key and the address path of the capability, if a reporter
is set, and makes no report if none is set; it never calls `MigratedPathCapability`. -/
theorem Migrate_missing_mapping (m : CapabilityValueMigration) (cv : Conversions)
    (storageKey : StorageKey) (borrowType : Option StaticType) (path : PathValue)
    (address : Address) (h : m.CapabilityMapping.Get (AddressPathOf address path) = none) :
    (m.Migrate cv storageKey (.PathCapabilityValue borrowType path address)).outcome
      = .ok (none, none) ∧
    (m.Migrate cv storageKey (.PathCapabilityValue borrowType path address)).effects
      = .Get (AddressPathOf address path) ::
          (if m.Reporter then
            [.MissingCapabilityID storageKey.Address (AddressPathOf address path)]
          else []) ∧
    missingReports
        (m.Migrate cv storageKey (.PathCapabilityValue borrowType path address)).effects
      = (if m.Reporter then [(storageKey.Address, AddressPathOf address path)] else []) ∧
    migratedReports
        (m.Migrate cv storageKey (.PathCapabilityValue borrowType path address)).effects
      = [] := by
  rw [Migrate_unmapped m cv storageKey borrowType path address h]
  cases hr : m.Reporter <;> exact ⟨rfl, rfl, rfl, rfl⟩

/-- Witness of C21 at the unmapped capability of the sample account, with a reporter. -/
theorem Migrate_missing_mapping_witness :
    (sampleMigration.Migrate sampleConversions sampleStorageKey unmappedCapability).outcome
      = .ok (none, none) ∧
    missingReports
        (sampleMigration.Migrate sampleConversions sampleStorageKey unmappedCapability).effects
      = [(sampleAddress, AddressPathOf sampleAddress
          { Domain := .PathDomainPublic, Identifier := "other" })] ∧
    migratedReports
        (sampleMigration.Migrate sampleConversions sampleStorageKey unmappedCapability).effects
      = [] :=
  ⟨(Migrate_missing_mapping sampleMigration sampleConversions sampleStorageKey none
      { Domain := .PathDomainPublic, Identifier := "other" } sampleAddress rfl).1,
   rfl,
   (Migrate_missing_mapping sampleMigration sampleConversions sampleStorageKey none
      { Domain := .PathDomainPublic, Identifier := "other" } sampleAddress rfl).2.2.2⟩

/-- C21 fails as stated for a migration without a reporter: the call of
`MissingCapabilityID` is guarded by `reporter != nil`, so the unmapped capability gives no
report at all. -/
theorem Migrate_missing_mapping_silent_counterexample :
    silentMigration.CapabilityMapping.Get (AddressPathOf sampleAddress
      { Domain := .PathDomainPublic, Identifier := "other" }) = none ∧
    (silentMigration.Migrate sampleConversions sampleStorageKey unmappedCapability).outcome
      = .ok (none, none) ∧
    missingReports
        (silentMigration.Migrate sampleConversions sampleStorageKey unmappedCapability).effects
      = [] ∧
    ¬ (∀ (m : CapabilityValueMigration) (cv : Conversions) (storageKey : StorageKey)
        (borrowType : Option StaticType) (path : PathValue) (address : Address),
        m.CapabilityMapping.Get (AddressPathOf address path) = none →
        (missingReports (m.Migrate cv storageKey
          (.PathCapabilityValue borrowType path address)).effects).length = 1) := by
  refine ⟨rfl, rfl, rfl, fun h => ?_⟩
  have := h silentMigration sampleConversions sampleStorageKey none
    { Domain := .PathDomainPublic, Identifier := "other" } sampleAddress rfl
  revert this
  decide

/-- C22, as the code has it: for every path capability whose address and path are mapped to
a capability ID and a controller borrow type, and whose resolved borrow type is a reference
type, `Migrate` returns the ID capability with the mapped ID, the address of the old
capability and the new borrow type, and the nil error; it calls `MigratedPathCapability`
once, with the address of the storage key, the address path of the capability and the same
new borrow type, if a reporter is set, and makes no report if none is set; it never calls
`MissingCapabilityID`. -/
theorem Migrate_mapped_reference (m : CapabilityValueMigration) (cv : Conversions)
    (storageKey : StorageKey) (borrowType : Option StaticType) (path : PathValue)
    (address : Address) (capabilityID : Nat) (controllerBorrowType : SemaType)
    (authorization : Authorization) (referencedType : StaticType)
    (h : m.CapabilityMapping.Get (AddressPathOf address path)
      = some (capabilityID, controllerBorrowType))
    (hr : resolveBorrowType cv borrowType controllerBorrowType
      = .reference authorization referencedType) :
    (m.Migrate cv storageKey (.PathCapabilityValue borrowType path address)).outcome
      = .ok (some (.CapabilityValue capabilityID address
          (newBorrowTypeOf cv authorization referencedType)), none) ∧
    migratedReports
        (m.Migrate cv storageKey (.PathCapabilityValue borrowType path address)).effects
      = (if m.Reporter then
          [(storageKey.Address, AddressPathOf address path,
            newBorrowTypeOf cv authorization referencedType)]
        else []) ∧
    missingReports
        (m.Migrate cv storageKey (.PathCapabilityValue borrowType path address)).effects
      = [] := by
  rw [Migrate_resolved m cv storageKey borrowType path address capabilityID
    controllerBorrowType h, hr]
  cases hrep : m.Reporter <;>
    simp only [migrateResolved, hrep, migratedReports, missingReports, List.filterMap_cons,
      List.filterMap_nil, if_true, if_false, Bool.false_eq_true, and_self]

/-- Witness of C22 at a capability of the sample account without declared borrow type: the
borrow type is the one of the controller, a reference to the composite `SomeType`. -/
theorem Migrate_mapped_reference_witness :
    (sampleMigration.Migrate sampleConversions sampleStorageKey
      (.PathCapabilityValue none { Domain := .PathDomainPublic, Identifier := "cap" }
        sampleAddress)).outcome
      = .ok (some (.CapabilityValue 7 sampleAddress
          (.reference .Unauthorized (.composite "SomeType"))), none) ∧
    migratedReports
        (sampleMigration.Migrate sampleConversions sampleStorageKey
          (.PathCapabilityValue none { Domain := .PathDomainPublic, Identifier := "cap" }
            sampleAddress)).effects
      = [(sampleAddress,
          AddressPathOf sampleAddress { Domain := .PathDomainPublic, Identifier := "cap" },
          .reference .Unauthorized (.composite "SomeType"))] ∧
    missingReports
        (sampleMigration.Migrate sampleConversions sampleStorageKey
          (.PathCapabilityValue none { Domain := .PathDomainPublic, Identifier := "cap" }
            sampleAddress)).effects
      = [] :=
  Migrate_mapped_reference sampleMigration sampleConversions sampleStorageKey none
    { Domain := .PathDomainPublic, Identifier := "cap" } sampleAddress 7 { ID := "SomeType" }
    .Unauthorized (.composite "SomeType") rfl rfl

/-- C22 fails as stated for a migration without a reporter: the call of
`MigratedPathCapability` is guarded by `reporter != nil`, so the mapped capability is
migrated without any report. -/
theorem Migrate_mapped_silent_counterexample :
    (silentMigration.Migrate sampleConversions sampleStorageKey
      (.PathCapabilityValue none { Domain := .PathDomainPublic, Identifier := "cap" }
        sampleAddress)).outcome
      = .ok (some (.CapabilityValue 7 sampleAddress
          (.reference .Unauthorized (.composite "SomeType"))), none) ∧
    migratedReports
        (silentMigration.Migrate sampleConversions sampleStorageKey
          (.PathCapabilityValue none { Domain := .PathDomainPublic, Identifier := "cap" }
            sampleAddress)).effects
      = [] ∧
    ¬ (∀ (m : CapabilityValueMigration) (cv : Conversions) (storageKey : StorageKey)
        (borrowType : Option StaticType) (path : PathValue) (address : Address)
        (capabilityID : Nat) (controllerBorrowType : SemaType)
        (authorization : Authorization) (referencedType : StaticType),
        m.CapabilityMapping.Get (AddressPathOf address path)
          = some (capabilityID, controllerBorrowType) →
        resolveBorrowType cv borrowType controllerBorrowType
          = .reference authorization referencedType →
        (migratedReports (m.Migrate cv storageKey
          (.PathCapabilityValue borrowType path address)).effects).length = 1) := by
  refine ⟨rfl, rfl, fun h => ?_⟩
  have := h silentMigration sampleConversions sampleStorageKey none
    { Domain := .PathDomainPublic, Identifier := "cap" } sampleAddress 7 { ID := "SomeType" }
    .Unauthorized (.composite "SomeType") rfl rfl
  revert this
  decide

/-- C23: when the mapping has an entry for a path capability, `Migrate` goes on with the
borrow type that the spec describes: with the declared borrow type of the capability if it
has one, whatever the borrow type of the controller is, and otherwise with the static type
that `ConvertSemaToStaticType` gives for the borrow type of the controller. -/
theorem Migrate_resolves_borrowType (m : CapabilityValueMigration) (cv : Conversions)
    (storageKey : StorageKey) (borrowType : Option StaticType) (path : PathValue)
    (address : Address) (capabilityID : Nat) (controllerBorrowType : SemaType)
    (h : m.CapabilityMapping.Get (AddressPathOf address path)
      = some (capabilityID, controllerBorrowType)) :
    m.Migrate cv storageKey (.PathCapabilityValue borrowType path address)
      = migrateResolved m cv storageKey path address capabilityID
          (resolveBorrowType cv borrowType controllerBorrowType) ∧
    (∀ declared, borrowType = some declared →
      m.Migrate cv storageKey (.PathCapabilityValue borrowType path address)
        = migrateResolved m cv storageKey path address capabilityID declared) ∧
    (borrowType = none →
      m.Migrate cv storageKey (.PathCapabilityValue borrowType path address)
        = migrateResolved m cv storageKey path address capabilityID
            (cv.ConvertSemaToStaticType controllerBorrowType)) := by
  refine ⟨Migrate_resolved m cv storageKey borrowType path address capabilityID
    controllerBorrowType h, ?_, ?_⟩
  · intro declared hd
    rw [Migrate_resolved m cv storageKey borrowType path address capabilityID
      controllerBorrowType h, hd]
    rfl
  · intro hd
    rw [Migrate_resolved m cv storageKey borrowType path address capabilityID
      controllerBorrowType h, hd]
    rfl

/-- Witness of C23 at the capability of the sample account with a declared borrow type:
the borrow type of the controller, a reference to `SomeType`, is not used. -/
theorem Migrate_resolves_borrowType_witness :
    sampleMapping.Get (AddressPathOf sampleAddress
      { Domain := .PathDomainPublic, Identifier := "cap" }) = some (7, { ID := "SomeType" }) ∧
    sampleMigration.Migrate sampleConversions sampleStorageKey
        (.PathCapabilityValue (some (.reference .Unauthorized (.primitive "Int")))
          { Domain := .PathDomainPublic, Identifier := "cap" } sampleAddress)
      = migrateResolved sampleMigration sampleConversions sampleStorageKey
          { Domain := .PathDomainPublic, Identifier := "cap" } sampleAddress 7
          (.reference .Unauthorized (.primitive "Int")) :=
  ⟨rfl,
   (Migrate_resolves_borrowType sampleMigration sampleConversions sampleStorageKey
      (some (.reference .Unauthorized (.primitive "Int")))
      { Domain := .PathDomainPublic, Identifier := "cap" } sampleAddress 7
      { ID := "SomeType" } rfl).2.1 _ rfl⟩

/-- C24: for every path capability that the mapping has and whose resolved borrow type is
not a reference type, `Migrate` panics with an unexpected error: it returns nothing,
neither a new value nor the nil value, and calls no method of the reporter; all it has done
is the consultation of the mapping. -/
theorem Migrate_non_reference_panics (m : CapabilityValueMigration) (cv : Conversions)
    (storageKey : StorageKey) (borrowType : Option StaticType) (path : PathValue)
    (address : Address) (capabilityID : Nat) (controllerBorrowType : SemaType)
    (h : m.CapabilityMapping.Get (AddressPathOf address path)
      = some (capabilityID, controllerBorrowType))
    (hr : ∀ authorization referencedType,
      resolveBorrowType cv borrowType controllerBorrowType
        ≠ .reference authorization referencedType) :
    (m.Migrate cv storageKey (.PathCapabilityValue borrowType path address)).outcome
      = .error (.UnexpectedError "unexpected non-reference borrow type") ∧
    (∀ result,
      (m.Migrate cv storageKey (.PathCapabilityValue borrowType path address)).outcome
        ≠ .ok result) ∧
    (m.Migrate cv storageKey (.PathCapabilityValue borrowType path address)).effects
      = [.Get (AddressPathOf address path)] ∧
    migratedReports
        (m.Migrate cv storageKey (.PathCapabilityValue borrowType path address)).effects
      = [] ∧
    missingReports
        (m.Migrate cv storageKey (.PathCapabilityValue borrowType path address)).effects
      = [] := by
  rw [Migrate_resolved m cv storageKey borrowType path address capabilityID
    controllerBorrowType h]
  cases hb : resolveBorrowType cv borrowType controllerBorrowType with
  | reference authorization referencedType => exact absurd hb (hr _ _)
  | primitive name => exact ⟨rfl, fun _ hh => Except.noConfusion hh, rfl, rfl, rfl⟩
  | optional t => exact ⟨rfl, fun _ hh => Except.noConfusion hh, rfl, rfl, rfl⟩
  | composite typeID => exact ⟨rfl, fun _ hh => Except.noConfusion hh, rfl, rfl, rfl⟩

/-- Witness of C24 at the mapped capability of the sample account with the declared borrow
type `Int`, which is not a reference type. -/
theorem Migrate_non_reference_panics_witness :
    (sampleMigration.Migrate sampleConversions sampleStorageKey
      (.PathCapabilityValue (some (.primitive "Int"))
        { Domain := .PathDomainPublic, Identifier := "cap" } sampleAddress)).outcome
      = .error (.UnexpectedError "unexpected non-reference borrow type") ∧
    migratedReports
        (sampleMigration.Migrate sampleConversions sampleStorageKey
          (.PathCapabilityValue (some (.primitive "Int"))
            { Domain := .PathDomainPublic, Identifier := "cap" } sampleAddress)).effects
      = [] :=
  ⟨(Migrate_non_reference_panics sampleMigration sampleConversions sampleStorageKey
      (some (.primitive "Int")) { Domain := .PathDomainPublic, Identifier := "cap" }
      sampleAddress 7 { ID := "SomeType" } rfl
      (fun _ _ hh => StaticType.noConfusion hh)).1,
   (Migrate_non_reference_panics sampleMigration sampleConversions sampleStorageKey
      (some (.primitive "Int")) { Domain := .PathDomainPublic, Identifier := "cap" }
      sampleAddress 7 { ID := "SomeType" } rfl
      (fun _ _ hh => StaticType.noConfusion hh)).2.2.2.1⟩

/-- C25, as the code has it: a path capability with the declared borrow type of an
unauthorized reference to the legacy `AuthAccount`, which the mapping has with any
capability ID and any borrow type of the controller, is migrated to the ID capability with
that capability ID, the address of the old capability and the fully entitled account
reference type as borrow type; `MigratedPathCapability` is called once, with this new
borrow type, if a reporter is set, and not at all if none is set. -/
theorem Migrate_auth_account (m : CapabilityValueMigration) (cv : Conversions)
    (storageKey : StorageKey) (path : PathValue) (address : Address) (capabilityID : Nat)
    (controllerBorrowType : SemaType)
    (h : m.CapabilityMapping.Get (AddressPathOf address path)
      = some (capabilityID, controllerBorrowType)) :
    (m.Migrate cv storageKey
      (.PathCapabilityValue (some (.reference .Unauthorized PrimitiveStaticTypeAuthAccount))
        path address)).outcome
      = .ok (some (.CapabilityValue capabilityID address
          (.reference cv.fullyEntitledAccountReferenceStaticType.1
            cv.fullyEntitledAccountReferenceStaticType.2)), none) ∧
    migratedReports
        (m.Migrate cv storageKey
          (.PathCapabilityValue (some (.reference .Unauthorized PrimitiveStaticTypeAuthAccount))
            path address)).effects
      = (if m.Reporter then
          [(storageKey.Address, AddressPathOf address path,
            .reference cv.fullyEntitledAccountReferenceStaticType.1
              cv.fullyEntitledAccountReferenceStaticType.2)]
        else []) := by
  rw [Migrate_resolved m cv storageKey _ path address capabilityID controllerBorrowType h]
  cases hrep : m.Reporter <;>
    simp only [resolveBorrowType, migrateResolved, newBorrowTypeOf, hrep, migratedReports,
      List.filterMap_cons, List.filterMap_nil, if_true, if_false, Bool.false_eq_true,
      and_self]

/-- Witness of C25 at the example of the spec: capability ID 7 and the borrow type
`SomeType` of the controller, with a reporter. -/
theorem Migrate_auth_account_witness :
    (sampleMigration.Migrate sampleConversions sampleStorageKey accountCapability).outcome
      = .ok (some (.CapabilityValue 7 sampleAddress
          (.reference
            (.EntitlementSet ["Storage", "Contracts", "Keys", "Inbox", "Capabilities"])
            (.primitive "Account"))), none) ∧
    migratedReports
        (sampleMigration.Migrate sampleConversions sampleStorageKey accountCapability).effects
      = [(sampleAddress,
          AddressPathOf sampleAddress { Domain := .PathDomainPublic, Identifier := "cap" },
          .reference
            (.EntitlementSet ["Storage", "Contracts", "Keys", "Inbox", "Capabilities"])
            (.primitive "Account"))] :=
  Migrate_auth_account sampleMigration sampleConversions sampleStorageKey
    { Domain := .PathDomainPublic, Identifier := "cap" } sampleAddress 7 { ID := "SomeType" }
    rfl

/-- C25 fails as stated for a migration without a reporter: the capability of the example
is migrated, to the ID 7 and the fully entitled account reference type, and nothing is
reported. -/
theorem Migrate_auth_account_silent_counterexample :
    silentMigration.CapabilityMapping.Get (AddressPathOf sampleAddress
      { Domain := .PathDomainPublic, Identifier := "cap" }) = some (7, { ID := "SomeType" }) ∧
    (silentMigration.Migrate sampleConversions sampleStorageKey accountCapability).outcome
      = .ok (some (.CapabilityValue 7 sampleAddress
          (.reference
            (.EntitlementSet ["Storage", "Contracts", "Keys", "Inbox", "Capabilities"])
            (.primitive "Account"))), none) ∧
    (silentMigration.Migrate sampleConversions sampleStorageKey accountCapability).effects
      = [.Get (AddressPathOf sampleAddress
          { Domain := .PathDomainPublic, Identifier := "cap" })] ∧
    (migratedReports
      (silentMigration.Migrate sampleConversions sampleStorageKey
        accountCapability).effects).length ≠ 1 := by
  refine ⟨rfl, rfl, rfl, ?_⟩
  decide

/-- C26: the migration only goes from path capabilities to ID capabilities.  For every
value, `Migrate` returns the nil value, or returns an ID capability for a path capability,
or panics on a path capability; so a value that it returns is never a path capability.  On
every ID capability it returns the nil value and does nothing else. -/
theorem Migrate_path_to_ID (m : CapabilityValueMigration) (cv : Conversions)
    (storageKey : StorageKey) (value : Value) :
    ((m.Migrate cv storageKey value).outcome = .ok (none, none) ∨
      (∃ borrowType path address capabilityID newBorrowType,
        value = .PathCapabilityValue borrowType path address ∧
        (m.Migrate cv storageKey value).outcome
          = .ok (some (.CapabilityValue capabilityID address newBorrowType), none)) ∨
      (∃ borrowType path address,
        value = .PathCapabilityValue borrowType path address ∧
        (m.Migrate cv storageKey value).outcome
          = .error (.UnexpectedError "unexpected non-reference borrow type"))) ∧
    (∀ err borrowType path address,
      (m.Migrate cv storageKey value).outcome
        ≠ .ok (some (.PathCapabilityValue borrowType path address), err)) ∧
    (∀ capabilityID address borrowType,
      m.Migrate cv storageKey (.CapabilityValue capabilityID address borrowType)
        = { effects := [], outcome := .ok (none, none) }) := by
  refine ⟨Migrate_outcome_cases m cv storageKey value, ?_, fun _ _ _ => rfl⟩
  intro err borrowType path address hh
  obtain ⟨_, _, _, hv, _⟩ := Migrate_ok_some m cv storageKey value _ err hh
  exact Value.noConfusion hv

/-- C27: `Migrate` is idempotent.  For every value, storage key and mapping, if `Migrate`
returns a new value for the value, then `Migrate` (of any migration, at any storage key)
returns the nil value and the nil error for the new value, and in that call it neither
consults the mapping nor calls a method of the reporter. -/
theorem Migrate_idempotent (m : CapabilityValueMigration) (cv : Conversions)
    (storageKey : StorageKey) (value newValue : Value) (err : Option String)
    (h : (m.Migrate cv storageKey value).outcome = .ok (some newValue, err)) :
    ∀ (again : CapabilityValueMigration) (againKey : StorageKey),
      (again.Migrate cv againKey newValue).outcome = .ok (none, none) ∧
      (again.Migrate cv againKey newValue).effects = [] ∧
      missingReports (again.Migrate cv againKey newValue).effects = [] ∧
      migratedReports (again.Migrate cv againKey newValue).effects = [] := by
  intro again againKey
  obtain ⟨capabilityID, address, newBorrowType, hv, _⟩ :=
    Migrate_ok_some m cv storageKey value newValue err h
  rw [hv]
  exact ⟨rfl, rfl, rfl, rfl⟩

/-- Witness of C27 at the mapped capability of the sample account: the ID capability that
the migration returns is left as it is by a second call. -/
theorem Migrate_idempotent_witness :
    (sampleMigration.Migrate sampleConversions sampleStorageKey accountCapability).outcome
      = .ok (some (.CapabilityValue 7 sampleAddress
          (.reference
            (.EntitlementSet ["Storage", "Contracts", "Keys", "Inbox", "Capabilities"])
            (.primitive "Account"))), none) ∧
    (sampleMigration.Migrate sampleConversions sampleStorageKey
      (.CapabilityValue 7 sampleAddress
        (.reference
          (.EntitlementSet ["Storage", "Contracts", "Keys", "Inbox", "Capabilities"])
          (.primitive "Account")))).outcome = .ok (none, none) ∧
    (sampleMigration.Migrate sampleConversions sampleStorageKey
      (.CapabilityValue 7 sampleAddress
        (.reference
          (.EntitlementSet ["Storage", "Contracts", "Keys", "Inbox", "Capabilities"])
          (.primitive "Account")))).effects = [] :=
  ⟨rfl,
   (Migrate_idempotent sampleMigration sampleConversions sampleStorageKey accountCapability
      _ none rfl sampleMigration sampleStorageKey).1,
   (Migrate_idempotent sampleMigration sampleConversions sampleStorageKey accountCapability
      _ none rfl sampleMigration sampleStorageKey).2.1⟩

/-! ## The calls of the converter in a run -/

theorem converterCalls_append (l₁ l₂ : List StorageEvent) :
    converterCalls (l₁ ++ l₂) = converterCalls l₁ ++ converterCalls l₂ := by
  unfold converterCalls
  exact List.filterMap_append _ _ _

theorem converterCalls_entryEvents (address : Address) (domain : PathDomain) (key : String)
    (newValue : Option Value) (updated : Bool) :
    converterCalls (entryEvents address domain key newValue updated) = [] := by
  unfold entryEvents
  cases newValue <;> cases updated <;> rfl

theorem converterCalls_visit (address : Address) (domain : PathDomain)
    (valueConverter : ValueConverter) :
    ∀ es : List (String × Value),
      converterCalls (visitEntries address domain valueConverter es).trace
          <+: es.map (fun e => (domain, e.1, e.2)) ∧
        ((visitEntries address domain valueConverter es).stop = none →
          converterCalls (visitEntries address domain valueConverter es).trace
            = es.map (fun e => (domain, e.1, e.2)))
  | [] => ⟨List.prefix_refl _, fun _ => rfl⟩
  | (key, value) :: rest => by
    have ih := converterCalls_visit address domain valueConverter rest
    unfold visitEntries
    cases hout : (valueConverter value).outcome with
    | error p =>
      refine ⟨?_, fun h => ?_⟩
      · exact ⟨rest.map (fun e => (domain, e.1, e.2)), List.map_cons _ _ _ ▸ rfl⟩
      · cases h
    | ok r =>
      obtain ⟨newValue, updated⟩ := r
      have hcons : converterCalls
          (StorageEvent.valueConverter domain key value (valueConverter value).effects ::
            (entryEvents address domain key newValue updated ++
              (visitEntries address domain valueConverter rest).trace))
          = (domain, key, value) ::
            converterCalls (visitEntries address domain valueConverter rest).trace := by
        show (domain, key, value) :: converterCalls (_ ++ _) = _
        rw [converterCalls_append, converterCalls_entryEvents, List.nil_append]
      refine ⟨?_, fun h => ?_⟩
      · show converterCalls (_ :: _) <+: _
        rw [hcons, List.map_cons]
        exact (List.prefix_cons_inj _).mpr ih.1
      · show converterCalls (_ :: _) = _
        rw [hcons, List.map_cons, ih.2 h]

theorem storedEntries_congr (s s' : Storage) (address : Address) :
    ∀ domains : List PathDomain,
      (∀ d ∈ domains, s'.maps address d.Identifier = s.maps address d.Identifier) →
      storedEntries s' address domains = storedEntries s address domains
  | [], _ => rfl
  | domain :: rest, h => by
    unfold storedEntries Storage.GetStorageMap
    rw [h domain (List.mem_cons_self _ _),
      show storedEntries s' address rest = storedEntries s address rest from
        storedEntries_congr s s' address rest
          (fun d hd => h d (List.mem_cons_of_mem _ hd))]

theorem forDomains_calls (address : Address) (valueConverter : ValueConverter) :
    ∀ (domains : List PathDomain) (run : Run), domains.Nodup →
      ∃ calls, converterCalls (forDomains address valueConverter domains run).trace
          = converterCalls run.trace ++ calls ∧
        calls <+: storedEntries run.storage address domains ∧
        ((forDomains address valueConverter domains run).stop = none →
          calls = storedEntries run.storage address domains)
  | [], run, _ => ⟨[], (List.append_nil _).symm, List.prefix_refl _, fun _ => rfl⟩
  | domain :: rest, run, hnodup => by
    obtain ⟨hnot, hrest⟩ := List.nodup_cons.mp hnodup
    have hother : ∀ d ∈ rest,
        (forDomain address valueConverter run domain).storage.maps address d.Identifier
          = run.storage.maps address d.Identifier := by
      intro d hd
      apply forDomain_other
      rintro ⟨_, hid⟩
      exact hnot (Identifier_injective hid ▸ hd)
    have hstored := storedEntries_congr run.storage
      (forDomain address valueConverter run domain).storage address rest hother
    obtain ⟨calls, hcalls, hpre, hall⟩ := forDomains_calls address valueConverter rest
      (forDomain address valueConverter run domain) hrest
    rw [hstored] at hpre hall
    cases hm : run.storage.GetStorageMap address domain.Identifier with
    | none =>
      have hrun := forDomain_absent address valueConverter run domain hm
      rw [hrun] at hcalls hall
      unfold forDomains storedEntries
      rw [hrun, hm]
      cases hs : run.stop with
      | some p =>
        simp only [hs]
        exact ⟨[], (List.append_nil _).symm, List.nil_prefix, fun h => by cases h⟩
      | none =>
        simp only [hs]
        exact ⟨calls, hcalls, hpre, hall⟩
    | some m =>
      obtain ⟨htrace, hstop, _, _⟩ := forDomain_visit address valueConverter run domain m hm
      obtain ⟨hvpre, hvall⟩ := converterCalls_visit address domain valueConverter m.entries
      unfold forDomains storedEntries
      rw [hm]
      cases hs : (forDomain address valueConverter run domain).stop with
      | some p =>
        simp only [hs]
        refine ⟨converterCalls (visitEntries address domain valueConverter m.entries).trace,
          ?_, ?_, fun h => by cases h⟩
        · rw [htrace, converterCalls_append]
        · exact hvpre.trans (List.prefix_append _ _)
      | none =>
        simp only [hs]
        have hv : (visitEntries address domain valueConverter m.entries).stop = none :=
          forDomain_stop_none address valueConverter run domain m hm hs
        refine ⟨m.entries.map (fun e => (domain, e.1, e.2)) ++ calls, ?_, ?_, fun h => ?_⟩
        · rw [hcalls, htrace, converterCalls_append, hvall hv, List.append_assoc]
        · exact (List.prefix_append_right_inj _).mpr hpre
        · rw [hall h]



theorem storedEntries_domain (s : Storage) (address : Address) :
    ∀ domains : List PathDomain, ∀ c ∈ storedEntries s address domains, c.1 ∈ domains
  | [], c, h => by cases h
  | domain :: rest, c, h => by
    unfold storedEntries at h
    rcases List.mem_append.mp h with h | h
    · cases hm : s.GetStorageMap address domain.Identifier with
      | none =>
        rw [hm] at h
        cases h
      | some m =>
        rw [hm] at h
        obtain ⟨e, _, he⟩ := List.mem_map.mp h
        rw [← he]
        exact List.mem_cons_self _ _
    · exact List.mem_cons_of_mem _ (storedEntries_domain s address rest c h)

theorem mem_storedEntries (s : Storage) (address : Address) (d : PathDomain) (m : StorageMap)
    (e : String × Value) (hm : s.maps address d.Identifier = some m) (he : e ∈ m.entries) :
    ∀ domains : List PathDomain, d ∈ domains → (d, e.1, e.2) ∈ storedEntries s address domains
  | [], h => by cases h
  | domain :: rest, h => by
    unfold storedEntries
    by_cases hd : d = domain
    · subst hd
      apply List.mem_append_left
      unfold Storage.GetStorageMap
      rw [hm]
      exact List.mem_map.mpr ⟨e, he, rfl⟩
    · apply List.mem_append_right
      rcases List.mem_cons.mp h with h | h
      · exact absurd h hd
      · exact mem_storedEntries s address d m e hm he rest h

theorem storedEntries_nodup (s : Storage) (address : Address) :
    ∀ domains : List PathDomain, domains.Nodup →
      ((storedEntries s address domains).map fun c => (c.1, c.2.1)).Nodup
  | [], _ => List.nodup_nil
  | domain :: rest, hnodup => by
    obtain ⟨hnot, hrest⟩ := List.nodup_cons.mp hnodup
    unfold storedEntries
    rw [List.map_append]
    refine List.Nodup.append ?_ (storedEntries_nodup s address rest hrest) ?_
    · cases s.GetStorageMap address domain.Identifier with
      | none => exact List.nodup_nil
      | some m =>
        have hmap : (m.entries.map fun e => (domain, e.1, e.2)).map (fun c => (c.1, c.2.1))
            = (m.entries.map Prod.fst).map (fun k => (domain, k)) := by
          rw [List.map_map, List.map_map]
          rfl
        show ((m.entries.map fun e => (domain, e.1, e.2)).map (fun c => (c.1, c.2.1))).Nodup
        rw [hmap]
        exact List.Nodup.map (fun a b hab => (Prod.mk.inj hab).2) m.nodup
    · intro p hp hp2
      obtain ⟨c, hc, hcp⟩ := List.mem_map.mp hp
      obtain ⟨c', hc', hcp'⟩ := List.mem_map.mp hp2
      have hdom' := storedEntries_domain s address rest c' hc'
      have hdom : c.1 = domain := by
        cases hm : s.GetStorageMap address domain.Identifier with
        | none =>
          rw [hm] at hc
          cases hc
        | some m =>
          rw [hm] at hc
          obtain ⟨e, _, he⟩ := List.mem_map.mp hc
          rw [← he]
      have h1 : c.1 = c'.1 := by
        have := hcp.trans hcp'.symm
        exact (Prod.mk.inj this).1
      rw [← h1, hdom] at hdom'
      exact hnot hdom'



theorem filter_eq_length_one {α : Type} [DecidableEq α] :
    ∀ (l : List α) (a : α), l.Nodup → a ∈ l →
      (l.filter fun p => decide (p = a)).length = 1
  | [], _, _, h => by cases h
  | x :: xs, a, hnd, h => by
    obtain ⟨hx, hxs⟩ := List.nodup_cons.mp hnd
    by_cases hxa : x = a
    · subst hxa
      have hnone : xs.filter (fun p => decide (p = x)) = [] := by
        apply List.filter_eq_nil_iff.mpr
        intro p hp hpx
        have hpx' : p = x := of_decide_eq_true hpx
        exact hx (hpx' ▸ hp)
      have hpos : decide (x = x) = true := decide_eq_true rfl
      simp only [List.filter_cons, hpos, if_true, hnone, List.length_singleton, decide_True]
    · have hneg : decide (x = a) = false := decide_eq_false hxa
      simp only [List.filter_cons, hneg, Bool.false_eq_true, if_false]
      exact filter_eq_length_one xs a hxs
        ((List.mem_cons.mp h).resolve_left (fun ha => hxa ha.symm))

/-- C30, as the code has it: over a list that names no domain twice, `ForEachValue` calls
the converter for the entries of the storage maps of the listed domains, domain after
domain in the order of the list and entry after entry in the native order of the map, each
time with the value stored under the identifier before the run, and for no entry twice;
the calls end with the call in which the converter panics, and if the run returns, every
entry of every listed domain was visited exactly once.  The converter is any converter, so
this holds when the entry being visited is overwritten. -/
theorem ForEachValue_calls (i : AccountStorage) (domains : List PathDomain)
    (valueConverter : ValueConverter) (hnodup : domains.Nodup) :
    converterCalls (i.ForEachValue domains valueConverter).trace
      <+: storedEntries i.storage i.address domains ∧
    ((converterCalls (i.ForEachValue domains valueConverter).trace).map
      fun c => (c.1, c.2.1)).Nodup ∧
    ((i.ForEachValue domains valueConverter).stop = none →
      converterCalls (i.ForEachValue domains valueConverter).trace
        = storedEntries i.storage i.address domains ∧
      ∀ d ∈ domains, ∀ m, i.storage.maps i.address d.Identifier = some m →
        ∀ e ∈ m.entries,
          (d, e.1, e.2) ∈ converterCalls (i.ForEachValue domains valueConverter).trace ∧
          (((converterCalls (i.ForEachValue domains valueConverter).trace).map
            fun c => (c.1, c.2.1)).filter fun p => decide (p = (d, e.1))).length = 1) := by
  obtain ⟨calls, hcalls, hpre, hall⟩ := forDomains_calls i.address valueConverter domains
    { storage := i.storage, trace := [], stop := none } hnodup
  have hc : converterCalls (i.ForEachValue domains valueConverter).trace = calls := hcalls
  have hnd : ((converterCalls (i.ForEachValue domains valueConverter).trace).map
      fun c => (c.1, c.2.1)).Nodup := by
    rw [hc]
    exact ((hpre.map _).sublist).nodup (storedEntries_nodup i.storage i.address domains hnodup)
  refine ⟨hc ▸ hpre, hnd, fun hstop => ?_⟩
  have heq : converterCalls (i.ForEachValue domains valueConverter).trace
      = storedEntries i.storage i.address domains := hc.trans (hall hstop)
  refine ⟨heq, fun d hd m hm e he => ?_⟩
  have hmem : (d, e.1, e.2) ∈ converterCalls (i.ForEachValue domains valueConverter).trace := by
    rw [heq]
    exact mem_storedEntries i.storage i.address d m e hm he domains hd
  exact ⟨hmem, filter_eq_length_one _ _ hnd (List.mem_map.mpr ⟨(d, e.1, e.2), hmem, rfl⟩)⟩

/-- Witness of C30 at the sample account, over the domains `public` and `storage`: the
converter is called for `a`, `b` and `c` of `storage`, in this order, with the values
stored before the run, although `a` and `c` are overwritten during the run. -/
theorem ForEachValue_calls_witness :
    [PathDomain.PathDomainPublic, .PathDomainStorage].Nodup ∧
    (sampleAccount.ForEachValue [.PathDomainPublic, .PathDomainStorage] sampleConverter).stop
      = none ∧
    storedEntries sampleAccount.storage sampleAccount.address
        [.PathDomainPublic, .PathDomainStorage]
      = [(.PathDomainStorage, "a", .BoolValue true),
         (.PathDomainStorage, "b", .StringValue "x"),
         (.PathDomainStorage, "c", .BoolValue false)] ∧
    converterCalls
        (sampleAccount.ForEachValue [.PathDomainPublic, .PathDomainStorage]
          sampleConverter).trace
      = storedEntries sampleAccount.storage sampleAccount.address
          [.PathDomainPublic, .PathDomainStorage] :=
  ⟨by decide, rfl, rfl,
   ((ForEachValue_calls sampleAccount [.PathDomainPublic, .PathDomainStorage]
      sampleConverter (by decide)).2.2 rfl).1⟩

/-- C30 fails as stated for a list that names a domain twice: over the list `storage`,
`storage` the converter is called twice for every entry of the map of the sample account,
the second time with the value that the first visit stored. -/
theorem ForEachValue_calls_twice_counterexample :
    (sampleAccount.ForEachValue [.PathDomainStorage, .PathDomainStorage]
      sampleConverter).stop = none ∧
    converterCalls
        (sampleAccount.ForEachValue [.PathDomainStorage, .PathDomainStorage]
          sampleConverter).trace
      = [(.PathDomainStorage, "a", .BoolValue true),
         (.PathDomainStorage, "b", .StringValue "x"),
         (.PathDomainStorage, "c", .BoolValue false),
         (.PathDomainStorage, "a", .BoolValue false),
         (.PathDomainStorage, "b", .StringValue "x"),
         (.PathDomainStorage, "c", .BoolValue true)] ∧
    ¬ (∀ (i : AccountStorage) (domains : List PathDomain) (valueConverter : ValueConverter),
        (i.ForEachValue domains valueConverter).stop = none →
        ∀ d ∈ domains, ∀ m, i.storage.maps i.address d.Identifier = some m →
          ∀ e ∈ m.entries,
            (((converterCalls (i.ForEachValue domains valueConverter).trace).map
              fun c => (c.1, c.2.1)).filter fun p => decide (p = (d, e.1))).length = 1) := by
  refine ⟨rfl, rfl, fun h => ?_⟩
  have h1 := h sampleAccount [.PathDomainStorage, .PathDomainStorage] sampleConverter rfl
    .PathDomainStorage (List.mem_cons_self _ _) sampleStorageMap rfl
    ("a", .BoolValue true) (List.mem_cons_self _ _)
  have h2 : ((converterCalls
      (sampleAccount.ForEachValue [.PathDomainStorage, .PathDomainStorage]
        sampleConverter).trace).map fun c => (c.1, c.2.1))
      = [(.PathDomainStorage, "a"), (.PathDomainStorage, "b"), (.PathDomainStorage, "c"),
         (.PathDomainStorage, "a"), (.PathDomainStorage, "b"), (.PathDomainStorage, "c")] :=
    rfl
  rw [h2] at h1
  revert h1
  decide

/-- C31: the account upgrade is a special case.  For every path capability that the mapping
has and whose resolved borrow type is a reference type, the borrow type of the new
capability is this reference type unchanged, with the same authorization and the same
referenced type, when the referenced type is not the legacy `AuthAccount`, and it is the
fully entitled account reference type when the referenced type is `AuthAccount`; so the
borrow type differs from the resolved one only when the referenced type is `AuthAccount`. -/
theorem Migrate_account_upgrade_only (m : CapabilityValueMigration) (cv : Conversions)
    (storageKey : StorageKey) (borrowType : Option StaticType) (path : PathValue)
    (address : Address) (capabilityID : Nat) (controllerBorrowType : SemaType)
    (authorization : Authorization) (referencedType : StaticType)
    (h : m.CapabilityMapping.Get (AddressPathOf address path)
      = some (capabilityID, controllerBorrowType))
    (hr : resolveBorrowType cv borrowType controllerBorrowType
      = .reference authorization referencedType) :
    (referencedType ≠ PrimitiveStaticTypeAuthAccount →
      (m.Migrate cv storageKey (.PathCapabilityValue borrowType path address)).outcome
        = .ok (some (.CapabilityValue capabilityID address
            (.reference authorization referencedType)), none)) ∧
    (referencedType = PrimitiveStaticTypeAuthAccount →
      (m.Migrate cv storageKey (.PathCapabilityValue borrowType path address)).outcome
        = .ok (some (.CapabilityValue capabilityID address
            (.reference cv.fullyEntitledAccountReferenceStaticType.1
              cv.fullyEntitledAccountReferenceStaticType.2)), none)) ∧
    (∀ newBorrowType,
      (m.Migrate cv storageKey (.PathCapabilityValue borrowType path address)).outcome
        = .ok (some (.CapabilityValue capabilityID address newBorrowType), none) →
      newBorrowType ≠ .reference authorization referencedType →
      referencedType = PrimitiveStaticTypeAuthAccount) ∧
    (referencedType ≠ PrimitiveStaticTypeAuthAccount →
      migratedReports
          (m.Migrate cv storageKey (.PathCapabilityValue borrowType path address)).effects
        = (if m.Reporter then
            [(storageKey.Address, AddressPathOf address path,
              .reference authorization referencedType)]
          else [])) := by
  rw [Migrate_resolved m cv storageKey borrowType path address capabilityID
    controllerBorrowType h, hr]
  refine ⟨fun hne => ?_, fun heq => ?_, fun newBorrowType hout hdiff => ?_, fun hne => ?_⟩
  · simp only [migrateResolved, newBorrowTypeOf, if_neg hne]
  · simp only [migrateResolved, newBorrowTypeOf, if_pos heq]
  · by_contra hne
    simp only [migrateResolved, newBorrowTypeOf, if_neg hne] at hout
    cases hout
    exact hdiff rfl
  · cases hrep : m.Reporter <;>
      simp only [migrateResolved, newBorrowTypeOf, if_neg hne, hrep, migratedReports,
        List.filterMap_cons, List.filterMap_nil, if_true, if_false, Bool.false_eq_true]

/-- Witness of C31 at the mapped capability of the sample account with the declared borrow
type of an authorized reference to `Int`: the borrow type is kept as it is. -/
theorem Migrate_account_upgrade_only_witness :
    (sampleMigration.Migrate sampleConversions sampleStorageKey
      (.PathCapabilityValue (some (.reference (.EntitlementSet ["E"]) (.primitive "Int")))
        { Domain := .PathDomainPublic, Identifier := "cap" } sampleAddress)).outcome
      = .ok (some (.CapabilityValue 7 sampleAddress
          (.reference (.EntitlementSet ["E"]) (.primitive "Int"))), none) :=
  (Migrate_account_upgrade_only sampleMigration sampleConversions sampleStorageKey
    (some (.reference (.EntitlementSet ["E"]) (.primitive "Int")))
    { Domain := .PathDomainPublic, Identifier := "cap" } sampleAddress 7 { ID := "SomeType" }
    (.EntitlementSet ["E"]) (.primitive "Int") rfl rfl).1 (by decide)

/-! ## The error and the reporter of `Migrate` -/

theorem Migrate_outcome_reporter (m : CapabilityValueMigration) (cv : Conversions)
    (storageKey : StorageKey) (value : Value) (reporter : Bool) :
    (({ m with Reporter := reporter } : CapabilityValueMigration).Migrate cv storageKey
        value).outcome
      = (m.Migrate cv storageKey value).outcome := by
  cases value with
  | PathCapabilityValue borrowType path address =>
    cases hget : m.CapabilityMapping.Get (AddressPathOf address path) with
    | none =>
      rw [Migrate_unmapped { m with Reporter := reporter } cv storageKey borrowType path
          address hget,
        Migrate_unmapped m cv storageKey borrowType path address hget]
    | some entry =>
      obtain ⟨capabilityID, controllerBorrowType⟩ := entry
      rw [Migrate_resolved { m with Reporter := reporter } cv storageKey borrowType path
          address capabilityID controllerBorrowType hget,
        Migrate_resolved m cv storageKey borrowType path address capabilityID
          controllerBorrowType hget]
      cases resolveBorrowType cv borrowType controllerBorrowType <;> rfl
  | CapabilityValue id address borrowType => rfl
  | BoolValue b => rfl
  | StringValue s => rfl
  | ArrayValue elements => rfl

theorem Migrate_panic_cases (m : CapabilityValueMigration) (cv : Conversions)
    (storageKey : StorageKey) (value : Value) (p : PanicValue)
    (hp : (m.Migrate cv storageKey value).outcome = .error p) :
    p = .UnexpectedError "unexpected non-reference borrow type" ∧
    ∃ borrowType path address capabilityID controllerBorrowType,
      value = .PathCapabilityValue borrowType path address ∧
      m.CapabilityMapping.Get (AddressPathOf address path)
        = some (capabilityID, controllerBorrowType) ∧
      ∀ authorization referencedType,
        resolveBorrowType cv borrowType controllerBorrowType
          ≠ .reference authorization referencedType := by
  cases value with
  | PathCapabilityValue borrowType path address =>
    cases hget : m.CapabilityMapping.Get (AddressPathOf address path) with
    | none =>
      rw [Migrate_unmapped m cv storageKey borrowType path address hget] at hp
      cases hp
    | some entry =>
      obtain ⟨capabilityID, controllerBorrowType⟩ := entry
      rw [Migrate_resolved m cv storageKey borrowType path address capabilityID
          controllerBorrowType hget] at hp
      cases hb : resolveBorrowType cv borrowType controllerBorrowType with
      | reference authorization referencedType =>
        rw [hb] at hp
        cases hp
      | primitive name =>
        rw [hb] at hp
        cases hp
        exact ⟨rfl, borrowType, path, address, capabilityID, controllerBorrowType, rfl, hget,
          fun _ _ hh => StaticType.noConfusion (hb.symm.trans hh)⟩
      | optional t =>
        rw [hb] at hp
        cases hp
        exact ⟨rfl, borrowType, path, address, capabilityID, controllerBorrowType, rfl, hget,
          fun _ _ hh => StaticType.noConfusion (hb.symm.trans hh)⟩
      | composite typeID =>
        rw [hb] at hp
        cases hp
        exact ⟨rfl, borrowType, path, address, capabilityID, controllerBorrowType, rfl, hget,
          fun _ _ hh => StaticType.noConfusion (hb.symm.trans hh)⟩
  | CapabilityValue id address borrowType => cases hp
  | BoolValue b => cases hp
  | StringValue s => cases hp
  | ArrayValue elements => cases hp

/-- C38: `Migrate` never returns an error that is not nil.  For every input the call
either returns, and then the error of the pair is nil, or panics, and then the panic is the
unexpected error of a non-reference borrow type, on a path capability that the mapping has
and whose resolved borrow type is not a reference type.  What the call returns or panics
with is the same whether a reporter is set or not. -/
theorem Migrate_error_nil (m : CapabilityValueMigration) (cv : Conversions)
    (storageKey : StorageKey) (value : Value) :
    ((∃ result, (m.Migrate cv storageKey value).outcome = .ok (result, none)) ∨
      (m.Migrate cv storageKey value).outcome
        = .error (.UnexpectedError "unexpected non-reference borrow type")) ∧
    (∀ result err, (m.Migrate cv storageKey value).outcome = .ok (result, err) → err = none) ∧
    (∀ p, (m.Migrate cv storageKey value).outcome = .error p →
      p = .UnexpectedError "unexpected non-reference borrow type" ∧
      ∃ borrowType path address capabilityID controllerBorrowType,
        value = .PathCapabilityValue borrowType path address ∧
        m.CapabilityMapping.Get (AddressPathOf address path)
          = some (capabilityID, controllerBorrowType) ∧
        ∀ authorization referencedType,
          resolveBorrowType cv borrowType controllerBorrowType
            ≠ .reference authorization referencedType) ∧
    (∀ reporter : Bool,
      (({ m with Reporter := reporter } : CapabilityValueMigration).Migrate cv storageKey
          value).outcome
        = (m.Migrate cv storageKey value).outcome) := by
  refine ⟨?_, ?_, Migrate_panic_cases m cv storageKey value,
    Migrate_outcome_reporter m cv storageKey value⟩
  · rcases Migrate_outcome_cases m cv storageKey value with h | h | h
    · exact Or.inl ⟨none, h⟩
    · obtain ⟨_, _, _, _, _, _, h⟩ := h
      exact Or.inl ⟨_, h⟩
    · obtain ⟨_, _, _, _, h⟩ := h
      exact Or.inr h
  · intro result err hout
    rcases Migrate_outcome_cases m cv storageKey value with h | h | h
    · rw [h] at hout
      cases hout
      rfl
    · obtain ⟨_, _, _, _, _, _, h⟩ := h
      rw [h] at hout
      cases hout
      rfl
    · obtain ⟨_, _, _, _, h⟩ := h
      rw [h] at hout
      cases hout

/-! ## The writes and reports of a run, call by call -/

theorem eventsOfCalls_append (address : Address) (valueConverter : ValueConverter) :
    ∀ cs₁ cs₂ : List (PathDomain × String × Value),
      eventsOfCalls address valueConverter (cs₁ ++ cs₂)
        = eventsOfCalls address valueConverter cs₁ ++ eventsOfCalls address valueConverter cs₂
  | [], _ => rfl
  | c :: rest, cs₂ => by
    show callEvents address valueConverter c ++ eventsOfCalls address valueConverter (rest ++ cs₂)
      = (callEvents address valueConverter c ++ eventsOfCalls address valueConverter rest) ++ _
    rw [eventsOfCalls_append address valueConverter rest cs₂, List.append_assoc]

theorem mem_eventsOfCalls (address : Address) (valueConverter : ValueConverter)
    (e : StorageEvent) :
    ∀ cs : List (PathDomain × String × Value),
      e ∈ eventsOfCalls address valueConverter cs
        ↔ ∃ c ∈ cs, e ∈ callEvents address valueConverter c
  | [] => by simp [eventsOfCalls]
  | c :: rest => by
    have ih := mem_eventsOfCalls address valueConverter e rest
    unfold eventsOfCalls
    rw [List.mem_append, ih]
    constructor
    · rintro (h | ⟨c', hc', h⟩)
      · exact ⟨c, List.mem_cons_self _ _, h⟩
      · exact ⟨c', List.mem_cons_of_mem _ hc', h⟩
    · rintro ⟨c', hc', h⟩
      rcases List.mem_cons.mp hc' with rfl | hc'
      · exact Or.inl h
      · exact Or.inr ⟨c', hc', h⟩

theorem visitEntries_eventsOfCalls (address : Address) (domain : PathDomain)
    (valueConverter : ValueConverter) :
    ∀ es : List (String × Value),
      (visitEntries address domain valueConverter es).trace
        = eventsOfCalls address valueConverter
            (converterCalls (visitEntries address domain valueConverter es).trace)
  | [] => rfl
  | (key, value) :: rest => by
    have ih := visitEntries_eventsOfCalls address domain valueConverter rest
    unfold visitEntries
    cases hout : (valueConverter value).outcome with
    | error p =>
      show [StorageEvent.valueConverter domain key value (valueConverter value).effects]
        = callEvents address valueConverter (domain, key, value) ++ []
      unfold callEvents
      simp only [hout, List.append_nil]
    | ok r =>
      obtain ⟨newValue, updated⟩ := r
      have hcons : converterCalls
          (StorageEvent.valueConverter domain key value (valueConverter value).effects ::
            (entryEvents address domain key newValue updated ++
              (visitEntries address domain valueConverter rest).trace))
          = (domain, key, value) ::
            converterCalls (visitEntries address domain valueConverter rest).trace := by
        show (domain, key, value) :: converterCalls (_ ++ _) = _
        rw [converterCalls_append, converterCalls_entryEvents, List.nil_append]
      show StorageEvent.valueConverter domain key value (valueConverter value).effects ::
          (entryEvents address domain key newValue updated ++
            (visitEntries address domain valueConverter rest).trace)
        = eventsOfCalls address valueConverter (converterCalls (_ :: _))
      rw [hcons]
      unfold eventsOfCalls
      rw [← ih]
      unfold callEvents
      simp only [hout, List.cons_append]

theorem forDomain_eventsOfCalls (address : Address) (valueConverter : ValueConverter)
    (run : Run) (domain : PathDomain)
    (h : run.trace = eventsOfCalls address valueConverter (converterCalls run.trace)) :
    (forDomain address valueConverter run domain).trace
      = eventsOfCalls address valueConverter
          (converterCalls (forDomain address valueConverter run domain).trace) := by
  cases hm : run.storage.GetStorageMap address domain.Identifier with
  | none =>
    rw [forDomain_absent address valueConverter run domain hm]
    exact h
  | some m =>
    obtain ⟨htrace, _⟩ := forDomain_visit address valueConverter run domain m hm
    rw [htrace, converterCalls_append, eventsOfCalls_append, ← h,
      ← visitEntries_eventsOfCalls address domain valueConverter m.entries]

theorem forDomains_eventsOfCalls (address : Address) (valueConverter : ValueConverter) :
    ∀ (domains : List PathDomain) (run : Run),
      run.trace = eventsOfCalls address valueConverter (converterCalls run.trace) →
      (forDomains address valueConverter domains run).trace
        = eventsOfCalls address valueConverter
            (converterCalls (forDomains address valueConverter domains run).trace)
  | [], _, h => h
  | domain :: rest, run, h => by
    have h1 := forDomain_eventsOfCalls address valueConverter run domain h
    unfold forDomains
    cases hs : (forDomain address valueConverter run domain).stop with
    | some p =>
      simp only [hs]
      exact h1
    | none =>
      simp only [hs]
      exact forDomains_eventsOfCalls address valueConverter rest _ h1



theorem callEvents_cases (address : Address) (valueConverter : ValueConverter)
    (c : PathDomain × String × Value) :
    (∀ p, (valueConverter c.2.2).outcome = .error p →
      callEvents address valueConverter c
        = [.valueConverter c.1 c.2.1 c.2.2 (valueConverter c.2.2).effects]) ∧
    ((valueConverter c.2.2).outcome = .ok (none, false) →
      callEvents address valueConverter c
        = [.valueConverter c.1 c.2.1 c.2.2 (valueConverter c.2.2).effects]) ∧
    ((valueConverter c.2.2).outcome = .ok (none, true) →
      callEvents address valueConverter c
        = [.valueConverter c.1 c.2.1 c.2.2 (valueConverter c.2.2).effects,
           .Report address c.1 c.2.1]) ∧
    (∀ newValue updated, (valueConverter c.2.2).outcome = .ok (some newValue, updated) →
      callEvents address valueConverter c
        = [.valueConverter c.1 c.2.1 c.2.2 (valueConverter c.2.2).effects,
           .SetValue c.1 c.2.1 newValue, .Report address c.1 c.2.1]) := by
  refine ⟨fun p h => ?_, fun h => ?_, fun h => ?_, fun newValue updated h => ?_⟩
  · unfold callEvents
    rw [h]
  · unfold callEvents
    rw [h]
    rfl
  · unfold callEvents
    rw [h]
    rfl
  · unfold callEvents
    rw [h]
    cases updated <;> rfl

theorem mem_callEvents_SetValue (address : Address) (valueConverter : ValueConverter)
    (c : PathDomain × String × Value) (d : PathDomain) (k : String) (w : Value) :
    StorageEvent.SetValue d k w ∈ callEvents address valueConverter c
      ↔ d = c.1 ∧ k = c.2.1 ∧ ∃ updated, (valueConverter c.2.2).outcome = .ok (some w, updated) := by
  obtain ⟨herr, hnone, hrep, hset⟩ := callEvents_cases address valueConverter c
  cases hout : (valueConverter c.2.2).outcome with
  | error p =>
    rw [herr p hout]
    constructor
    · intro h
      rcases List.mem_singleton.mp h with h
      cases h
    · rintro ⟨_, _, _, h⟩
      cases h
  | ok r =>
    obtain ⟨newValue, updated⟩ := r
    cases newValue with
    | none =>
      cases updated with
      | false =>
        rw [hnone hout]
        constructor
        · intro h
          rcases List.mem_singleton.mp h with h
          cases h
        · rintro ⟨_, _, _, h⟩
          cases h
      | true =>
        rw [hrep hout]
        constructor
        · intro h
          rcases List.mem_cons.mp h with h | h
          · cases h
          · rcases List.mem_singleton.mp h with h
            cases h
        · rintro ⟨_, _, _, h⟩
          cases h
    | some v =>
      rw [hset v updated hout]
      constructor
      · intro h
        rcases List.mem_cons.mp h with h | h
        · cases h
        · rcases List.mem_cons.mp h with h | h
          · cases h
            exact ⟨rfl, rfl, updated, rfl⟩
          · rcases List.mem_singleton.mp h with h
            cases h
      · rintro ⟨hd, hk, u, h⟩
        cases h
        rw [hd, hk]
        exact List.mem_cons_of_mem _ (List.mem_cons_self _ _)

theorem mem_callEvents_Report (address : Address) (valueConverter : ValueConverter)
    (c : PathDomain × String × Value) (a : Address) (d : PathDomain) (k : String) :
    StorageEvent.Report a d k ∈ callEvents address valueConverter c
      ↔ a = address ∧ d = c.1 ∧ k = c.2.1 ∧
        ∃ newValue updated, (valueConverter c.2.2).outcome = .ok (newValue, updated) ∧
          (newValue.isSome = true ∨ updated = true) := by
  obtain ⟨herr, hnone, hrep, hset⟩ := callEvents_cases address valueConverter c
  cases hout : (valueConverter c.2.2).outcome with
  | error p =>
    rw [herr p hout]
    constructor
    · intro h
      rcases List.mem_singleton.mp h with h
      cases h
    · rintro ⟨_, _, _, _, _, h, _⟩
      cases h
  | ok r =>
    obtain ⟨newValue, updated⟩ := r
    cases newValue with
    | none =>
      cases updated with
      | false =>
        rw [hnone hout]
        constructor
        · intro h
          rcases List.mem_singleton.mp h with h
          cases h
        · rintro ⟨_, _, _, nv, u, h, hor⟩
          cases h
          rcases hor with hor | hor <;> cases hor
      | true =>
        rw [hrep hout]
        constructor
        · intro h
          rcases List.mem_cons.mp h with h | h
          · cases h
          · rcases List.mem_singleton.mp h with h
            cases h
            exact ⟨rfl, rfl, rfl, none, true, rfl, Or.inr rfl⟩
        · rintro ⟨ha, hd, hk, _⟩
          rw [ha, hd, hk]
          exact List.mem_cons_of_mem _ (List.mem_cons_self _ _)
    | some v =>
      rw [hset v updated hout]
      constructor
      · intro h
        rcases List.mem_cons.mp h with h | h
        · cases h
        · rcases List.mem_cons.mp h with h | h
          · cases h
          · rcases List.mem_singleton.mp h with h
            cases h
            exact ⟨rfl, rfl, rfl, some v, updated, rfl, Or.inl rfl⟩
      · rintro ⟨ha, hd, hk, _⟩
        rw [ha, hd, hk]
        exact List.mem_cons_of_mem _ (List.mem_cons_of_mem _ (List.mem_cons_self _ _))

/-- C37: what `ForEachValue` does is, call of the converter after call, the call followed
by nothing if the converter returns no new value and `updated = false`, by a call of
`Report` and no write if it returns no new value and `updated = true`, and by the write of
the new value and a call of `Report` if it returns a new value.  So a write of a value
under an identifier of a domain is in the run exactly if the converter returned this value
as new value in a call for this identifier, and a call of `Report` exactly if the converter
returned a new value or `updated = true` in a call for the identifier. -/
theorem ForEachValue_writes_reports (i : AccountStorage) (domains : List PathDomain)
    (valueConverter : ValueConverter) :
    (i.ForEachValue domains valueConverter).trace
      = eventsOfCalls i.address valueConverter
          (converterCalls (i.ForEachValue domains valueConverter).trace) ∧
    (∀ c : PathDomain × String × Value,
      ((valueConverter c.2.2).outcome = .ok (none, false) →
        callEvents i.address valueConverter c
          = [.valueConverter c.1 c.2.1 c.2.2 (valueConverter c.2.2).effects]) ∧
      ((valueConverter c.2.2).outcome = .ok (none, true) →
        callEvents i.address valueConverter c
          = [.valueConverter c.1 c.2.1 c.2.2 (valueConverter c.2.2).effects,
             .Report i.address c.1 c.2.1]) ∧
      (∀ newValue updated, (valueConverter c.2.2).outcome = .ok (some newValue, updated) →
        callEvents i.address valueConverter c
          = [.valueConverter c.1 c.2.1 c.2.2 (valueConverter c.2.2).effects,
             .SetValue c.1 c.2.1 newValue, .Report i.address c.1 c.2.1])) ∧
    (∀ (d : PathDomain) (k : String) (w : Value),
      StorageEvent.SetValue d k w ∈ (i.ForEachValue domains valueConverter).trace
        ↔ ∃ v updated,
            (d, k, v) ∈ converterCalls (i.ForEachValue domains valueConverter).trace ∧
            (valueConverter v).outcome = .ok (some w, updated)) ∧
    (∀ (a : Address) (d : PathDomain) (k : String),
      StorageEvent.Report a d k ∈ (i.ForEachValue domains valueConverter).trace
        ↔ a = i.address ∧ ∃ v newValue updated,
            (d, k, v) ∈ converterCalls (i.ForEachValue domains valueConverter).trace ∧
            (valueConverter v).outcome = .ok (newValue, updated) ∧
            (newValue.isSome = true ∨ updated = true)) := by
  have hdec : (i.ForEachValue domains valueConverter).trace
      = eventsOfCalls i.address valueConverter
          (converterCalls (i.ForEachValue domains valueConverter).trace) :=
    forDomains_eventsOfCalls i.address valueConverter domains
      { storage := i.storage, trace := [], stop := none } rfl
  refine ⟨hdec, fun c => (callEvents_cases i.address valueConverter c).2, ?_, ?_⟩
  · intro d k w
    rw [hdec, mem_eventsOfCalls, ← hdec]
    constructor
    · rintro ⟨c, hc, h⟩
      obtain ⟨hd, hk, updated, hout⟩ :=
        (mem_callEvents_SetValue i.address valueConverter c d k w).mp h
      refine ⟨c.2.2, updated, ?_, hout⟩
      rw [hd, hk]
      exact hc
    · rintro ⟨v, updated, hc, hout⟩
      exact ⟨(d, k, v), hc,
        (mem_callEvents_SetValue i.address valueConverter (d, k, v) d k w).mpr
          ⟨rfl, rfl, updated, hout⟩⟩
  · intro a d k
    rw [hdec, mem_eventsOfCalls, ← hdec]
    constructor
    · rintro ⟨c, hc, h⟩
      obtain ⟨ha, hd, hk, newValue, updated, hout, hor⟩ :=
        (mem_callEvents_Report i.address valueConverter c a d k).mp h
      refine ⟨ha, c.2.2, newValue, updated, ?_, hout, hor⟩
      rw [hd, hk]
      exact hc
    · rintro ⟨ha, v, newValue, updated, hc, hout, hor⟩
      exact ⟨(d, k, v), hc,
        (mem_callEvents_Report i.address valueConverter (d, k, v) a d k).mpr
          ⟨ha, rfl, rfl, newValue, updated, hout, hor⟩⟩

/-- Witness of C37 at the sample account: the converter returns `updated = true` and no new
value for the string under `b`, which is reported and not written, and a new value for the
boolean under `a`, which is written and reported. -/
theorem ForEachValue_writes_reports_witness :
    (sampleAccount.ForEachValue [.PathDomainStorage] sampleConverter).trace
      = [.valueConverter .PathDomainStorage "a" (.BoolValue true) [],
         .SetValue .PathDomainStorage "a" (.BoolValue false),
         .Report sampleAddress .PathDomainStorage "a",
         .valueConverter .PathDomainStorage "b" (.StringValue "x") [],
         .Report sampleAddress .PathDomainStorage "b",
         .valueConverter .PathDomainStorage "c" (.BoolValue false) [],
         .SetValue .PathDomainStorage "c" (.BoolValue true),
         .Report sampleAddress .PathDomainStorage "c"] ∧
    callEvents sampleAccount.address sampleConverter
        (.PathDomainStorage, "b", .StringValue "x")
      = [.valueConverter .PathDomainStorage "b" (.StringValue "x") [],
         .Report sampleAddress .PathDomainStorage "b"] :=
  ⟨rfl,
   ((ForEachValue_writes_reports sampleAccount [.PathDomainStorage] sampleConverter).2.1
      (.PathDomainStorage, "b", .StringValue "x")).2.1 rfl⟩

/-! ## The stored value is the last replacement -/

theorem filterMap_none {α β : Type} (f : α → Option β) :
    ∀ l : List α, (∀ a ∈ l, f a = none) → l.filterMap f = []
  | [], _ => rfl
  | a :: rest, h => by
    rw [List.filterMap_cons, h a (List.mem_cons_self _ _)]
    exact filterMap_none f rest (fun b hb => h b (List.mem_cons_of_mem _ hb))

theorem getLast_getD_append {α : Type} (l₁ l₂ : List α) (v : α) :
    ((l₁ ++ l₂).getLast?).getD v = (l₂.getLast?).getD ((l₁.getLast?).getD v) := by
  rcases List.eq_nil_or_concat l₂ with h | ⟨L, a, h⟩
  · rw [h, List.append_nil]
    rfl
  · rw [h, List.concat_eq_append, ← List.append_assoc, List.getLast?_concat,
      List.getLast?_concat]
    rfl

theorem replacements_append (valueConverter : ValueConverter) (domain : PathDomain)
    (identifier : String) (l₁ l₂ : List StorageEvent) :
    replacements valueConverter domain identifier (l₁ ++ l₂)
      = replacements valueConverter domain identifier l₁
        ++ replacements valueConverter domain identifier l₂ := by
  unfold replacements
  rw [converterCalls_append, List.filterMap_append]

theorem mem_converterCalls_domain (c : PathDomain × String × Value) :
    ∀ trace : List StorageEvent, c ∈ converterCalls trace → ∃ e ∈ trace, e.domain = c.1
  | [], h => by cases h
  | e :: rest, h => by
    unfold converterCalls at h
    rw [List.filterMap_cons] at h
    cases e with
    | valueConverter d k v effects =>
      simp only [List.mem_cons] at h
      rcases h with h | h
      · exact ⟨_, List.mem_cons_self _ _, by rw [h]; rfl⟩
      · obtain ⟨e', he', hd⟩ := mem_converterCalls_domain c rest h
        exact ⟨e', List.mem_cons_of_mem _ he', hd⟩
    | SetValue d k v =>
      simp only at h
      obtain ⟨e', he', hd⟩ := mem_converterCalls_domain c rest h
      exact ⟨e', List.mem_cons_of_mem _ he', hd⟩
    | Report a d k =>
      simp only at h
      obtain ⟨e', he', hd⟩ := mem_converterCalls_domain c rest h
      exact ⟨e', List.mem_cons_of_mem _ he', hd⟩

theorem replacements_other_domain (valueConverter : ValueConverter) (domain : PathDomain)
    (identifier : String) (trace : List StorageEvent)
    (h : ∀ e ∈ trace, e.domain ≠ domain) :
    replacements valueConverter domain identifier trace = [] := by
  unfold replacements
  apply filterMap_none
  intro c hc
  obtain ⟨e, he, hd⟩ := mem_converterCalls_domain c trace hc
  unfold replacementOf
  rw [if_neg]
  rintro ⟨h1, _⟩
  exact h e he (hd.trans h1)

theorem replacements_visit_absent (address : Address) (domain d : PathDomain)
    (valueConverter : ValueConverter) (identifier : String) (es : List (String × Value))
    (h : identifier ∉ es.map Prod.fst) :
    replacements valueConverter d identifier
      (visitEntries address domain valueConverter es).trace = [] := by
  unfold replacements
  apply filterMap_none
  intro c hc
  have hmem := (converterCalls_visit address domain valueConverter es).1.subset hc
  obtain ⟨e, he, hce⟩ := List.mem_map.mp hmem
  unfold replacementOf
  rw [if_neg]
  rintro ⟨_, h2⟩
  apply h
  rw [← h2, ← hce]
  exact List.mem_map.mpr ⟨e, he, rfl⟩

theorem visitEntries_replacements (address : Address) (domain : PathDomain)
    (valueConverter : ValueConverter) :
    ∀ es : List (String × Value), (es.map Prod.fst).Nodup →
      (visitEntries address domain valueConverter es).entries
        = es.map fun e =>
            (e.1, ((replacements valueConverter domain e.1
              (visitEntries address domain valueConverter es).trace).getLast?).getD e.2)
  | [], _ => rfl
  | (key, value) :: rest, hnd => by
    rw [List.map_cons, List.nodup_cons] at hnd
    obtain ⟨hkey, hrest⟩ := hnd
    have ih := visitEntries_replacements address domain valueConverter rest hrest
    have habs := replacements_visit_absent address domain domain valueConverter key rest hkey
    cases hout : (valueConverter value).outcome with
    | error p =>
      have hv : visitEntries address domain valueConverter ((key, value) :: rest)
          = { entries := (key, value) :: rest
              trace := [.valueConverter domain key value (valueConverter value).effects]
              stop := some (.panic p) } := by
        rw [visitEntries]
        simp only [hout]
      rw [hv]
      have hnone : ∀ k, replacements valueConverter domain k
          [.valueConverter domain key value (valueConverter value).effects] = [] := by
        intro k
        have hc : replacementOf valueConverter domain k (domain, key, value) = none := by
          unfold replacementOf
          simp only [hout]
          split <;> rfl
        show List.filterMap (replacementOf valueConverter domain k) [(domain, key, value)] = []
        rw [List.filterMap_cons, hc]
        rfl
      simp only [hnone, List.getLast?_nil, Option.getD_none, List.map_cons, Prod.mk.eta,
        List.map_id']
    | ok r =>
      obtain ⟨newValue, updated⟩ := r
      have hv : visitEntries address domain valueConverter ((key, value) :: rest)
          = { entries := (key, stored newValue value) ::
                (visitEntries address domain valueConverter rest).entries
              trace := .valueConverter domain key value (valueConverter value).effects ::
                (entryEvents address domain key newValue updated ++
                  (visitEntries address domain valueConverter rest).trace)
              stop := (visitEntries address domain valueConverter rest).stop } := by
        rw [visitEntries]
        simp only [hout]
      rw [hv]
      have hsplit : ∀ k, replacements valueConverter domain k
          (.valueConverter domain key value (valueConverter value).effects ::
            (entryEvents address domain key newValue updated ++
              (visitEntries address domain valueConverter rest).trace))
          = (replacementOf valueConverter domain k (domain, key, value)).toList
            ++ replacements valueConverter domain k
              (visitEntries address domain valueConverter rest).trace := by
        intro k
        have h1 : converterCalls
            (.valueConverter domain key value (valueConverter value).effects ::
              (entryEvents address domain key newValue updated ++
                (visitEntries address domain valueConverter rest).trace))
            = (domain, key, value) ::
              converterCalls (visitEntries address domain valueConverter rest).trace := by
          have h2 := converterCalls_append
            (entryEvents address domain key newValue updated)
            (visitEntries address domain valueConverter rest).trace
          rw [converterCalls_entryEvents, List.nil_append] at h2
          rw [← h2]
          rfl
        unfold replacements
        rw [h1, List.filterMap_cons]
        cases replacementOf valueConverter domain k (domain, key, value) <;> rfl
      simp only [List.map_cons]
      congr 1
      · rw [hsplit key, habs, List.append_nil]
        unfold replacementOf
        simp only [and_self, if_true, hout]
        cases newValue <;> rfl
      · rw [ih]
        apply List.map_congr_left
        intro e he
        have hne : e.1 ≠ key := by
          intro heq
          apply hkey
          rw [← heq]
          exact List.mem_map.mpr ⟨e, he, rfl⟩
        rw [hsplit e.1]
        have : replacementOf valueConverter domain e.1 (domain, key, value) = none := by
          unfold replacementOf
          rw [if_neg]
          rintro ⟨_, h2⟩
          exact hne h2.symm
        rw [this]
        rfl

theorem forDomain_replacements (address : Address) (valueConverter : ValueConverter)
    (run : Run) (domain : PathDomain) :
    ∃ evs, (forDomain address valueConverter run domain).trace = run.trace ++ evs ∧
      ∀ d : PathDomain,
        ((forDomain address valueConverter run domain).storage.maps address
            d.Identifier).map StorageMap.entries
          = (run.storage.maps address d.Identifier).map fun m =>
              m.entries.map fun e =>
                (e.1, ((replacements valueConverter d e.1 evs).getLast?).getD e.2) := by
  cases hm : run.storage.GetStorageMap address domain.Identifier with
  | none =>
    rw [forDomain_absent address valueConverter run domain hm]
    refine ⟨[], (List.append_nil _).symm, fun d => ?_⟩
    cases run.storage.maps address d.Identifier with
    | none => rfl
    | some m =>
      simp only [Option.map_some', Option.some.injEq]
      exact (List.map_id' _).symm
  | some m =>
    obtain ⟨h1, _, ⟨m', hm', he⟩, h4⟩ := forDomain_visit address valueConverter run domain m hm
    refine ⟨_, h1, fun d => ?_⟩
    by_cases hd : d = domain
    · subst hd
      have hm1 : (forDomain address valueConverter run d).storage.maps address d.Identifier
          = some m' := hm'
      have hm2 : run.storage.maps address d.Identifier = some m := hm
      rw [hm1, hm2]
      simp only [Option.map_some', Option.some.injEq]
      rw [he]
      exact visitEntries_replacements address d valueConverter m.entries m.nodup
    · rw [h4 address d.Identifier (fun h => hd (Identifier_injective h.2))]
      have hnone : ∀ k, replacements valueConverter d k
          (visitEntries address domain valueConverter m.entries).trace = [] := fun k =>
        replacements_other_domain valueConverter d k _ (fun e he' hdom =>
          hd ((visitEntries_domain address domain valueConverter m.entries e he').symm.trans
            hdom).symm)
      cases run.storage.maps address d.Identifier with
      | none => rfl
      | some m2 =>
        simp only [Option.map_some', Option.some.injEq, hnone, List.getLast?_nil,
          Option.getD_none]
        exact (List.map_id' _).symm

theorem forDomains_replacements (address : Address) (valueConverter : ValueConverter) :
    ∀ (domains : List PathDomain) (run : Run),
      ∃ evs, (forDomains address valueConverter domains run).trace = run.trace ++ evs ∧
        ∀ d : PathDomain,
          ((forDomains address valueConverter domains run).storage.maps address
              d.Identifier).map StorageMap.entries
            = (run.storage.maps address d.Identifier).map fun m =>
                m.entries.map fun e =>
                  (e.1, ((replacements valueConverter d e.1 evs).getLast?).getD e.2)
  | [], run => by
    refine ⟨[], (List.append_nil _).symm, fun d => ?_⟩
    simp only [forDomains]
    cases run.storage.maps address d.Identifier with
    | none => rfl
    | some m =>
      simp only [Option.map_some', Option.some.injEq]
      exact (List.map_id' _).symm
  | b :: bs, run => by
    obtain ⟨evs, htr, hst⟩ := forDomain_replacements address valueConverter run b
    simp only [forDomains]
    cases hs : (forDomain address valueConverter run b).stop with
    | some s => exact ⟨evs, htr, hst⟩
    | none =>
      simp only
      obtain ⟨evs', htr', hst'⟩ := forDomains_replacements address valueConverter bs
        (forDomain address valueConverter run b)
      refine ⟨evs ++ evs', by rw [htr', htr, List.append_assoc], fun d => ?_⟩
      have h1 := hst d
      rw [hst' d]
      cases hm1 : (forDomain address valueConverter run b).storage.maps address
          d.Identifier with
      | none =>
        rw [hm1] at h1
        cases hm2 : run.storage.maps address d.Identifier with
        | none => rfl
        | some m2 =>
          rw [hm2] at h1
          cases h1
      | some m1 =>
        rw [hm1] at h1
        cases hm2 : run.storage.maps address d.Identifier with
        | none =>
          rw [hm2] at h1
          cases h1
        | some m2 =>
          rw [hm2] at h1
          simp only [Option.map_some', Option.some.injEq] at h1 ⊢
          rw [h1, List.map_map]
          apply List.map_congr_left
          intro e _
          simp only [Function.comp, replacements_append, getLast_getD_append]

theorem written_append (domain : PathDomain) (identifier : String)
    (l₁ l₂ : List StorageEvent) :
    written domain identifier (l₁ ++ l₂)
      = written domain identifier l₁ ++ written domain identifier l₂ := by
  unfold written
  exact List.filterMap_append _ _ _

theorem written_callEvents (address : Address) (valueConverter : ValueConverter)
    (domain : PathDomain) (identifier : String) (c : PathDomain × String × Value) :
    written domain identifier (callEvents address valueConverter c)
      = (replacementOf valueConverter domain identifier c).toList := by
  unfold callEvents replacementOf written
  by_cases hc : c.1 = domain ∧ c.2.1 = identifier
  · cases hout : (valueConverter c.2.2).outcome with
    | error p => simp only [hc, and_self, List.filterMap_cons, List.filterMap_nil, if_true, Option.toList]
    | ok r =>
      obtain ⟨newValue, updated⟩ := r
      cases newValue with
      | none =>
        cases updated
        · simp only [hc, and_self, entryEvents, Option.isNone_none, and_self, if_true,
            List.filterMap_cons, List.filterMap_nil, Option.toList]
        · simp +decide only [hc, and_self, entryEvents, Option.isNone_none, and_false, if_false,
            List.nil_append, List.filterMap_cons, List.filterMap_nil, if_true, Option.toList]
      | some w =>
        simp +decide only [hc, entryEvents, Option.isNone_some, false_and, if_false,
          List.singleton_append, List.filterMap_cons, List.filterMap_nil, if_true,
          Option.toList, and_self]
  · cases hout : (valueConverter c.2.2).outcome with
    | error p => simp only [hc, List.filterMap_cons, List.filterMap_nil, if_false, Option.toList]
    | ok r =>
      obtain ⟨newValue, updated⟩ := r
      cases newValue with
      | none =>
        cases updated
        · simp only [hc, entryEvents, Option.isNone_none, and_self, if_true,
            List.filterMap_cons, List.filterMap_nil, if_false, Option.toList]
        · simp +decide only [hc, entryEvents, Option.isNone_none, and_false, if_false,
            List.nil_append, List.filterMap_cons, List.filterMap_nil, Option.toList]
      | some w =>
        simp +decide only [hc, entryEvents, Option.isNone_some, false_and, if_false,
          List.singleton_append, List.filterMap_cons, List.filterMap_nil, Option.toList]

theorem written_eventsOfCalls (address : Address) (valueConverter : ValueConverter)
    (domain : PathDomain) (identifier : String) :
    ∀ cs : List (PathDomain × String × Value),
      written domain identifier (eventsOfCalls address valueConverter cs)
        = cs.filterMap (replacementOf valueConverter domain identifier)
  | [] => rfl
  | c :: rest => by
    unfold eventsOfCalls
    rw [written_append, written_callEvents,
      written_eventsOfCalls address valueConverter domain identifier rest, List.filterMap_cons]
    cases replacementOf valueConverter domain identifier c <;> rfl

theorem forDomains_written (address : Address) (valueConverter : ValueConverter)
    (domains : List PathDomain) (s : Storage) (domain : PathDomain) (identifier : String) :
    written domain identifier
        (forDomains address valueConverter domains
          { storage := s, trace := [], stop := none }).trace
      = replacements valueConverter domain identifier
        (forDomains address valueConverter domains
          { storage := s, trace := [], stop := none }).trace := by
  have h := forDomains_eventsOfCalls address valueConverter domains
    { storage := s, trace := [], stop := none } rfl
  rw [replacements, ← written_eventsOfCalls address valueConverter domain identifier, ← h]

/-- C17: after `ForEachValue` over a list of domains, the storage map of every domain of the
account has the same identifiers in the same order as before the run, and the value under an
identifier is the replacement that the converter returned for the entry (the last one it
returned, when the domain is listed more than once and the entry is visited again), and the
value stored before the run if the converter returned none.  The replacements of an entry
are the new values that the converter returned in its calls for the entry, and they are
just the values written under its identifier.  For a domain that is listed once, after a
run that returned, the stored value is the replacement of the converter for the value stored
before the run, or that value.  A domain that is not listed is untouched, and so is every
map of another account or name. -/
theorem ForEachValue_stored_replacement (i : AccountStorage) (domains : List PathDomain)
    (valueConverter : ValueConverter) :
    (∀ d : PathDomain,
      ((i.ForEachValue domains valueConverter).storage.maps i.address
          d.Identifier).map StorageMap.entries
        = (i.storage.maps i.address d.Identifier).map fun m =>
            m.entries.map fun e =>
              (e.1, ((replacements valueConverter d e.1
                (i.ForEachValue domains valueConverter).trace).getLast?).getD e.2)) ∧
    (∀ (d : PathDomain) (k : String) (w : Value),
      w ∈ replacements valueConverter d k (i.ForEachValue domains valueConverter).trace
        ↔ ∃ v updated,
            (d, k, v) ∈ converterCalls (i.ForEachValue domains valueConverter).trace ∧
            (valueConverter v).outcome = .ok (some w, updated)) ∧
    (∀ (d : PathDomain) (k : String),
      written d k (i.ForEachValue domains valueConverter).trace
        = replacements valueConverter d k (i.ForEachValue domains valueConverter).trace) ∧
    ((i.ForEachValue domains valueConverter).stop = none →
      ∀ d : PathDomain, domains.count d = 1 →
        ((i.ForEachValue domains valueConverter).storage.maps i.address
            d.Identifier).map StorageMap.entries
          = (i.storage.maps i.address d.Identifier).map fun m =>
              m.entries.map fun e => (e.1, visited valueConverter e.2)) ∧
    (∀ d : PathDomain, d ∉ domains →
      (i.ForEachValue domains valueConverter).storage.maps i.address d.Identifier
        = i.storage.maps i.address d.Identifier) ∧
    (∀ a id, (a ≠ i.address ∨ ∀ domain ∈ domains, domain.Identifier ≠ id) →
      (i.ForEachValue domains valueConverter).storage.maps a id = i.storage.maps a id) := by
  refine ⟨fun d => ?_, fun d k w => ?_, fun d k => ?_, fun hdone d hd => ?_, fun d hd => ?_,
    fun a id h => ?_⟩
  · obtain ⟨evs, htr, hst⟩ := forDomains_replacements i.address valueConverter domains
      { storage := i.storage, trace := [], stop := none }
    have hevs : (i.ForEachValue domains valueConverter).trace = evs := by
      rw [← List.nil_append evs]
      exact htr
    rw [hevs]
    exact hst d
  · unfold replacements
    rw [List.mem_filterMap]
    constructor
    · rintro ⟨c, hc, hw⟩
      obtain ⟨cd, ck, cv⟩ := c
      unfold replacementOf at hw
      by_cases hcond : cd = d ∧ ck = k
      · obtain ⟨rfl, rfl⟩ := hcond
        simp only [and_self, if_true] at hw
        cases hout : (valueConverter cv).outcome with
        | error p =>
          rw [hout] at hw
          cases hw
        | ok r =>
          obtain ⟨newValue, updated⟩ := r
          rw [hout] at hw
          cases newValue with
          | none => cases hw
          | some x =>
            simp only [Option.some.injEq] at hw
            exact ⟨cv, updated, hc, hw ▸ hout⟩
      · simp only [hcond, if_false] at hw
        cases hw
    · rintro ⟨v, updated, hc, hout⟩
      refine ⟨(d, k, v), hc, ?_⟩
      unfold replacementOf
      simp only [and_self, if_true, hout]
  · exact forDomains_written i.address valueConverter domains i.storage d k
  · have := forDomains_stored i.address valueConverter d domains
      { storage := i.storage, trace := [], stop := none } hdone
    rw [hd] at this
    exact this
  · exact forDomains_other i.address valueConverter i.address d.Identifier domains _
      (Or.inr fun domain hdom hid => hd (Identifier_injective hid ▸ hdom))
  · exact forDomains_other i.address valueConverter a id domains _ h

/-- An instance of C17 at the sample account over the list `storage`, `storage`: the
converter, which negates a boolean, returns for the entry `a` first `false` and, when the
domain is visited again, `true`, and the entry holds the last of them. -/
theorem ForEachValue_stored_replacement_witness :
    replacements sampleConverter .PathDomainStorage "a"
      (sampleAccount.ForEachValue [.PathDomainStorage, .PathDomainStorage]
        sampleConverter).trace = [.BoolValue false, .BoolValue true] ∧
    ((sampleAccount.ForEachValue [.PathDomainStorage, .PathDomainStorage]
        sampleConverter).storage.maps sampleAddress "storage").map StorageMap.entries
      = some [("a", .BoolValue true), ("b", .StringValue "x"), ("c", .BoolValue false)] ∧
    ((sampleAccount.ForEachValue [.PathDomainStorage, .PathDomainStorage]
        sampleConverter).storage.maps sampleAccount.address
          PathDomain.PathDomainStorage.Identifier).map StorageMap.entries
      = (sampleAccount.storage.maps sampleAccount.address
          PathDomain.PathDomainStorage.Identifier).map fun m =>
            m.entries.map fun e =>
              (e.1, ((replacements sampleConverter .PathDomainStorage e.1
                (sampleAccount.ForEachValue [.PathDomainStorage, .PathDomainStorage]
                  sampleConverter).trace).getLast?).getD e.2) :=
  ⟨rfl, rfl, (ForEachValue_stored_replacement sampleAccount
    [.PathDomainStorage, .PathDomainStorage] sampleConverter).1 .PathDomainStorage⟩

end Migrations

namespace DecodeStateValues

/-! ## The entries that `read` stores -/

theorem decodeKeyParts_ok {parts : List encodedKeyPart} {key : storageKey}
    (h : decodeKeyParts parts = .ok key) :
    (parts.take 3).map (fun p => hexDecodeString p.Value)
      = [some key.1, some key.2.1, some key.2.2] := by
  unfold decodeKeyParts at h
  match parts, h with
  | p0 :: p1 :: p2 :: rest, h =>
    simp only at h
    cases h0 : hexDecodeString p0.Value with
    | none => rw [h0] at h; cases h
    | some k0 =>
      cases h1 : hexDecodeString p1.Value with
      | none => rw [h0, h1] at h; cases h
      | some k1 =>
        cases h2 : hexDecodeString p2.Value with
        | none => rw [h0, h1, h2] at h; cases h
        | some k2 =>
          rw [h0, h1, h2] at h
          cases h
          simp only [List.take_succ_cons, List.take_zero, List.map_cons, List.map_nil, h0, h1,
            h2]
  | [], h => cases h
  | [_], h => cases h
  | [_, _], h => cases h

theorem decodeKeyParts_error {parts : List encodedKeyPart} {err : String}
    (h : decodeKeyParts parts = .error err) :
    ∀ k0 k1 k2, (parts.take 3).map (fun p => hexDecodeString p.Value)
      ≠ [some k0, some k1, some k2] := by
  intro k0 k1 k2 hk
  unfold decodeKeyParts at h
  match parts, h, hk with
  | p0 :: p1 :: p2 :: rest, h, hk =>
    simp only [List.take_succ_cons, List.take_zero, List.map_cons, List.map_nil,
      List.cons.injEq, and_true] at hk
    obtain ⟨h0, h1, h2⟩ := hk
    simp only [h0, h1, h2] at h
    cases h
  | [], _, hk => exact absurd (congrArg List.length hk) (by simp)
  | [_], _, hk => exact absurd (congrArg List.length hk) (by simp)
  | [_, _], _, hk => exact absurd (congrArg List.length hk) (by simp)

theorem any_owner (owner : Bytes) (addresses : List Bytes) :
    addresses.any (fun address => decide (owner = address)) = true ↔ owner ∈ addresses := by
  rw [List.any_eq_true]
  constructor
  · rintro ⟨a, ha, h⟩
    rw [of_decide_eq_true h]
    exact ha
  · intro h
    exact ⟨owner, h, decide_eq_true rfl⟩

theorem length_pos_iff_ne_nil {α : Type} (l : List α) : l.length > 0 ↔ l ≠ [] := by
  cases l with
  | nil => simp
  | cons a l => simp

theorem readEntry_eq (common : Common) (addresses : List Bytes) (storage : Storage)
    (e : encodedEntry) :
    (readable common addresses (.ok e) = true ∧
      readEntry common addresses storage e
        = .ok (storage.put (keptEntry common addresses e))) ∨
    (readable common addresses (.ok e) = false ∧
      ∃ err, readEntry common addresses storage e = .error err) := by
  cases hk : decodeKeyParts e.Key.KeyParts with
  | error err =>
    right
    constructor
    · simp only [readable, hk]
    · exact ⟨err, by simp only [readEntry, hk, bind, Except.bind]⟩
  | ok key =>
    have hparts := decodeKeyParts_ok hk
    have hr : readable common addresses (.ok e)
        = ((decide (addresses.length > 0)
            && !addresses.any (fun address => decide (common.BytesToAddress key.1 = address)))
          || (hexDecodeString e.Value).isSome) := by
      simp only [readable, hk]
    have he : readEntry common addresses storage e
        = (if decide (addresses.length > 0) = true ∧
              ¬ addresses.any
                (fun address => decide (common.BytesToAddress key.1 = address)) = true then
            .ok storage
          else
            match hexDecodeString e.Value with
            | none => .error "Invalid value"
            | some data =>
              if data.length > 0 then .ok (storage.set key data) else .ok storage) := by
      simp only [readEntry, hk, bind, Except.bind]
    rw [hr, he]
    by_cases hdrop : decide (addresses.length > 0) = true ∧
        ¬ addresses.any (fun address => decide (common.BytesToAddress key.1 = address)) = true
    · left
      rw [if_pos hdrop]
      have hne : addresses ≠ [] :=
        (length_pos_iff_ne_nil addresses).mp (of_decide_eq_true hdrop.1)
      have hout : common.BytesToAddress key.1 ∉ addresses :=
        fun h => hdrop.2 ((any_owner _ _).mpr h)
      refine ⟨?_, ?_⟩
      · rw [hdrop.1, Bool.eq_false_iff.mpr hdrop.2]
        rfl
      · have hkept : keptEntry common addresses e = none := by
          unfold keptEntry
          rw [hparts]
          simp only
          cases hexDecodeString e.Value with
          | none => rfl
          | some data =>
            simp only
            rw [if_neg]
            rintro ⟨_, h | h⟩
            · exact hne h
            · exact hout h
        rw [hkept]
        rfl
    · rw [if_neg hdrop]
      have hin : addresses = [] ∨ common.BytesToAddress key.1 ∈ addresses := by
        by_cases hnil : addresses = []
        · exact Or.inl hnil
        · right
          have hlen : decide (addresses.length > 0) = true :=
            decide_eq_true ((length_pos_iff_ne_nil addresses).mpr hnil)
          by_contra hout
          exact hdrop ⟨hlen, fun h => hout ((any_owner _ _).mp h)⟩
      have hfilter : (decide (addresses.length > 0)
          && !addresses.any (fun address => decide (common.BytesToAddress key.1 = address)))
          = false := by
        cases h1 : decide (addresses.length > 0) with
        | false => rfl
        | true =>
          cases h2 : addresses.any
              (fun address => decide (common.BytesToAddress key.1 = address)) with
          | true => rfl
          | false =>
            exfalso
            apply hdrop
            rw [h1, h2]
            exact ⟨rfl, Bool.false_ne_true⟩
      rw [hfilter, Bool.false_or]
      cases hv : hexDecodeString e.Value with
      | none => exact Or.inr ⟨rfl, _, rfl⟩
      | some data =>
        left
        refine ⟨rfl, ?_⟩
        have hkept : keptEntry common addresses e
            = (if data ≠ [] ∧ (addresses = [] ∨ common.BytesToAddress key.1 ∈ addresses) then
                some (key, data) else none) := by
          unfold keptEntry
          rw [hparts]
          simp only [hv]
        rw [hkept]
        by_cases hd : data.length > 0
        · have hdne : data ≠ [] := (length_pos_iff_ne_nil data).mp hd
          simp only [if_pos hd, if_pos (And.intro hdne hin)]
          rfl
        · have hdnil : ¬ data ≠ [] := fun h => hd ((length_pos_iff_ne_nil data).mpr h)
          simp only [if_neg hd, if_neg (fun h => hdnil (And.left h))]
          rfl

theorem lastValue_none_iff (key : storageKey) :
    ∀ l : List (storageKey × Bytes), lastValue l key = none ↔ ∀ p ∈ l, p.1 ≠ key
  | [] => by simp [lastValue]
  | (k, v) :: rest => by
    have ih := lastValue_none_iff key rest
    unfold lastValue
    cases hrest : lastValue rest key with
    | some w =>
      simp only [false_iff, reduceCtorEq]
      intro hall
      have := ih.mpr (fun p hp => hall p (List.mem_cons_of_mem _ hp))
      rw [hrest] at this
      cases this
    | none =>
      simp only
      have hnone := ih.mp hrest
      by_cases hk : k = key
      · rw [if_pos hk]
        simp only [false_iff, reduceCtorEq]
        intro hall
        exact hall (k, v) (List.mem_cons_self _ _) hk
      · rw [if_neg hk]
        simp only [true_iff]
        intro p hp
        rcases List.mem_cons.mp hp with rfl | hp
        · exact hk
        · exact hnone p hp

theorem lastValue_some_iff (key : storageKey) (v : Bytes) :
    ∀ l : List (storageKey × Bytes), lastValue l key = some v ↔
      ∃ before after, l = before ++ (key, v) :: after ∧ ∀ p ∈ after, p.1 ≠ key
  | [] => by simp [lastValue]
  | (k, w) :: rest => by
    have ih := lastValue_some_iff key v rest
    unfold lastValue
    cases hrest : lastValue rest key with
    | some u =>
      simp only
      rw [hrest] at ih
      constructor
      · intro h
        obtain ⟨before, after, hl, hafter⟩ := ih.mp h
        exact ⟨(k, w) :: before, after, by rw [hl]; rfl, hafter⟩
      · rintro ⟨before, after, hl, hafter⟩
        cases before with
        | nil =>
          simp only [List.nil_append, List.cons.injEq] at hl
          have hnone := (lastValue_none_iff key rest).mpr (hl.2 ▸ hafter)
          rw [hrest] at hnone
          cases hnone
        | cons b before =>
          simp only [List.cons_append, List.cons.injEq] at hl
          exact ih.mpr ⟨before, after, hl.2, hafter⟩
    | none =>
      simp only
      have hnone := (lastValue_none_iff key rest).mp hrest
      by_cases hk : k = key
      · rw [if_pos hk]
        constructor
        · intro h
          cases h
          exact ⟨[], rest, by rw [hk]; rfl, hnone⟩
        · rintro ⟨before, after, hl, hafter⟩
          cases before with
          | nil =>
            simp only [List.nil_append, List.cons.injEq, Prod.mk.injEq] at hl
            rw [hl.1.2]
          | cons b before =>
            simp only [List.cons_append, List.cons.injEq] at hl
            have hmem : (key, v) ∈ rest := by
              rw [hl.2]
              exact List.mem_append_right _ (List.mem_cons_self _ _)
            exact absurd rfl (hnone (key, v) hmem)
      · rw [if_neg hk]
        simp only [false_iff, reduceCtorEq]
        rintro ⟨before, after, hl, hafter⟩
        cases before with
        | nil =>
          simp only [List.nil_append, List.cons.injEq, Prod.mk.injEq] at hl
          exact hk hl.1.1
        | cons b before =>
          simp only [List.cons_append, List.cons.injEq] at hl
          have hmem : (key, v) ∈ rest := by
            rw [hl.2]
            exact List.mem_append_right _ (List.mem_cons_self _ _)
          exact absurd rfl (hnone (key, v) hmem)

theorem lastValue_cons (k key : storageKey) (v : Bytes) (rest : List (storageKey × Bytes)) :
    lastValue ((k, v) :: rest) key
      = (match lastValue rest key with
        | some w => some w
        | none => if k = key then some v else none) := rfl

theorem keptEntries_cons_ok (common : Common) (addresses : List Bytes) (e : encodedEntry)
    (rest : List (Except String encodedEntry)) :
    keptEntries common addresses (.ok e :: rest)
      = (keptEntry common addresses e).toList ++ keptEntries common addresses rest := by
  unfold keptEntries
  rw [List.filterMap_cons]
  cases h : keptEntry common addresses e with
  | none => simp only [h, Option.toList, List.nil_append]
  | some p => simp only [h, Option.toList, List.singleton_append]

theorem read_eq (common : Common) (addresses : List Bytes) :
    ∀ (input : List (Except String encodedEntry)) (storage : Storage),
      ((∀ item ∈ input, readable common addresses item = true) ∧
        read common addresses input storage
          = .ok (fun key =>
              match lastValue (keptEntries common addresses input) key with
              | some data => some data
              | none => storage key)) ∨
      ((∃ item ∈ input, readable common addresses item = false) ∧
        ∃ err, read common addresses input storage = .error err)
  | [], storage => by
    left
    exact ⟨fun _ h => absurd h (List.not_mem_nil _), rfl⟩
  | .error err :: rest, storage => by
    right
    exact ⟨⟨Except.error err, List.mem_cons_self _ _, rfl⟩, err, rfl⟩
  | .ok e :: rest, storage => by
    rcases readEntry_eq common addresses storage e with ⟨hr, he⟩ | ⟨hr, err, he⟩
    · have hread : read common addresses (.ok e :: rest) storage
          = read common addresses rest (storage.put (keptEntry common addresses e)) := by
        simp only [read, he]
      rw [hread]
      rcases read_eq common addresses rest (storage.put (keptEntry common addresses e)) with
        ⟨hall, hrest⟩ | ⟨⟨item, hitem, hbad⟩, err, hrest⟩
      · left
        refine ⟨fun item hitem => ?_, ?_⟩
        · rcases List.mem_cons.mp hitem with rfl | hitem
          · exact hr
          · exact hall item hitem
        · rw [hrest, keptEntries_cons_ok]
          congr 1
          funext key
          cases hkept : keptEntry common addresses e with
          | none => rfl
          | some p =>
            obtain ⟨k, d⟩ := p
            show (match lastValue (keptEntries common addresses rest) key with
              | some data => some data
              | none => (storage.set k d) key) = _
            show _ = (match lastValue ((k, d) :: keptEntries common addresses rest) key with
              | some data => some data
              | none => storage key)
            rw [lastValue_cons]
            cases hl : lastValue (keptEntries common addresses rest) key with
            | some w => rfl
            | none =>
              simp only [Storage.set]
              by_cases hk : k = key
              · rw [if_pos hk, if_pos hk.symm]
              · rw [if_neg hk, if_neg (fun h => hk h.symm)]
      · right
        exact ⟨⟨item, List.mem_cons_of_mem _ hitem, hbad⟩, err, hrest⟩
    · right
      refine ⟨⟨Except.ok e, List.mem_cons_self _ _, hr⟩, err, ?_⟩
      simp only [read, he]



theorem keptEntry_some_iff (common : Common) (addresses : List Bytes) (e : encodedEntry)
    (key : storageKey) (data : Bytes) :
    keptEntry common addresses e = some (key, data) ↔
      (e.Key.KeyParts.take 3).map (fun p => hexDecodeString p.Value)
          = [some key.1, some key.2.1, some key.2.2] ∧
        hexDecodeString e.Value = some data ∧ data ≠ [] ∧
        (addresses = [] ∨ common.BytesToAddress key.1 ∈ addresses) := by
  unfold keptEntry
  constructor
  · intro h
    split at h
    · rename_i k0 k1 k2 hparts
      split at h
      · rename_i d hv
        split at h
        · rename_i hcond
          cases h
          exact ⟨hparts, hv, hcond.1, hcond.2⟩
        · cases h
      · cases h
    · cases h
  · rintro ⟨hparts, hv, hne, hown⟩
    rw [hparts]
    simp only [hv]
    rw [if_pos ⟨hne, hown⟩]

theorem mem_keptEntries (common : Common) (addresses : List Bytes)
    (input : List (Except String encodedEntry)) (p : storageKey × Bytes) :
    p ∈ keptEntries common addresses input
      ↔ ∃ e, Except.ok e ∈ input ∧ keptEntry common addresses e = some p := by
  unfold keptEntries
  rw [List.mem_filterMap]
  constructor
  · rintro ⟨item, hitem, h⟩
    cases item with
    | error err => cases h
    | ok e => exact ⟨e, hitem, h⟩
  · rintro ⟨e, he, h⟩
    exact ⟨.ok e, he, h⟩

/-- C32: when `read` returns, the storage holds exactly the entries of the input that are
kept: an entry is kept under the key of its first three key parts, hex-decoded, with its
hex-decoded value, if this value is not empty and, when at least one address is given, the
owner (the address of the first key part) is one of the addresses; of the kept entries with
the same key the last one in the input is stored.  With no address given no entry is
dropped for its owner, and no stored value is empty.  `read` returns exactly when every
entry of the input decodes, has three key parts that are hex strings, and has a value that
is a hex string unless the entry is dropped for its owner. -/
theorem read_storage (common : Common) (addresses : List Bytes)
    (input : List (Except String encodedEntry)) (storage : Storage)
    (h : read common addresses input emptyStorage = .ok storage) :
    (∀ key, storage key = lastValue (keptEntries common addresses input) key) ∧
    (∀ key data, storage key = some data ↔
      ∃ before after, keptEntries common addresses input = before ++ (key, data) :: after ∧
        ∀ p ∈ after, p.1 ≠ key) ∧
    (∀ p, p ∈ keptEntries common addresses input
      ↔ ∃ e, Except.ok e ∈ input ∧ keptEntry common addresses e = some p) ∧
    (∀ e key data, keptEntry common addresses e = some (key, data) ↔
      (e.Key.KeyParts.take 3).map (fun p => hexDecodeString p.Value)
          = [some key.1, some key.2.1, some key.2.2] ∧
        hexDecodeString e.Value = some data ∧ data ≠ [] ∧
        (addresses = [] ∨ common.BytesToAddress key.1 ∈ addresses)) ∧
    (∀ key data, storage key = some data →
      data ≠ [] ∧ (addresses ≠ [] → common.BytesToAddress key.1 ∈ addresses)) ∧
    (∀ item ∈ input, readable common addresses item = true) ∧
    (∀ other : List (Except String encodedEntry),
      (∀ item ∈ other, readable common addresses item = true) →
      ∃ result, read common addresses other emptyStorage = .ok result) := by
  have hstore : ∀ key, storage key = lastValue (keptEntries common addresses input) key := by
    rcases read_eq common addresses input emptyStorage with ⟨_, hr⟩ | ⟨_, err, hr⟩
    · rw [hr] at h
      have hs := Except.ok.inj h
      intro key
      rw [← hs]
      show (match lastValue (keptEntries common addresses input) key with
        | some data => some data
        | none => emptyStorage key) = _
      cases hl : lastValue (keptEntries common addresses input) key <;> rfl
    · rw [hr] at h
      cases h
  have hsplit : ∀ key data, storage key = some data ↔
      ∃ before after, keptEntries common addresses input = before ++ (key, data) :: after ∧
        ∀ p ∈ after, p.1 ≠ key := by
    intro key data
    rw [hstore key]
    exact lastValue_some_iff key data _
  refine ⟨hstore, hsplit, mem_keptEntries common addresses input,
    keptEntry_some_iff common addresses, ?_, ?_, ?_⟩
  · intro key data hk
    obtain ⟨before, after, hl, _⟩ := (hsplit key data).mp hk
    have hmem : (key, data) ∈ keptEntries common addresses input := by
      rw [hl]
      exact List.mem_append_right _ (List.mem_cons_self _ _)
    obtain ⟨e, _, he⟩ := (mem_keptEntries common addresses input _).mp hmem
    obtain ⟨_, _, hne, hown⟩ := (keptEntry_some_iff common addresses e key data).mp he
    exact ⟨hne, fun ha => hown.resolve_left ha⟩
  · rcases read_eq common addresses input emptyStorage with ⟨hall, _⟩ | ⟨_, err, hr⟩
    · exact hall
    · rw [hr] at h
      cases h
  · intro other hall
    rcases read_eq common addresses other emptyStorage with ⟨_, hr⟩ | ⟨⟨item, hitem, hbad⟩, _⟩
    · exact ⟨_, hr⟩
    · rw [hall item hitem] at hbad
      cases hbad

/-- Witness of C32 at the sample input, with no address and with the address `01`: of the
two entries with the same key the later one is stored, the entry with the empty value is
not stored, and the entries of the owner `02` are dropped when the address `01` is
given. -/
theorem read_storage_witness :
    read sampleCommon [] sampleInput emptyStorage
      = .ok (((emptyStorage.set ([1], [], [36, 170]) [255]).set ([1], [], [36, 170]) [238]).set
          ([2], [], [98]) [10, 11]) ∧
    lastValue (keptEntries sampleCommon [] sampleInput) ([1], [], [36, 170]) = some [238] ∧
    lastValue (keptEntries sampleCommon [] sampleInput) ([2], [], [97]) = none ∧
    lastValue (keptEntries sampleCommon [] sampleInput) ([2], [], [98]) = some [10, 11] ∧
    read sampleCommon [[1]] sampleInput emptyStorage
      = .ok ((emptyStorage.set ([1], [], [36, 170]) [255]).set ([1], [], [36, 170]) [238]) ∧
    lastValue (keptEntries sampleCommon [[1]] sampleInput) ([2], [], [98]) = none :=
  ⟨rfl,
   ((read_storage sampleCommon [] sampleInput _ rfl).1 ([1], [], [36, 170])).symm.trans rfl,
   rfl, rfl, rfl,
   ((read_storage sampleCommon [[1]] sampleInput
      ((emptyStorage.set ([1], [], [36, 170]) [255]).set ([1], [], [36, 170]) [238])
      rfl).1 ([2], [], [98])).symm.trans rfl⟩

/-- C33: for every storage ID, the key that `storageIDStorageKey` builds has the bytes of
the address as first part, the empty string as second part and `$` followed by the 8 bytes
of the index as third part; the third part has the length `slabKeyLength`, which is 9, and
begins with `$`, so that the slab test of `load` holds for it; and `storageIDStorageKey`
is injective. -/
theorem storageIDStorageKey_slab (id : StorageID) :
    (storageIDStorageKey id).1 = id.Address ∧
    (storageIDStorageKey id).2.1 = [] ∧
    (storageIDStorageKey id).2.2 = '$'.toNat :: id.Index ∧
    (storageIDStorageKey id).2.2.length = slabKeyLength ∧
    slabKeyLength = 9 ∧
    (storageIDStorageKey id).2.2.head? = some '$'.toNat ∧
    isSlab (storageIDStorageKey id).2.2 = true ∧
    ∀ other : StorageID, storageIDStorageKey id = storageIDStorageKey other → id = other := by
  have hlen : (storageIDStorageKey id).2.2.length = slabKeyLength := by
    show ('$'.toNat :: id.Index).length = 9
    rw [List.length_cons, id.index_length]
  refine ⟨rfl, rfl, rfl, hlen, rfl, rfl, ?_, ?_⟩
  · unfold isSlab
    rw [hlen]
    rfl
  · intro other h
    have h1 : id.Address = other.Address := congrArg Prod.fst h
    have h2 : '$'.toNat :: id.Index = '$'.toNat :: other.Index :=
      congrArg (fun k => k.2.2) h
    have h3 : id.Index = other.Index := List.tail_eq_of_cons_eq h2
    cases id
    cases other
    simp only at h1 h3
    subst h1
    subst h3
    rfl

end DecodeStateValues

namespace Ast

/-! ## Decimal numbers and the conversion to `int64` -/

theorem FormatInt_injective {a b : Int} (h : FormatInt a = FormatInt b) : a = b := by
  have ha := (JsonCdc.parseSignedDigits_iff (FormatInt a) a).mpr
    (JsonCdc.signedDecimal_toString a)
  have hb := (JsonCdc.parseSignedDigits_iff (FormatInt b) b).mpr
    (JsonCdc.signedDecimal_toString b)
  rw [h, hb] at ha
  exact (Option.some.inj ha).symm

theorem FormatInt_natCast (n : Nat) : FormatInt (n : Int) = toString n := rfl

theorem FormatInt_negative (n : Nat) (h : 0 < n) :
    FormatInt (-(n : Int)) = "-" ++ toString n := by
  obtain ⟨k, rfl⟩ : ∃ k, n = k + 1 := ⟨n - 1, by omega⟩
  rfl

theorem int64_small (i : Nat) (h : i < 2 ^ 63) : int64 i = (i : Int) := by
  unfold int64
  have hmod : i % 2 ^ 64 = i := Nat.mod_eq_of_lt (by omega)
  rw [hmod, if_pos h]

theorem int64_large (i : Nat) (h1 : 2 ^ 63 ≤ i) (h2 : i < 2 ^ 64) :
    int64 i = -((2 ^ 64 - i : Nat) : Int) := by
  unfold int64
  have hmod : i % 2 ^ 64 = i := Nat.mod_eq_of_lt h2
  rw [hmod, if_neg (by omega)]
  omega

theorem int64_injective {i j : Nat} (hi : i < 2 ^ 64) (hj : j < 2 ^ 64)
    (h : int64 i = int64 j) : i = j := by
  unfold int64 at h
  rw [Nat.mod_eq_of_lt hi, Nat.mod_eq_of_lt hj] at h
  split at h <;> split at h <;> omega

/-! ## The string behind the names -/

theorem fallback_injective (p : String) {a b : Int}
    (h : p ++ FormatInt a ++ ")" = p ++ FormatInt b ++ ")") : a = b := by
  apply FormatInt_injective
  have hl := congrArg String.toList h
  simp only [String.toList, String.data_append] at hl
  have h2 := List.append_cancel_left (List.append_cancel_right hl)
  exact String.ext h2

theorem fallback_ne_name (p x name : String) (hp : '(' ∈ p.toList)
    (hname : '(' ∉ name.toList) : name ≠ p ++ x ++ ")" := by
  intro h
  apply hname
  rw [h]
  simp only [String.toList, String.data_append, List.mem_append]
  exact Or.inl (Or.inl hp)

/-! ## `precedence.String` -/

set_option maxRecDepth 100000

theorem precedence_String_name (i : Nat) (name : String)
    (h : precedenceConstants[i]? = some name) : precedence.String i = .ok name := by
  have hlt : i < 17 := (List.getElem?_eq_some.mp h).1
  interval_cases i <;>
    (simp only [precedenceConstants, List.getElem?_cons_succ, List.getElem?_cons_zero,
      Option.some.injEq] at h
     subst h
     rfl)

theorem precedence_String_fallback (i : Nat) (h : 17 ≤ i) :
    precedence.String i = .ok ("precedence(" ++ FormatInt (int64 i) ++ ")") := by
  unfold precedence.String
  have hlen : _precedence_index.length - 1 = 17 := rfl
  rw [hlen, if_pos h]

theorem precedence_index_table : IndexTable _precedence_index _precedence_name := by
  refine ⟨rfl, ?_, rfl⟩
  unfold _precedence_index
  decide

theorem precedenceConstants_nodup : precedenceConstants.Nodup := by
  unfold precedenceConstants
  decide

theorem precedenceConstants_no_paren :
    ∀ name ∈ precedenceConstants, '(' ∉ name.toList := by
  unfold precedenceConstants
  decide

theorem precedence_String_injective (i j : Nat) (hi : i < 2 ^ 64) (hj : j < 2 ^ 64)
    (h : precedence.String i = precedence.String j) : i = j := by
  have hlen : precedenceConstants.length = 17 := rfl
  by_cases h1 : i < 17
  · obtain ⟨a, ha⟩ : ∃ a, precedenceConstants[i]? = some a :=
      ⟨_, List.getElem?_eq_getElem (hlen ▸ h1)⟩
    rw [precedence_String_name i a ha] at h
    by_cases h2 : j < 17
    · obtain ⟨b, hb⟩ : ∃ b, precedenceConstants[j]? = some b :=
        ⟨_, List.getElem?_eq_getElem (hlen ▸ h2)⟩
      rw [precedence_String_name j b hb] at h
      have hab : a = b := Except.ok.inj h
      rw [hab] at ha
      exact List.getElem?_inj (hlen ▸ h1) precedenceConstants_nodup (ha.trans hb.symm)
    · rw [precedence_String_fallback j (by omega)] at h
      exact absurd (Except.ok.inj h)
        (fallback_ne_name "precedence(" _ a (by decide)
          (precedenceConstants_no_paren a (List.getElem?_mem ha)))
  · rw [precedence_String_fallback i (by omega)] at h
    by_cases h2 : j < 17
    · obtain ⟨b, hb⟩ : ∃ b, precedenceConstants[j]? = some b :=
        ⟨_, List.getElem?_eq_getElem (hlen ▸ h2)⟩
      rw [precedence_String_name j b hb] at h
      exact absurd (Except.ok.inj h).symm
        (fallback_ne_name "precedence(" _ b (by decide)
          (precedenceConstants_no_paren b (List.getElem?_mem hb)))
    · rw [precedence_String_fallback j (by omega)] at h
      exact int64_injective hi hj (fallback_injective "precedence(" (Except.ok.inj h))

/-! ## `PrimitiveAccess.String` -/

theorem PrimitiveAccess_String_name (i : Nat) (name : String)
    (h : PrimitiveAccessConstants[i]? = some name) : PrimitiveAccess.String i = .ok name := by
  have hlt : i < 6 := (List.getElem?_eq_some.mp h).1
  interval_cases i <;>
    (simp only [PrimitiveAccessConstants, List.getElem?_cons_succ, List.getElem?_cons_zero,
      Option.some.injEq] at h
     subst h
     rfl)

theorem PrimitiveAccess_String_fallback (i : Nat) (h : 6 ≤ i) :
    PrimitiveAccess.String i = .ok ("PrimitiveAccess(" ++ FormatInt (int64 i) ++ ")") := by
  unfold PrimitiveAccess.String
  have hlen : _PrimitiveAccess_index.length - 1 = 6 := rfl
  rw [hlen, if_pos h]

theorem PrimitiveAccess_index_table : IndexTable _PrimitiveAccess_index _PrimitiveAccess_name := by
  refine ⟨rfl, ?_, rfl⟩
  unfold _PrimitiveAccess_index
  decide

theorem PrimitiveAccessConstants_nodup : PrimitiveAccessConstants.Nodup := by
  unfold PrimitiveAccessConstants
  decide

theorem PrimitiveAccessConstants_no_paren :
    ∀ name ∈ PrimitiveAccessConstants, '(' ∉ name.toList := by
  unfold PrimitiveAccessConstants
  decide

theorem PrimitiveAccess_String_injective (i j : Nat) (hi : i < 2 ^ 64) (hj : j < 2 ^ 64)
    (h : PrimitiveAccess.String i = PrimitiveAccess.String j) : i = j := by
  have hlen : PrimitiveAccessConstants.length = 6 := rfl
  by_cases h1 : i < 6
  · obtain ⟨a, ha⟩ : ∃ a, PrimitiveAccessConstants[i]? = some a :=
      ⟨_, List.getElem?_eq_getElem (hlen ▸ h1)⟩
    rw [PrimitiveAccess_String_name i a ha] at h
    by_cases h2 : j < 6
    · obtain ⟨b, hb⟩ : ∃ b, PrimitiveAccessConstants[j]? = some b :=
        ⟨_, List.getElem?_eq_getElem (hlen ▸ h2)⟩
      rw [PrimitiveAccess_String_name j b hb] at h
      have hab : a = b := Except.ok.inj h
      rw [hab] at ha
      exact List.getElem?_inj (hlen ▸ h1) PrimitiveAccessConstants_nodup (ha.trans hb.symm)
    · rw [PrimitiveAccess_String_fallback j (by omega)] at h
      exact absurd (Except.ok.inj h)
        (fallback_ne_name "PrimitiveAccess(" _ a (by decide)
          (PrimitiveAccessConstants_no_paren a (List.getElem?_mem ha)))
  · rw [PrimitiveAccess_String_fallback i (by omega)] at h
    by_cases h2 : j < 6
    · obtain ⟨b, hb⟩ : ∃ b, PrimitiveAccessConstants[j]? = some b :=
        ⟨_, List.getElem?_eq_getElem (hlen ▸ h2)⟩
      rw [PrimitiveAccess_String_name j b hb] at h
      exact absurd (Except.ok.inj h).symm
        (fallback_ne_name "PrimitiveAccess(" _ b (by decide)
          (PrimitiveAccessConstants_no_paren b (List.getElem?_mem hb)))
    · rw [PrimitiveAccess_String_fallback j (by omega)] at h
      exact int64_injective hi hj (fallback_injective "PrimitiveAccess(" (Except.ok.inj h))

/-- C39, as the code has it: for every value `i` of the unsigned type `precedence`,
`precedence.String` returns without a panic; for `i` from 0 to 16 it returns the identifier
of the constant of this value, for `i` from 17 below `2 ^ 63` the string `precedence(`, the
decimal of `i` and `)`, and for `i` from `2 ^ 63`, where `int64(i)` is negative, the string
`precedence(-`, the decimal of `2 ^ 64 - i` and `)`.  The index table begins with 0,
increases strictly and ends with the length of the string of the names, and different
values give different strings. -/
theorem precedence_String_values (i : Nat) (hi : i < 2 ^ 64) :
    (∃ s, precedence.String i = .ok s) ∧
    precedenceConstants.length = 17 ∧
    (∀ name, precedenceConstants[i]? = some name → precedence.String i = .ok name) ∧
    (17 ≤ i → i < 2 ^ 63 →
      precedence.String i = .ok ("precedence(" ++ toString i ++ ")")) ∧
    (2 ^ 63 ≤ i →
      precedence.String i = .ok ("precedence(-" ++ toString (2 ^ 64 - i) ++ ")")) ∧
    IndexTable _precedence_index _precedence_name ∧
    (∀ j, j < 2 ^ 64 → precedence.String i = precedence.String j → i = j) := by
  have hlen : precedenceConstants.length = 17 := rfl
  refine ⟨?_, hlen, precedence_String_name i, fun h1 h2 => ?_, fun h1 => ?_,
    precedence_index_table, fun j hj h => precedence_String_injective i j hi hj h⟩
  · by_cases h1 : i < 17
    · exact ⟨_, precedence_String_name i _ (List.getElem?_eq_getElem (hlen ▸ h1))⟩
    · exact ⟨_, precedence_String_fallback i (by omega)⟩
  · rw [precedence_String_fallback i h1, int64_small i h2, FormatInt_natCast]
  · rw [precedence_String_fallback i (by omega), int64_large i h1 hi,
      FormatInt_negative _ (by omega)]
    have happ : "precedence(" ++ ("-" ++ toString (2 ^ 64 - i)) ++ ")"
        = "precedence(-" ++ toString (2 ^ 64 - i) ++ ")" := by
      rw [← String.append_assoc]
      rfl
    rw [happ]

/-- Witness of C39 at the values 0, 1, 2, 15, 16 and 17. -/
theorem precedence_String_values_witness :
    precedence.String 0 = .ok "precedenceUnknown" ∧
    precedence.String 1 = .ok "precedenceTernary" ∧
    precedence.String 2 = .ok "precedenceLogicalOr" ∧
    precedence.String 15 = .ok "precedenceAccess" ∧
    precedence.String 16 = .ok "precedenceLiteral" ∧
    precedence.String 17 = .ok "precedence(17)" :=
  ⟨(precedence_String_values 0 (by decide)).2.2.1 _ rfl,
   (precedence_String_values 1 (by decide)).2.2.1 _ rfl,
   (precedence_String_values 2 (by decide)).2.2.1 _ rfl,
   (precedence_String_values 15 (by decide)).2.2.1 _ rfl,
   (precedence_String_values 16 (by decide)).2.2.1 _ rfl,
   (precedence_String_values 17 (by decide)).2.2.2.1 (by decide) (by decide)⟩

/-- C39 fails as stated for the values from `2 ^ 63`, which a 64-bit unsigned `precedence`
has: `int64(i)` is negative there, and the string is not the one with the decimal of
`i`. -/
theorem precedence_String_int64_counterexample :
    precedence.String (2 ^ 63) = .ok "precedence(-9223372036854775808)" ∧
    "precedence(" ++ toString (2 ^ 63) ++ ")" = "precedence(9223372036854775808)" ∧
    ¬ (∀ i, 17 ≤ i → i < 2 ^ 64 →
        precedence.String i = .ok ("precedence(" ++ toString i ++ ")")) := by
  have h1 : precedence.String (2 ^ 63) = .ok "precedence(-9223372036854775808)" := rfl
  have h2 : "precedence(" ++ toString (2 ^ 63) ++ ")" = "precedence(9223372036854775808)" :=
    rfl
  refine ⟨h1, h2, fun h => ?_⟩
  have h3 := h (2 ^ 63) (by decide) (by decide)
  rw [h1, h2] at h3
  have h4 : "precedence(-9223372036854775808)" = "precedence(9223372036854775808)" :=
    Except.ok.inj h3
  revert h4
  decide

/-- C40: for every value `i` of the unsigned type `PrimitiveAccess`, taken below `2 ^ 63`
(every value of an unsigned type of fewer than 64 bits is), `PrimitiveAccess.String`
returns without a panic; for `i` from 0 to 5 it returns the identifier of the constant of
this value, and for `i` from 6 the string `PrimitiveAccess(`, the decimal of `i` and `)`.
The index table begins with 0, increases strictly and ends with the length of the string
of the names, and different values give different strings. -/
theorem PrimitiveAccess_String_values (i : Nat) (hi : i < 2 ^ 63) :
    (∃ s, PrimitiveAccess.String i = .ok s) ∧
    PrimitiveAccessConstants.length = 6 ∧
    (∀ name, PrimitiveAccessConstants[i]? = some name →
      PrimitiveAccess.String i = .ok name) ∧
    (6 ≤ i → PrimitiveAccess.String i = .ok ("PrimitiveAccess(" ++ toString i ++ ")")) ∧
    IndexTable _PrimitiveAccess_index _PrimitiveAccess_name ∧
    (∀ j, j < 2 ^ 63 → PrimitiveAccess.String i = PrimitiveAccess.String j → i = j) := by
  have hlen : PrimitiveAccessConstants.length = 6 := rfl
  refine ⟨?_, hlen, PrimitiveAccess_String_name i, fun h1 => ?_,
    PrimitiveAccess_index_table,
    fun j hj h => PrimitiveAccess_String_injective i j (by omega) (by omega) h⟩
  · by_cases h1 : i < 6
    · exact ⟨_, PrimitiveAccess_String_name i _ (List.getElem?_eq_getElem (hlen ▸ h1))⟩
    · exact ⟨_, PrimitiveAccess_String_fallback i (by omega)⟩
  · rw [PrimitiveAccess_String_fallback i h1, int64_small i hi, FormatInt_natCast]

/-- Witness of C40 at the values 0 to 6 and 255. -/
theorem PrimitiveAccess_String_values_witness :
    PrimitiveAccess.String 0 = .ok "AccessNotSpecified" ∧
    PrimitiveAccess.String 1 = .ok "AccessSelf" ∧
    PrimitiveAccess.String 2 = .ok "AccessContract" ∧
    PrimitiveAccess.String 3 = .ok "AccessAccount" ∧
    PrimitiveAccess.String 4 = .ok "AccessAll" ∧
    PrimitiveAccess.String 5 = .ok "AccessPubSettableLegacy" ∧
    PrimitiveAccess.String 6 = .ok "PrimitiveAccess(6)" ∧
    PrimitiveAccess.String 255 = .ok "PrimitiveAccess(255)" :=
  ⟨(PrimitiveAccess_String_values 0 (by decide)).2.2.1 _ rfl,
   (PrimitiveAccess_String_values 1 (by decide)).2.2.1 _ rfl,
   (PrimitiveAccess_String_values 2 (by decide)).2.2.1 _ rfl,
   (PrimitiveAccess_String_values 3 (by decide)).2.2.1 _ rfl,
   (PrimitiveAccess_String_values 4 (by decide)).2.2.1 _ rfl,
   (PrimitiveAccess_String_values 5 (by decide)).2.2.1 _ rfl,
   (PrimitiveAccess_String_values 6 (by decide)).2.2.2.1 (by decide),
   (PrimitiveAccess_String_values 255 (by decide)).2.2.2.1 (by decide)⟩

end Ast
